import Mathlib

/-!
# Threagile risk-analysis core: RAA scorer and two built-in risk rules

A shallow embedding of

* `pkg/model/raa.go` (`applyRAA` and its helpers),
* `pkg/risks/builtin/unencrypted_asset_rule.go`,
* `pkg/risks/builtin/missing_cloud_hardening_rule.go`.

Conventions of the embedding.

* A Go `map[string]*T` is an association list `List (String × T)`; the order of the list is the
  order in which one run of the program enumerates the map with `range`.  A lookup that misses
  gives the `nil` pointer; dereferencing it is a run-time panic, which is the value `none` of the
  `Option` result of every function that can reach such a dereference.
* A Go `map[string]bool` that is only used as a set of ids is a duplicate-free `List String`;
  `range` over such a set enumerates `ord s`, where `ord` is the (unspecified) enumeration order
  of the run, a parameter of the rule.
* `float64` values are rationals.  The scorer of `raa.go` is embedded in exact arithmetic
  (`calculateAttackerAttractiveness`, `calculateRelativeAttackerAttractiveness`, `applyRAA`);
  its first two functions are also embedded with a rounding `rnd` applied to the result of every
  operation (`calculateAttackerAttractivenessRounded`,
  `calculateRelativeAttackerAttractivenessRounded`): `rnd` is `float64Round`, the IEEE 754
  rounding to the nearest `float64`, for the program, and the identity for exact arithmetic.
  Every operation is rounded on its own (none is fused).  Infinities and NaN are modelled as
  the results of a division by zero only; the exponent range (overflow, subnormal numbers) is
  not modelled.
* The package `pkg/types` is not part of the sources.  Its enumerations are modelled from the
  specification, its numeric tables are the parameter `Taxonomy`, and its model accessors are the
  parameter `TypesAPI`.
-/

namespace Threagile

/-! ## Taxonomy (package `types`) -/

/-- Confidentiality rating, ordered from `Public` to `StrictlyConfidential`. -/
inductive Confidentiality
  | Public | Internal | Restricted | Confidential | StrictlyConfidential
  deriving DecidableEq

/-- Ordinal of a confidentiality rating (the Go `iota` value). -/
def Confidentiality.toNat : Confidentiality → Nat
  | .Public => 0
  | .Internal => 1
  | .Restricted => 2
  | .Confidential => 3
  | .StrictlyConfidential => 4

instance : LT Confidentiality := ⟨fun a b => a.toNat < b.toNat⟩

instance : LE Confidentiality := ⟨fun a b => a.toNat ≤ b.toNat⟩

instance (a b : Confidentiality) : Decidable (a < b) := inferInstanceAs (Decidable (a.toNat < b.toNat))

instance (a b : Confidentiality) : Decidable (a ≤ b) := inferInstanceAs (Decidable (a.toNat ≤ b.toNat))

/-- Criticality rating, used for both integrity and availability. -/
inductive Criticality
  | Archive | Operational | Important | Critical | MissionCritical
  deriving DecidableEq

/-- Ordinal of a criticality rating (the Go `iota` value). -/
def Criticality.toNat : Criticality → Nat
  | .Archive => 0
  | .Operational => 1
  | .Important => 2
  | .Critical => 3
  | .MissionCritical => 4

instance : LT Criticality := ⟨fun a b => a.toNat < b.toNat⟩

instance : LE Criticality := ⟨fun a b => a.toNat ≤ b.toNat⟩

instance (a b : Criticality) : Decidable (a < b) := inferInstanceAs (Decidable (a.toNat < b.toNat))

instance (a b : Criticality) : Decidable (a ≤ b) := inferInstanceAs (Decidable (a.toNat ≤ b.toNat))

/-- Quantity of a data asset. -/
inductive Quantity
  | VeryFew | Few | Many | VeryMany
  deriving DecidableEq

/-- Kind of a technical asset. -/
inductive TechnicalAssetType
  | ExternalEntity | Process | Datastore
  deriving DecidableEq

/-- Encryption style of a technical asset. -/
inductive EncryptionStyle
  | NoneEncryption | Transparent | DataWithSymmetricSharedKey | DataWithAsymmetricSharedKey
  | DataWithEndUserIndividualKey
  deriving DecidableEq

/-- Technology attributes consulted by the scorer and the rules. -/
inductive TechnologyAttribute
  | LoadBalancer | ReverseProxy | Monitoring | ContainerPlatform | Vault | BuildPipeline
  | SourcecodeRepository | ArtifactRegistry | IdentityProvider | IdentityStoreDatabase
  | IdentityStoreLDAP | WAF | IDS | IPS | Library | IsUsuallyStoringEndUserData
  | IsNoStorageAtRest | IsEmbeddedComponent
  deriving DecidableEq

/-- Modelled from the spec: the trust boundary types of `pkg/types`, which are not part of the
sources; the specification only says that some of them are cloud execution environments. -/
inductive TrustBoundaryType
  | NetworkOnPrem | NetworkDedicatedHoster | NetworkVirtualLAN | NetworkCloudProvider
  | NetworkCloudSecurityGroup | NetworkPolicyNamespaceIsolation | ExecutionEnvironment
  deriving DecidableEq

/-- Modelled from the spec: `IsWithinCloud()` of `pkg/types` is true for the types that are cloud
execution environments. -/
def TrustBoundaryType.IsWithinCloud : TrustBoundaryType → Bool
  | .NetworkCloudProvider => true
  | .NetworkCloudSecurityGroup => true
  | _ => false

/-- Exploitation impact of a risk. -/
inductive RiskExploitationImpact
  | LowImpact | MediumImpact | HighImpact | VeryHighImpact
  deriving DecidableEq

/-- Exploitation likelihood of a risk. -/
inductive RiskExploitationLikelihood
  | Unlikely | Likely | VeryLikely | Frequent
  deriving DecidableEq

/-- Severity of a risk. -/
inductive RiskSeverity
  | LowSeverity | MediumSeverity | ElevatedSeverity | HighSeverity | CriticalSeverity
  deriving DecidableEq

/-- Data breach probability of a risk. -/
inductive DataBreachProbability
  | Improbable | Possible | Probable | Certain
  deriving DecidableEq

/-- Modelled from the spec: `types.CalculateSeverity` is not part of the sources; this is the
severity table of section 4.1 of the specification. -/
def CalculateSeverity : RiskExploitationLikelihood → RiskExploitationImpact → RiskSeverity
  | .Unlikely, .LowImpact => .LowSeverity
  | .Unlikely, .MediumImpact => .LowSeverity
  | .Unlikely, .HighImpact => .MediumSeverity
  | .Unlikely, .VeryHighImpact => .ElevatedSeverity
  | .Likely, .LowImpact => .LowSeverity
  | .Likely, .MediumImpact => .MediumSeverity
  | .Likely, .HighImpact => .ElevatedSeverity
  | .Likely, .VeryHighImpact => .HighSeverity
  | .VeryLikely, .LowImpact => .MediumSeverity
  | .VeryLikely, .MediumImpact => .ElevatedSeverity
  | .VeryLikely, .HighImpact => .HighSeverity
  | .VeryLikely, .VeryHighImpact => .CriticalSeverity
  | .Frequent, .LowImpact => .ElevatedSeverity
  | .Frequent, .MediumImpact => .HighSeverity
  | .Frequent, .HighImpact => .CriticalSeverity
  | .Frequent, .VeryHighImpact => .CriticalSeverity

/-- The numeric tables of `pkg/types` used by the scorer.  They are not part of the sources and
are a parameter of the embedding. -/
structure Taxonomy where
  /-- The table `Confidentiality.AttackerAttractivenessForAsset()`. -/
  ConfidentialityForAsset : Confidentiality → ℚ
  /-- The table `Criticality.AttackerAttractivenessForAsset()`. -/
  CriticalityForAsset : Criticality → ℚ
  /-- The table `Confidentiality.AttackerAttractivenessForProcessedOrStoredData()`. -/
  ConfidentialityForProcessedOrStoredData : Confidentiality → ℚ
  /-- The table `Criticality.AttackerAttractivenessForProcessedOrStoredData()`. -/
  CriticalityForProcessedOrStoredData : Criticality → ℚ
  /-- The table `Confidentiality.AttackerAttractivenessForInOutTransferredData()`. -/
  ConfidentialityForInOutTransferredData : Confidentiality → ℚ
  /-- The table `Criticality.AttackerAttractivenessForInOutTransferredData()`. -/
  CriticalityForInOutTransferredData : Criticality → ℚ
  /-- The table `Quantity.QuantityFactor()`. -/
  QuantityFactor : Quantity → ℚ

/-! ## Data model (package `types`) -/

/-- An outbound communication link of a technical asset. -/
structure CommunicationLink where
  TargetId : String
  DataAssetsSent : List String
  DataAssetsReceived : List String
  deriving DecidableEq

/-- A technical asset.  `Technologies` is the list of attributes carried by the technologies of
the asset. -/
structure TechnicalAsset where
  Id : String
  Title : String
  AssetType : TechnicalAssetType
  Technologies : List TechnologyAttribute
  Confidentiality : Confidentiality
  Integrity : Criticality
  Availability : Criticality
  OutOfScope : Bool
  MultiTenant : Bool
  Encryption : EncryptionStyle
  Tags : List String
  DataAssetsProcessed : List String
  DataAssetsStored : List String
  CommunicationLinks : List CommunicationLink
  RAA : ℚ
  deriving DecidableEq

/-- A data asset. -/
structure DataAsset where
  Id : String
  Confidentiality : Confidentiality
  Integrity : Criticality
  Availability : Criticality
  Quantity : Quantity
  deriving DecidableEq

/-- A trust boundary. -/
structure TrustBoundary where
  Id : String
  Title : String
  BoundaryType : TrustBoundaryType
  Tags : List String
  TechnicalAssetsInside : List String
  TrustBoundariesNested : List String
  deriving DecidableEq

/-- A shared runtime. -/
structure SharedRuntime where
  Id : String
  Title : String
  Tags : List String
  TechnicalAssetsRunning : List String
  deriving DecidableEq

/-- The model: four Go maps, each an association list in the enumeration order of the run. -/
structure Model where
  TechnicalAssets : List (String × TechnicalAsset)
  DataAssets : List (String × DataAsset)
  TrustBoundaries : List (String × TrustBoundary)
  SharedRuntimes : List (String × SharedRuntime)
  deriving DecidableEq

/-- A risk finding. -/
structure Risk where
  CategoryId : String
  Severity : RiskSeverity
  ExploitationLikelihood : RiskExploitationLikelihood
  ExploitationImpact : RiskExploitationImpact
  Title : String
  SyntheticId : String
  MostRelevantTechnicalAssetId : String
  MostRelevantTrustBoundaryId : String
  MostRelevantSharedRuntimeId : String
  DataBreachProbability : DataBreachProbability
  DataBreachTechnicalAssetIDs : List String
  deriving DecidableEq

/-- Go map lookup `m[key]` on a map of pointers: `none` is the `nil` pointer of a missing key. -/
def mapGet {α : Type} (m : List (String × α)) (key : String) : Option α :=
  match m with
  | [] => none
  | (k, v) :: rest => if k = key then some v else mapGet rest key

/-- The keys of a Go map, in the enumeration order of the run. -/
def mapKeys {α : Type} (m : List (String × α)) : List String :=
  m.map Prod.fst

/-- Byte-wise lexicographic order of Go strings (the order of `sort.Strings`). -/
def stringLE (a b : String) : Prop :=
  a.data ≤ b.data

instance (a b : String) : Decidable (stringLE a b) := inferInstanceAs (Decidable (a.data ≤ b.data))

/-- The Go library call `sort.Strings(keys)`. -/
def sortStrings (keys : List String) : List String :=
  keys.insertionSort stringLE

/-- Modelled from the spec: `Technologies.GetAttribute(names...)` of `pkg/types` is true when a
technology of the asset carries one of the named attributes. -/
def GetAttribute (technologies : List TechnologyAttribute) (names : List TechnologyAttribute) :
    Bool :=
  names.any (fun n => decide (n ∈ technologies))

/-! ## Relative attacker attractiveness (`pkg/model/raa.go`) -/

/-- The loops over `DataAssetsProcessed` and over `DataAssetsStored` of
`calculateAttackerAttractiveness` (lines 96-108): each entry adds its weights to `score`. -/
def scoreProcessedOrStored (tx : Taxonomy) (input : Model) : List String → ℚ → Option ℚ
  | [], score => some score
  | dataAssetId :: rest, score =>
    match mapGet input.DataAssets dataAssetId with
    | none => none
    | some dataAsset =>
      scoreProcessedOrStored tx input rest
        (score
          + tx.ConfidentialityForProcessedOrStoredData dataAsset.Confidentiality
              * tx.QuantityFactor dataAsset.Quantity
          + tx.CriticalityForProcessedOrStoredData dataAsset.Integrity
              * tx.QuantityFactor dataAsset.Quantity
          + tx.CriticalityForProcessedOrStoredData dataAsset.Availability)

/-- The inner loops over `DataAssetsSent` and `DataAssetsReceived` of
`calculateAttackerAttractiveness` (lines 111-123). -/
def scoreTransferred (tx : Taxonomy) (input : Model) : List String → ℚ → Option ℚ
  | [], score => some score
  | dataAssetId :: rest, score =>
    match mapGet input.DataAssets dataAssetId with
    | none => none
    | some dataAsset =>
      scoreTransferred tx input rest
        (score
          + tx.ConfidentialityForInOutTransferredData dataAsset.Confidentiality
              * tx.QuantityFactor dataAsset.Quantity
          + tx.CriticalityForInOutTransferredData dataAsset.Integrity
              * tx.QuantityFactor dataAsset.Quantity
          + tx.CriticalityForInOutTransferredData dataAsset.Availability)

/-- The loop over `CommunicationLinks` of `calculateAttackerAttractiveness` (lines 110-124). -/
def scoreLinks (tx : Taxonomy) (input : Model) : List CommunicationLink → ℚ → Option ℚ
  | [], score => some score
  | dataFlow :: rest, score =>
    match scoreTransferred tx input dataFlow.DataAssetsSent score with
    | none => none
    | some score1 =>
      match scoreTransferred tx input dataFlow.DataAssetsReceived score1 with
      | none => none
      | some score2 => scoreLinks tx input rest score2

/-- The technology multiplier of `calculateAttackerAttractiveness` (lines 126-140). -/
def applyTechnologyFactor (techAsset : TechnicalAsset) (score : ℚ) : ℚ :=
  if GetAttribute techAsset.Technologies [.LoadBalancer, .ReverseProxy] then score / (11 / 2)
  else if GetAttribute techAsset.Technologies [.Monitoring] then score / 5
  else if GetAttribute techAsset.Technologies [.ContainerPlatform] then score * 5
  else if GetAttribute techAsset.Technologies [.Vault] then score * 2
  else if GetAttribute techAsset.Technologies
      [.BuildPipeline, .SourcecodeRepository, .ArtifactRegistry] then score * 2
  else if GetAttribute techAsset.Technologies
      [.IdentityProvider, .IdentityStoreDatabase, .IdentityStoreLDAP] then score * (5 / 2)
  else if techAsset.AssetType = .Datastore then score * 2
  else score

/-- The function `calculateAttackerAttractiveness` of `raa.go`, for a non-nil `techAsset`. -/
def calculateAttackerAttractiveness (tx : Taxonomy) (input : Model) (techAsset : TechnicalAsset) :
    Option ℚ :=
  if techAsset.OutOfScope then some 0
  else
    match scoreProcessedOrStored tx input techAsset.DataAssetsProcessed
        (0 + tx.ConfidentialityForAsset techAsset.Confidentiality
          + tx.CriticalityForAsset techAsset.Integrity
          + tx.CriticalityForAsset techAsset.Availability) with
    | none => none
    | some score1 =>
      match scoreProcessedOrStored tx input techAsset.DataAssetsStored score1 with
      | none => none
      | some score2 =>
        match scoreLinks tx input techAsset.CommunicationLinks score2 with
        | none => none
        | some score3 =>
          some (if techAsset.MultiTenant then applyTechnologyFactor techAsset score3 * (3 / 2)
                else applyTechnologyFactor techAsset score3)

/-- The loop over the sorted keys in `calculateRelativeAttackerAttractiveness` (lines 41-49);
the state is the pair (minimum, maximum). -/
def minMaxLoop (tx : Taxonomy) (input : Model) : List String → ℚ × ℚ → Option (ℚ × ℚ)
  | [], acc => some acc
  | key :: rest, acc =>
    match mapGet input.TechnicalAssets key with
    | none => none
    | some techAsset =>
      match calculateAttackerAttractiveness tx input techAsset with
      | none => none
      | some aa =>
        minMaxLoop tx input rest
          (if aa < acc.1 then aa else acc.1, if aa > acc.2 then aa else acc.2)

/-- The function `calculateRelativeAttackerAttractiveness` of `raa.go`.  The guard of line 31 is
always true, since both variables were just set to 0. -/
def calculateRelativeAttackerAttractiveness (tx : Taxonomy) (input : Model) (attractiveness : ℚ) :
    Option ℚ :=
  match minMaxLoop tx input (sortStrings (mapKeys input.TechnicalAssets))
      (9223372036854775807, -9223372036854775808) with
  | none => none
  | some (attackerAttractivenessMinimum, maximum0) =>
    let attackerAttractivenessMaximum :=
      if ¬ (attackerAttractivenessMinimum < maximum0) then attackerAttractivenessMinimum + 1
      else maximum0
    let spread := attackerAttractivenessMaximum - attackerAttractivenessMinimum
    let value := attractiveness - attackerAttractivenessMinimum
    let percent := value / spread * 100
    some (if percent ≤ 0 then 1 else percent)

/-- The loop over `CommunicationLinks` in `calculatePivotingNeighbourEffectAdjustment`
(lines 70-82); the state is `adjustment`. -/
def pivotingLoop (tx : Taxonomy) (input : Model) (techAsset : TechnicalAsset) :
    List CommunicationLink → ℚ → Option ℚ
  | [], adjustment => some adjustment
  | commLink :: rest, adjustment =>
    match mapGet input.TechnicalAssets commLink.TargetId with
    | none => none
    | some outgoingNeighbour =>
      match calculateAttackerAttractiveness tx input outgoingNeighbour with
      | none => none
      | some aaNeighbour =>
        match calculateRelativeAttackerAttractiveness tx input aaNeighbour with
        | none => none
        | some pctNeighbour =>
          match calculateAttackerAttractiveness tx input techAsset with
          | none => none
          | some aaSelf =>
            match calculateRelativeAttackerAttractiveness tx input aaSelf with
            | none => none
            | some pctSelf =>
              pivotingLoop tx input techAsset rest
                (if pctNeighbour - pctSelf > 0 then
                  (if (pctNeighbour - pctSelf) / 3 > adjustment then (pctNeighbour - pctSelf) / 3
                   else adjustment)
                 else adjustment)

/-- The function `calculatePivotingNeighbourEffectAdjustment` of `raa.go`. -/
def calculatePivotingNeighbourEffectAdjustment (tx : Taxonomy) (input : Model)
    (techAsset : TechnicalAsset) : Option ℚ :=
  if techAsset.OutOfScope then some 0
  else pivotingLoop tx input techAsset techAsset.CommunicationLinks 0

/-- The assignment `techAsset.RAA = raa` through the pointer stored under `techAssetID`. -/
def setRAA (input : Model) (techAssetID : String) (raa : ℚ) : Model :=
  { input with
    TechnicalAssets := input.TechnicalAssets.map
      (fun kv => if kv.1 = techAssetID then (kv.1, { kv.2 with RAA := raa }) else kv) }

/-- The loop of `applyRAA` (lines 12-17) over the keys of `TechnicalAssets`; the state is the
model, whose assets are updated in place. -/
def applyRAALoop (tx : Taxonomy) : List String → Model → Option Model
  | [], input => some input
  | techAssetID :: rest, input =>
    match mapGet input.TechnicalAssets techAssetID with
    | none => none
    | some techAsset =>
      match calculateAttackerAttractiveness tx input techAsset with
      | none => none
      | some aa0 =>
        match calculatePivotingNeighbourEffectAdjustment tx input techAsset with
        | none => none
        | some adjustment =>
          match calculateRelativeAttackerAttractiveness tx input (aa0 + adjustment) with
          | none => none
          | some raa => applyRAALoop tx rest (setRAA input techAssetID raa)

/-- The function `applyRAA` of `raa.go`: the model after the call (the returned intro text is a
constant and is left out). -/
def applyRAA (tx : Taxonomy) (input : Model) : Option Model :=
  applyRAALoop tx (mapKeys input.TechnicalAssets) input

/-- The value `A.RAA` stored under `id` after `applyRAA`. -/
def raaAfter (tx : Taxonomy) (input : Model) (id : String) : Option ℚ :=
  match applyRAA tx input with
  | none => none
  | some out => (mapGet out.TechnicalAssets id).map (fun a => a.RAA)

/-- The percentage `pct(A)` of the specification: the normalisation applied to `raw(A)`. -/
def pct (tx : Taxonomy) (input : Model) (techAsset : TechnicalAsset) : Option ℚ :=
  match calculateAttackerAttractiveness tx input techAsset with
  | none => none
  | some aa => calculateRelativeAttackerAttractiveness tx input aa

/-! ## Go string library -/

/-- ASCII lower-casing of one character. -/
def lowerChar (c : Char) : Char :=
  if 'A' ≤ c ∧ c ≤ 'Z' then Char.ofNat (c.toNat + 32) else c

/-- The Go library call `strings.ToLower`, on ASCII letters (other characters are kept). -/
def ToLower (s : String) : String :=
  String.mk (s.data.map lowerChar)

/-- White space removed by `strings.TrimSpace` (the code points of `unicode.IsSpace`). -/
def isSpace (c : Char) : Bool :=
  c.toNat = 32 || (9 ≤ c.toNat && c.toNat ≤ 13) || c.toNat = 133 || c.toNat = 160
    || c.toNat = 5760 || (8192 ≤ c.toNat && c.toNat ≤ 8202) || c.toNat = 8232
    || c.toNat = 8233 || c.toNat = 8239 || c.toNat = 8287 || c.toNat = 12288

/-- The Go library call `strings.TrimSpace`. -/
def TrimSpace (s : String) : String :=
  String.mk ((s.data.dropWhile isSpace).reverse.dropWhile isSpace).reverse

/-- The Go library call `strings.HasPrefix(s, p)`. -/
def HasPrefix (s p : String) : Bool :=
  decide (p.data <+: s.data)

/-- The Go library call `strings.HasSuffix(s, p)`. -/
def HasSuffix (s p : String) : Bool :=
  decide (p.data <:+ s.data)

/-! ## Accessors of package `types` -/

/-- Modelled from the spec: the helper `containsCaseInsensitiveAny` of package `builtin` is not
part of the sources; a tag list carries a tag when one of its entries equals it, trimmed and
case-insensitively. -/
def containsCaseInsensitiveAny (a : List String) (x : List String) : Bool :=
  a.any (fun n => x.any (fun c => TrimSpace (ToLower c) == TrimSpace (ToLower n)))

/-- Modelled from the spec: the helper `contains` of package `builtin` is not part of the
sources; membership of a string in a list. -/
def contains (a : List String) (x : String) : Bool :=
  a.any (fun n => n == x)

/-- Modelled from the spec: `IsTaggedWithAny(tags...)` on a technical asset. -/
def TechnicalAsset.IsTaggedWithAny (what : TechnicalAsset) (tags : List String) : Bool :=
  containsCaseInsensitiveAny what.Tags tags

/-- Modelled from the spec: `IsTaggedWithAny(tags...)` on a trust boundary. -/
def TrustBoundary.IsTaggedWithAny (what : TrustBoundary) (tags : List String) : Bool :=
  containsCaseInsensitiveAny what.Tags tags

/-- Modelled from the spec: `IsTaggedWithAny(tags...)` on a shared runtime. -/
def SharedRuntime.IsTaggedWithAny (what : SharedRuntime) (tags : List String) : Bool :=
  containsCaseInsensitiveAny what.Tags tags

/-- Modelled from the spec: `SortedTechnicalAssetIDs()` of `types.Model` is not part of the
sources; the keys of `TechnicalAssets` in sorted order. -/
def SortedTechnicalAssetIDs (input : Model) : List String :=
  sortStrings (mapKeys input.TechnicalAssets)

/-- Modelled from the spec: `TechnicalAssetsTaggedWithAny(tags...)` of `types.Model` is not part
of the sources; the technical assets of the model carrying one of the tags. -/
def TechnicalAssetsTaggedWithAny (input : Model) (tags : List String) : List TechnicalAsset :=
  (input.TechnicalAssets.map Prod.snd).filter (fun candidate => candidate.IsTaggedWithAny tags)

/-- Modelled from the spec: `TrustBoundariesTaggedWithAny(tags...)` of `types.Model` is not part
of the sources; the trust boundaries of the model carrying one of the tags. -/
def TrustBoundariesTaggedWithAny (input : Model) (tags : List String) : List TrustBoundary :=
  (input.TrustBoundaries.map Prod.snd).filter (fun candidate => candidate.IsTaggedWithAny tags)

/-- The remaining accessors of package `types` used by the two rules.  Their code is not part of
the sources; they are a parameter of the embedding (total, side-effect free functions). -/
structure TypesAPI where
  /-- The method `Model.RecursivelyAllTechnicalAssetIDsInside(boundary)`. -/
  RecursivelyAllTechnicalAssetIDsInside : Model → TrustBoundary → List String
  /-- The method `Model.FindParentTrustBoundary(boundary)`; `none` is `nil`. -/
  FindParentTrustBoundary : Model → TrustBoundary → Option TrustBoundary
  /-- The method `Model.GetTechnicalAssetTrustBoundaryId(asset)`. -/
  GetTechnicalAssetTrustBoundaryId : Model → TechnicalAsset → String
  /-- The method `Model.HighestStoredConfidentiality(asset)`. -/
  HighestStoredConfidentiality : Model → TechnicalAsset → Confidentiality
  /-- The method `Model.HighestStoredIntegrity(asset)`. -/
  HighestStoredIntegrity : Model → TechnicalAsset → Criticality
  /-- The method `Model.HighestProcessedConfidentiality(asset)`. -/
  HighestProcessedConfidentiality : Model → TechnicalAsset → Confidentiality
  /-- The method `Model.HighestProcessedIntegrity(asset)`. -/
  HighestProcessedIntegrity : Model → TechnicalAsset → Criticality
  /-- The method `Model.HighestProcessedAvailability(asset)`. -/
  HighestProcessedAvailability : Model → TechnicalAsset → Criticality
  /-- The method `Model.FindTrustBoundaryHighestConfidentiality(boundary)`. -/
  FindTrustBoundaryHighestConfidentiality : Model → TrustBoundary → Confidentiality
  /-- The method `Model.FindTrustBoundaryHighestIntegrity(boundary)`. -/
  FindTrustBoundaryHighestIntegrity : Model → TrustBoundary → Criticality
  /-- The method `Model.FindTrustBoundaryHighestAvailability(boundary)`. -/
  FindTrustBoundaryHighestAvailability : Model → TrustBoundary → Criticality
  /-- The method `Model.FindSharedRuntimeHighestConfidentiality(runtime)`. -/
  FindSharedRuntimeHighestConfidentiality : Model → SharedRuntime → Confidentiality
  /-- The method `Model.FindSharedRuntimeHighestIntegrity(runtime)`. -/
  FindSharedRuntimeHighestIntegrity : Model → SharedRuntime → Criticality
  /-- The method `Model.FindSharedRuntimeHighestAvailability(runtime)`. -/
  FindSharedRuntimeHighestAvailability : Model → SharedRuntime → Criticality
  /-- The method `TechnicalAsset.HighestSensitivityScore()`. -/
  HighestSensitivityScore : TechnicalAsset → ℚ
  /-- The method `EncryptionStyle.String()`. -/
  EncryptionStyleString : EncryptionStyle → String

/-! ## Unencrypted asset rule (`pkg/risks/builtin/unencrypted_asset_rule.go`) -/

/-- The function `isEncryptionWaiver`. -/
def isEncryptionWaiver (asset : TechnicalAsset) : Bool :=
  GetAttribute asset.Technologies [.IsNoStorageAtRest]
    || GetAttribute asset.Technologies [.IsEmbeddedComponent]

/-- The method `UnencryptedAssetRule.createRisk`. -/
def UnencryptedAssetRule.createRisk (api : TypesAPI) (technicalAsset : TechnicalAsset)
    (impact : RiskExploitationImpact) (requiresEndUserKey : Bool) : Risk :=
  { CategoryId := "unencrypted-asset"
    Severity := CalculateSeverity .Unlikely impact
    ExploitationLikelihood := .Unlikely
    ExploitationImpact := impact
    Title :=
      if requiresEndUserKey then
        "<b>Unencrypted Technical Asset</b> named <b>" ++ technicalAsset.Title ++ "</b>"
          ++ " missing end user individual encryption with "
          ++ api.EncryptionStyleString .DataWithEndUserIndividualKey
      else "<b>Unencrypted Technical Asset</b> named <b>" ++ technicalAsset.Title ++ "</b>"
    SyntheticId := "unencrypted-asset" ++ "@" ++ technicalAsset.Id
    MostRelevantTechnicalAssetId := technicalAsset.Id
    MostRelevantTrustBoundaryId := ""
    MostRelevantSharedRuntimeId := ""
    DataBreachProbability := .Improbable
    DataBreachTechnicalAssetIDs := [technicalAsset.Id] }

/-- The body of the loop of `UnencryptedAssetRule.GenerateRisks` (lines 50-76) for one non-nil
technical asset: the risks it appends. -/
def UnencryptedAssetRule.risksOfAsset (api : TypesAPI) (input : Model)
    (technicalAsset : TechnicalAsset) : List Risk :=
  if technicalAsset.OutOfScope || isEncryptionWaiver technicalAsset then []
  else if technicalAsset.DataAssetsStored.length = 0 then []
  else if api.HighestStoredConfidentiality input technicalAsset < Confidentiality.Confidential
      ∨ api.HighestStoredIntegrity input technicalAsset < Criticality.Critical then []
  else if technicalAsset.Encryption = .NoneEncryption then
    [UnencryptedAssetRule.createRisk api technicalAsset
      (if api.HighestStoredConfidentiality input technicalAsset = .StrictlyConfidential
          ∨ api.HighestStoredIntegrity input technicalAsset = .MissionCritical
        then .HighImpact else .MediumImpact)
      (decide (api.HighestStoredConfidentiality input technicalAsset = .StrictlyConfidential
          ∨ api.HighestStoredIntegrity input technicalAsset = .MissionCritical)
        && GetAttribute technicalAsset.Technologies [.IsUsuallyStoringEndUserData])]
  else if (decide (api.HighestStoredConfidentiality input technicalAsset = .StrictlyConfidential
          ∨ api.HighestStoredIntegrity input technicalAsset = .MissionCritical)
        && GetAttribute technicalAsset.Technologies [.IsUsuallyStoringEndUserData]) = true
      ∧ technicalAsset.Encryption ≠ .DataWithEndUserIndividualKey then
    [UnencryptedAssetRule.createRisk api technicalAsset .MediumImpact
      (decide (api.HighestStoredConfidentiality input technicalAsset = .StrictlyConfidential
          ∨ api.HighestStoredIntegrity input technicalAsset = .MissionCritical)
        && GetAttribute technicalAsset.Technologies [.IsUsuallyStoringEndUserData])]
  else []

/-- The loop of `UnencryptedAssetRule.GenerateRisks` over the sorted ids; the state is `risks`. -/
def UnencryptedAssetRule.loop (api : TypesAPI) (input : Model) :
    List String → List Risk → Option (List Risk)
  | [], risks => some risks
  | id :: rest, risks =>
    match mapGet input.TechnicalAssets id with
    | none => none
    | some technicalAsset =>
      UnencryptedAssetRule.loop api input rest
        (risks ++ UnencryptedAssetRule.risksOfAsset api input technicalAsset)

/-- The method `UnencryptedAssetRule.GenerateRisks`: the returned pair (risks, error), where the
error `none` is `nil`; the outer `none` is a panic. -/
def UnencryptedAssetRule.GenerateRisks (api : TypesAPI) (input : Model) :
    Option (List Risk × Option String) :=
  match UnencryptedAssetRule.loop api input (SortedTechnicalAssetIDs input) [] with
  | none => none
  | some risks => some (risks, none)

/-! ## Missing cloud hardening rule (`pkg/risks/builtin/missing_cloud_hardening_rule.go`) -/

/-- The variable `specificSubTagsAWS`. -/
def specificSubTagsAWS : List String :=
  ["aws:vpc", "aws:ec2", "aws:s3", "aws:ebs", "aws:apigateway", "aws:lambda", "aws:dynamodb",
    "aws:rds", "aws:sqs", "aws:iam"]

/-- The method `MissingCloudHardeningRule.SupportedTags`. -/
def SupportedTags : List String :=
  ["aws", "azure", "gcp", "ocp"] ++ specificSubTagsAWS

/-- The sixteen id sets declared at the start of `MissingCloudHardeningRule.GenerateRisks`
(lines 63-83). -/
structure Buckets where
  sharedRuntimesWithUnspecificCloudRisks : List String
  trustBoundariesWithUnspecificCloudRisks : List String
  techAssetsWithUnspecificCloudRisks : List String
  sharedRuntimeIDsAWS : List String
  trustBoundaryIDsAWS : List String
  techAssetIDsAWS : List String
  sharedRuntimeIDsAzure : List String
  trustBoundaryIDsAzure : List String
  techAssetIDsAzure : List String
  sharedRuntimeIDsGCP : List String
  trustBoundaryIDsGCP : List String
  techAssetIDsGCP : List String
  sharedRuntimeIDsOCP : List String
  trustBoundaryIDsOCP : List String
  techAssetIDsOCP : List String
  techAssetIDsWithSubtagSpecificCloudRisks : List String
  deriving DecidableEq

/-- The sixteen empty sets (`make(map[string]bool)`). -/
def Buckets.empty : Buckets :=
  { sharedRuntimesWithUnspecificCloudRisks := []
    trustBoundariesWithUnspecificCloudRisks := []
    techAssetsWithUnspecificCloudRisks := []
    sharedRuntimeIDsAWS := []
    trustBoundaryIDsAWS := []
    techAssetIDsAWS := []
    sharedRuntimeIDsAzure := []
    trustBoundaryIDsAzure := []
    techAssetIDsAzure := []
    sharedRuntimeIDsGCP := []
    trustBoundaryIDsGCP := []
    techAssetIDsGCP := []
    sharedRuntimeIDsOCP := []
    trustBoundaryIDsOCP := []
    techAssetIDsOCP := []
    techAssetIDsWithSubtagSpecificCloudRisks := [] }

/-- The function `isTaggedWithBaseTag`. -/
def isTaggedWithBaseTag (tags : List String) (baseTag : String) : Bool :=
  tags.any (fun tag =>
    ToLower (TrimSpace tag) == ToLower (TrimSpace baseTag)
      || HasPrefix (ToLower (TrimSpace tag)) (ToLower (TrimSpace baseTag) ++ ":"))

/-- The method `addTrustBoundaryAccordingToBaseTag`; `s.insert id` is `s[id] = true`. -/
def addTrustBoundaryAccordingToBaseTag (trustBoundary : TrustBoundary) (b : Buckets) : Buckets :=
  if trustBoundary.IsTaggedWithAny SupportedTags then
    let b1 := if isTaggedWithBaseTag trustBoundary.Tags "aws" then
      { b with trustBoundaryIDsAWS := b.trustBoundaryIDsAWS.insert trustBoundary.Id } else b
    let b2 := if isTaggedWithBaseTag trustBoundary.Tags "azure" then
      { b1 with trustBoundaryIDsAzure := b1.trustBoundaryIDsAzure.insert trustBoundary.Id } else b1
    let b3 := if isTaggedWithBaseTag trustBoundary.Tags "gcp" then
      { b2 with trustBoundaryIDsGCP := b2.trustBoundaryIDsGCP.insert trustBoundary.Id } else b2
    if isTaggedWithBaseTag trustBoundary.Tags "ocp" then
      { b3 with trustBoundaryIDsOCP := b3.trustBoundaryIDsOCP.insert trustBoundary.Id } else b3
  else
    { b with trustBoundariesWithUnspecificCloudRisks :=
        b.trustBoundariesWithUnspecificCloudRisks.insert trustBoundary.Id }

/-- The method `addSharedRuntimeAccordingToBaseTag`. -/
def addSharedRuntimeAccordingToBaseTag (sharedRuntime : SharedRuntime) (b : Buckets) : Buckets :=
  if sharedRuntime.IsTaggedWithAny SupportedTags then
    let b1 := if isTaggedWithBaseTag sharedRuntime.Tags "aws" then
      { b with sharedRuntimeIDsAWS := b.sharedRuntimeIDsAWS.insert sharedRuntime.Id } else b
    let b2 := if isTaggedWithBaseTag sharedRuntime.Tags "azure" then
      { b1 with sharedRuntimeIDsAzure := b1.sharedRuntimeIDsAzure.insert sharedRuntime.Id } else b1
    let b3 := if isTaggedWithBaseTag sharedRuntime.Tags "gcp" then
      { b2 with sharedRuntimeIDsGCP := b2.sharedRuntimeIDsGCP.insert sharedRuntime.Id } else b2
    if isTaggedWithBaseTag sharedRuntime.Tags "ocp" then
      { b3 with sharedRuntimeIDsOCP := b3.sharedRuntimeIDsOCP.insert sharedRuntime.Id } else b3
  else
    { b with sharedRuntimesWithUnspecificCloudRisks :=
        b.sharedRuntimesWithUnspecificCloudRisks.insert sharedRuntime.Id }

/-- The function `addAccordingToBaseTag`, for a non-nil `techAsset`. -/
def addAccordingToBaseTag (techAsset : TechnicalAsset) (tags : List String) (b : Buckets) :
    Buckets :=
  let b0 := if techAsset.IsTaggedWithAny specificSubTagsAWS then
    { b with techAssetIDsWithSubtagSpecificCloudRisks :=
        b.techAssetIDsWithSubtagSpecificCloudRisks.insert techAsset.Id } else b
  let b1 := if isTaggedWithBaseTag tags "aws" then
    { b0 with techAssetIDsAWS := b0.techAssetIDsAWS.insert techAsset.Id } else b0
  let b2 := if isTaggedWithBaseTag tags "azure" then
    { b1 with techAssetIDsAzure := b1.techAssetIDsAzure.insert techAsset.Id } else b1
  let b3 := if isTaggedWithBaseTag tags "gcp" then
    { b2 with techAssetIDsGCP := b2.techAssetIDsGCP.insert techAsset.Id } else b2
  if isTaggedWithBaseTag tags "ocp" then
    { b3 with techAssetIDsOCP := b3.techAssetIDsOCP.insert techAsset.Id } else b3

/-- The inner loop of lines 93-110 over the asset ids inside one trust boundary. -/
def classifyInside (input : Model) (taggedOuterTB : Bool) (trustBoundary : TrustBoundary) :
    List String → Buckets → Option Buckets
  | [], b => some b
  | techAssetID :: rest, b =>
    match mapGet input.TechnicalAssets techAssetID with
    | none => none
    | some tA =>
      if tA.IsTaggedWithAny SupportedTags then
        classifyInside input taggedOuterTB trustBoundary rest (addAccordingToBaseTag tA tA.Tags b)
      else if taggedOuterTB then
        classifyInside input taggedOuterTB trustBoundary rest
          (addAccordingToBaseTag tA trustBoundary.Tags b)
      else
        classifyInside input taggedOuterTB trustBoundary rest
          { b with techAssetsWithUnspecificCloudRisks :=
              b.techAssetsWithUnspecificCloudRisks.insert techAssetID }

/-- The loop of lines 85-111 over `input.TrustBoundaries`. -/
def classifyTrustBoundaries (api : TypesAPI) (input : Model) :
    List (String × TrustBoundary) → Buckets → Option Buckets
  | [], b => some b
  | kv :: rest, b =>
    if (!kv.2.IsTaggedWithAny SupportedTags && !kv.2.BoundaryType.IsWithinCloud) = true then
      classifyTrustBoundaries api input rest b
    else
      match classifyInside input (kv.2.IsTaggedWithAny SupportedTags) kv.2
          (api.RecursivelyAllTechnicalAssetIDsInside input kv.2)
          (addTrustBoundaryAccordingToBaseTag kv.2 b) with
      | none => none
      | some b1 => classifyTrustBoundaries api input rest b1

/-- The loop of lines 114-118 over the tagged technical assets. -/
def classifyTaggedAssets : List TechnicalAsset → Buckets → Buckets
  | [], b => b
  | tA :: rest, b => classifyTaggedAssets rest (addAccordingToBaseTag tA tA.Tags b)

/-- The inner loop of lines 120-131 over the asset ids inside one tagged trust boundary. -/
def classifyInsideTagged (input : Model) (tB : TrustBoundary) :
    List String → Buckets → Option Buckets
  | [], b => some b
  | candidateID :: rest, b =>
    match mapGet input.TechnicalAssets candidateID with
    | none => none
    | some tA =>
      if tA.IsTaggedWithAny SupportedTags then
        classifyInsideTagged input tB rest (addAccordingToBaseTag tA tA.Tags b)
      else
        classifyInsideTagged input tB rest (addAccordingToBaseTag tA tB.Tags b)

/-- The loop of lines 119-132 over the tagged trust boundaries. -/
def classifyTaggedBoundaries (api : TypesAPI) (input : Model) :
    List TrustBoundary → Buckets → Option Buckets
  | [], b => some b
  | tB :: rest, b =>
    match classifyInsideTagged input tB (api.RecursivelyAllTechnicalAssetIDsInside input tB) b with
    | none => none
    | some b1 => classifyTaggedBoundaries api input rest b1

/-- The inner loop of lines 136-141 over the assets running on one shared runtime. -/
def classifyRunning (input : Model) (sR : SharedRuntime) : List String → Buckets → Option Buckets
  | [], b => some b
  | candidateID :: rest, b =>
    match mapGet input.TechnicalAssets candidateID with
    | none => none
    | some tA => classifyRunning input sR rest (addAccordingToBaseTag tA sR.Tags b)

/-- The loop of lines 133-142 over `input.SharedRuntimes`. -/
def classifySharedRuntimes (input : Model) :
    List (String × SharedRuntime) → Buckets → Option Buckets
  | [], b => some b
  | kv :: rest, b =>
    match classifyRunning input kv.2 kv.2.TechnicalAssetsRunning
        (addSharedRuntimeAccordingToBaseTag kv.2 b) with
    | none => none
    | some b1 => classifySharedRuntimes input rest b1

/-- A loop `for id := range ids { delete(s, id) }`. -/
def deleteAll (ord : List String → List String) (ids : List String) (s : List String) :
    List String :=
  (ord ids).foldl (fun acc id => acc.filter (fun x => decide (x ≠ id))) s

/-- The subsumption step (lines 144-187): ids of the provider sets leave the unspecific sets. -/
def subsume (ord : List String → List String) (b : Buckets) : Buckets :=
  { b with
    sharedRuntimesWithUnspecificCloudRisks :=
      deleteAll ord b.sharedRuntimeIDsOCP (deleteAll ord b.sharedRuntimeIDsGCP
        (deleteAll ord b.sharedRuntimeIDsAzure (deleteAll ord b.sharedRuntimeIDsAWS
          b.sharedRuntimesWithUnspecificCloudRisks)))
    trustBoundariesWithUnspecificCloudRisks :=
      deleteAll ord b.trustBoundaryIDsOCP (deleteAll ord b.trustBoundaryIDsGCP
        (deleteAll ord b.trustBoundaryIDsAzure (deleteAll ord b.trustBoundaryIDsAWS
          b.trustBoundariesWithUnspecificCloudRisks)))
    techAssetsWithUnspecificCloudRisks :=
      deleteAll ord b.techAssetIDsOCP (deleteAll ord b.techAssetIDsGCP
        (deleteAll ord b.techAssetIDsAzure (deleteAll ord b.techAssetIDsAWS
          (deleteAll ord b.techAssetIDsWithSubtagSpecificCloudRisks
            b.techAssetsWithUnspecificCloudRisks)))) }

/-- Lines 63-187 of `GenerateRisks`: the classification pass followed by the subsumption step. -/
def classify (api : TypesAPI) (ord : List String → List String) (input : Model) :
    Option Buckets :=
  match classifyTrustBoundaries api input input.TrustBoundaries Buckets.empty with
  | none => none
  | some b1 =>
    match classifyTaggedBoundaries api input (TrustBoundariesTaggedWithAny input SupportedTags)
        (classifyTaggedAssets (TechnicalAssetsTaggedWithAny input SupportedTags) b1) with
    | none => none
    | some b2 =>
      match classifySharedRuntimes input input.SharedRuntimes b2 with
      | none => none
      | some b3 => some (subsume ord b3)

/-- The function `isTrustedBoundaryTaggedWithAnyTraversingUp`.  The recursion follows the parent
pointers; `fuel` bounds its depth, and `none` stands for a recursion that does not return within
that bound. -/
def isTrustedBoundaryTaggedWithAnyTraversingUp (api : TypesAPI) (model : Model) :
    Nat → TrustBoundary → List String → Option Bool
  | 0, _, _ => none
  | fuel + 1, tb, tags =>
    if tb.IsTaggedWithAny tags then some true
    else
      match api.FindParentTrustBoundary model tb with
      | none => some false
      | some parentTb =>
        match isTrustedBoundaryTaggedWithAnyTraversingUp api model fuel parentTb tags with
        | none => none
        | some r => some r

/-- The function `isTechnicalAssetTaggedWithAnyTraversingUp`, for a non-nil `ta`.  The depth of
the walk up the parents is bounded by the number of trust boundaries of the model. -/
def isTechnicalAssetTaggedWithAnyTraversingUp (api : TypesAPI) (model : Model)
    (ta : TechnicalAsset) (tags : List String) : Option Bool :=
  if containsCaseInsensitiveAny ta.Tags tags then some true
  else
    match
      (if api.GetTechnicalAssetTrustBoundaryId model ta ≠ "" then
        match mapGet model.TrustBoundaries (api.GetTechnicalAssetTrustBoundaryId model ta) with
        | none => none
        | some tb =>
          isTrustedBoundaryTaggedWithAnyTraversingUp api model (model.TrustBoundaries.length + 1)
            tb tags
      else some false) with
    | none => none
    | some true => some true
    | some false =>
      some (model.SharedRuntimes.any
        (fun sr => contains sr.2.TechnicalAssetsRunning ta.Id && sr.2.IsTaggedWithAny tags))

/-- The loop of `findMostSensitiveTechnicalAsset` (lines 407-412); the state is
`mostRelevantAsset`, where `none` is `nil`.  A `nil` entry is stored while the state is `nil`
and is a panic when it has to be compared. -/
def findMostSensitiveLoop (api : TypesAPI) (input : Model) :
    List String → Option TechnicalAsset → Option (Option TechnicalAsset)
  | [], mostRelevantAsset => some mostRelevantAsset
  | id :: rest, none => findMostSensitiveLoop api input rest (mapGet input.TechnicalAssets id)
  | id :: rest, some mostRelevantAsset =>
    match mapGet input.TechnicalAssets id with
    | none => none
    | some tA =>
      if api.HighestSensitivityScore tA > api.HighestSensitivityScore mostRelevantAsset then
        findMostSensitiveLoop api input rest (some tA)
      else findMostSensitiveLoop api input rest (some mostRelevantAsset)

/-- The function `findMostSensitiveTechnicalAsset`. -/
def findMostSensitiveTechnicalAsset (api : TypesAPI) (ord : List String → List String)
    (input : Model) (techAssets : List String) : Option (Option TechnicalAsset) :=
  findMostSensitiveLoop api input (sortStrings (ord techAssets)) none

/-- The impact computed in the three `createRiskFor...` methods (lines 426-435, 461-470 and
496-506) from the highest confidentiality, integrity and availability of the scope. -/
def cloudImpact (confidentiality : Confidentiality) (integrity availability : Criticality) :
    RiskExploitationImpact :=
  let impact : RiskExploitationImpact :=
    if confidentiality ≥ Confidentiality.Confidential ∨ integrity ≥ Criticality.Critical
        ∨ availability ≥ Criticality.Critical then .HighImpact
    else .MediumImpact
  if confidentiality = .StrictlyConfidential ∨ integrity = .MissionCritical
      ∨ availability = .MissionCritical then .VeryHighImpact
  else impact

/-- The title built in the three `createRiskFor...` methods. -/
def cloudTitle (scopeTitle pfx details : String) : String :=
  "<b>Missing Cloud Hardening" ++ (if pfx ≠ "" then " (" ++ pfx ++ ")" else pfx)
    ++ "</b> risk at <b>" ++ scopeTitle ++ "</b>"
    ++ (if details ≠ "" then ": <u>" ++ details ++ "</u>" else "")

/-- The suffix `id` built in the three `createRiskFor...` methods. -/
def cloudIdSuffix (pfx : String) : String :=
  if pfx ≠ "" then "@" ++ ToLower pfx else ""

/-- The method `createRiskForSharedRuntime`. -/
def createRiskForSharedRuntime (api : TypesAPI) (input : Model) (sharedRuntime : SharedRuntime)
    (pfx details : String) : Risk :=
  { CategoryId := "missing-cloud-hardening"
    Severity := CalculateSeverity .Unlikely
      (cloudImpact (api.FindSharedRuntimeHighestConfidentiality input sharedRuntime)
        (api.FindSharedRuntimeHighestIntegrity input sharedRuntime)
        (api.FindSharedRuntimeHighestAvailability input sharedRuntime))
    ExploitationLikelihood := .Unlikely
    ExploitationImpact :=
      cloudImpact (api.FindSharedRuntimeHighestConfidentiality input sharedRuntime)
        (api.FindSharedRuntimeHighestIntegrity input sharedRuntime)
        (api.FindSharedRuntimeHighestAvailability input sharedRuntime)
    Title := cloudTitle sharedRuntime.Title pfx details
    SyntheticId := "missing-cloud-hardening" ++ "@" ++ sharedRuntime.Id ++ cloudIdSuffix pfx
    MostRelevantTechnicalAssetId := ""
    MostRelevantTrustBoundaryId := ""
    MostRelevantSharedRuntimeId := sharedRuntime.Id
    DataBreachProbability := .Probable
    DataBreachTechnicalAssetIDs := sharedRuntime.TechnicalAssetsRunning }

/-- The method `createRiskForTrustBoundary`. -/
def createRiskForTrustBoundary (api : TypesAPI) (parsedModel : Model)
    (trustBoundary : TrustBoundary) (pfx details : String) : Risk :=
  { CategoryId := "missing-cloud-hardening"
    Severity := CalculateSeverity .Unlikely
      (cloudImpact (api.FindTrustBoundaryHighestConfidentiality parsedModel trustBoundary)
        (api.FindTrustBoundaryHighestIntegrity parsedModel trustBoundary)
        (api.FindTrustBoundaryHighestAvailability parsedModel trustBoundary))
    ExploitationLikelihood := .Unlikely
    ExploitationImpact :=
      cloudImpact (api.FindTrustBoundaryHighestConfidentiality parsedModel trustBoundary)
        (api.FindTrustBoundaryHighestIntegrity parsedModel trustBoundary)
        (api.FindTrustBoundaryHighestAvailability parsedModel trustBoundary)
    Title := cloudTitle trustBoundary.Title pfx details
    SyntheticId := "missing-cloud-hardening" ++ "@" ++ trustBoundary.Id ++ cloudIdSuffix pfx
    MostRelevantTechnicalAssetId := ""
    MostRelevantTrustBoundaryId := trustBoundary.Id
    MostRelevantSharedRuntimeId := ""
    DataBreachProbability := .Probable
    DataBreachTechnicalAssetIDs :=
      api.RecursivelyAllTechnicalAssetIDsInside parsedModel trustBoundary }

/-- The method `createRiskForTechnicalAsset`. -/
def createRiskForTechnicalAsset (api : TypesAPI) (parsedModel : Model)
    (technicalAsset : TechnicalAsset) (pfx details : String) : Risk :=
  { CategoryId := "missing-cloud-hardening"
    Severity := CalculateSeverity .Unlikely
      (cloudImpact (api.HighestProcessedConfidentiality parsedModel technicalAsset)
        (api.HighestProcessedIntegrity parsedModel technicalAsset)
        (api.HighestProcessedAvailability parsedModel technicalAsset))
    ExploitationLikelihood := .Unlikely
    ExploitationImpact :=
      cloudImpact (api.HighestProcessedConfidentiality parsedModel technicalAsset)
        (api.HighestProcessedIntegrity parsedModel technicalAsset)
        (api.HighestProcessedAvailability parsedModel technicalAsset)
    Title := cloudTitle technicalAsset.Title pfx details
    SyntheticId := "missing-cloud-hardening" ++ "@" ++ technicalAsset.Id ++ cloudIdSuffix pfx
    MostRelevantTechnicalAssetId := technicalAsset.Id
    MostRelevantTrustBoundaryId := ""
    MostRelevantSharedRuntimeId := ""
    DataBreachProbability := .Probable
    DataBreachTechnicalAssetIDs := [technicalAsset.Id] }

/-- A loop `for id := range ids { risks = append(risks, r.createRiskForSharedRuntime(input,
input.SharedRuntimes[id], pfx, details)) }` (lines 193-211), over the enumeration `ids`. -/
def emitSharedRuntimes (api : TypesAPI) (input : Model) (pfx details : String) :
    List String → List Risk → Option (List Risk)
  | [], risks => some risks
  | id :: rest, risks =>
    match mapGet input.SharedRuntimes id with
    | none => none
    | some sharedRuntime =>
      emitSharedRuntimes api input pfx details rest
        (risks ++ [createRiskForSharedRuntime api input sharedRuntime pfx details])

/-- A loop `for id := range ids { risks = append(risks, r.createRiskForTrustBoundary(input,
input.TrustBoundaries[id], pfx, details)) }` (lines 214-232), over the enumeration `ids`. -/
def emitTrustBoundaries (api : TypesAPI) (input : Model) (pfx details : String) :
    List String → List Risk → Option (List Risk)
  | [], risks => some risks
  | id :: rest, risks =>
    match mapGet input.TrustBoundaries id with
    | none => none
    | some trustBoundary =>
      emitTrustBoundaries api input pfx details rest
        (risks ++ [createRiskForTrustBoundary api input trustBoundary pfx details])

/-- One block `if !added { mostRelevantAsset := findMostSensitiveTechnicalAsset(...) ... }`
(lines 235-265). -/
def emitMostSensitive (api : TypesAPI) (ord : List String → List String) (input : Model)
    (added : Bool) (techAssets : List String) (pfx details : String) (risks : List Risk) :
    Option (List Risk) :=
  if added then some risks
  else
    match findMostSensitiveTechnicalAsset api ord input techAssets with
    | none => none
    | some none => some risks
    | some (some mostRelevantAsset) =>
      some (risks ++ [createRiskForTechnicalAsset api input mostRelevantAsset pfx details])

/-- The loop of lines 268-277 over the assets with sub-tag specific risks. -/
def emitSubtagSpecific (api : TypesAPI) (input : Model) :
    List String → List Risk → Option (List Risk)
  | [], risks => some risks
  | id :: rest, risks =>
    match mapGet input.TechnicalAssets id with
    | none => none
    | some tA =>
      match isTechnicalAssetTaggedWithAnyTraversingUp api input tA ["aws:ec2"] with
      | none => none
      | some ec2 =>
        match isTechnicalAssetTaggedWithAnyTraversingUp api input tA ["aws:s3"] with
        | none => none
        | some s3 =>
          emitSubtagSpecific api input rest
            ((if ec2 then
                risks ++ [createRiskForTechnicalAsset api input tA "EC2"
                  "CIS Benchmark for Amazon Linux"]
              else risks)
              ++ (if s3 then
                [createRiskForTechnicalAsset api input tA "S3" "Security Best Practices for AWS S3"]
              else []))

/-- Lines 189-277 of `GenerateRisks`: the emission pass over the classified sets `b`.  The flag
`addedAWS` is true after the loops exactly when one of the two AWS loops ran at least once, and
likewise for the other providers. -/
def emit (api : TypesAPI) (ord : List String → List String) (input : Model) (b : Buckets) :
    Option (List Risk) :=
  (emitSharedRuntimes api input "AWS" "CIS Benchmark for AWS" (ord b.sharedRuntimeIDsAWS) [])
  |>.bind (emitSharedRuntimes api input "Azure" "CIS Benchmark for Microsoft Azure"
    (ord b.sharedRuntimeIDsAzure))
  |>.bind (emitSharedRuntimes api input "GCP" "CIS Benchmark for Google Cloud Computing Platform"
    (ord b.sharedRuntimeIDsGCP))
  |>.bind (emitSharedRuntimes api input "OCP" "Vendor Best Practices for Oracle Cloud Platform"
    (ord b.sharedRuntimeIDsOCP))
  |>.bind (emitSharedRuntimes api input "" "" (ord b.sharedRuntimesWithUnspecificCloudRisks))
  |>.bind (emitTrustBoundaries api input "AWS" "CIS Benchmark for AWS" (ord b.trustBoundaryIDsAWS))
  |>.bind (emitTrustBoundaries api input "Azure" "CIS Benchmark for Microsoft Azure"
    (ord b.trustBoundaryIDsAzure))
  |>.bind (emitTrustBoundaries api input "GCP" "CIS Benchmark for Google Cloud Computing Platform"
    (ord b.trustBoundaryIDsGCP))
  |>.bind (emitTrustBoundaries api input "OCP" "Vendor Best Practices for Oracle Cloud Platform"
    (ord b.trustBoundaryIDsOCP))
  |>.bind (emitTrustBoundaries api input "" "" (ord b.trustBoundariesWithUnspecificCloudRisks))
  |>.bind (emitMostSensitive api ord input
    (decide (ord b.sharedRuntimeIDsAWS ≠ [] ∨ ord b.trustBoundaryIDsAWS ≠ []))
    b.techAssetIDsAWS "AWS" "CIS Benchmark for AWS")
  |>.bind (emitMostSensitive api ord input
    (decide (ord b.sharedRuntimeIDsAzure ≠ [] ∨ ord b.trustBoundaryIDsAzure ≠ []))
    b.techAssetIDsAzure "Azure" "CIS Benchmark for Microsoft Azure")
  |>.bind (emitMostSensitive api ord input
    (decide (ord b.sharedRuntimeIDsGCP ≠ [] ∨ ord b.trustBoundaryIDsGCP ≠ []))
    b.techAssetIDsGCP "GCP" "CIS Benchmark for Google Cloud Computing Platform")
  |>.bind (emitMostSensitive api ord input
    (decide (ord b.sharedRuntimeIDsOCP ≠ [] ∨ ord b.trustBoundaryIDsOCP ≠ []))
    b.techAssetIDsOCP "OCP" "Vendor Best Practices for Oracle Cloud Platform")
  |>.bind (emitSubtagSpecific api input (ord b.techAssetIDsWithSubtagSpecificCloudRisks))

/-- The method `MissingCloudHardeningRule.GenerateRisks`: the returned pair (risks, error), where
the error `none` is `nil`; the outer `none` is a panic.  `ord` is the order in which the run
enumerates the id sets of the rule. -/
def MissingCloudHardeningRule.GenerateRisks (api : TypesAPI) (ord : List String → List String)
    (input : Model) : Option (List Risk × Option String) :=
  match classify api ord input with
  | none => none
  | some b =>
    match emit api ord input b with
    | none => none
    | some risks => some (risks, none)

/-! ## A concrete instance of the missing package, for the scenarios -/

/-- Modelled from the spec: the weight tables of `pkg/types` are not part of the sources.  The
asset, data and transfer weights follow the fibonacci scale named in `raa.go` (line 86); the
quantity factors are those of section 3 of the specification. -/
def fibonacciTaxonomy : Taxonomy :=
  { ConfidentialityForAsset := fun c =>
      match c with
      | .Public => 8 | .Internal => 13 | .Restricted => 21 | .Confidential => 34
      | .StrictlyConfidential => 55
    CriticalityForAsset := fun c =>
      match c with
      | .Archive => 5 | .Operational => 8 | .Important => 13 | .Critical => 21
      | .MissionCritical => 34
    ConfidentialityForProcessedOrStoredData := fun c =>
      match c with
      | .Public => 5 | .Internal => 8 | .Restricted => 13 | .Confidential => 21
      | .StrictlyConfidential => 34
    CriticalityForProcessedOrStoredData := fun c =>
      match c with
      | .Archive => 3 | .Operational => 5 | .Important => 8 | .Critical => 13
      | .MissionCritical => 21
    ConfidentialityForInOutTransferredData := fun c =>
      match c with
      | .Public => 2 | .Internal => 3 | .Restricted => 5 | .Confidential => 8
      | .StrictlyConfidential => 13
    CriticalityForInOutTransferredData := fun c =>
      match c with
      | .Archive => 2 | .Operational => 3 | .Important => 5 | .Critical => 8
      | .MissionCritical => 13
    QuantityFactor := fun q =>
      match q with
      | .VeryFew => 2 / 5 | .Few => 1 | .Many => 3 | .VeryMany => 10 }

/-- The larger of two confidentiality ratings. -/
def maxConfidentiality (a b : Confidentiality) : Confidentiality :=
  if a < b then b else a

/-- The larger of two criticality ratings. -/
def maxCriticality (a b : Criticality) : Criticality :=
  if a < b then b else a

/-- The data assets of the model named by `ids` (ids without an entry are skipped). -/
def dataAssetsOf (input : Model) (ids : List String) : List DataAsset :=
  ids.filterMap (mapGet input.DataAssets)

/-- The technical assets of the model named by `ids` (ids without an entry are skipped). -/
def technicalAssetsOf (input : Model) (ids : List String) : List TechnicalAsset :=
  ids.filterMap (mapGet input.TechnicalAssets)

/-- Modelled from the spec: `RecursivelyAllTechnicalAssetIDsInside` is not part of the sources;
the assets inside the boundary and, down to depth `fuel`, inside its nested boundaries. -/
def specRecursivelyInside (input : Model) : Nat → TrustBoundary → List String
  | 0, trustBoundary => trustBoundary.TechnicalAssetsInside
  | fuel + 1, trustBoundary =>
    trustBoundary.TechnicalAssetsInside
      ++ (trustBoundary.TrustBoundariesNested.filterMap (mapGet input.TrustBoundaries)).flatMap
          (specRecursivelyInside input fuel)

/-- Modelled from the spec: highest confidentiality of an asset and the data it processes. -/
def specHighestProcessedConfidentiality (input : Model) (what : TechnicalAsset) :
    Confidentiality :=
  (dataAssetsOf input what.DataAssetsProcessed).foldl
    (fun h d => maxConfidentiality h d.Confidentiality) what.Confidentiality

/-- Modelled from the spec: highest integrity of an asset and the data it processes. -/
def specHighestProcessedIntegrity (input : Model) (what : TechnicalAsset) : Criticality :=
  (dataAssetsOf input what.DataAssetsProcessed).foldl
    (fun h d => maxCriticality h d.Integrity) what.Integrity

/-- Modelled from the spec: highest availability of an asset and the data it processes. -/
def specHighestProcessedAvailability (input : Model) (what : TechnicalAsset) : Criticality :=
  (dataAssetsOf input what.DataAssetsProcessed).foldl
    (fun h d => maxCriticality h d.Availability) what.Availability

/-- Modelled from the spec: the accessors of `pkg/types` that are not part of the sources, as
section 6 and sections 4.4 and 4.5 of the specification describe them. -/
def specAPI : TypesAPI :=
  { RecursivelyAllTechnicalAssetIDsInside := fun input trustBoundary =>
      specRecursivelyInside input input.TrustBoundaries.length trustBoundary
    FindParentTrustBoundary := fun input tb =>
      (input.TrustBoundaries.map Prod.snd).find?
        (fun candidate => contains candidate.TrustBoundariesNested tb.Id)
    GetTechnicalAssetTrustBoundaryId := fun input ta =>
      match (input.TrustBoundaries.map Prod.snd).find?
          (fun candidate => contains candidate.TechnicalAssetsInside ta.Id) with
      | none => ""
      | some trustBoundary => trustBoundary.Id
    HighestStoredConfidentiality := fun input what =>
      (dataAssetsOf input what.DataAssetsStored).foldl
        (fun h d => maxConfidentiality h d.Confidentiality) .Public
    HighestStoredIntegrity := fun input what =>
      (dataAssetsOf input what.DataAssetsStored).foldl
        (fun h d => maxCriticality h d.Integrity) .Archive
    HighestProcessedConfidentiality := specHighestProcessedConfidentiality
    HighestProcessedIntegrity := specHighestProcessedIntegrity
    HighestProcessedAvailability := specHighestProcessedAvailability
    FindTrustBoundaryHighestConfidentiality := fun input tb =>
      (technicalAssetsOf input
          (specRecursivelyInside input input.TrustBoundaries.length tb)).foldl
        (fun h a => maxConfidentiality h (specHighestProcessedConfidentiality input a)) .Public
    FindTrustBoundaryHighestIntegrity := fun input tb =>
      (technicalAssetsOf input
          (specRecursivelyInside input input.TrustBoundaries.length tb)).foldl
        (fun h a => maxCriticality h (specHighestProcessedIntegrity input a)) .Archive
    FindTrustBoundaryHighestAvailability := fun input tb =>
      (technicalAssetsOf input
          (specRecursivelyInside input input.TrustBoundaries.length tb)).foldl
        (fun h a => maxCriticality h (specHighestProcessedAvailability input a)) .Archive
    FindSharedRuntimeHighestConfidentiality := fun input sr =>
      (technicalAssetsOf input sr.TechnicalAssetsRunning).foldl
        (fun h a => maxConfidentiality h (specHighestProcessedConfidentiality input a)) .Public
    FindSharedRuntimeHighestIntegrity := fun input sr =>
      (technicalAssetsOf input sr.TechnicalAssetsRunning).foldl
        (fun h a => maxCriticality h (specHighestProcessedIntegrity input a)) .Archive
    FindSharedRuntimeHighestAvailability := fun input sr =>
      (technicalAssetsOf input sr.TechnicalAssetsRunning).foldl
        (fun h a => maxCriticality h (specHighestProcessedAvailability input a)) .Archive
    HighestSensitivityScore := fun what =>
      ((what.Confidentiality.toNat + what.Integrity.toNat + what.Availability.toNat : Nat) : ℚ)
    EncryptionStyleString := fun e =>
      match e with
      | .NoneEncryption => "none"
      | .Transparent => "transparent"
      | .DataWithSymmetricSharedKey => "data-with-symmetric-shared-key"
      | .DataWithAsymmetricSharedKey => "data-with-asymmetric-shared-key"
      | .DataWithEndUserIndividualKey => "data-with-enduser-individual-key" }

/-- A technical asset with the given id, kind, ratings and tags and nothing else: in scope, no
technologies, no data, no links, unencrypted. -/
def plainAsset (id : String) (kind : TechnicalAssetType) (c : Confidentiality)
    (i a : Criticality) (tags : List String) : TechnicalAsset :=
  { Id := id, Title := id, AssetType := kind, Technologies := [], Confidentiality := c,
    Integrity := i, Availability := a, OutOfScope := false, MultiTenant := false,
    Encryption := .NoneEncryption, Tags := tags, DataAssetsProcessed := [],
    DataAssetsStored := [], CommunicationLinks := [], RAA := 0 }

/-! ## Scenarios of the specification -/

/-- The data asset "pii" of scenario E3. -/
def piiE3 : DataAsset :=
  { Id := "pii", Confidentiality := .Confidential, Integrity := .Critical,
    Availability := .Operational, Quantity := .Few }

/-- The datastore "kv" of scenario E3: confidential, unencrypted, storing "pii". -/
def kvE3 : TechnicalAsset :=
  { plainAsset "kv" .Datastore .Confidential .Operational .Operational [] with
    DataAssetsStored := ["pii"] }

/-- Scenario E3 of the specification. -/
def scenarioE3 : Model :=
  { TechnicalAssets := [("kv", kvE3)], DataAssets := [("pii", piiE3)], TrustBoundaries := [],
    SharedRuntimes := [] }

/-- The data asset "pii" of scenario E4. -/
def piiE4 : DataAsset :=
  { Id := "pii", Confidentiality := .StrictlyConfidential, Integrity := .MissionCritical,
    Availability := .Operational, Quantity := .Few }

/-- The datastore "kv" of scenario E4: transparently encrypted, usually storing end user data. -/
def kvE4 : TechnicalAsset :=
  { plainAsset "kv" .Datastore .Confidential .Operational .Operational [] with
    DataAssetsStored := ["pii"], Technologies := [.IsUsuallyStoringEndUserData],
    Encryption := .Transparent }

/-- Scenario E4 of the specification. -/
def scenarioE4 : Model :=
  { TechnicalAssets := [("kv", kvE4)], DataAssets := [("pii", piiE4)], TrustBoundaries := [],
    SharedRuntimes := [] }

/-- The risk expected in scenario E3. -/
def riskE3 : Risk :=
  { CategoryId := "unencrypted-asset"
    Severity := .LowSeverity
    ExploitationLikelihood := .Unlikely
    ExploitationImpact := .MediumImpact
    Title := "<b>Unencrypted Technical Asset</b> named <b>kv</b>"
    SyntheticId := "unencrypted-asset@kv"
    MostRelevantTechnicalAssetId := "kv"
    MostRelevantTrustBoundaryId := ""
    MostRelevantSharedRuntimeId := ""
    DataBreachProbability := .Improbable
    DataBreachTechnicalAssetIDs := ["kv"] }

/-- The risk expected in scenario E4. -/
def riskE4 : Risk :=
  { riskE3 with
    Title := "<b>Unencrypted Technical Asset</b> named <b>kv</b> missing end user individual "
      ++ "encryption with data-with-enduser-individual-key" }

/-- A model of two in-scope process assets without data: "a" (public) has a link to "n"
(internal); both have integrity and availability archive. -/
def pivotModel : Model :=
  { TechnicalAssets :=
      [("a", { plainAsset "a" .Process .Public .Archive .Archive [] with
                CommunicationLinks := [{ TargetId := "n", DataAssetsSent := [],
                                         DataAssetsReceived := [] }] }),
       ("n", plainAsset "n" .Process .Internal .Archive .Archive [])]
    DataAssets := [], TrustBoundaries := [], SharedRuntimes := [] }

/-- A model of three in-scope assets without data and without links: a load balancer "lb" and
a monitoring asset "mon" with the lowest ratings, and a multi-tenant container platform "big"
with the highest ratings. -/
def smallPercentModel : Model :=
  { TechnicalAssets :=
      [("big", { plainAsset "big" .Process .StrictlyConfidential .MissionCritical
                  .MissionCritical [] with
                  Technologies := [.ContainerPlatform], MultiTenant := true }),
       ("lb", { plainAsset "lb" .Process .Public .Archive .Archive [] with
                  Technologies := [.LoadBalancer] }),
       ("mon", { plainAsset "mon" .Process .Public .Archive .Archive [] with
                  Technologies := [.Monitoring] })]
    DataAssets := [], TrustBoundaries := [], SharedRuntimes := [] }

/-- The ids used by a technical asset exist: its processed and stored data assets, the targets
of its links and the data assets sent and received over them. -/
def TechnicalAsset.refsExist (input : Model) (a : TechnicalAsset) : Prop :=
  (∀ id ∈ a.DataAssetsProcessed, id ∈ mapKeys input.DataAssets) ∧
  (∀ id ∈ a.DataAssetsStored, id ∈ mapKeys input.DataAssets) ∧
  (∀ l ∈ a.CommunicationLinks,
    l.TargetId ∈ mapKeys input.TechnicalAssets ∧
    (∀ id ∈ l.DataAssetsSent, id ∈ mapKeys input.DataAssets) ∧
    (∀ id ∈ l.DataAssetsReceived, id ∈ mapKeys input.DataAssets))

instance (input : Model) (a : TechnicalAsset) : Decidable (a.refsExist input) := by
  unfold TechnicalAsset.refsExist
  infer_instance

/-- Invariant 1 of the specification: every id referenced by a link, a boundary member, a
runtime member or a data-asset list exists in the respective map. -/
def noDanglingIds (input : Model) : Prop :=
  (∀ kv ∈ input.TechnicalAssets, kv.2.refsExist input) ∧
  (∀ kv ∈ input.TrustBoundaries,
    (∀ id ∈ kv.2.TechnicalAssetsInside, id ∈ mapKeys input.TechnicalAssets) ∧
    (∀ id ∈ kv.2.TrustBoundariesNested, id ∈ mapKeys input.TrustBoundaries)) ∧
  (∀ kv ∈ input.SharedRuntimes,
    ∀ id ∈ kv.2.TechnicalAssetsRunning, id ∈ mapKeys input.TechnicalAssets)

instance (input : Model) : Decidable (noDanglingIds input) := by
  unfold noDanglingIds
  infer_instance

/-! ## Vocabulary for the properties of the cloud rule -/

/-- The four cloud providers of the rule. -/
inductive Provider
  | AWS | Azure | GCP | OCP
  deriving DecidableEq

/-- The name under which the rule reports a provider (the `prefix` argument of the
`createRiskFor...` methods). -/
def Provider.name : Provider → String
  | .AWS => "AWS"
  | .Azure => "Azure"
  | .GCP => "GCP"
  | .OCP => "OCP"

/-- The shared runtimes classified under a provider. -/
def Buckets.sharedRuntimeIDs (b : Buckets) : Provider → List String
  | .AWS => b.sharedRuntimeIDsAWS
  | .Azure => b.sharedRuntimeIDsAzure
  | .GCP => b.sharedRuntimeIDsGCP
  | .OCP => b.sharedRuntimeIDsOCP

/-- The trust boundaries classified under a provider. -/
def Buckets.trustBoundaryIDs (b : Buckets) : Provider → List String
  | .AWS => b.trustBoundaryIDsAWS
  | .Azure => b.trustBoundaryIDsAzure
  | .GCP => b.trustBoundaryIDsGCP
  | .OCP => b.trustBoundaryIDsOCP

/-- The technical assets classified under a provider. -/
def Buckets.techAssetIDs (b : Buckets) : Provider → List String
  | .AWS => b.techAssetIDsAWS
  | .Azure => b.techAssetIDsAzure
  | .GCP => b.techAssetIDsGCP
  | .OCP => b.techAssetIDsOCP

/-- A generic risk for provider `p`: the synthetic id ends in "@" + lower(p). -/
def isGenericRiskFor (p : Provider) (r : Risk) : Bool :=
  HasSuffix r.SyntheticId ("@" ++ ToLower p.name)

/-- A generic risk for provider `p` that is scoped to a technical asset. -/
def isGenericTechnicalAssetRiskFor (p : Provider) (r : Risk) : Bool :=
  decide (r.MostRelevantTechnicalAssetId ≠ "") && isGenericRiskFor p r

/-- The risks appended by one shared-runtime loop over `ids`: one per id, built from the runtime
stored under it. -/
def SharedRuntimeSegment (api : TypesAPI) (input : Model) (pfx details : String)
    (ids : List String) (seg : List Risk) : Prop :=
  List.Forall₂ (fun id r => ∃ sr, mapGet input.SharedRuntimes id = some sr ∧
    r = createRiskForSharedRuntime api input sr pfx details) ids seg

/-- The risks appended by one trust-boundary loop over `ids`: one per id, built from the
boundary stored under it. -/
def TrustBoundarySegment (api : TypesAPI) (input : Model) (pfx details : String)
    (ids : List String) (seg : List Risk) : Prop :=
  List.Forall₂ (fun id r => ∃ tb, mapGet input.TrustBoundaries id = some tb ∧
    r = createRiskForTrustBoundary api input tb pfx details) ids seg

/-- The risks appended by one most-sensitive-asset block: none, or, when nothing was added for
the provider before, one risk for an asset stored under an id of the provider's set. -/
def MostSensitiveSegment (api : TypesAPI) (input : Model) (added : Bool)
    (techAssets : List String) (pfx details : String) (seg : List Risk) : Prop :=
  seg = [] ∨
    (added = false ∧ ∃ id a, id ∈ techAssets ∧ mapGet input.TechnicalAssets id = some a ∧
      seg = [createRiskForTechnicalAsset api input a pfx details])

/-- The risks appended by the sub-tag loop for one id: the EC2 risk and the S3 risk of the asset
stored under it, each present or not. -/
def SubtagRisksOf (api : TypesAPI) (input : Model) (id : String) (rs : List Risk) : Prop :=
  ∃ tA ec2 s3, mapGet input.TechnicalAssets id = some tA ∧
    rs = (if ec2 = true then
            [createRiskForTechnicalAsset api input tA "EC2" "CIS Benchmark for Amazon Linux"]
          else [])
      ++ (if s3 = true then
            [createRiskForTechnicalAsset api input tA "S3" "Security Best Practices for AWS S3"]
          else [])

/-- The risks appended by the sub-tag loop over `ids`. -/
def SubtagSegment (api : TypesAPI) (input : Model) (ids : List String) (seg : List Risk) : Prop :=
  ∃ parts : List (List Risk), seg = parts.flatten ∧ List.Forall₂ (SubtagRisksOf api input) ids parts

/-- A trust boundary without members. -/
def emptyBoundary (id : String) (kind : TrustBoundaryType) (tags : List String) : TrustBoundary :=
  { Id := id, Title := id, BoundaryType := kind, Tags := tags, TechnicalAssetsInside := [],
    TrustBoundariesNested := [] }

/-- A shared runtime without members. -/
def emptyRuntime (id : String) (tags : List String) : SharedRuntime :=
  { Id := id, Title := id, Tags := tags, TechnicalAssetsRunning := [] }

/-- Scenario E5 of the specification: the trust boundary "aws-vpc" tagged `aws` contains the
untagged assets "a1" and "a2". -/
def scenarioE5 : Model :=
  { TechnicalAssets :=
      [("a1", plainAsset "a1" .Process .Internal .Operational .Operational []),
       ("a2", plainAsset "a2" .Process .Internal .Operational .Operational [])]
    DataAssets := []
    TrustBoundaries :=
      [("aws-vpc", { emptyBoundary "aws-vpc" .NetworkCloudProvider ["aws"] with
                      TechnicalAssetsInside := ["a1", "a2"] })]
    SharedRuntimes := [] }

/-- The sets of the rule after classification in scenario E5. -/
def bucketsE5 : Buckets :=
  { Buckets.empty with trustBoundaryIDsAWS := ["aws-vpc"], techAssetIDsAWS := ["a2", "a1"] }

/-- The risk expected in scenario E5. -/
def riskE5 : Risk :=
  { CategoryId := "missing-cloud-hardening"
    Severity := .LowSeverity
    ExploitationLikelihood := .Unlikely
    ExploitationImpact := .MediumImpact
    Title := "<b>Missing Cloud Hardening (AWS)</b> risk at <b>aws-vpc</b>: "
      ++ "<u>CIS Benchmark for AWS</u>"
    SyntheticId := "missing-cloud-hardening@aws-vpc@aws"
    MostRelevantTechnicalAssetId := ""
    MostRelevantTrustBoundaryId := "aws-vpc"
    MostRelevantSharedRuntimeId := ""
    DataBreachProbability := .Probable
    DataBreachTechnicalAssetIDs := ["a1", "a2"] }

/-- A model with two empty trust boundaries "b1" and "b2", both tagged `aws`. -/
def twoAwsBoundariesModel : Model :=
  { TechnicalAssets := [], DataAssets := []
    TrustBoundaries :=
      [("b1", emptyBoundary "b1" .NetworkCloudProvider ["aws"]),
       ("b2", emptyBoundary "b2" .NetworkCloudProvider ["aws"])]
    SharedRuntimes := [] }

/-- A model with the single technical asset "a", tagged `aws`, outside every boundary. -/
def taggedAssetModel : Model :=
  { TechnicalAssets := [("a", plainAsset "a" .Process .Internal .Operational .Operational ["aws"])]
    DataAssets := [], TrustBoundaries := [], SharedRuntimes := [] }

/-- A model with the untagged cloud trust boundary "cloud" containing the untagged asset "a1". -/
def untaggedCloudModel : Model :=
  { TechnicalAssets := [("a1", plainAsset "a1" .Process .Internal .Operational .Operational [])]
    DataAssets := []
    TrustBoundaries :=
      [("cloud", { emptyBoundary "cloud" .NetworkCloudProvider [] with
                    TechnicalAssetsInside := ["a1"] })]
    SharedRuntimes := [] }

/-- A model with two empty shared runtimes "r1" and "r2", both tagged `aws`. -/
def twoAwsRuntimesModel : Model :=
  { TechnicalAssets := [], DataAssets := [], TrustBoundaries := []
    SharedRuntimes := [("r1", emptyRuntime "r1" ["aws"]), ("r2", emptyRuntime "r2" ["aws"])] }

/-- A model in which a shared runtime and a trust boundary, both tagged `aws`, have the same id
"x". -/
def sharedIdModel : Model :=
  { TechnicalAssets := [], DataAssets := []
    TrustBoundaries := [("x", emptyBoundary "x" .NetworkOnPrem ["aws"])]
    SharedRuntimes := [("x", emptyRuntime "x" ["aws"])] }

/-- All sixteen id sets are duplicate-free, as Go sets are. -/
def Buckets.AllNodup (b : Buckets) : Prop :=
  b.sharedRuntimesWithUnspecificCloudRisks.Nodup ∧
  b.trustBoundariesWithUnspecificCloudRisks.Nodup ∧
  b.techAssetsWithUnspecificCloudRisks.Nodup ∧
  b.sharedRuntimeIDsAWS.Nodup ∧
  b.trustBoundaryIDsAWS.Nodup ∧
  b.techAssetIDsAWS.Nodup ∧
  b.sharedRuntimeIDsAzure.Nodup ∧
  b.trustBoundaryIDsAzure.Nodup ∧
  b.techAssetIDsAzure.Nodup ∧
  b.sharedRuntimeIDsGCP.Nodup ∧
  b.trustBoundaryIDsGCP.Nodup ∧
  b.techAssetIDsGCP.Nodup ∧
  b.sharedRuntimeIDsOCP.Nodup ∧
  b.trustBoundaryIDsOCP.Nodup ∧
  b.techAssetIDsOCP.Nodup ∧
  b.techAssetIDsWithSubtagSpecificCloudRisks.Nodup

/-- The synthetic id built by the `createRiskFor...` methods for the scope id `x.2.1` and the
suffix `x.2.2`; `x.1` is the kind of the scope (0 shared runtime, 1 trust boundary, 2 technical
asset). -/
def cloudSyntheticId (x : Nat × String × String) : String :=
  "missing-cloud-hardening" ++ "@" ++ x.2.1 ++ x.2.2

/-- The suffixes of the synthetic ids of the cloud rule. -/
def cloudSuffixes : List String :=
  ["", "@aws", "@azure", "@gcp", "@ocp", "@ec2", "@s3"]

/-- The emission loop a synthetic id comes from: the kind of its scope and its suffix, the two
sub-tag suffixes counting as one. -/
def labelSlot (x : Nat × String × String) : Nat × String :=
  if x.2.2 = "@ec2" ∨ x.2.2 = "@s3" then (x.1, "sub") else (x.1, x.2.2)

/-- The scope id of a label is a key of the map of its kind, and its suffix is a known one. -/
def LabelOK (input : Model) (x : Nat × String × String) : Prop :=
  x.2.2 ∈ cloudSuffixes ∧
    ((x.1 = 0 ∧ x.2.1 ∈ mapKeys input.SharedRuntimes) ∨
     (x.1 = 1 ∧ x.2.1 ∈ mapKeys input.TrustBoundaries) ∨
     (x.1 = 2 ∧ x.2.1 ∈ mapKeys input.TechnicalAssets))

/-- A model with the trust boundary "t" tagged `aws` and the untagged cloud trust boundary
"t@aws". -/
def atSignModel : Model :=
  { TechnicalAssets := [], DataAssets := []
    TrustBoundaries :=
      [("t", emptyBoundary "t" .NetworkCloudProvider ["aws"]),
       ("t@aws", emptyBoundary "t@aws" .NetworkCloudProvider [])]
    SharedRuntimes := [] }

/-- Every entity of the model has its map key as `Id`. -/
def idsAreKeys (input : Model) : Prop :=
  (∀ kv ∈ input.TechnicalAssets, kv.2.Id = kv.1) ∧
  (∀ kv ∈ input.TrustBoundaries, kv.2.Id = kv.1) ∧
  (∀ kv ∈ input.SharedRuntimes, kv.2.Id = kv.1)

instance (input : Model) : Decidable (idsAreKeys input) := by
  unfold idsAreKeys
  infer_instance

/-- The ids of the shared runtimes, trust boundaries and technical assets of the model. -/
def scopeIds (input : Model) : List String :=
  mapKeys input.SharedRuntimes ++ mapKeys input.TrustBoundaries ++ mapKeys input.TechnicalAssets

/-- The sets `b` with `techAssetIDsAWS` replaced by `ids`. -/
def Buckets.setTechAssetIDsAWS (b : Buckets) (ids : List String) : Buckets :=
  { b with techAssetIDsAWS := ids }

/-- The sets in which only the trust boundary `k` and the technical assets `ids` are classified,
both under AWS. -/
def awsBoundaryBuckets (k : String) (ids : List String) : Buckets :=
  { sharedRuntimesWithUnspecificCloudRisks := []
    trustBoundariesWithUnspecificCloudRisks := []
    techAssetsWithUnspecificCloudRisks := []
    sharedRuntimeIDsAWS := []
    trustBoundaryIDsAWS := [k]
    techAssetIDsAWS := ids
    sharedRuntimeIDsAzure := []
    trustBoundaryIDsAzure := []
    techAssetIDsAzure := []
    sharedRuntimeIDsGCP := []
    trustBoundaryIDsGCP := []
    techAssetIDsGCP := []
    sharedRuntimeIDsOCP := []
    trustBoundaryIDsOCP := []
    techAssetIDsOCP := []
    techAssetIDsWithSubtagSpecificCloudRisks := [] }

/-- Strict byte-wise lexicographic order of Go strings. -/
def stringLT (a b : String) : Prop :=
  a.data < b.data

instance (a b : String) : Decidable (stringLT a b) := inferInstanceAs (Decidable (a.data < b.data))

/-- The accessors of stored data read nothing of the model but the map `DataAssets`. -/
def storedAccessorsReadDataAssetsOnly (api : TypesAPI) : Prop :=
  ∀ (m1 m2 : Model) (a : TechnicalAsset), m1.DataAssets = m2.DataAssets →
    api.HighestStoredConfidentiality m1 a = api.HighestStoredConfidentiality m2 a ∧
    api.HighestStoredIntegrity m1 a = api.HighestStoredIntegrity m2 a

/-- A model with two unencrypted datastores storing "pii", listed as "kv" before "db". -/
def twoStoresModel : Model :=
  { TechnicalAssets :=
      [("kv", kvE3),
       ("db", { plainAsset "db" .Datastore .Confidential .Operational .Operational [] with
                DataAssetsStored := ["pii"] })],
    DataAssets := [("pii", piiE3)], TrustBoundaries := [], SharedRuntimes := [] }

/-- The model `twoStoresModel` with its technical assets listed in the other order. -/
def twoStoresModelSwapped : Model :=
  { twoStoresModel with TechnicalAssets := twoStoresModel.TechnicalAssets.reverse }

/-- An out-of-scope, unencrypted, multi-tenant datastore "oos" storing and processing "pii",
tagged `aws`. -/
def oosAsset : TechnicalAsset :=
  { plainAsset "oos" .Datastore .StrictlyConfidential .MissionCritical .MissionCritical ["aws"]
    with OutOfScope := true, MultiTenant := true, DataAssetsStored := ["pii"],
         DataAssetsProcessed := ["pii"], Technologies := [.IsUsuallyStoringEndUserData] }

/-- The model `twoStoresModel` with the out-of-scope asset "oos" added between its two assets. -/
def twoStoresWithOosModel : Model :=
  { twoStoresModel with
    TechnicalAssets :=
      [("kv", kvE3)] ++ ("oos", oosAsset) ::
        [("db", { plainAsset "db" .Datastore .Confidential .Operational .Operational [] with
                  DataAssetsStored := ["pii"] })] }

/-- The technical asset with its field `RAA` cleared: `applyRAA` reads every field but this. -/
def TechnicalAsset.eraseRAA (a : TechnicalAsset) : TechnicalAsset :=
  { a with RAA := 0 }

/-- The value that one pass of the loop body of `applyRAA` (lines 13-15) computes for
`techAsset` in the model `input`. -/
def raaOf (tx : Taxonomy) (input : Model) (techAsset : TechnicalAsset) : Option ℚ :=
  match calculateAttackerAttractiveness tx input techAsset with
  | none => none
  | some aa0 =>
    match calculatePivotingNeighbourEffectAdjustment tx input techAsset with
    | none => none
    | some adjustment => calculateRelativeAttackerAttractiveness tx input (aa0 + adjustment)

/-- Two models with the same data assets, the same set of technical asset keys (compared as
sorted lists) and, under every key, the same technical asset up to the field `RAA`. -/
def raaEquiv (m1 m2 : Model) : Prop :=
  m1.DataAssets = m2.DataAssets ∧
  sortStrings (mapKeys m1.TechnicalAssets) = sortStrings (mapKeys m2.TechnicalAssets) ∧
  ∀ id, (mapGet m1.TechnicalAssets id).map TechnicalAsset.eraseRAA
    = (mapGet m2.TechnicalAssets id).map TechnicalAsset.eraseRAA

/-- The value stored by `applyRAA` under `id`, in closed form: `applyRAA` returns when the loop
body returns for every key, and then every asset holds the value of the loop body evaluated in
the model before the call. -/
def raaClosedForm (tx : Taxonomy) (input : Model) (id : String) : Option ℚ :=
  if (mapKeys input.TechnicalAssets).all
      (fun k => ((mapGet input.TechnicalAssets k).bind (raaOf tx input)).isSome)
  then (mapGet input.TechnicalAssets id).bind (raaOf tx input)
  else none

/-- Scenario E1 of the specification: one in-scope process asset "web" without data. -/
def scenarioE1 : Model :=
  { TechnicalAssets := [("web", plainAsset "web" .Process .Internal .Operational .Operational [])]
    DataAssets := [], TrustBoundaries := [], SharedRuntimes := [] }

/-- A model of one multi-tenant datastore "solo" that processes and stores "pii" and has a link
to itself over which "pii" is sent. -/
def selfLinkModel : Model :=
  { TechnicalAssets :=
      [("solo", { plainAsset "solo" .Datastore .Confidential .Critical .Important [] with
                  MultiTenant := true, DataAssetsProcessed := ["pii"],
                  DataAssetsStored := ["pii"],
                  CommunicationLinks := [{ TargetId := "solo", DataAssetsSent := ["pii"],
                                           DataAssetsReceived := [] }] })]
    DataAssets := [("pii", piiE3)], TrustBoundaries := [], SharedRuntimes := [] }

/-- The data asset "secret" of scenario E2. -/
def secretE2 : DataAsset :=
  { Id := "secret", Confidentiality := .StrictlyConfidential, Integrity := .MissionCritical,
    Availability := .Critical, Quantity := .Many }

/-- The load balancer "gw" of scenario E2, with a link to "db". -/
def gwE2 : TechnicalAsset :=
  { plainAsset "gw" .Process .Internal .Operational .Operational [] with
    Technologies := [.LoadBalancer],
    CommunicationLinks := [{ TargetId := "db", DataAssetsSent := [], DataAssetsReceived := [] }] }

/-- The datastore "db" of scenario E2, storing "secret". -/
def dbE2 : TechnicalAsset :=
  { plainAsset "db" .Datastore .Internal .Operational .Operational [] with
    DataAssetsStored := ["secret"] }

/-- Scenario E2 of the specification (the ratings of the two assets, which the scenario leaves
open, are internal and operational). -/
def scenarioE2 : Model :=
  { TechnicalAssets := [("gw", gwE2), ("db", dbE2)], DataAssets := [("secret", secretE2)],
    TrustBoundaries := [], SharedRuntimes := [] }

/-- The data asset "d" of `pivotFloorModel`: highest ratings, very many records. -/
def dataPivotFloor : DataAsset :=
  { Id := "d", Confidentiality := .StrictlyConfidential, Integrity := .MissionCritical,
    Availability := .MissionCritical, Quantity := .VeryMany }

/-- The asset "a" of `pivotFloorModel`: an in-scope process with the lowest ratings and a link
to "n". -/
def aPivotFloor : TechnicalAsset :=
  { plainAsset "a" .Process .Public .Archive .Archive [] with
    CommunicationLinks := [{ TargetId := "n", DataAssetsSent := [], DataAssetsReceived := [] }] }

/-- The asset "n" of `pivotFloorModel`: a multi-tenant datastore with the highest ratings that
processes and stores "d". -/
def nPivotFloor : TechnicalAsset :=
  { plainAsset "n" .Datastore .StrictlyConfidential .MissionCritical .MissionCritical [] with
    MultiTenant := true, DataAssetsProcessed := ["d"], DataAssetsStored := ["d"] }

/-- A model of two in-scope assets: "a" with the lowest raw attractiveness (18) links to "n"
with a raw attractiveness of 3795. -/
def pivotFloorModel : Model :=
  { TechnicalAssets := [("a", aPivotFloor), ("n", nPivotFloor)],
    DataAssets := [("d", dataPivotFloor)], TrustBoundaries := [], SharedRuntimes := [] }

/-- The model `pivotModel` with its technical assets enumerated in the other order and other
initial values in the fields `RAA`. -/
def pivotModelSwapped : Model :=
  { pivotModel with
    TechnicalAssets :=
      (pivotModel.TechnicalAssets.map (fun kv => (kv.1, { kv.2 with RAA := 77 }))).reverse }

/-- No weight of the taxonomy is negative. -/
def Taxonomy.nonneg (tx : Taxonomy) : Prop :=
  (∀ c, 0 ≤ tx.ConfidentialityForAsset c) ∧ (∀ c, 0 ≤ tx.CriticalityForAsset c) ∧
  (∀ c, 0 ≤ tx.ConfidentialityForProcessedOrStoredData c) ∧
  (∀ c, 0 ≤ tx.CriticalityForProcessedOrStoredData c) ∧
  (∀ c, 0 ≤ tx.ConfidentialityForInOutTransferredData c) ∧
  (∀ c, 0 ≤ tx.CriticalityForInOutTransferredData c) ∧
  (∀ q, 0 ≤ tx.QuantityFactor q)

/-! ## IEEE 754 rounding of `float64` values -/

/-- Number of binary digits of `n`, with `fuel` bounding the recursion. -/
def bitLength : Nat → Nat → Nat
  | 0, _ => 0
  | fuel + 1, n => if n = 0 then 0 else bitLength fuel (n / 2) + 1

/-- The power of two with an integer exponent. -/
def twoPow (z : Int) : ℚ :=
  if 0 ≤ z then (2 : ℚ) ^ z.toNat else 1 / (2 : ℚ) ^ (-z).toNat

/-- Rounding of a non-negative rational to the nearest natural number, ties to even. -/
def roundHalfEven (x : ℚ) : Nat :=
  if x - x.floor < 1 / 2 then x.floor.toNat
  else if 1 / 2 < x - x.floor then x.floor.toNat + 1
  else if x.floor.toNat % 2 = 0 then x.floor.toNat else x.floor.toNat + 1

/-- The `float64` nearest to the exact value `x`: rounding to a significand of 53 binary digits,
ties to even, as Go converts a numeric constant to `float64` and rounds the exact result of each
`float64` operation.  The exponent range (overflow to infinity, subnormal numbers) is not
modelled; `bitLength` is given the number itself as fuel, which is enough for every number. -/
def float64Round (x : ℚ) : ℚ :=
  if x = 0 then 0
  else
    let a : ℚ := if x < 0 then -x else x
    let k : Int := (bitLength a.num.natAbs a.num.natAbs : Int) - (bitLength a.den a.den : Int)
    let e : Int := if a / twoPow (k - 53) < (2 : ℚ) ^ 53 then k - 53 else k - 52
    let m : ℚ := (roundHalfEven (a / twoPow e) : ℚ)
    if x < 0 then -(m * twoPow e) else m * twoPow e

/-- The divisor `spread` of `calculateRelativeAttackerAttractiveness` as lines 50-53 compute it
from the minimum and the maximum left by the loop of lines 41-49; `rnd` is the rounding applied
to the result of each arithmetic operation (the identity for exact arithmetic, `float64Round`
for `float64`). -/
def spread (rnd : ℚ → ℚ) (attackerAttractivenessMinimum maximum0 : ℚ) : ℚ :=
  let attackerAttractivenessMaximum :=
    if ¬ (attackerAttractivenessMinimum < maximum0) then rnd (attackerAttractivenessMinimum + 1)
    else maximum0
  rnd (attackerAttractivenessMaximum - attackerAttractivenessMinimum)

/-- The model without any entry. -/
def emptyModel : Model :=
  { TechnicalAssets := [], DataAssets := [], TrustBoundaries := [], SharedRuntimes := [] }

/-- Ordinal of an exploitation impact (the Go `iota` value). -/
def RiskExploitationImpact.toNat : RiskExploitationImpact → Nat
  | .LowImpact => 0
  | .MediumImpact => 1
  | .HighImpact => 2
  | .VeryHighImpact => 3

/-- The impact of a cloud risk as the specification words it: very high when a rating is at the
top, else high when a rating is at least confidential or critical, else medium. -/
def specCloudImpact (c : Confidentiality) (i a : Criticality) : RiskExploitationImpact :=
  if c = .StrictlyConfidential ∨ i = .MissionCritical ∨ a = .MissionCritical then .VeryHighImpact
  else if Confidentiality.Confidential ≤ c ∨ Criticality.Critical ≤ i ∨ Criticality.Critical ≤ a
  then .HighImpact
  else .MediumImpact

/-- The risk `r` was built by one of the three `createRiskFor...` methods for a scope stored in
the model, whose highest confidentiality, integrity and availability are `c`, `i` and `a`. -/
def CloudRiskOfScope (api : TypesAPI) (input : Model) (r : Risk) (c : Confidentiality)
    (i a : Criticality) : Prop :=
  (∃ id sr pfx details, mapGet input.SharedRuntimes id = some sr ∧
    r = createRiskForSharedRuntime api input sr pfx details ∧
    c = api.FindSharedRuntimeHighestConfidentiality input sr ∧
    i = api.FindSharedRuntimeHighestIntegrity input sr ∧
    a = api.FindSharedRuntimeHighestAvailability input sr) ∨
  (∃ id tb pfx details, mapGet input.TrustBoundaries id = some tb ∧
    r = createRiskForTrustBoundary api input tb pfx details ∧
    c = api.FindTrustBoundaryHighestConfidentiality input tb ∧
    i = api.FindTrustBoundaryHighestIntegrity input tb ∧
    a = api.FindTrustBoundaryHighestAvailability input tb) ∨
  (∃ id ta pfx details, mapGet input.TechnicalAssets id = some ta ∧
    r = createRiskForTechnicalAsset api input ta pfx details ∧
    c = api.HighestProcessedConfidentiality input ta ∧
    i = api.HighestProcessedIntegrity input ta ∧
    a = api.HighestProcessedAvailability input ta)

/-- An in-scope, unencrypted datastore "kv" storing the data asset "secret". -/
def kvConfidentialOnly : TechnicalAsset :=
  { plainAsset "kv" .Datastore .Confidential .Operational .Operational [] with
    DataAssetsStored := ["secret"] }

/-- A model with the datastore `kvConfidentialOnly`, whose stored data asset "secret" is
strictly confidential and of operational integrity. -/
def confidentialOnlyModel : Model :=
  { TechnicalAssets := [("kv", kvConfidentialOnly)]
    DataAssets :=
      [("secret", { Id := "secret", Confidentiality := .StrictlyConfidential,
                    Integrity := .Operational, Availability := .Operational,
                    Quantity := .Few })]
    TrustBoundaries := [], SharedRuntimes := [] }

/-- An in-scope, unencrypted datastore "kv" storing the data asset "ledger". -/
def kvCriticalOnly : TechnicalAsset :=
  { plainAsset "kv" .Datastore .Confidential .Operational .Operational [] with
    DataAssetsStored := ["ledger"] }

/-- A model with the datastore `kvCriticalOnly`, whose stored data asset "ledger" is public and
of mission critical integrity. -/
def criticalOnlyModel : Model :=
  { TechnicalAssets := [("kv", kvCriticalOnly)]
    DataAssets :=
      [("ledger", { Id := "ledger", Confidentiality := .Public,
                    Integrity := .MissionCritical, Availability := .Operational,
                    Quantity := .Few })]
    TrustBoundaries := [], SharedRuntimes := [] }

/-- The datastore "kv" of scenario E4 with a technology that is not usually storing end user
data. -/
def kvNoEndUser : TechnicalAsset :=
  { kvE4 with Technologies := [] }

/-- Scenario E4 with the datastore `kvNoEndUser`: transparently encrypted, storing strictly
confidential and mission critical data. -/
def encryptedNoEndUserModel : Model :=
  { scenarioE4 with TechnicalAssets := [("kv", kvNoEndUser)] }

/-- The contribution of one processed or stored data asset to the attractiveness, as the
specification words it: `(C_data(D) + I_data(D)) * Quantity(D) + A_data(D)`. -/
def dataWeight (tx : Taxonomy) (d : DataAsset) : ℚ :=
  (tx.ConfidentialityForProcessedOrStoredData d.Confidentiality
      + tx.CriticalityForProcessedOrStoredData d.Integrity) * tx.QuantityFactor d.Quantity
    + tx.CriticalityForProcessedOrStoredData d.Availability

/-- The contribution of one data asset sent or received over a link, as the specification words
it: `(C_xfer(D) + I_xfer(D)) * Quantity(D) + A_xfer(D)`. -/
def transferWeight (tx : Taxonomy) (d : DataAsset) : ℚ :=
  (tx.ConfidentialityForInOutTransferredData d.Confidentiality
      + tx.CriticalityForInOutTransferredData d.Integrity) * tx.QuantityFactor d.Quantity
    + tx.CriticalityForInOutTransferredData d.Availability

/-- The attractiveness of an in-scope asset before the multipliers, as the specification words
it: the three weights of the asset, plus the weight of every entry of `DataAssetsProcessed`,
plus the weight of every entry of `DataAssetsStored`, plus, for every link, the transfer weight
of every data asset sent and of every data asset received. -/
def specRawScore (tx : Taxonomy) (input : Model) (A : TechnicalAsset) : ℚ :=
  tx.ConfidentialityForAsset A.Confidentiality + tx.CriticalityForAsset A.Integrity
    + tx.CriticalityForAsset A.Availability
    + ((dataAssetsOf input A.DataAssetsProcessed).map (dataWeight tx)).sum
    + ((dataAssetsOf input A.DataAssetsStored).map (dataWeight tx)).sum
    + (A.CommunicationLinks.map (fun l =>
        ((dataAssetsOf input l.DataAssetsSent).map (transferWeight tx)).sum
          + ((dataAssetsOf input l.DataAssetsReceived).map (transferWeight tx)).sum)).sum

/-- The technology rules of the specification in their priority order: the attributes that
select the rule and the factor it applies (dividing by 5.5 is multiplying by 2/11). -/
def technologyRules : List (List TechnologyAttribute × ℚ) :=
  [([.LoadBalancer, .ReverseProxy], 2 / 11),
   ([.Monitoring], 1 / 5),
   ([.ContainerPlatform], 5),
   ([.Vault], 2),
   ([.BuildPipeline, .SourcecodeRepository, .ArtifactRegistry], 2),
   ([.IdentityProvider, .IdentityStoreDatabase, .IdentityStoreLDAP], 5 / 2)]

/-- The one technology multiplier of an asset as the specification words it: the factor of the
first rule that matches, else 2 for a datastore, else none (the factor 1). -/
def specTechnologyMultiplier (A : TechnicalAsset) : ℚ :=
  match technologyRules.find? (fun rule => GetAttribute A.Technologies rule.1) with
  | some rule => rule.2
  | none => if A.AssetType = .Datastore then 2 else 1

/-- The multi-tenant factor of the specification. -/
def specMultiTenantFactor (A : TechnicalAsset) : ℚ :=
  if A.MultiTenant then 3 / 2 else 1

/-- A process that is both a load balancer and a container platform, multi-tenant. -/
def lbContainerAsset : TechnicalAsset :=
  { plainAsset "edge" .Process .Internal .Operational .Operational [] with
    Technologies := [.ContainerPlatform, .LoadBalancer], MultiTenant := true }

/-- A datastore that is a vault. -/
def vaultStoreAsset : TechnicalAsset :=
  { plainAsset "vault" .Datastore .Internal .Operational .Operational [] with
    Technologies := [.Vault] }

/-- The pivoting adjustment as the specification words it: the maximum over the links of
`max(0, (pct(N) - pct(A)) / 3)`, where `pctN` lists the percentage of the neighbour of every
link; 0 without links. -/
def specAdjustment (pctA : ℚ) (pctN : List ℚ) : ℚ :=
  (pctN.map (fun p => max 0 ((p - pctA) / 3))).foldr max 0

/-- The percentages of the neighbours reached by the links of an asset, in the order of the
links. -/
def neighbourPercentages (tx : Taxonomy) (input : Model) (A : TechnicalAsset) : List ℚ :=
  A.CommunicationLinks.filterMap
    (fun l => (mapGet input.TechnicalAssets l.TargetId).bind (pct tx input))

/-- Every id held by one of the sixteen sets is a key of the map of its kind. -/
def Buckets.inKeys (input : Model) (b : Buckets) : Prop :=
  (∀ x ∈ b.sharedRuntimesWithUnspecificCloudRisks, x ∈ mapKeys input.SharedRuntimes) ∧
  (∀ x ∈ b.trustBoundariesWithUnspecificCloudRisks, x ∈ mapKeys input.TrustBoundaries) ∧
  (∀ x ∈ b.techAssetsWithUnspecificCloudRisks, x ∈ mapKeys input.TechnicalAssets) ∧
  (∀ x ∈ b.sharedRuntimeIDsAWS, x ∈ mapKeys input.SharedRuntimes) ∧
  (∀ x ∈ b.trustBoundaryIDsAWS, x ∈ mapKeys input.TrustBoundaries) ∧
  (∀ x ∈ b.techAssetIDsAWS, x ∈ mapKeys input.TechnicalAssets) ∧
  (∀ x ∈ b.sharedRuntimeIDsAzure, x ∈ mapKeys input.SharedRuntimes) ∧
  (∀ x ∈ b.trustBoundaryIDsAzure, x ∈ mapKeys input.TrustBoundaries) ∧
  (∀ x ∈ b.techAssetIDsAzure, x ∈ mapKeys input.TechnicalAssets) ∧
  (∀ x ∈ b.sharedRuntimeIDsGCP, x ∈ mapKeys input.SharedRuntimes) ∧
  (∀ x ∈ b.trustBoundaryIDsGCP, x ∈ mapKeys input.TrustBoundaries) ∧
  (∀ x ∈ b.techAssetIDsGCP, x ∈ mapKeys input.TechnicalAssets) ∧
  (∀ x ∈ b.sharedRuntimeIDsOCP, x ∈ mapKeys input.SharedRuntimes) ∧
  (∀ x ∈ b.trustBoundaryIDsOCP, x ∈ mapKeys input.TrustBoundaries) ∧
  (∀ x ∈ b.techAssetIDsOCP, x ∈ mapKeys input.TechnicalAssets) ∧
  (∀ x ∈ b.techAssetIDsWithSubtagSpecificCloudRisks, x ∈ mapKeys input.TechnicalAssets)

/-- The model is well formed for the cloud rule: no dangling ids, every entity carries its map
key as id, and the accessors of package `types` answer within the model: the asset ids inside a
trust boundary are keys of `TechnicalAssets`, the trust boundary id of an asset is empty or a key
of `TrustBoundaries`, and the parent relation of the trust boundaries has no cycle (a rank
bounded by the number of trust boundaries decreases towards the parent). -/
def cloudWellFormed (api : TypesAPI) (input : Model) : Prop :=
  noDanglingIds input ∧ idsAreKeys input ∧
  (∀ kv ∈ input.TrustBoundaries,
    ∀ id ∈ api.RecursivelyAllTechnicalAssetIDsInside input kv.2,
      id ∈ mapKeys input.TechnicalAssets) ∧
  (∀ kv ∈ input.TechnicalAssets,
    api.GetTechnicalAssetTrustBoundaryId input kv.2 = ""
      ∨ api.GetTechnicalAssetTrustBoundaryId input kv.2 ∈ mapKeys input.TrustBoundaries) ∧
  (∃ rank : TrustBoundary → Nat,
    (∀ tb, rank tb ≤ input.TrustBoundaries.length) ∧
    ∀ tb p, api.FindParentTrustBoundary input tb = some p → rank p < rank tb)

/-- The asset "bucket" of scenario E6, tagged `aws:s3`. -/
def bucketE6 : TechnicalAsset :=
  plainAsset "bucket" .Datastore .Internal .Operational .Operational ["aws:s3"]

/-- The trust boundary "aws-vpc" of scenario E6, tagged `aws`, containing "bucket". -/
def boundaryE6 : TrustBoundary :=
  { emptyBoundary "aws-vpc" .NetworkCloudProvider ["aws"] with
    TechnicalAssetsInside := ["bucket"] }

/-- Scenario E6 of the specification. -/
def scenarioE6 : Model :=
  { TechnicalAssets := [("bucket", bucketE6)], DataAssets := [],
    TrustBoundaries := [("aws-vpc", boundaryE6)], SharedRuntimes := [] }

/-- The minimum of the raw attractiveness over the technical assets of the model, as computed by
the loop of lines 41-49 of `raa.go`. -/
def rawMinimum (tx : Taxonomy) (input : Model) : Option ℚ :=
  (minMaxLoop tx input (sortStrings (mapKeys input.TechnicalAssets))
    (9223372036854775807, -9223372036854775808)).map Prod.fst

/-- The parent relation of the trust boundaries: `p` is the boundary that
`FindParentTrustBoundary` returns for `tb`. -/
def parentOf (api : TypesAPI) (model : Model) (tb p : TrustBoundary) : Prop :=
  api.FindParentTrustBoundary model tb = some p

/-- The parent relation is acyclic over the finite set of trust boundaries of the model: every
parent is a trust boundary of the model, and no trust boundary is its own ancestor. -/
def parentsAcyclic (api : TypesAPI) (model : Model) : Prop :=
  (∀ tb p, parentOf api model tb p → p ∈ model.TrustBoundaries.map Prod.snd) ∧
  ∀ tb, ¬ Relation.TransGen (parentOf api model) tb tb

/-- The tag traversal in the words of the specification: the asset itself is tagged, or its
enclosing trust boundary or one of the ancestors of that boundary is tagged, or a shared runtime
the asset runs on is tagged. -/
def taggedTraversingUp (api : TypesAPI) (model : Model) (ta : TechnicalAsset)
    (tags : List String) : Prop :=
  ta.IsTaggedWithAny tags = true ∨
  (∃ tb anc, api.GetTechnicalAssetTrustBoundaryId model ta ≠ "" ∧
    mapGet model.TrustBoundaries (api.GetTechnicalAssetTrustBoundaryId model ta) = some tb ∧
    Relation.ReflTransGen (parentOf api model) tb anc ∧ anc.IsTaggedWithAny tags = true) ∨
  (∃ sr ∈ model.SharedRuntimes,
    ta.Id ∈ sr.2.TechnicalAssetsRunning ∧ sr.2.IsTaggedWithAny tags = true)

/-- The asset "vm" of `nestedCloudModel`, tagged `aws:ebs`. -/
def vmNested : TechnicalAsset :=
  plainAsset "vm" .Process .Internal .Operational .Operational ["aws:ebs"]

/-- The asset "plain" of `nestedCloudModel`, without tags. -/
def plainNested : TechnicalAsset :=
  plainAsset "plain" .Process .Internal .Operational .Operational []

/-- The trust boundary "outer" of `nestedCloudModel`, tagged `aws:ec2`, with the nested boundary
"inner". -/
def outerNested : TrustBoundary :=
  { emptyBoundary "outer" .NetworkCloudProvider ["aws:ec2"] with
    TrustBoundariesNested := ["inner"] }

/-- The trust boundary "inner" of `nestedCloudModel`, untagged, containing "vm" and "plain". -/
def innerNested : TrustBoundary :=
  { emptyBoundary "inner" .NetworkCloudSecurityGroup [] with
    TechnicalAssetsInside := ["vm", "plain"] }

/-- A model with two nested trust boundaries: "outer" (tagged `aws:ec2`) contains "inner"
(untagged), which contains the assets "vm" (tagged `aws:ebs`) and "plain" (untagged). -/
def nestedCloudModel : Model :=
  { TechnicalAssets := [("plain", plainNested), ("vm", vmNested)], DataAssets := []
    TrustBoundaries := [("inner", innerNested), ("outer", outerNested)], SharedRuntimes := [] }

/-! ## The classification pass as a list of insertions -/

/-- One insertion step of the classification pass of `GenerateRisks` (lines 85-142). -/
inductive ClassifyOp
  /-- A call `addAccordingToBaseTag(techAsset, tags, ...)`. -/
  | asset (techAsset : TechnicalAsset) (tags : List String)
  /-- The statement `techAssetsWithUnspecificCloudRisks[techAssetID] = true` of line 109. -/
  | unspecific (techAssetID : String)
  /-- A call `addTrustBoundaryAccordingToBaseTag(trustBoundary, ...)`. -/
  | boundary (trustBoundary : TrustBoundary)
  /-- A call `addSharedRuntimeAccordingToBaseTag(sharedRuntime, ...)`. -/
  | runtime (sharedRuntime : SharedRuntime)

/-- The effect of one insertion step on the sixteen id sets. -/
def ClassifyOp.apply : ClassifyOp → Buckets → Buckets
  | .asset techAsset tags, b => addAccordingToBaseTag techAsset tags b
  | .unspecific techAssetID, b =>
    { b with techAssetsWithUnspecificCloudRisks :=
        b.techAssetsWithUnspecificCloudRisks.insert techAssetID }
  | .boundary trustBoundary, b => addTrustBoundaryAccordingToBaseTag trustBoundary b
  | .runtime sharedRuntime, b => addSharedRuntimeAccordingToBaseTag sharedRuntime b

/-- The insertion steps applied one after the other. -/
def applyOps (ops : List ClassifyOp) (b : Buckets) : Buckets :=
  ops.foldl (fun acc op => op.apply acc) b

/-- The step taken by the inner loop of lines 93-110 for one asset id. -/
def opInside (input : Model) (taggedOuterTB : Bool) (trustBoundary : TrustBoundary)
    (techAssetID : String) : Option ClassifyOp :=
  (mapGet input.TechnicalAssets techAssetID).map (fun tA =>
    if tA.IsTaggedWithAny SupportedTags then ClassifyOp.asset tA tA.Tags
    else if taggedOuterTB then ClassifyOp.asset tA trustBoundary.Tags
    else ClassifyOp.unspecific techAssetID)

/-- The steps taken by the loop of lines 85-111 for one trust boundary. -/
def opsOfTrustBoundary (api : TypesAPI) (input : Model) (kv : String × TrustBoundary) :
    List ClassifyOp :=
  if (!kv.2.IsTaggedWithAny SupportedTags && !kv.2.BoundaryType.IsWithinCloud) = true then []
  else
    ClassifyOp.boundary kv.2 ::
      (api.RecursivelyAllTechnicalAssetIDsInside input kv.2).filterMap
        (opInside input (kv.2.IsTaggedWithAny SupportedTags) kv.2)

/-- The step taken by the inner loop of lines 120-131 for one asset id. -/
def opInsideTagged (input : Model) (tB : TrustBoundary) (candidateID : String) :
    Option ClassifyOp :=
  (mapGet input.TechnicalAssets candidateID).map (fun tA =>
    if tA.IsTaggedWithAny SupportedTags then ClassifyOp.asset tA tA.Tags
    else ClassifyOp.asset tA tB.Tags)

/-- The step taken by the inner loop of lines 136-141 for one asset id. -/
def opRunning (input : Model) (sR : SharedRuntime) (candidateID : String) : Option ClassifyOp :=
  (mapGet input.TechnicalAssets candidateID).map (fun tA => ClassifyOp.asset tA sR.Tags)

/-- The steps taken by the loop of lines 133-142 for one shared runtime. -/
def opsOfSharedRuntime (input : Model) (kv : String × SharedRuntime) : List ClassifyOp :=
  ClassifyOp.runtime kv.2 :: kv.2.TechnicalAssetsRunning.filterMap (opRunning input kv.2)

/-- All insertion steps of the classification pass (lines 85-142), in the order of the run. -/
def classifyOps (api : TypesAPI) (input : Model) : List ClassifyOp :=
  input.TrustBoundaries.flatMap (opsOfTrustBoundary api input)
    ++ (TechnicalAssetsTaggedWithAny input SupportedTags).map
        (fun tA => ClassifyOp.asset tA tA.Tags)
    ++ (TrustBoundariesTaggedWithAny input SupportedTags).flatMap
        (fun tB => (api.RecursivelyAllTechnicalAssetIDsInside input tB).filterMap
          (opInsideTagged input tB))
    ++ input.SharedRuntimes.flatMap (opsOfSharedRuntime input)

/-- The names of the sixteen id sets. -/
inductive BucketName
  | sharedRuntimesWithUnspecificCloudRisks
  | trustBoundariesWithUnspecificCloudRisks
  | techAssetsWithUnspecificCloudRisks
  | sharedRuntimeIDsAWS
  | trustBoundaryIDsAWS
  | techAssetIDsAWS
  | sharedRuntimeIDsAzure
  | trustBoundaryIDsAzure
  | techAssetIDsAzure
  | sharedRuntimeIDsGCP
  | trustBoundaryIDsGCP
  | techAssetIDsGCP
  | sharedRuntimeIDsOCP
  | trustBoundaryIDsOCP
  | techAssetIDsOCP
  | techAssetIDsWithSubtagSpecificCloudRisks
  deriving DecidableEq

/-- The id set of the given name. -/
def Buckets.get (b : Buckets) : BucketName → List String
  | .sharedRuntimesWithUnspecificCloudRisks => b.sharedRuntimesWithUnspecificCloudRisks
  | .trustBoundariesWithUnspecificCloudRisks => b.trustBoundariesWithUnspecificCloudRisks
  | .techAssetsWithUnspecificCloudRisks => b.techAssetsWithUnspecificCloudRisks
  | .sharedRuntimeIDsAWS => b.sharedRuntimeIDsAWS
  | .trustBoundaryIDsAWS => b.trustBoundaryIDsAWS
  | .techAssetIDsAWS => b.techAssetIDsAWS
  | .sharedRuntimeIDsAzure => b.sharedRuntimeIDsAzure
  | .trustBoundaryIDsAzure => b.trustBoundaryIDsAzure
  | .techAssetIDsAzure => b.techAssetIDsAzure
  | .sharedRuntimeIDsGCP => b.sharedRuntimeIDsGCP
  | .trustBoundaryIDsGCP => b.trustBoundaryIDsGCP
  | .techAssetIDsGCP => b.techAssetIDsGCP
  | .sharedRuntimeIDsOCP => b.sharedRuntimeIDsOCP
  | .trustBoundaryIDsOCP => b.trustBoundaryIDsOCP
  | .techAssetIDsOCP => b.techAssetIDsOCP
  | .techAssetIDsWithSubtagSpecificCloudRisks => b.techAssetIDsWithSubtagSpecificCloudRisks

/-! ## The emission pass in closed form -/

/-- The risks appended by one shared-runtime loop (lines 193-211) over the enumeration `ids`. -/
def sharedRuntimeRisks (api : TypesAPI) (input : Model) (pfx details : String)
    (ids : List String) : List Risk :=
  ids.filterMap (fun id => (mapGet input.SharedRuntimes id).map
    (fun sr => createRiskForSharedRuntime api input sr pfx details))

/-- The risks appended by one trust-boundary loop (lines 214-232) over the enumeration `ids`. -/
def trustBoundaryRisks (api : TypesAPI) (input : Model) (pfx details : String)
    (ids : List String) : List Risk :=
  ids.filterMap (fun id => (mapGet input.TrustBoundaries id).map
    (fun tb => createRiskForTrustBoundary api input tb pfx details))

/-- The risks appended by one most-sensitive-asset block (lines 235-265). -/
def mostSensitiveRisks (api : TypesAPI) (ord : List String → List String) (input : Model)
    (added : Bool) (techAssets : List String) (pfx details : String) : List Risk :=
  if added then []
  else
    match findMostSensitiveTechnicalAsset api ord input techAssets with
    | some (some mostRelevantAsset) =>
      [createRiskForTechnicalAsset api input mostRelevantAsset pfx details]
    | _ => []

/-- The risks appended by the sub-tag loop (lines 268-277) for one id. -/
def subtagRisksOfId (api : TypesAPI) (input : Model) (id : String) : List Risk :=
  match mapGet input.TechnicalAssets id with
  | none => []
  | some tA =>
    (if isTechnicalAssetTaggedWithAnyTraversingUp api input tA ["aws:ec2"] = some true then
      [createRiskForTechnicalAsset api input tA "EC2" "CIS Benchmark for Amazon Linux"]
    else [])
    ++ (if isTechnicalAssetTaggedWithAnyTraversingUp api input tA ["aws:s3"] = some true then
      [createRiskForTechnicalAsset api input tA "S3" "Security Best Practices for AWS S3"]
    else [])

/-- The risks appended by lines 193-211 (shared runtimes), in the order of the run. -/
def emittedSharedRuntimeRisks (api : TypesAPI) (ord : List String → List String)
    (input : Model) (b : Buckets) : List Risk :=
  sharedRuntimeRisks api input "AWS" "CIS Benchmark for AWS" (ord b.sharedRuntimeIDsAWS)
  ++ sharedRuntimeRisks api input "Azure" "CIS Benchmark for Microsoft Azure"
      (ord b.sharedRuntimeIDsAzure)
  ++ sharedRuntimeRisks api input "GCP" "CIS Benchmark for Google Cloud Computing Platform"
      (ord b.sharedRuntimeIDsGCP)
  ++ sharedRuntimeRisks api input "OCP" "Vendor Best Practices for Oracle Cloud Platform"
      (ord b.sharedRuntimeIDsOCP)
  ++ sharedRuntimeRisks api input "" "" (ord b.sharedRuntimesWithUnspecificCloudRisks)

/-- The risks appended by lines 214-232 (trust boundaries), in the order of the run. -/
def emittedTrustBoundaryRisks (api : TypesAPI) (ord : List String → List String)
    (input : Model) (b : Buckets) : List Risk :=
  trustBoundaryRisks api input "AWS" "CIS Benchmark for AWS" (ord b.trustBoundaryIDsAWS)
  ++ trustBoundaryRisks api input "Azure" "CIS Benchmark for Microsoft Azure"
      (ord b.trustBoundaryIDsAzure)
  ++ trustBoundaryRisks api input "GCP" "CIS Benchmark for Google Cloud Computing Platform"
      (ord b.trustBoundaryIDsGCP)
  ++ trustBoundaryRisks api input "OCP" "Vendor Best Practices for Oracle Cloud Platform"
      (ord b.trustBoundaryIDsOCP)
  ++ trustBoundaryRisks api input "" "" (ord b.trustBoundariesWithUnspecificCloudRisks)

/-- The risks appended by lines 235-265 (most sensitive assets), in the order of the run. -/
def emittedMostSensitiveRisks (api : TypesAPI) (ord : List String → List String)
    (input : Model) (b : Buckets) : List Risk :=
  mostSensitiveRisks api ord input
      (decide (ord b.sharedRuntimeIDsAWS ≠ [] ∨ ord b.trustBoundaryIDsAWS ≠ []))
      b.techAssetIDsAWS "AWS" "CIS Benchmark for AWS"
  ++ mostSensitiveRisks api ord input
      (decide (ord b.sharedRuntimeIDsAzure ≠ [] ∨ ord b.trustBoundaryIDsAzure ≠ []))
      b.techAssetIDsAzure "Azure" "CIS Benchmark for Microsoft Azure"
  ++ mostSensitiveRisks api ord input
      (decide (ord b.sharedRuntimeIDsGCP ≠ [] ∨ ord b.trustBoundaryIDsGCP ≠ []))
      b.techAssetIDsGCP "GCP" "CIS Benchmark for Google Cloud Computing Platform"
  ++ mostSensitiveRisks api ord input
      (decide (ord b.sharedRuntimeIDsOCP ≠ [] ∨ ord b.trustBoundaryIDsOCP ≠ []))
      b.techAssetIDsOCP "OCP" "Vendor Best Practices for Oracle Cloud Platform"

/-- The risks appended by lines 268-277 (sub-tag specific risks), in the order of the run. -/
def emittedSubtagRisks (api : TypesAPI) (ord : List String → List String)
    (input : Model) (b : Buckets) : List Risk :=
  (ord b.techAssetIDsWithSubtagSpecificCloudRisks).flatMap (subtagRisksOfId api input)

/-- All risks appended by the emission pass (lines 189-277), in the order of the run. -/
def emittedRisks (api : TypesAPI) (ord : List String → List String) (input : Model)
    (b : Buckets) : List Risk :=
  emittedSharedRuntimeRisks api ord input b ++ emittedTrustBoundaryRisks api ord input b
    ++ emittedMostSensitiveRisks api ord input b ++ emittedSubtagRisks api ord input b

/-- The base tag of a provider. -/
def Provider.baseTag : Provider → String
  | .AWS => "aws"
  | .Azure => "azure"
  | .GCP => "gcp"
  | .OCP => "ocp"

/-- The `details` argument with which the rule reports a provider. -/
def Provider.details : Provider → String
  | .AWS => "CIS Benchmark for AWS"
  | .Azure => "CIS Benchmark for Microsoft Azure"
  | .GCP => "CIS Benchmark for Google Cloud Computing Platform"
  | .OCP => "Vendor Best Practices for Oracle Cloud Platform"

/-- The risks of a list whose `MostRelevantSharedRuntimeId` is `k`, in the order of the list. -/
def risksOfSharedRuntime (risks : List Risk) (k : String) : List Risk :=
  risks.filter (fun r => r.MostRelevantSharedRuntimeId == k)

/-- The risks of a shared runtime in the words of the claim: one risk per provider whose base
tag the runtime carries when it carries a supported tag, and the unspecific risk otherwise. -/
def expectedSharedRuntimeRisks (api : TypesAPI) (input : Model) (R : SharedRuntime) :
    List Risk :=
  if R.IsTaggedWithAny SupportedTags then
    ([Provider.AWS, Provider.Azure, Provider.GCP, Provider.OCP].filter
      (fun p => isTaggedWithBaseTag R.Tags p.baseTag)).map
      (fun p => createRiskForSharedRuntime api input R p.name p.details)
  else [createRiskForSharedRuntime api input R "" ""]

/-- A model with three shared runtimes and nothing else: "plain" without tags, "multi" tagged
`aws:ec2` and `gcp`, and "azr" tagged `azure`. -/
def threeRuntimesModel : Model :=
  { TechnicalAssets := [], DataAssets := [], TrustBoundaries := []
    SharedRuntimes :=
      [("plain", emptyRuntime "plain" []), ("multi", emptyRuntime "multi" ["aws:ec2", "gcp"]),
       ("azr", emptyRuntime "azr" ["azure"])] }

/-! ## Vocabulary for the enumeration order of the maps -/

/-- The keys of the three maps the cloud rule ranges over are pairwise distinct, as the keys of
a Go map are. -/
def Model.keysNodup (m : Model) : Prop :=
  (mapKeys m.TechnicalAssets).Nodup ∧ (mapKeys m.TrustBoundaries).Nodup
    ∧ (mapKeys m.SharedRuntimes).Nodup

instance (m : Model) : Decidable m.keysNodup := by
  unfold Model.keysNodup
  infer_instance

/-- The model `m2` holds the four maps of `m`, enumerated in another order. -/
def Model.sameMaps (m2 m : Model) : Prop :=
  m2.TechnicalAssets.Perm m.TechnicalAssets ∧ m2.DataAssets.Perm m.DataAssets
    ∧ m2.TrustBoundaries.Perm m.TrustBoundaries ∧ m2.SharedRuntimes.Perm m.SharedRuntimes

/-- The accessors of package `types` that the cloud rule calls give the same answers on the two
models. -/
def TypesAPI.sameAccessors (api : TypesAPI) (m2 m : Model) : Prop :=
  api.RecursivelyAllTechnicalAssetIDsInside m2 = api.RecursivelyAllTechnicalAssetIDsInside m ∧
  api.FindParentTrustBoundary m2 = api.FindParentTrustBoundary m ∧
  api.GetTechnicalAssetTrustBoundaryId m2 = api.GetTechnicalAssetTrustBoundaryId m ∧
  api.HighestProcessedConfidentiality m2 = api.HighestProcessedConfidentiality m ∧
  api.HighestProcessedIntegrity m2 = api.HighestProcessedIntegrity m ∧
  api.HighestProcessedAvailability m2 = api.HighestProcessedAvailability m ∧
  api.FindTrustBoundaryHighestConfidentiality m2 = api.FindTrustBoundaryHighestConfidentiality m ∧
  api.FindTrustBoundaryHighestIntegrity m2 = api.FindTrustBoundaryHighestIntegrity m ∧
  api.FindTrustBoundaryHighestAvailability m2 = api.FindTrustBoundaryHighestAvailability m ∧
  api.FindSharedRuntimeHighestConfidentiality m2 = api.FindSharedRuntimeHighestConfidentiality m ∧
  api.FindSharedRuntimeHighestIntegrity m2 = api.FindSharedRuntimeHighestIntegrity m ∧
  api.FindSharedRuntimeHighestAvailability m2 = api.FindSharedRuntimeHighestAvailability m

/-- A model with two assets, two tagged cloud trust boundaries and two tagged shared runtimes:
boundary "b1" (tagged `aws`) contains the asset "a1" (tagged `aws:s3`), boundary "b2" (tagged
`azure`) contains the untagged asset "a2"; the shared runtimes "r1" and "r2" are tagged `gcp`
and run "a1" and "a2". -/
def orderModel : Model :=
  { TechnicalAssets :=
      [("a1", plainAsset "a1" .Datastore .Internal .Operational .Operational ["aws:s3"]),
       ("a2", plainAsset "a2" .Process .Confidential .Critical .Operational [])]
    DataAssets := []
    TrustBoundaries :=
      [("b1", { emptyBoundary "b1" .NetworkCloudProvider ["aws"] with
                  TechnicalAssetsInside := ["a1"] }),
       ("b2", { emptyBoundary "b2" .NetworkCloudProvider ["azure"] with
                  TechnicalAssetsInside := ["a2"] })]
    SharedRuntimes :=
      [("r1", { emptyRuntime "r1" ["gcp"] with TechnicalAssetsRunning := ["a1"] }),
       ("r2", { emptyRuntime "r2" ["gcp"] with TechnicalAssetsRunning := ["a2"] })] }

/-- The model `orderModel` with its three maps enumerated in the opposite order. -/
def orderModelSwapped : Model :=
  { TechnicalAssets := orderModel.TechnicalAssets.reverse
    DataAssets := orderModel.DataAssets
    TrustBoundaries := orderModel.TrustBoundaries.reverse
    SharedRuntimes := orderModel.SharedRuntimes.reverse }

/-! ## The scorer with the rounding of `float64` (`pkg/model/raa.go`) -/

/-- The loops over `DataAssetsProcessed` and over `DataAssetsStored` of
`calculateAttackerAttractiveness` (lines 96-108) in `float64`: `rnd` is the rounding applied to
the result of every multiplication and of every addition (each operation is rounded on its own,
none is fused), so `score += c * q` is `rnd (score + rnd (c * q))`. -/
def scoreProcessedOrStoredRounded (rnd : ℚ → ℚ) (tx : Taxonomy) (input : Model) :
    List String → ℚ → Option ℚ
  | [], score => some score
  | dataAssetId :: rest, score =>
    match mapGet input.DataAssets dataAssetId with
    | none => none
    | some dataAsset =>
      scoreProcessedOrStoredRounded rnd tx input rest
        (rnd (rnd (rnd (score
              + rnd (tx.ConfidentialityForProcessedOrStoredData dataAsset.Confidentiality
                  * tx.QuantityFactor dataAsset.Quantity))
            + rnd (tx.CriticalityForProcessedOrStoredData dataAsset.Integrity
                  * tx.QuantityFactor dataAsset.Quantity))
          + tx.CriticalityForProcessedOrStoredData dataAsset.Availability))

/-- The inner loops over `DataAssetsSent` and `DataAssetsReceived` (lines 111-123) in
`float64`, with the rounding `rnd` after every operation. -/
def scoreTransferredRounded (rnd : ℚ → ℚ) (tx : Taxonomy) (input : Model) :
    List String → ℚ → Option ℚ
  | [], score => some score
  | dataAssetId :: rest, score =>
    match mapGet input.DataAssets dataAssetId with
    | none => none
    | some dataAsset =>
      scoreTransferredRounded rnd tx input rest
        (rnd (rnd (rnd (score
              + rnd (tx.ConfidentialityForInOutTransferredData dataAsset.Confidentiality
                  * tx.QuantityFactor dataAsset.Quantity))
            + rnd (tx.CriticalityForInOutTransferredData dataAsset.Integrity
                  * tx.QuantityFactor dataAsset.Quantity))
          + tx.CriticalityForInOutTransferredData dataAsset.Availability))

/-- The loop over `CommunicationLinks` (lines 110-124) in `float64`. -/
def scoreLinksRounded (rnd : ℚ → ℚ) (tx : Taxonomy) (input : Model) :
    List CommunicationLink → ℚ → Option ℚ
  | [], score => some score
  | dataFlow :: rest, score =>
    match scoreTransferredRounded rnd tx input dataFlow.DataAssetsSent score with
    | none => none
    | some score1 =>
      match scoreTransferredRounded rnd tx input dataFlow.DataAssetsReceived score1 with
      | none => none
      | some score2 => scoreLinksRounded rnd tx input rest score2

/-- The value of `score` of `calculateAttackerAttractiveness` when line 126 is reached, for an
asset in scope (lines 90-124) in `float64`: the three weights of the asset are added to 0, then
the three loops run. -/
def rawScoreRounded (rnd : ℚ → ℚ) (tx : Taxonomy) (input : Model) (techAsset : TechnicalAsset) :
    Option ℚ :=
  match scoreProcessedOrStoredRounded rnd tx input techAsset.DataAssetsProcessed
      (rnd (rnd (rnd (0 + tx.ConfidentialityForAsset techAsset.Confidentiality)
          + tx.CriticalityForAsset techAsset.Integrity)
        + tx.CriticalityForAsset techAsset.Availability)) with
  | none => none
  | some score1 =>
    match scoreProcessedOrStoredRounded rnd tx input techAsset.DataAssetsStored score1 with
    | none => none
    | some score2 => scoreLinksRounded rnd tx input techAsset.CommunicationLinks score2

/-- The technology multiplier of `calculateAttackerAttractiveness` (lines 126-140) in
`float64`: the one division or multiplication of the branch taken, rounded. -/
def applyTechnologyFactorRounded (rnd : ℚ → ℚ) (techAsset : TechnicalAsset) (score : ℚ) : ℚ :=
  if GetAttribute techAsset.Technologies [.LoadBalancer, .ReverseProxy] then
    rnd (score / (11 / 2))
  else if GetAttribute techAsset.Technologies [.Monitoring] then rnd (score / 5)
  else if GetAttribute techAsset.Technologies [.ContainerPlatform] then rnd (score * 5)
  else if GetAttribute techAsset.Technologies [.Vault] then rnd (score * 2)
  else if GetAttribute techAsset.Technologies
      [.BuildPipeline, .SourcecodeRepository, .ArtifactRegistry] then rnd (score * 2)
  else if GetAttribute techAsset.Technologies
      [.IdentityProvider, .IdentityStoreDatabase, .IdentityStoreLDAP] then rnd (score * (5 / 2))
  else if techAsset.AssetType = .Datastore then rnd (score * 2)
  else score

/-- The function `calculateAttackerAttractiveness` of `raa.go` in `float64`, for a non-nil
`techAsset`: `rnd` is the rounding applied to the result of every operation; with the identity
for `rnd` it is `calculateAttackerAttractiveness`. -/
def calculateAttackerAttractivenessRounded (rnd : ℚ → ℚ) (tx : Taxonomy) (input : Model)
    (techAsset : TechnicalAsset) : Option ℚ :=
  if techAsset.OutOfScope then some 0
  else
    match rawScoreRounded rnd tx input techAsset with
    | none => none
    | some score =>
      some (if techAsset.MultiTenant then
              rnd (applyTechnologyFactorRounded rnd techAsset score * (3 / 2))
            else applyTechnologyFactorRounded rnd techAsset score)

/-- The weight tables `fibonacciTaxonomy` as `float64` values: the quantity factor 0.4 is not a
`float64` and is rounded; the other entries are integers. -/
def float64Taxonomy : Taxonomy :=
  { fibonacciTaxonomy with
    QuantityFactor := fun q => float64Round (fibonacciTaxonomy.QuantityFactor q) }

/-- The technology rules of the specification in their priority order: the attributes that
select the rule and the operation it applies to the score. -/
def technologyOperations : List (List TechnologyAttribute × (ℚ → ℚ)) :=
  [([.LoadBalancer, .ReverseProxy], fun score => score / (11 / 2)),
   ([.Monitoring], fun score => score / 5),
   ([.ContainerPlatform], fun score => score * 5),
   ([.Vault], fun score => score * 2),
   ([.BuildPipeline, .SourcecodeRepository, .ArtifactRegistry], fun score => score * 2),
   ([.IdentityProvider, .IdentityStoreDatabase, .IdentityStoreLDAP],
      fun score => score * (5 / 2))]

/-- The one technology operation of an asset as the specification words it: that of the first
rule that matches, else the doubling of a datastore, else none. -/
def specTechnologyOperation (A : TechnicalAsset) : Option (ℚ → ℚ) :=
  match technologyOperations.find? (fun rule => GetAttribute A.Technologies rule.1) with
  | some rule => some rule.2
  | none => if A.AssetType = .Datastore then some (fun score => score * 2) else none

/-- The technology operation of the specification applied to a score in `float64`: the result
of the one operation is rounded; without an operation the score is unchanged. -/
def specTechnologyApplied (rnd : ℚ → ℚ) (A : TechnicalAsset) (score : ℚ) : ℚ :=
  match specTechnologyOperation A with
  | some operation => rnd (operation score)
  | none => score

/-- The multipliers of the specification applied to a score in `float64`: the one technology
operation, if any, and then, for a multi-tenant asset, the factor 1.5, each result rounded. -/
def specMultiplied (rnd : ℚ → ℚ) (A : TechnicalAsset) (score : ℚ) : ℚ :=
  if A.MultiTenant then rnd (specTechnologyApplied rnd A score * (3 / 2))
  else specTechnologyApplied rnd A score

/-- A model of three technical assets outside every trust boundary and shared runtime: "high"
(a strictly confidential datastore) and "low" (a public process) are tagged `aws`, "az" is
tagged `azure`. -/
def taggedPairModel : Model :=
  { TechnicalAssets :=
      [("az", plainAsset "az" .Process .Internal .Operational .Operational ["azure"]),
       ("high", plainAsset "high" .Datastore .StrictlyConfidential .MissionCritical .Critical
          ["aws"]),
       ("low", plainAsset "low" .Process .Public .Archive .Archive ["aws"])]
    DataAssets := [], TrustBoundaries := [], SharedRuntimes := [] }

/-- The names under which the cloud rule reports a provider or a sub-tag: the non-empty values
of the `prefix` argument of the three `createRiskFor...` methods. -/
def cloudNames : List String :=
  ["AWS", "Azure", "GCP", "OCP", "EC2", "S3"]

/-- The risks that the cloud rule returns on `orderModel` when the id sets are enumerated as
they are stored. -/
def orderModelRisks : List Risk :=
  match MissingCloudHardeningRule.GenerateRisks specAPI id orderModel with
  | some (risks, _) => risks
  | none => []

theorem mapGet_isSome_of_mem_keys {α : Type} (m : List (String × α)) (key : String)
    (h : key ∈ mapKeys m) : ∃ v, mapGet m key = some v := by
  induction m with
  | nil => simp [mapKeys] at h
  | cons kv rest ih =>
    obtain ⟨k, v⟩ := kv
    by_cases hk : k = key
    · exact ⟨v, by simp [mapGet, hk]⟩
    · have h2 : key ∈ mapKeys rest := by
        simp only [mapKeys, List.map_cons, List.mem_cons] at h
        rcases h with h | h
        · exact absurd h.symm hk
        · exact h
      obtain ⟨w, hw⟩ := ih h2
      exact ⟨w, by simp [mapGet, hk, hw]⟩

theorem mapGet_mem {α : Type} (m : List (String × α)) (key : String) (v : α)
    (h : mapGet m key = some v) : (key, v) ∈ m := by
  induction m with
  | nil => simp [mapGet] at h
  | cons kv rest ih =>
    obtain ⟨k, w⟩ := kv
    by_cases hk : k = key
    · simp [mapGet, hk] at h
      simp [hk, h]
    · simp [mapGet, hk] at h
      exact List.mem_cons_of_mem _ (ih h)

theorem mapGet_mem_keys {α : Type} (m : List (String × α)) (key : String) (v : α)
    (h : mapGet m key = some v) : key ∈ mapKeys m :=
  List.mem_map.2 ⟨(key, v), mapGet_mem m key v h, rfl⟩

theorem sortStrings_perm (keys : List String) : (sortStrings keys).Perm keys :=
  List.perm_insertionSort _ _

theorem mem_sortStrings (keys : List String) (k : String) : k ∈ sortStrings keys ↔ k ∈ keys :=
  (sortStrings_perm keys).mem_iff

theorem flatMap_single_of_nodup {β : Type} (h : String → List β) (l : List String) (id : String)
    (hn : l.Nodup) (hid : id ∈ l) (hz : ∀ x ∈ l, x ≠ id → h x = []) :
    l.flatMap h = h id := by
  induction l with
  | nil => simp at hid
  | cons x rest ih =>
    rw [List.nodup_cons] at hn
    rw [List.flatMap_cons]
    by_cases hx : x = id
    · subst hx
      have : rest.flatMap h = [] := by
        rw [List.flatMap_eq_nil_iff]
        intro y hy
        exact hz y (List.mem_cons_of_mem _ hy) (fun e => hn.1 (e ▸ hy))
      rw [this, List.append_nil]
    · have hid2 : id ∈ rest := by
        rcases List.mem_cons.1 hid with e | e
        · exact absurd e.symm hx
        · exact e
      rw [hz x (List.mem_cons_self _ _) hx, List.nil_append]
      exact ih hn.2 hid2 (fun y hy => hz y (List.mem_cons_of_mem _ hy))

theorem confidentiality_lt_def (a b : Confidentiality) : a < b ↔ a.toNat < b.toNat := Iff.rfl

theorem confidentiality_le_def (a b : Confidentiality) : a ≤ b ↔ a.toNat ≤ b.toNat := Iff.rfl

theorem criticality_lt_def (a b : Criticality) : a < b ↔ a.toNat < b.toNat := Iff.rfl

theorem criticality_le_def (a b : Criticality) : a ≤ b ↔ a.toNat ≤ b.toNat := Iff.rfl

/-! ## Unencrypted asset rule -/

theorem unencrypted_loop_eq (api : TypesAPI) (input : Model) (ids : List String)
    (h : ∀ id ∈ ids, id ∈ mapKeys input.TechnicalAssets) (risks : List Risk) :
    UnencryptedAssetRule.loop api input ids risks =
      some (risks ++ ids.flatMap (fun id =>
        match mapGet input.TechnicalAssets id with
        | some a => UnencryptedAssetRule.risksOfAsset api input a
        | none => [])) := by
  induction ids generalizing risks with
  | nil => simp [UnencryptedAssetRule.loop]
  | cons id rest ih =>
    obtain ⟨a, ha⟩ := mapGet_isSome_of_mem_keys _ _ (h id (List.mem_cons_self _ _))
    simp only [UnencryptedAssetRule.loop, ha, List.flatMap_cons]
    rw [ih (fun x hx => h x (List.mem_cons_of_mem _ hx))]
    simp

theorem unencrypted_generateRisks_eq (api : TypesAPI) (input : Model) :
    UnencryptedAssetRule.GenerateRisks api input =
      some ((SortedTechnicalAssetIDs input).flatMap (fun id =>
        match mapGet input.TechnicalAssets id with
        | some a => UnencryptedAssetRule.risksOfAsset api input a
        | none => []), none) := by
  unfold UnencryptedAssetRule.GenerateRisks
  rw [unencrypted_loop_eq api input (SortedTechnicalAssetIDs input)
    (fun id hid => (mem_sortStrings _ _).1 hid)]
  simp

theorem risksOfAsset_ne_nil_iff (api : TypesAPI) (input : Model) (A : TechnicalAsset) :
    UnencryptedAssetRule.risksOfAsset api input A ≠ [] ↔
      (A.OutOfScope = false ∧ GetAttribute A.Technologies [.IsNoStorageAtRest] = false ∧
        GetAttribute A.Technologies [.IsEmbeddedComponent] = false ∧
        A.DataAssetsStored ≠ [] ∧
        Confidentiality.Confidential ≤ api.HighestStoredConfidentiality input A ∧
        Criticality.Critical ≤ api.HighestStoredIntegrity input A ∧
        (A.Encryption = .NoneEncryption ∨
          ((api.HighestStoredConfidentiality input A = .StrictlyConfidential ∨
              api.HighestStoredIntegrity input A = .MissionCritical) ∧
            GetAttribute A.Technologies [.IsUsuallyStoringEndUserData] = true ∧
            A.Encryption ≠ .DataWithEndUserIndividualKey))) := by
  unfold UnencryptedAssetRule.risksOfAsset isEncryptionWaiver
  simp only [confidentiality_lt_def, confidentiality_le_def, criticality_lt_def,
    criticality_le_def, List.length_eq_zero]
  split_ifs with h1 h2 h3 h4 h5 <;> simp_all
  · intro a b c
    rcases h1 with h | h | h <;> simp_all
  · intro a b
    omega

theorem risksOfAsset_length (api : TypesAPI) (input : Model) (A : TechnicalAsset) :
    (UnencryptedAssetRule.risksOfAsset api input A).length ≤ 1 := by
  unfold UnencryptedAssetRule.risksOfAsset
  split_ifs <;> simp

theorem risksOfAsset_scope (api : TypesAPI) (input : Model) (A : TechnicalAsset) (r : Risk)
    (h : r ∈ UnencryptedAssetRule.risksOfAsset api input A) :
    r.MostRelevantTechnicalAssetId = A.Id := by
  unfold UnencryptedAssetRule.risksOfAsset at h
  split_ifs at h <;> simp_all [UnencryptedAssetRule.createRisk]

theorem risksOfAsset_no_stored (api : TypesAPI) (input : Model) (A : TechnicalAsset)
    (h : A.DataAssetsStored = []) : UnencryptedAssetRule.risksOfAsset api input A = [] := by
  unfold UnencryptedAssetRule.risksOfAsset
  simp [h]

theorem risksOfAsset_filter_scope (api : TypesAPI) (input : Model)
    (hid : ∀ kv ∈ input.TechnicalAssets, kv.2.Id = kv.1)
    (hnd : (mapKeys input.TechnicalAssets).Nodup) (id : String) (A : TechnicalAsset)
    (hA : mapGet input.TechnicalAssets id = some A) :
    ((SortedTechnicalAssetIDs input).flatMap (fun id =>
        match mapGet input.TechnicalAssets id with
        | some a => UnencryptedAssetRule.risksOfAsset api input a
        | none => [])).filter (fun r => decide (r.MostRelevantTechnicalAssetId = A.Id)) =
      UnencryptedAssetRule.risksOfAsset api input A := by
  have hAid : A.Id = id := hid _ (mapGet_mem _ _ _ hA)
  rw [List.filter_flatMap]
  rw [flatMap_single_of_nodup _ (SortedTechnicalAssetIDs input) id
    ((sortStrings_perm _).nodup_iff.2 hnd)
    ((mem_sortStrings _ _).2 (mapGet_mem_keys _ _ _ hA))]
  · simp only [hA]
    rw [List.filter_eq_self]
    intro r hr
    simp [risksOfAsset_scope api input A r hr]
  · intro x _ hx
    cases hB : mapGet input.TechnicalAssets x with
    | none => simp
    | some B =>
      simp only
      rw [List.filter_eq_nil_iff]
      intro r hr
      have h1 := risksOfAsset_scope api input B r hr
      have h2 : B.Id = x := hid _ (mapGet_mem _ _ _ hB)
      simp [h1, h2, hAid, hx]

/-- C5: for every model, `UnencryptedAssetRule.GenerateRisks` returns the risks of the assets
taken in sorted id order; the iteration for an asset A emits a risk if and only if A is in
scope, is no encryption waiver, stores data, has highest stored confidentiality at least
confidential and highest stored integrity at least critical, and is either unencrypted or (very
sensitive, usually storing end user data and not encrypted with end user individual keys); it
emits at most one risk, scoped to A, and none when A stores no data.  When ids equal map keys
the risks of the result scoped to A are exactly those emitted for A. -/
theorem C5_unencrypted_emits_iff (api : TypesAPI) (input : Model) :
    ∃ risks,
      UnencryptedAssetRule.GenerateRisks api input = some (risks, none) ∧
      risks = (SortedTechnicalAssetIDs input).flatMap (fun id =>
        match mapGet input.TechnicalAssets id with
        | some a => UnencryptedAssetRule.risksOfAsset api input a
        | none => []) ∧
      (∀ A : TechnicalAsset,
        (UnencryptedAssetRule.risksOfAsset api input A ≠ [] ↔
          (A.OutOfScope = false ∧ GetAttribute A.Technologies [.IsNoStorageAtRest] = false ∧
            GetAttribute A.Technologies [.IsEmbeddedComponent] = false ∧
            A.DataAssetsStored ≠ [] ∧
            Confidentiality.Confidential ≤ api.HighestStoredConfidentiality input A ∧
            Criticality.Critical ≤ api.HighestStoredIntegrity input A ∧
            (A.Encryption = .NoneEncryption ∨
              ((api.HighestStoredConfidentiality input A = .StrictlyConfidential ∨
                  api.HighestStoredIntegrity input A = .MissionCritical) ∧
                GetAttribute A.Technologies [.IsUsuallyStoringEndUserData] = true ∧
                A.Encryption ≠ .DataWithEndUserIndividualKey)))) ∧
        (UnencryptedAssetRule.risksOfAsset api input A).length ≤ 1 ∧
        (∀ r ∈ UnencryptedAssetRule.risksOfAsset api input A,
          r.MostRelevantTechnicalAssetId = A.Id) ∧
        (A.DataAssetsStored = [] → UnencryptedAssetRule.risksOfAsset api input A = [])) ∧
      ((∀ kv ∈ input.TechnicalAssets, kv.2.Id = kv.1) →
        (mapKeys input.TechnicalAssets).Nodup →
        ∀ id A, mapGet input.TechnicalAssets id = some A →
          risks.filter (fun r => decide (r.MostRelevantTechnicalAssetId = A.Id)) =
            UnencryptedAssetRule.risksOfAsset api input A) :=
  ⟨_, unencrypted_generateRisks_eq api input, rfl,
    fun A => ⟨risksOfAsset_ne_nil_iff api input A, risksOfAsset_length api input A,
      risksOfAsset_scope api input A, risksOfAsset_no_stored api input A⟩,
    fun hid hnd id A hA => risksOfAsset_filter_scope api input hid hnd id A hA⟩

/-- Scenario E3 as an instance of C5: the rule returns exactly one risk, the one scoped to the
unencrypted datastore "kv". -/
theorem C5_unencrypted_emits_iff_witness :
    ∃ risks,
      UnencryptedAssetRule.GenerateRisks specAPI scenarioE3 = some (risks, none) ∧
      risks = [riskE3] ∧
      risks.filter (fun r => decide (r.MostRelevantTechnicalAssetId = kvE3.Id)) =
        UnencryptedAssetRule.risksOfAsset specAPI scenarioE3 kvE3 := by
  obtain ⟨risks, h1, h2, _, h4⟩ := C5_unencrypted_emits_iff specAPI scenarioE3
  refine ⟨risks, h1, ?_, h4 (by decide) (by decide) "kv" kvE3 (by decide)⟩
  rw [h2]
  decide

/-- C6: every risk returned by `UnencryptedAssetRule.GenerateRisks` was emitted for a technical
asset A of the model; if A is unencrypted its impact is high when the stored data is very
sensitive and medium otherwise; if A is encrypted (the end user key branch) the encryption is
not with end user individual keys, the impact is medium, and the title ends with the mention of
the missing end user individual encryption. -/
theorem C6_unencrypted_impact (api : TypesAPI) (input : Model) (risks : List Risk)
    (e : Option String) (h : UnencryptedAssetRule.GenerateRisks api input = some (risks, e))
    (r : Risk) (hr : r ∈ risks) :
    ∃ id A, mapGet input.TechnicalAssets id = some A ∧
      r ∈ UnencryptedAssetRule.risksOfAsset api input A ∧
      r.MostRelevantTechnicalAssetId = A.Id ∧
      (A.Encryption = .NoneEncryption →
        r.ExploitationImpact =
          if api.HighestStoredConfidentiality input A = .StrictlyConfidential
              ∨ api.HighestStoredIntegrity input A = .MissionCritical
          then .HighImpact else .MediumImpact) ∧
      (A.Encryption ≠ .NoneEncryption →
        A.Encryption ≠ .DataWithEndUserIndividualKey ∧
        r.ExploitationImpact = .MediumImpact ∧
        r.Title = "<b>Unencrypted Technical Asset</b> named <b>" ++ A.Title ++ "</b>"
          ++ " missing end user individual encryption with "
          ++ api.EncryptionStyleString .DataWithEndUserIndividualKey) := by
  rw [unencrypted_generateRisks_eq] at h
  simp only [Option.some.injEq, Prod.mk.injEq] at h
  rw [← h.1, List.mem_flatMap] at hr
  obtain ⟨id, _, hr⟩ := hr
  cases hA : mapGet input.TechnicalAssets id with
  | none => simp [hA] at hr
  | some A =>
    simp only [hA] at hr
    refine ⟨id, A, hA, hr, risksOfAsset_scope api input A r hr, ?_, ?_⟩
    · intro hE
      unfold UnencryptedAssetRule.risksOfAsset at hr
      split_ifs at hr <;> simp_all [UnencryptedAssetRule.createRisk]
    · intro hE
      unfold UnencryptedAssetRule.risksOfAsset at hr
      split_ifs at hr <;> simp_all [UnencryptedAssetRule.createRisk]

/-- Scenarios E3 and E4 as instances of C6: one medium risk "unencrypted-asset@kv" in E3, and in
E4 one medium risk whose title mentions the end user individual key. -/
theorem C6_unencrypted_impact_witness :
    UnencryptedAssetRule.GenerateRisks specAPI scenarioE3 = some ([riskE3], none) ∧
    UnencryptedAssetRule.GenerateRisks specAPI scenarioE4 = some ([riskE4], none) ∧
    riskE4.ExploitationImpact = .MediumImpact ∧
    ∃ id A, mapGet scenarioE4.TechnicalAssets id = some A ∧
      riskE4 ∈ UnencryptedAssetRule.risksOfAsset specAPI scenarioE4 A ∧
      riskE4.MostRelevantTechnicalAssetId = A.Id ∧
      (A.Encryption = .NoneEncryption →
        riskE4.ExploitationImpact =
          if specAPI.HighestStoredConfidentiality scenarioE4 A = .StrictlyConfidential
              ∨ specAPI.HighestStoredIntegrity scenarioE4 A = .MissionCritical
          then .HighImpact else .MediumImpact) ∧
      (A.Encryption ≠ .NoneEncryption →
        A.Encryption ≠ .DataWithEndUserIndividualKey ∧
        riskE4.ExploitationImpact = .MediumImpact ∧
        riskE4.Title = "<b>Unencrypted Technical Asset</b> named <b>" ++ A.Title ++ "</b>"
          ++ " missing end user individual encryption with "
          ++ specAPI.EncryptionStyleString .DataWithEndUserIndividualKey) :=
  ⟨by decide, by decide, by decide,
    C6_unencrypted_impact specAPI scenarioE4 [riskE4] none (by decide) riskE4 (by simp)⟩

/-! ## Relative attacker attractiveness -/

theorem scoreProcessedOrStored_isSome (tx : Taxonomy) (input : Model) (ids : List String)
    (h : ∀ id ∈ ids, id ∈ mapKeys input.DataAssets) (score : ℚ) :
    ∃ v, scoreProcessedOrStored tx input ids score = some v := by
  induction ids generalizing score with
  | nil => exact ⟨score, rfl⟩
  | cons id rest ih =>
    obtain ⟨d, hd⟩ := mapGet_isSome_of_mem_keys _ _ (h id (List.mem_cons_self _ _))
    simp only [scoreProcessedOrStored, hd]
    exact ih (fun x hx => h x (List.mem_cons_of_mem _ hx)) _

theorem scoreTransferred_isSome (tx : Taxonomy) (input : Model) (ids : List String)
    (h : ∀ id ∈ ids, id ∈ mapKeys input.DataAssets) (score : ℚ) :
    ∃ v, scoreTransferred tx input ids score = some v := by
  induction ids generalizing score with
  | nil => exact ⟨score, rfl⟩
  | cons id rest ih =>
    obtain ⟨d, hd⟩ := mapGet_isSome_of_mem_keys _ _ (h id (List.mem_cons_self _ _))
    simp only [scoreTransferred, hd]
    exact ih (fun x hx => h x (List.mem_cons_of_mem _ hx)) _

theorem scoreLinks_isSome (tx : Taxonomy) (input : Model) (links : List CommunicationLink)
    (h : ∀ l ∈ links, (∀ id ∈ l.DataAssetsSent, id ∈ mapKeys input.DataAssets) ∧
      (∀ id ∈ l.DataAssetsReceived, id ∈ mapKeys input.DataAssets)) (score : ℚ) :
    ∃ v, scoreLinks tx input links score = some v := by
  induction links generalizing score with
  | nil => exact ⟨score, rfl⟩
  | cons l rest ih =>
    obtain ⟨hs, hr⟩ := h l (List.mem_cons_self _ _)
    obtain ⟨v1, h1⟩ := scoreTransferred_isSome tx input _ hs score
    obtain ⟨v2, h2⟩ := scoreTransferred_isSome tx input _ hr v1
    simp only [scoreLinks, h1, h2]
    exact ih (fun x hx => h x (List.mem_cons_of_mem _ hx)) _

theorem calculateAttackerAttractiveness_isSome (tx : Taxonomy) (input : Model)
    (a : TechnicalAsset) (h : a.refsExist input) :
    ∃ v, calculateAttackerAttractiveness tx input a = some v := by
  obtain ⟨hp, hs, hl⟩ := h
  unfold calculateAttackerAttractiveness
  by_cases ho : a.OutOfScope = true
  · exact ⟨0, by simp [ho]⟩
  · obtain ⟨v1, h1⟩ := scoreProcessedOrStored_isSome tx input _ hp
      (0 + tx.ConfidentialityForAsset a.Confidentiality + tx.CriticalityForAsset a.Integrity
        + tx.CriticalityForAsset a.Availability)
    obtain ⟨v2, h2⟩ := scoreProcessedOrStored_isSome tx input _ hs v1
    obtain ⟨v3, h3⟩ := scoreLinks_isSome tx input _ (fun l hl2 => (hl l hl2).2) v2
    simp only [ho, h1, h2, h3]
    exact ⟨_, rfl⟩

theorem minMaxLoop_isSome (tx : Taxonomy) (input : Model) (keys : List String)
    (h : ∀ key ∈ keys, ∃ a, mapGet input.TechnicalAssets key = some a ∧ a.refsExist input)
    (acc : ℚ × ℚ) : ∃ r, minMaxLoop tx input keys acc = some r := by
  induction keys generalizing acc with
  | nil => exact ⟨acc, rfl⟩
  | cons key rest ih =>
    obtain ⟨a, ha, hr⟩ := h key (List.mem_cons_self _ _)
    obtain ⟨v, hv⟩ := calculateAttackerAttractiveness_isSome tx input a hr
    simp only [minMaxLoop, ha, hv]
    exact ih (fun x hx => h x (List.mem_cons_of_mem _ hx)) _

theorem mapGet_refsExist (input : Model)
    (hR : ∀ kv ∈ input.TechnicalAssets, kv.2.refsExist input) (key : String)
    (hk : key ∈ mapKeys input.TechnicalAssets) :
    ∃ a, mapGet input.TechnicalAssets key = some a ∧ a.refsExist input := by
  obtain ⟨a, ha⟩ := mapGet_isSome_of_mem_keys _ _ hk
  exact ⟨a, ha, hR _ (mapGet_mem _ _ _ ha)⟩

theorem calculateRelative_isSome (tx : Taxonomy) (input : Model)
    (hR : ∀ kv ∈ input.TechnicalAssets, kv.2.refsExist input) (x : ℚ) :
    ∃ r, calculateRelativeAttackerAttractiveness tx input x = some r := by
  obtain ⟨mm, hmm⟩ := minMaxLoop_isSome tx input (sortStrings (mapKeys input.TechnicalAssets))
    (fun key hkey => mapGet_refsExist input hR key ((mem_sortStrings _ _).1 hkey))
    (9223372036854775807, -9223372036854775808)
  obtain ⟨mn, mx⟩ := mm
  unfold calculateRelativeAttackerAttractiveness
  rw [hmm]
  exact ⟨_, rfl⟩

theorem floorToOne_pos (p : ℚ) : 0 < (if p ≤ 0 then 1 else p) := by
  split_ifs with hp
  · norm_num
  · exact lt_of_not_le hp

theorem calculateRelative_pos (tx : Taxonomy) (input : Model) (x r : ℚ)
    (h : calculateRelativeAttackerAttractiveness tx input x = some r) : 0 < r := by
  unfold calculateRelativeAttackerAttractiveness at h
  split at h
  · exact absurd h (by simp)
  · simp only [Option.some.injEq] at h
    rw [← h]
    exact floorToOne_pos _

theorem pivotingLoop_isSome (tx : Taxonomy) (input : Model)
    (hR : ∀ kv ∈ input.TechnicalAssets, kv.2.refsExist input) (techAsset : TechnicalAsset)
    (hA : techAsset.refsExist input) (links : List CommunicationLink)
    (hl : ∀ l ∈ links, l.TargetId ∈ mapKeys input.TechnicalAssets) (adjustment : ℚ) :
    ∃ v, pivotingLoop tx input techAsset links adjustment = some v := by
  induction links generalizing adjustment with
  | nil => exact ⟨adjustment, rfl⟩
  | cons l rest ih =>
    obtain ⟨n, hn, hnR⟩ := mapGet_refsExist input hR _ (hl l (List.mem_cons_self _ _))
    obtain ⟨aaN, haaN⟩ := calculateAttackerAttractiveness_isSome tx input n hnR
    obtain ⟨pN, hpN⟩ := calculateRelative_isSome tx input hR aaN
    obtain ⟨aaS, haaS⟩ := calculateAttackerAttractiveness_isSome tx input techAsset hA
    obtain ⟨pS, hpS⟩ := calculateRelative_isSome tx input hR aaS
    simp only [pivotingLoop, hn, haaN, hpN, haaS, hpS]
    exact ih (fun x hx => hl x (List.mem_cons_of_mem _ hx)) _

theorem calculatePivoting_isSome (tx : Taxonomy) (input : Model)
    (hR : ∀ kv ∈ input.TechnicalAssets, kv.2.refsExist input) (techAsset : TechnicalAsset)
    (hA : techAsset.refsExist input) :
    ∃ v, calculatePivotingNeighbourEffectAdjustment tx input techAsset = some v := by
  unfold calculatePivotingNeighbourEffectAdjustment
  by_cases ho : techAsset.OutOfScope = true
  · exact ⟨0, by simp [ho]⟩
  · simp only [ho]
    exact pivotingLoop_isSome tx input hR techAsset hA _ (fun l hl => (hA.2.2 l hl).1) 0

theorem mapKeys_setRAA (input : Model) (k : String) (r : ℚ) :
    mapKeys (setRAA input k r).TechnicalAssets = mapKeys input.TechnicalAssets := by
  unfold setRAA mapKeys
  simp only [List.map_map]
  apply List.map_congr_left
  intro kv _
  simp only [Function.comp]
  split_ifs <;> rfl

theorem mem_setRAA (input : Model) (k : String) (r : ℚ) (kv : String × TechnicalAsset)
    (h : kv ∈ (setRAA input k r).TechnicalAssets) :
    ∃ kv0 ∈ input.TechnicalAssets,
      kv = if kv0.1 = k then (kv0.1, { kv0.2 with RAA := r }) else kv0 := by
  unfold setRAA at h
  simp only [List.mem_map] at h
  obtain ⟨kv0, h0, h1⟩ := h
  exact ⟨kv0, h0, h1.symm⟩

theorem refsExist_setRAA (input : Model) (k : String) (r : ℚ) (a : TechnicalAsset) :
    a.refsExist (setRAA input k r) ↔ a.refsExist input := by
  unfold TechnicalAsset.refsExist
  rw [mapKeys_setRAA]
  exact Iff.rfl

theorem refsExist_all_setRAA (input : Model) (k : String) (r : ℚ)
    (hR : ∀ kv ∈ input.TechnicalAssets, kv.2.refsExist input) :
    ∀ kv ∈ (setRAA input k r).TechnicalAssets, kv.2.refsExist (setRAA input k r) := by
  intro kv hkv
  obtain ⟨kv0, h0, h1⟩ := mem_setRAA input k r kv hkv
  rw [refsExist_setRAA, h1]
  split_ifs
  · exact hR kv0 h0
  · exact hR kv0 h0

theorem applyRAALoop_spec (tx : Taxonomy) (keys : List String) (input : Model)
    (hR : ∀ kv ∈ input.TechnicalAssets, kv.2.refsExist input)
    (hk : ∀ k ∈ keys, k ∈ mapKeys input.TechnicalAssets) :
    ∃ out, applyRAALoop tx keys input = some out ∧
      mapKeys out.TechnicalAssets = mapKeys input.TechnicalAssets ∧
      ((∀ kv ∈ input.TechnicalAssets, kv.1 ∈ keys ∨ 0 < kv.2.RAA) →
        ∀ kv ∈ out.TechnicalAssets, 0 < kv.2.RAA) := by
  induction keys generalizing input with
  | nil =>
    refine ⟨input, rfl, rfl, ?_⟩
    intro h kv hkv
    rcases h kv hkv with h1 | h1
    · simp at h1
    · exact h1
  | cons k rest ih =>
    obtain ⟨a, ha, haR⟩ := mapGet_refsExist input hR k (hk k (List.mem_cons_self _ _))
    obtain ⟨aa, haa⟩ := calculateAttackerAttractiveness_isSome tx input a haR
    obtain ⟨adj, hadj⟩ := calculatePivoting_isSome tx input hR a haR
    obtain ⟨raa, hraa⟩ := calculateRelative_isSome tx input hR (aa + adj)
    have hpos := calculateRelative_pos tx input _ _ hraa
    obtain ⟨out, hout, hkeys, hP⟩ := ih (setRAA input k raa)
      (refsExist_all_setRAA input k raa hR)
      (fun x hx => by rw [mapKeys_setRAA]; exact hk x (List.mem_cons_of_mem _ hx))
    refine ⟨out, ?_, ?_, ?_⟩
    · simp only [applyRAALoop, ha, haa, hadj, hraa]
      exact hout
    · rw [hkeys, mapKeys_setRAA]
    · intro h
      apply hP
      intro kv hkv
      obtain ⟨kv0, h0, h1⟩ := mem_setRAA input k raa kv hkv
      by_cases hc : kv0.1 = k
      · right
        rw [h1, if_pos hc]
        exact hpos
      · rw [h1, if_neg hc]
        rcases h kv0 h0 with h2 | h2
        · rcases List.mem_cons.1 h2 with h3 | h3
          · exact absurd h3 hc
          · exact Or.inl h3
        · exact Or.inr h2

/-- C1 (the code at the failing input): in `pivotModel`, which has no dangling ids, the in-scope
asset "a" has percentage 1 and pivoting adjustment 33, yet `applyRAA` stores 660, not 34: the
adjustment is added to the raw attractiveness before the normalisation. -/
theorem C1_raa_not_pct_plus_adjustment :
    noDanglingIds pivotModel ∧
    (mapGet pivotModel.TechnicalAssets "a").map (fun a => a.OutOfScope) = some false ∧
    (mapGet pivotModel.TechnicalAssets "a").bind (pct fibonacciTaxonomy pivotModel) = some 1 ∧
    (mapGet pivotModel.TechnicalAssets "a").bind
      (calculatePivotingNeighbourEffectAdjustment fibonacciTaxonomy pivotModel) = some 33 ∧
    raaAfter fibonacciTaxonomy pivotModel "a" = some 660 ∧
    (660 : ℚ) ≠ 1 + 33 :=
  ⟨by decide, by decide, by decide!, by decide!, by decide!, by norm_num⟩

/-- C2 (the code at the failing input): in `pivotModel` the value stored by `applyRAA` for the
in-scope asset "a" is above 100 + 100/3. -/
theorem C2_raa_above_bound :
    noDanglingIds pivotModel ∧
    ∃ raa, raaAfter fibonacciTaxonomy pivotModel "a" = some raa ∧ 100 + 100 / 3 < raa :=
  ⟨by decide, 660, by decide!, by norm_num⟩

/-- C3 is false as stated: in `smallPercentModel`, which has no dangling ids, the in-scope asset
"mon" ends with RAA 80/2247, below 1. -/
theorem C3_counterexample :
    noDanglingIds smallPercentModel ∧
    (mapGet smallPercentModel.TechnicalAssets "mon").map (fun a => a.OutOfScope) = some false ∧
    ∃ raa, raaAfter fibonacciTaxonomy smallPercentModel "mon" = some raa ∧ raa < 1 :=
  ⟨by decide, by decide, 80 / 2247, by decide!, by norm_num⟩

/-- C3, amended: for every model without dangling ids `applyRAA` returns, and the value it
stores for every technical asset of the model is strictly positive. -/
theorem C3_raa_positive (tx : Taxonomy) (input : Model) (h : noDanglingIds input) (id : String)
    (A : TechnicalAsset) (hA : mapGet input.TechnicalAssets id = some A) :
    ∃ raa, raaAfter tx input id = some raa ∧ 0 < raa := by
  obtain ⟨out, hout, hkeys, hP⟩ := applyRAALoop_spec tx (mapKeys input.TechnicalAssets) input h.1
    (fun k hk => hk)
  have hid : id ∈ mapKeys out.TechnicalAssets := by
    rw [hkeys]
    exact mapGet_mem_keys _ _ _ hA
  obtain ⟨B, hB⟩ := mapGet_isSome_of_mem_keys _ _ hid
  refine ⟨B.RAA, ?_, ?_⟩
  · unfold raaAfter applyRAA
    rw [hout]
    simp [hB]
  · exact hP (fun kv hkv => Or.inl (List.mem_map.2 ⟨kv, hkv, rfl⟩)) (id, B) (mapGet_mem _ _ _ hB)

/-- An instance of C3 as amended: the asset "mon" of `smallPercentModel`. -/
theorem C3_raa_positive_witness :
    noDanglingIds smallPercentModel ∧
    ∃ raa, raaAfter fibonacciTaxonomy smallPercentModel "mon" = some raa ∧ 0 < raa :=
  ⟨by decide,
    C3_raa_positive fibonacciTaxonomy smallPercentModel (by decide) "mon"
      { plainAsset "mon" .Process .Public .Archive .Archive [] with
        Technologies := [.Monitoring] } (by decide)⟩

/-! ## Missing cloud hardening rule: the emission pass -/

theorem emitSharedRuntimes_spec (api : TypesAPI) (input : Model) (pfx details : String)
    (ids : List String) (risks out : List Risk)
    (h : emitSharedRuntimes api input pfx details ids risks = some out) :
    ∃ seg, out = risks ++ seg ∧ SharedRuntimeSegment api input pfx details ids seg := by
  induction ids generalizing risks with
  | nil =>
    simp only [emitSharedRuntimes, Option.some.injEq] at h
    exact ⟨[], by simp [h], List.Forall₂.nil⟩
  | cons id rest ih =>
    cases hsr : mapGet input.SharedRuntimes id with
    | none => simp [emitSharedRuntimes, hsr] at h
    | some sr =>
      simp only [emitSharedRuntimes, hsr] at h
      obtain ⟨seg, h1, h2⟩ := ih _ h
      exact ⟨createRiskForSharedRuntime api input sr pfx details :: seg, by simp [h1],
        List.Forall₂.cons ⟨sr, hsr, rfl⟩ h2⟩

theorem emitTrustBoundaries_spec (api : TypesAPI) (input : Model) (pfx details : String)
    (ids : List String) (risks out : List Risk)
    (h : emitTrustBoundaries api input pfx details ids risks = some out) :
    ∃ seg, out = risks ++ seg ∧ TrustBoundarySegment api input pfx details ids seg := by
  induction ids generalizing risks with
  | nil =>
    simp only [emitTrustBoundaries, Option.some.injEq] at h
    exact ⟨[], by simp [h], List.Forall₂.nil⟩
  | cons id rest ih =>
    cases htb : mapGet input.TrustBoundaries id with
    | none => simp [emitTrustBoundaries, htb] at h
    | some tb =>
      simp only [emitTrustBoundaries, htb] at h
      obtain ⟨seg, h1, h2⟩ := ih _ h
      exact ⟨createRiskForTrustBoundary api input tb pfx details :: seg, by simp [h1],
        List.Forall₂.cons ⟨tb, htb, rfl⟩ h2⟩

theorem findMostSensitiveLoop_mem (api : TypesAPI) (input : Model) (ids : List String)
    (cur : Option TechnicalAsset) (a : TechnicalAsset)
    (h : findMostSensitiveLoop api input ids cur = some (some a)) :
    cur = some a ∨ ∃ id ∈ ids, mapGet input.TechnicalAssets id = some a := by
  induction ids generalizing cur with
  | nil =>
    simp only [findMostSensitiveLoop, Option.some.injEq] at h
    exact Or.inl h
  | cons id rest ih =>
    cases cur with
    | none =>
      simp only [findMostSensitiveLoop] at h
      rcases ih _ h with h1 | ⟨x, hx, h1⟩
      · exact Or.inr ⟨id, List.mem_cons_self _ _, h1⟩
      · exact Or.inr ⟨x, List.mem_cons_of_mem _ hx, h1⟩
    | some m =>
      cases hta : mapGet input.TechnicalAssets id with
      | none => simp [findMostSensitiveLoop, hta] at h
      | some tA =>
        simp only [findMostSensitiveLoop, hta] at h
        split_ifs at h
        · rcases ih _ h with h1 | ⟨x, hx, h1⟩
          · simp only [Option.some.injEq] at h1
            exact Or.inr ⟨id, List.mem_cons_self _ _, by rw [hta, h1]⟩
          · exact Or.inr ⟨x, List.mem_cons_of_mem _ hx, h1⟩
        · rcases ih _ h with h1 | ⟨x, hx, h1⟩
          · exact Or.inl h1
          · exact Or.inr ⟨x, List.mem_cons_of_mem _ hx, h1⟩

theorem emitMostSensitive_spec (api : TypesAPI) (ord : List String → List String)
    (hord : ∀ s, (ord s).Perm s) (input : Model)
    (added : Bool) (techAssets : List String) (pfx details : String) (risks out : List Risk)
    (h : emitMostSensitive api ord input added techAssets pfx details risks = some out) :
    ∃ seg, out = risks ++ seg ∧
      MostSensitiveSegment api input added techAssets pfx details seg := by
  unfold emitMostSensitive at h
  cases added with
  | true =>
    simp only [if_true, Option.some.injEq] at h
    exact ⟨[], by simp [h], Or.inl rfl⟩
  | false =>
    simp only [Bool.false_eq_true, if_false] at h
    cases hf : findMostSensitiveTechnicalAsset api ord input techAssets with
    | none => simp [hf] at h
    | some res =>
      cases res with
      | none =>
        simp only [hf, Option.some.injEq] at h
        exact ⟨[], by simp [h], Or.inl rfl⟩
      | some a =>
        simp only [hf, Option.some.injEq] at h
        refine ⟨[createRiskForTechnicalAsset api input a pfx details], h.symm,
          Or.inr ⟨rfl, ?_⟩⟩
        unfold findMostSensitiveTechnicalAsset at hf
        rcases findMostSensitiveLoop_mem api input _ _ a hf with h1 | ⟨id, hid, h1⟩
        · simp at h1
        · exact ⟨id, a, (hord _).mem_iff.1 ((mem_sortStrings _ _).1 hid), h1, rfl⟩

theorem emitSubtagSpecific_spec (api : TypesAPI) (input : Model)
    (ids : List String) (risks out : List Risk)
    (h : emitSubtagSpecific api input ids risks = some out) :
    ∃ seg, out = risks ++ seg ∧ SubtagSegment api input ids seg := by
  induction ids generalizing risks with
  | nil =>
    simp only [emitSubtagSpecific, Option.some.injEq] at h
    exact ⟨[], by simp [h], [], rfl, List.Forall₂.nil⟩
  | cons id rest ih =>
    cases hta : mapGet input.TechnicalAssets id with
    | none => simp [emitSubtagSpecific, hta] at h
    | some tA =>
      cases hec2 : isTechnicalAssetTaggedWithAnyTraversingUp api input tA ["aws:ec2"] with
      | none => simp [emitSubtagSpecific, hta, hec2] at h
      | some ec2 =>
        cases hs3 : isTechnicalAssetTaggedWithAnyTraversingUp api input tA ["aws:s3"] with
        | none => simp [emitSubtagSpecific, hta, hec2, hs3] at h
        | some s3 =>
          simp only [emitSubtagSpecific, hta, hec2, hs3] at h
          obtain ⟨seg, h1, parts, h2, h3⟩ := ih _ h
          refine ⟨((if ec2 = true then
              [createRiskForTechnicalAsset api input tA "EC2" "CIS Benchmark for Amazon Linux"]
              else [])
            ++ (if s3 = true then
              [createRiskForTechnicalAsset api input tA "S3" "Security Best Practices for AWS S3"]
              else [])) ++ seg, ?_, _ :: parts, ?_,
            List.Forall₂.cons ⟨tA, ec2, s3, hta, rfl⟩ h3⟩
          · rw [h1]
            cases ec2 <;> cases s3 <;> simp
          · rw [h2]
            simp

theorem emit_spec (api : TypesAPI) (ord : List String → List String)
    (hord : ∀ s, (ord s).Perm s) (input : Model) (b : Buckets) (risks : List Risk)
    (h : emit api ord input b = some risks) :
    ∃ s1 s2 s3 s4 s5 t1 t2 t3 t4 t5 a1 a2 a3 a4 sub,
      risks = s1 ++ s2 ++ s3 ++ s4 ++ s5 ++ t1 ++ t2 ++ t3 ++ t4 ++ t5 ++ a1 ++ a2 ++ a3 ++ a4
        ++ sub ∧
      SharedRuntimeSegment api input "AWS" "CIS Benchmark for AWS"
        (ord b.sharedRuntimeIDsAWS) s1 ∧
      SharedRuntimeSegment api input "Azure" "CIS Benchmark for Microsoft Azure"
        (ord b.sharedRuntimeIDsAzure) s2 ∧
      SharedRuntimeSegment api input "GCP" "CIS Benchmark for Google Cloud Computing Platform"
        (ord b.sharedRuntimeIDsGCP) s3 ∧
      SharedRuntimeSegment api input "OCP" "Vendor Best Practices for Oracle Cloud Platform"
        (ord b.sharedRuntimeIDsOCP) s4 ∧
      SharedRuntimeSegment api input "" "" (ord b.sharedRuntimesWithUnspecificCloudRisks) s5 ∧
      TrustBoundarySegment api input "AWS" "CIS Benchmark for AWS"
        (ord b.trustBoundaryIDsAWS) t1 ∧
      TrustBoundarySegment api input "Azure" "CIS Benchmark for Microsoft Azure"
        (ord b.trustBoundaryIDsAzure) t2 ∧
      TrustBoundarySegment api input "GCP" "CIS Benchmark for Google Cloud Computing Platform"
        (ord b.trustBoundaryIDsGCP) t3 ∧
      TrustBoundarySegment api input "OCP" "Vendor Best Practices for Oracle Cloud Platform"
        (ord b.trustBoundaryIDsOCP) t4 ∧
      TrustBoundarySegment api input "" "" (ord b.trustBoundariesWithUnspecificCloudRisks) t5 ∧
      MostSensitiveSegment api input
        (decide (ord b.sharedRuntimeIDsAWS ≠ [] ∨ ord b.trustBoundaryIDsAWS ≠ []))
        b.techAssetIDsAWS "AWS" "CIS Benchmark for AWS" a1 ∧
      MostSensitiveSegment api input
        (decide (ord b.sharedRuntimeIDsAzure ≠ [] ∨ ord b.trustBoundaryIDsAzure ≠ []))
        b.techAssetIDsAzure "Azure" "CIS Benchmark for Microsoft Azure" a2 ∧
      MostSensitiveSegment api input
        (decide (ord b.sharedRuntimeIDsGCP ≠ [] ∨ ord b.trustBoundaryIDsGCP ≠ []))
        b.techAssetIDsGCP "GCP" "CIS Benchmark for Google Cloud Computing Platform" a3 ∧
      MostSensitiveSegment api input
        (decide (ord b.sharedRuntimeIDsOCP ≠ [] ∨ ord b.trustBoundaryIDsOCP ≠ []))
        b.techAssetIDsOCP "OCP" "Vendor Best Practices for Oracle Cloud Platform" a4 ∧
      SubtagSegment api input (ord b.techAssetIDsWithSubtagSpecificCloudRisks) sub := by
  unfold emit at h
  simp only [Option.bind_eq_some] at h
  obtain ⟨r14, ⟨r13, ⟨r12, ⟨r11, ⟨r10, ⟨r9, ⟨r8, ⟨r7, ⟨r6, ⟨r5, ⟨r4, ⟨r3, ⟨r2, ⟨r1, h1, h2⟩,
    h3⟩, h4⟩, h5⟩, h6⟩, h7⟩, h8⟩, h9⟩, h10⟩, h11⟩, h12⟩, h13⟩, h14⟩, h15⟩ := h
  obtain ⟨s1, e1, p1⟩ := emitSharedRuntimes_spec _ _ _ _ _ _ _ h1
  obtain ⟨s2, e2, p2⟩ := emitSharedRuntimes_spec _ _ _ _ _ _ _ h2
  obtain ⟨s3, e3, p3⟩ := emitSharedRuntimes_spec _ _ _ _ _ _ _ h3
  obtain ⟨s4, e4, p4⟩ := emitSharedRuntimes_spec _ _ _ _ _ _ _ h4
  obtain ⟨s5, e5, p5⟩ := emitSharedRuntimes_spec _ _ _ _ _ _ _ h5
  obtain ⟨t1, e6, p6⟩ := emitTrustBoundaries_spec _ _ _ _ _ _ _ h6
  obtain ⟨t2, e7, p7⟩ := emitTrustBoundaries_spec _ _ _ _ _ _ _ h7
  obtain ⟨t3, e8, p8⟩ := emitTrustBoundaries_spec _ _ _ _ _ _ _ h8
  obtain ⟨t4, e9, p9⟩ := emitTrustBoundaries_spec _ _ _ _ _ _ _ h9
  obtain ⟨t5, e10, p10⟩ := emitTrustBoundaries_spec _ _ _ _ _ _ _ h10
  obtain ⟨a1, e11, p11⟩ := emitMostSensitive_spec _ _ hord _ _ _ _ _ _ _ h11
  obtain ⟨a2, e12, p12⟩ := emitMostSensitive_spec _ _ hord _ _ _ _ _ _ _ h12
  obtain ⟨a3, e13, p13⟩ := emitMostSensitive_spec _ _ hord _ _ _ _ _ _ _ h13
  obtain ⟨a4, e14, p14⟩ := emitMostSensitive_spec _ _ hord _ _ _ _ _ _ _ h14
  obtain ⟨sub, e15, p15⟩ := emitSubtagSpecific_spec _ _ _ _ _ h15
  refine ⟨s1, s2, s3, s4, s5, t1, t2, t3, t4, t5, a1, a2, a3, a4, sub, ?_, p1, p2, p3, p4, p5,
    p6, p7, p8, p9, p10, p11, p12, p13, p14, p15⟩
  rw [e15, e14, e13, e12, e11, e10, e9, e8, e7, e6, e5, e4, e3, e2, e1]
  simp

theorem hasSuffix_append_false (x s t : String) (h1 : ¬ s.data <:+ t.data)
    (h2 : ¬ t.data <:+ s.data) : HasSuffix (x ++ s) t = false := by
  unfold HasSuffix
  rw [decide_eq_false_iff_not, String.data_append]
  intro h
  rcases List.suffix_or_suffix_of_suffix h (List.suffix_append x.data s.data) with h3 | h3
  · exact h2 h3
  · exact h1 h3

theorem sharedRuntimeSegment_not_generic (api : TypesAPI) (input : Model) (pfx details : String)
    (ids : List String) (seg : List Risk) (p : Provider)
    (h : SharedRuntimeSegment api input pfx details ids seg) :
    seg.filter (isGenericTechnicalAssetRiskFor p) = [] := by
  unfold SharedRuntimeSegment at h
  induction h with
  | nil => rfl
  | cons h1 _ ih =>
    obtain ⟨sr, _, hr⟩ := h1
    rw [List.filter_cons, ih, hr]
    simp [isGenericTechnicalAssetRiskFor, createRiskForSharedRuntime]

theorem trustBoundarySegment_not_generic (api : TypesAPI) (input : Model) (pfx details : String)
    (ids : List String) (seg : List Risk) (p : Provider)
    (h : TrustBoundarySegment api input pfx details ids seg) :
    seg.filter (isGenericTechnicalAssetRiskFor p) = [] := by
  unfold TrustBoundarySegment at h
  induction h with
  | nil => rfl
  | cons h1 _ ih =>
    obtain ⟨tb, _, hr⟩ := h1
    rw [List.filter_cons, ih, hr]
    simp [isGenericTechnicalAssetRiskFor, createRiskForTrustBoundary]

theorem technicalAssetRisk_not_generic (api : TypesAPI) (input : Model) (a : TechnicalAsset)
    (pfx details : String) (p : Provider)
    (h1 : ¬ (cloudIdSuffix pfx).data <:+ ("@" ++ ToLower p.name).data)
    (h2 : ¬ ("@" ++ ToLower p.name).data <:+ (cloudIdSuffix pfx).data) :
    isGenericTechnicalAssetRiskFor p (createRiskForTechnicalAsset api input a pfx details)
      = false := by
  unfold isGenericTechnicalAssetRiskFor isGenericRiskFor createRiskForTechnicalAsset
  simp only [Bool.and_eq_false_imp]
  intro _
  exact hasSuffix_append_false _ _ _ h1 h2

theorem mostSensitiveSegment_length (api : TypesAPI) (input : Model) (added : Bool)
    (techAssets : List String) (pfx details : String) (seg : List Risk)
    (h : MostSensitiveSegment api input added techAssets pfx details seg) : seg.length ≤ 1 := by
  rcases h with h | ⟨_, _, _, _, _, h⟩ <;> simp [h]

theorem mostSensitiveSegment_not_generic (api : TypesAPI) (input : Model) (added : Bool)
    (techAssets : List String) (pfx details : String) (seg : List Risk) (p : Provider)
    (h : MostSensitiveSegment api input added techAssets pfx details seg)
    (h1 : ¬ (cloudIdSuffix pfx).data <:+ ("@" ++ ToLower p.name).data)
    (h2 : ¬ ("@" ++ ToLower p.name).data <:+ (cloudIdSuffix pfx).data) :
    seg.filter (isGenericTechnicalAssetRiskFor p) = [] := by
  rcases h with h | ⟨_, _, a, _, _, h⟩
  · simp [h]
  · rw [h, List.filter_cons, technicalAssetRisk_not_generic api input a pfx details p h1 h2]
    simp

theorem subtagSegment_not_generic (api : TypesAPI) (input : Model) (ids : List String)
    (seg : List Risk) (p : Provider) (h : SubtagSegment api input ids seg) :
    seg.filter (isGenericTechnicalAssetRiskFor p) = [] := by
  obtain ⟨parts, h1, h2⟩ := h
  rw [h1]
  clear h1
  induction h2 with
  | nil => rfl
  | cons hd _ ih =>
    obtain ⟨tA, ec2, s3, _, hrs⟩ := hd
    rw [List.flatten_cons, List.filter_append, ih, hrs, List.append_nil]
    have e1 : isGenericTechnicalAssetRiskFor p
        (createRiskForTechnicalAsset api input tA "EC2" "CIS Benchmark for Amazon Linux")
          = false :=
      technicalAssetRisk_not_generic api input tA _ _ p (by cases p <;> decide)
        (by cases p <;> decide)
    have e2 : isGenericTechnicalAssetRiskFor p
        (createRiskForTechnicalAsset api input tA "S3" "Security Best Practices for AWS S3")
          = false :=
      technicalAssetRisk_not_generic api input tA _ _ p (by cases p <;> decide)
        (by cases p <;> decide)
    cases ec2 <;> cases s3 <;> simp [e1, e2]

/-- the generic technical-asset risks for `p` in the result are those of the block of `p` -/
theorem emit_generic_filter (api : TypesAPI) (ord : List String → List String)
    (hord : ∀ s, (ord s).Perm s) (input : Model) (b : Buckets) (risks : List Risk)
    (h : emit api ord input b = some risks) (p : Provider) :
    ∃ seg details, risks.filter (isGenericTechnicalAssetRiskFor p)
        = seg.filter (isGenericTechnicalAssetRiskFor p) ∧
      MostSensitiveSegment api input
        (decide (ord (b.sharedRuntimeIDs p) ≠ [] ∨ ord (b.trustBoundaryIDs p) ≠ []))
        (b.techAssetIDs p) p.name details seg := by
  obtain ⟨s1, s2, s3, s4, s5, t1, t2, t3, t4, t5, a1, a2, a3, a4, sub, hr, p1, p2, p3, p4, p5,
    p6, p7, p8, p9, p10, p11, p12, p13, p14, p15⟩ := emit_spec api ord hord input b risks h
  have q1 := sharedRuntimeSegment_not_generic _ _ _ _ _ _ p p1
  have q2 := sharedRuntimeSegment_not_generic _ _ _ _ _ _ p p2
  have q3 := sharedRuntimeSegment_not_generic _ _ _ _ _ _ p p3
  have q4 := sharedRuntimeSegment_not_generic _ _ _ _ _ _ p p4
  have q5 := sharedRuntimeSegment_not_generic _ _ _ _ _ _ p p5
  have q6 := trustBoundarySegment_not_generic _ _ _ _ _ _ p p6
  have q7 := trustBoundarySegment_not_generic _ _ _ _ _ _ p p7
  have q8 := trustBoundarySegment_not_generic _ _ _ _ _ _ p p8
  have q9 := trustBoundarySegment_not_generic _ _ _ _ _ _ p p9
  have q10 := trustBoundarySegment_not_generic _ _ _ _ _ _ p p10
  have q15 := subtagSegment_not_generic _ _ _ _ p p15
  rw [hr]
  simp only [List.filter_append, q1, q2, q3, q4, q5, q6, q7, q8, q9, q10, q15, List.nil_append,
    List.append_nil]
  cases p
  · refine ⟨a1, _, ?_, p11⟩
    rw [mostSensitiveSegment_not_generic _ _ _ _ _ _ _ _ p12 (by decide) (by decide),
      mostSensitiveSegment_not_generic _ _ _ _ _ _ _ _ p13 (by decide) (by decide),
      mostSensitiveSegment_not_generic _ _ _ _ _ _ _ _ p14 (by decide) (by decide)]
    simp
  · refine ⟨a2, _, ?_, p12⟩
    rw [mostSensitiveSegment_not_generic _ _ _ _ _ _ _ _ p11 (by decide) (by decide),
      mostSensitiveSegment_not_generic _ _ _ _ _ _ _ _ p13 (by decide) (by decide),
      mostSensitiveSegment_not_generic _ _ _ _ _ _ _ _ p14 (by decide) (by decide)]
    simp
  · refine ⟨a3, _, ?_, p13⟩
    rw [mostSensitiveSegment_not_generic _ _ _ _ _ _ _ _ p11 (by decide) (by decide),
      mostSensitiveSegment_not_generic _ _ _ _ _ _ _ _ p12 (by decide) (by decide),
      mostSensitiveSegment_not_generic _ _ _ _ _ _ _ _ p14 (by decide) (by decide)]
    simp
  · refine ⟨a4, _, ?_, p14⟩
    rw [mostSensitiveSegment_not_generic _ _ _ _ _ _ _ _ p11 (by decide) (by decide),
      mostSensitiveSegment_not_generic _ _ _ _ _ _ _ _ p12 (by decide) (by decide),
      mostSensitiveSegment_not_generic _ _ _ _ _ _ _ _ p13 (by decide) (by decide)]
    simp

theorem generateRisks_cloud_inv (api : TypesAPI) (ord : List String → List String)
    (input : Model) (risks : List Risk) (e : Option String)
    (h : MissingCloudHardeningRule.GenerateRisks api ord input = some (risks, e)) :
    ∃ b, classify api ord input = some b ∧ emit api ord input b = some risks ∧ e = none := by
  unfold MissingCloudHardeningRule.GenerateRisks at h
  cases hb : classify api ord input with
  | none => simp [hb] at h
  | some b =>
    cases hr : emit api ord input b with
    | none => simp [hb, hr] at h
    | some rs =>
      simp only [hb, hr, Option.some.injEq, Prod.mk.injEq] at h
      exact ⟨b, rfl, h.1 ▸ hr, h.2.symm⟩

/-- C4 is false as stated: two trust boundaries tagged `aws` give two generic AWS risks. -/
theorem C4_counterexample :
    (MissingCloudHardeningRule.GenerateRisks specAPI id twoAwsBoundariesModel).map
        (fun res => res.1.map (fun r => r.SyntheticId))
      = some ["missing-cloud-hardening@b2@aws", "missing-cloud-hardening@b1@aws"] ∧
    (MissingCloudHardeningRule.GenerateRisks specAPI id twoAwsBoundariesModel).map
        (fun res => (res.1.filter (isGenericRiskFor .AWS)).length) = some 2 :=
  ⟨by decide, by decide⟩

/-- C4, amended: for every model and every provider P, the output of
`MissingCloudHardeningRule.GenerateRisks` contains at most one generic risk for P that is scoped
to a technical asset (shared runtimes and trust boundaries classified under P each get their own
generic risk). -/
theorem C4_at_most_one_generic_asset_risk (api : TypesAPI) (ord : List String → List String)
    (hord : ∀ s, (ord s).Perm s) (input : Model) (risks : List Risk) (e : Option String)
    (h : MissingCloudHardeningRule.GenerateRisks api ord input = some (risks, e))
    (p : Provider) :
    (risks.filter (isGenericTechnicalAssetRiskFor p)).length ≤ 1 := by
  obtain ⟨b, _, hr, _⟩ := generateRisks_cloud_inv api ord input risks e h
  obtain ⟨seg, details, h1, h2⟩ := emit_generic_filter api ord hord input b risks hr p
  rw [h1]
  exact le_trans (List.length_filter_le _ _) (mostSensitiveSegment_length _ _ _ _ _ _ _ h2)

/-- An instance of C4 as amended: a single asset tagged `aws` outside every boundary gets the
one generic AWS risk. -/
theorem C4_at_most_one_generic_asset_risk_witness :
    (MissingCloudHardeningRule.GenerateRisks specAPI id taggedAssetModel).map
        (fun res => res.1.map (fun r => r.SyntheticId))
      = some ["missing-cloud-hardening@a@aws"] ∧
    ((createRiskForTechnicalAsset specAPI taggedAssetModel
        (plainAsset "a" .Process .Internal .Operational .Operational ["aws"]) "AWS"
        "CIS Benchmark for AWS" :: []).filter (isGenericTechnicalAssetRiskFor .AWS)).length ≤ 1 :=
  ⟨by decide,
    C4_at_most_one_generic_asset_risk specAPI id (fun _ => List.Perm.refl _) taggedAssetModel _
      none (by decide) .AWS⟩

/-- C8 (the code at the failing input): in `untaggedCloudModel` the asset "a1" is still in the
unspecific set of technical assets after the subsumption step, yet the only risk returned is the
one of the trust boundary: no risk "missing-cloud-hardening@a1" is emitted. -/
theorem C8_unspecific_asset_gets_no_risk :
    (classify specAPI id untaggedCloudModel).map
        (fun b => (b.sharedRuntimesWithUnspecificCloudRisks,
          b.trustBoundariesWithUnspecificCloudRisks, b.techAssetsWithUnspecificCloudRisks))
      = some ([], ["cloud"], ["a1"]) ∧
    (MissingCloudHardeningRule.GenerateRisks specAPI id untaggedCloudModel).map
        (fun res => res.1.map (fun r => r.SyntheticId))
      = some ["missing-cloud-hardening@cloud"] :=
  ⟨by decide, by decide⟩

/-- C9 (the code at the failing input): for `twoAwsRuntimesModel` two enumeration orders of the
set `sharedRuntimeIDsAWS` give two different risk sequences, and so do two enumeration orders
of the map `SharedRuntimes`. -/
theorem C9_sequence_depends_on_enumeration :
    (∀ s : List String, (List.reverse s).Perm s) ∧
    (MissingCloudHardeningRule.GenerateRisks specAPI id twoAwsRuntimesModel).map
        (fun res => res.1.map (fun r => r.SyntheticId))
      = some ["missing-cloud-hardening@r2@aws", "missing-cloud-hardening@r1@aws"] ∧
    (MissingCloudHardeningRule.GenerateRisks specAPI List.reverse twoAwsRuntimesModel).map
        (fun res => res.1.map (fun r => r.SyntheticId))
      = some ["missing-cloud-hardening@r1@aws", "missing-cloud-hardening@r2@aws"] ∧
    (MissingCloudHardeningRule.GenerateRisks specAPI id
        { twoAwsRuntimesModel with
          SharedRuntimes := twoAwsRuntimesModel.SharedRuntimes.reverse }).map
        (fun res => res.1.map (fun r => r.SyntheticId))
      = some ["missing-cloud-hardening@r1@aws", "missing-cloud-hardening@r2@aws"] :=
  ⟨fun s => List.reverse_perm s, by decide, by decide, by decide⟩

/-! ## Missing cloud hardening rule: the id sets stay duplicate-free -/

theorem allNodup_empty : Buckets.empty.AllNodup := by
  simp [Buckets.AllNodup, Buckets.empty]

theorem allNodup_addAccordingToBaseTag (techAsset : TechnicalAsset) (tags : List String)
    (b : Buckets) (h : b.AllNodup) : (addAccordingToBaseTag techAsset tags b).AllNodup := by
  unfold Buckets.AllNodup at h
  obtain ⟨h1, h2, h3, h4, h5, h6, h7, h8, h9, h10, h11, h12, h13, h14, h15, h16⟩ := h
  unfold addAccordingToBaseTag Buckets.AllNodup
  simp only
  split_ifs <;> simp [*, List.Nodup.insert]

theorem allNodup_addTrustBoundary (tb : TrustBoundary) (b : Buckets) (h : b.AllNodup) :
    (addTrustBoundaryAccordingToBaseTag tb b).AllNodup := by
  unfold Buckets.AllNodup at h
  obtain ⟨h1, h2, h3, h4, h5, h6, h7, h8, h9, h10, h11, h12, h13, h14, h15, h16⟩ := h
  unfold addTrustBoundaryAccordingToBaseTag Buckets.AllNodup
  simp only
  split_ifs <;> simp [*, List.Nodup.insert]

theorem allNodup_addSharedRuntime (sr : SharedRuntime) (b : Buckets) (h : b.AllNodup) :
    (addSharedRuntimeAccordingToBaseTag sr b).AllNodup := by
  unfold Buckets.AllNodup at h
  obtain ⟨h1, h2, h3, h4, h5, h6, h7, h8, h9, h10, h11, h12, h13, h14, h15, h16⟩ := h
  unfold addSharedRuntimeAccordingToBaseTag Buckets.AllNodup
  simp only
  split_ifs <;> simp [*, List.Nodup.insert]

theorem allNodup_classifyInside (input : Model) (tagged : Bool) (tb : TrustBoundary)
    (ids : List String) (b b2 : Buckets) (h : classifyInside input tagged tb ids b = some b2)
    (hb : b.AllNodup) : b2.AllNodup := by
  induction ids generalizing b with
  | nil =>
    simp only [classifyInside, Option.some.injEq] at h
    exact h ▸ hb
  | cons id rest ih =>
    cases hta : mapGet input.TechnicalAssets id with
    | none => simp [classifyInside, hta] at h
    | some tA =>
      simp only [classifyInside, hta] at h
      split_ifs at h
      · exact ih _ h (allNodup_addAccordingToBaseTag _ _ _ hb)
      · exact ih _ h (allNodup_addAccordingToBaseTag _ _ _ hb)
      · refine ih _ h ?_
        unfold Buckets.AllNodup at hb ⊢
        obtain ⟨h1, h2, h3, h4, h5, h6, h7, h8, h9, h10, h11, h12, h13, h14, h15, h16⟩ := hb
        simp [*, List.Nodup.insert]

theorem allNodup_classifyTrustBoundaries (api : TypesAPI) (input : Model)
    (tbs : List (String × TrustBoundary)) (b b2 : Buckets)
    (h : classifyTrustBoundaries api input tbs b = some b2) (hb : b.AllNodup) :
    b2.AllNodup := by
  induction tbs generalizing b with
  | nil =>
    simp only [classifyTrustBoundaries, Option.some.injEq] at h
    exact h ▸ hb
  | cons kv rest ih =>
    simp only [classifyTrustBoundaries] at h
    split_ifs at h
    · exact ih _ h hb
    · cases hc : classifyInside input (kv.2.IsTaggedWithAny SupportedTags) kv.2
          (api.RecursivelyAllTechnicalAssetIDsInside input kv.2)
          (addTrustBoundaryAccordingToBaseTag kv.2 b) with
      | none => simp [hc] at h
      | some b1 =>
        simp only [hc] at h
        exact ih _ h (allNodup_classifyInside _ _ _ _ _ _ hc (allNodup_addTrustBoundary _ _ hb))

theorem allNodup_classifyTaggedAssets (tas : List TechnicalAsset) (b : Buckets)
    (hb : b.AllNodup) : (classifyTaggedAssets tas b).AllNodup := by
  induction tas generalizing b with
  | nil => exact hb
  | cons tA rest ih =>
    simp only [classifyTaggedAssets]
    exact ih _ (allNodup_addAccordingToBaseTag _ _ _ hb)

theorem allNodup_classifyInsideTagged (input : Model) (tB : TrustBoundary)
    (ids : List String) (b b2 : Buckets) (h : classifyInsideTagged input tB ids b = some b2)
    (hb : b.AllNodup) : b2.AllNodup := by
  induction ids generalizing b with
  | nil =>
    simp only [classifyInsideTagged, Option.some.injEq] at h
    exact h ▸ hb
  | cons id rest ih =>
    cases hta : mapGet input.TechnicalAssets id with
    | none => simp [classifyInsideTagged, hta] at h
    | some tA =>
      simp only [classifyInsideTagged, hta] at h
      split_ifs at h
      · exact ih _ h (allNodup_addAccordingToBaseTag _ _ _ hb)
      · exact ih _ h (allNodup_addAccordingToBaseTag _ _ _ hb)

theorem allNodup_classifyTaggedBoundaries (api : TypesAPI) (input : Model)
    (tbs : List TrustBoundary) (b b2 : Buckets)
    (h : classifyTaggedBoundaries api input tbs b = some b2) (hb : b.AllNodup) :
    b2.AllNodup := by
  induction tbs generalizing b with
  | nil =>
    simp only [classifyTaggedBoundaries, Option.some.injEq] at h
    exact h ▸ hb
  | cons tB rest ih =>
    cases hc : classifyInsideTagged input tB
        (api.RecursivelyAllTechnicalAssetIDsInside input tB) b with
    | none => simp [classifyTaggedBoundaries, hc] at h
    | some b1 =>
      simp only [classifyTaggedBoundaries, hc] at h
      exact ih _ h (allNodup_classifyInsideTagged _ _ _ _ _ hc hb)

theorem allNodup_classifyRunning (input : Model) (sR : SharedRuntime)
    (ids : List String) (b b2 : Buckets) (h : classifyRunning input sR ids b = some b2)
    (hb : b.AllNodup) : b2.AllNodup := by
  induction ids generalizing b with
  | nil =>
    simp only [classifyRunning, Option.some.injEq] at h
    exact h ▸ hb
  | cons id rest ih =>
    cases hta : mapGet input.TechnicalAssets id with
    | none => simp [classifyRunning, hta] at h
    | some tA =>
      simp only [classifyRunning, hta] at h
      exact ih _ h (allNodup_addAccordingToBaseTag _ _ _ hb)

theorem allNodup_classifySharedRuntimes (input : Model)
    (srs : List (String × SharedRuntime)) (b b2 : Buckets)
    (h : classifySharedRuntimes input srs b = some b2) (hb : b.AllNodup) : b2.AllNodup := by
  induction srs generalizing b with
  | nil =>
    simp only [classifySharedRuntimes, Option.some.injEq] at h
    exact h ▸ hb
  | cons kv rest ih =>
    cases hc : classifyRunning input kv.2 kv.2.TechnicalAssetsRunning
        (addSharedRuntimeAccordingToBaseTag kv.2 b) with
    | none => simp [classifySharedRuntimes, hc] at h
    | some b1 =>
      simp only [classifySharedRuntimes, hc] at h
      exact ih _ h (allNodup_classifyRunning _ _ _ _ _ hc (allNodup_addSharedRuntime _ _ hb))

theorem nodup_deleteAll (ord : List String → List String) (ids s : List String)
    (h : s.Nodup) : (deleteAll ord ids s).Nodup := by
  unfold deleteAll
  generalize ord ids = l
  induction l generalizing s with
  | nil => exact h
  | cons id rest ih =>
    simp only [List.foldl_cons]
    exact ih _ (h.filter _)

theorem allNodup_subsume (ord : List String → List String) (b : Buckets) (hb : b.AllNodup) :
    (subsume ord b).AllNodup := by
  unfold Buckets.AllNodup at hb ⊢
  obtain ⟨h1, h2, h3, h4, h5, h6, h7, h8, h9, h10, h11, h12, h13, h14, h15, h16⟩ := hb
  unfold subsume
  simp only
  exact ⟨nodup_deleteAll _ _ _ (nodup_deleteAll _ _ _ (nodup_deleteAll _ _ _
      (nodup_deleteAll _ _ _ h1))),
    nodup_deleteAll _ _ _ (nodup_deleteAll _ _ _ (nodup_deleteAll _ _ _
      (nodup_deleteAll _ _ _ h2))),
    nodup_deleteAll _ _ _ (nodup_deleteAll _ _ _ (nodup_deleteAll _ _ _
      (nodup_deleteAll _ _ _ (nodup_deleteAll _ _ _ h3)))),
    h4, h5, h6, h7, h8, h9, h10, h11, h12, h13, h14, h15, h16⟩

theorem allNodup_classify (api : TypesAPI) (ord : List String → List String) (input : Model)
    (b : Buckets) (h : classify api ord input = some b) : b.AllNodup := by
  unfold classify at h
  cases h1 : classifyTrustBoundaries api input input.TrustBoundaries Buckets.empty with
  | none => simp [h1] at h
  | some b1 =>
    simp only [h1] at h
    cases h2 : classifyTaggedBoundaries api input
        (TrustBoundariesTaggedWithAny input SupportedTags)
        (classifyTaggedAssets (TechnicalAssetsTaggedWithAny input SupportedTags) b1) with
    | none => simp [h2] at h
    | some b2 =>
      simp only [h2] at h
      cases h3 : classifySharedRuntimes input input.SharedRuntimes b2 with
      | none => simp [h3] at h
      | some b3 =>
        simp only [h3, Option.some.injEq] at h
        rw [← h]
        exact allNodup_subsume ord b3
          (allNodup_classifySharedRuntimes _ _ _ _ h3
            (allNodup_classifyTaggedBoundaries _ _ _ _ _ h2
              (allNodup_classifyTaggedAssets _ _
                (allNodup_classifyTrustBoundaries _ _ _ _ _ h1 allNodup_empty))))

/-! ## Missing cloud hardening rule: synthetic ids -/

theorem slot_mem_of_forall2 {α β : Type} (f : α → β) (segs : List (List α))
    (slots : List β) (h : List.Forall₂ (fun seg c => ∀ x ∈ seg, f x = c) segs slots)
    (seg : List α) (hseg : seg ∈ segs) (x : α) (hx : x ∈ seg) : f x ∈ slots := by
  induction h with
  | nil => simp at hseg
  | @cons s d ss ds g1 _ ih =>
    rcases List.mem_cons.1 hseg with e | e
    · subst e
      rw [g1 x hx]
      exact List.mem_cons_self _ _
    · exact List.mem_cons_of_mem _ (ih e)

theorem nodup_flatten_of_slots {α β : Type} (f : α → β) (segs : List (List α))
    (slots : List β) (h : List.Forall₂ (fun seg c => ∀ x ∈ seg, f x = c) segs slots)
    (hs : slots.Nodup) (hn : ∀ seg ∈ segs, seg.Nodup) : segs.flatten.Nodup := by
  induction h with
  | nil => simp
  | @cons seg c segs slots h1 h2 ih =>
    rw [List.flatten_cons, List.nodup_append]
    rw [List.nodup_cons] at hs
    refine ⟨hn seg (List.mem_cons_self _ _),
      ih hs.2 (fun s hs2 => hn s (List.mem_cons_of_mem _ hs2)), ?_⟩
    intro x hx hx2
    rw [List.mem_flatten] at hx2
    obtain ⟨seg2, hseg2, hx3⟩ := hx2
    have hc : f x = c := h1 x hx
    have := slot_mem_of_forall2 f segs slots h2 seg2 hseg2 x hx3
    rw [hc] at this
    exact hs.1 this

theorem split_at_sign (i1 i2 s1 s2 : List Char) (h1 : '@' ∉ i1) (h2 : '@' ∉ i2)
    (hs1 : s1 = [] ∨ s1.head? = some '@') (hs2 : s2 = [] ∨ s2.head? = some '@')
    (h : i1 ++ s1 = i2 ++ s2) : i1 = i2 ∧ s1 = s2 := by
  induction i1 generalizing i2 with
  | nil =>
    cases i2 with
    | nil => exact ⟨rfl, by simpa using h⟩
    | cons d i2 =>
      exfalso
      simp only [List.nil_append, List.cons_append] at h
      rcases hs1 with e | e
      · rw [e] at h
        exact absurd h (by simp)
      · rw [h] at e
        simp only [List.head?_cons, Option.some.injEq] at e
        exact h2 (e ▸ List.mem_cons_self _ _)
  | cons c i1 ih =>
    cases i2 with
    | nil =>
      exfalso
      simp only [List.nil_append, List.cons_append] at h
      rcases hs2 with e | e
      · rw [e] at h
        exact absurd h (by simp)
      · rw [← h] at e
        simp only [List.head?_cons, Option.some.injEq] at e
        exact h1 (e ▸ List.mem_cons_self _ _)
    | cons d i2 =>
      simp only [List.cons_append, List.cons.injEq] at h
      obtain ⟨e1, e2⟩ := ih i2 (fun hm => h1 (List.mem_cons_of_mem _ hm))
        (fun hm => h2 (List.mem_cons_of_mem _ hm)) h.2
      exact ⟨by rw [h.1, e1], e2⟩

theorem cloudSuffixes_head (s : String) (h : s ∈ cloudSuffixes) :
    s.data = [] ∨ s.data.head? = some '@' := by
  simp only [cloudSuffixes, List.mem_cons, List.mem_singleton, List.not_mem_nil, or_false] at h
  rcases h with h | h | h | h | h | h | h <;> subst h <;> decide

theorem cloudSyntheticId_inj (input : Model)
    (hAt : ∀ k, k ∈ mapKeys input.SharedRuntimes ∨ k ∈ mapKeys input.TrustBoundaries ∨
      k ∈ mapKeys input.TechnicalAssets → '@' ∉ k.data)
    (hd1 : ∀ k ∈ mapKeys input.SharedRuntimes, k ∉ mapKeys input.TrustBoundaries)
    (hd2 : ∀ k ∈ mapKeys input.SharedRuntimes, k ∉ mapKeys input.TechnicalAssets)
    (hd3 : ∀ k ∈ mapKeys input.TrustBoundaries, k ∉ mapKeys input.TechnicalAssets)
    (x y : Nat × String × String) (hx : LabelOK input x) (hy : LabelOK input y)
    (h : cloudSyntheticId x = cloudSyntheticId y) : x = y := by
  obtain ⟨k1, i1, s1⟩ := x
  obtain ⟨k2, i2, s2⟩ := y
  obtain ⟨hs1, hk1⟩ := hx
  obtain ⟨hs2, hk2⟩ := hy
  simp only at hs1 hs2 hk1 hk2
  have hdata := congrArg String.data h
  simp only [cloudSyntheticId, String.data_append, List.append_assoc] at hdata
  have hdata2 := List.append_cancel_left (List.append_cancel_left hdata)
  have a1 : '@' ∉ i1.data := hAt i1 (by
    rcases hk1 with ⟨_, e⟩ | ⟨_, e⟩ | ⟨_, e⟩
    · exact Or.inl e
    · exact Or.inr (Or.inl e)
    · exact Or.inr (Or.inr e))
  have a2 : '@' ∉ i2.data := hAt i2 (by
    rcases hk2 with ⟨_, e⟩ | ⟨_, e⟩ | ⟨_, e⟩
    · exact Or.inl e
    · exact Or.inr (Or.inl e)
    · exact Or.inr (Or.inr e))
  obtain ⟨e1, e2⟩ := split_at_sign _ _ _ _ a1 a2 (cloudSuffixes_head _ hs1)
    (cloudSuffixes_head _ hs2) hdata2
  have ei : i1 = i2 := String.ext e1
  have es : s1 = s2 := String.ext e2
  subst ei es
  have ek : k1 = k2 := by
    rcases hk1 with ⟨c1, m1⟩ | ⟨c1, m1⟩ | ⟨c1, m1⟩ <;>
      rcases hk2 with ⟨c2, m2⟩ | ⟨c2, m2⟩ | ⟨c2, m2⟩
    · rw [c1, c2]
    · exact absurd m2 (hd1 _ m1)
    · exact absurd m2 (hd2 _ m1)
    · exact absurd m1 (hd1 _ m2)
    · rw [c1, c2]
    · exact absurd m2 (hd3 _ m1)
    · exact absurd m1 (hd2 _ m2)
    · exact absurd m1 (hd3 _ m2)
    · rw [c1, c2]
  rw [ek]

theorem sharedRuntimeSegment_ids (api : TypesAPI) (input : Model) (pfx details : String)
    (ids : List String) (seg : List Risk)
    (h : SharedRuntimeSegment api input pfx details ids seg)
    (hSR : ∀ kv ∈ input.SharedRuntimes, kv.2.Id = kv.1) :
    seg.map (fun r => r.SyntheticId)
        = (ids.map (fun id => ((0 : Nat), id, cloudIdSuffix pfx))).map cloudSyntheticId ∧
      ∀ id ∈ ids, id ∈ mapKeys input.SharedRuntimes := by
  unfold SharedRuntimeSegment at h
  induction h with
  | nil => simp
  | @cons id r ids seg h1 _ ih =>
    obtain ⟨sr, hsr, hr⟩ := h1
    have hid : sr.Id = id := hSR _ (mapGet_mem _ _ _ hsr)
    refine ⟨?_, ?_⟩
    · simp only [List.map_cons, ih.1]
      rw [hr]
      simp [createRiskForSharedRuntime, cloudSyntheticId, hid]
    · intro x hx
      rcases List.mem_cons.1 hx with e | e
      · rw [e]
        exact mapGet_mem_keys _ _ _ hsr
      · exact ih.2 x e

theorem trustBoundarySegment_ids (api : TypesAPI) (input : Model) (pfx details : String)
    (ids : List String) (seg : List Risk)
    (h : TrustBoundarySegment api input pfx details ids seg)
    (hTB : ∀ kv ∈ input.TrustBoundaries, kv.2.Id = kv.1) :
    seg.map (fun r => r.SyntheticId)
        = (ids.map (fun id => ((1 : Nat), id, cloudIdSuffix pfx))).map cloudSyntheticId ∧
      ∀ id ∈ ids, id ∈ mapKeys input.TrustBoundaries := by
  unfold TrustBoundarySegment at h
  induction h with
  | nil => simp
  | @cons id r ids seg h1 _ ih =>
    obtain ⟨tb, htb, hr⟩ := h1
    have hid : tb.Id = id := hTB _ (mapGet_mem _ _ _ htb)
    refine ⟨?_, ?_⟩
    · simp only [List.map_cons, ih.1]
      rw [hr]
      simp [createRiskForTrustBoundary, cloudSyntheticId, hid]
    · intro x hx
      rcases List.mem_cons.1 hx with e | e
      · rw [e]
        exact mapGet_mem_keys _ _ _ htb
      · exact ih.2 x e

theorem labelSlot_of_ne (k : Nat) (id sfx : String) (h1 : sfx ≠ "@ec2") (h2 : sfx ≠ "@s3") :
    labelSlot (k, id, sfx) = (k, sfx) := by
  simp [labelSlot, h1, h2]

theorem sharedRuntimeSegment_labels (api : TypesAPI) (input : Model) (pfx details : String)
    (ids : List String) (seg : List Risk)
    (h : SharedRuntimeSegment api input pfx details ids seg)
    (hSR : ∀ kv ∈ input.SharedRuntimes, kv.2.Id = kv.1) (hn : ids.Nodup)
    (hs : cloudIdSuffix pfx ∈ cloudSuffixes)
    (h1 : cloudIdSuffix pfx ≠ "@ec2") (h2 : cloudIdSuffix pfx ≠ "@s3") :
    ∃ L : List (Nat × String × String),
      seg.map (fun r => r.SyntheticId) = L.map cloudSyntheticId ∧ L.Nodup ∧
      (∀ x ∈ L, labelSlot x = (0, cloudIdSuffix pfx)) ∧ ∀ x ∈ L, LabelOK input x := by
  obtain ⟨e, hk⟩ := sharedRuntimeSegment_ids api input pfx details ids seg h hSR
  refine ⟨_, e, ?_, ?_, ?_⟩
  · exact hn.map (fun a b hab => by simpa using hab)
  · intro x hx
    obtain ⟨id, _, rfl⟩ := List.mem_map.1 hx
    exact labelSlot_of_ne _ _ _ h1 h2
  · intro x hx
    obtain ⟨id, hid, rfl⟩ := List.mem_map.1 hx
    exact ⟨hs, Or.inl ⟨rfl, hk id hid⟩⟩

theorem trustBoundarySegment_labels (api : TypesAPI) (input : Model) (pfx details : String)
    (ids : List String) (seg : List Risk)
    (h : TrustBoundarySegment api input pfx details ids seg)
    (hTB : ∀ kv ∈ input.TrustBoundaries, kv.2.Id = kv.1) (hn : ids.Nodup)
    (hs : cloudIdSuffix pfx ∈ cloudSuffixes)
    (h1 : cloudIdSuffix pfx ≠ "@ec2") (h2 : cloudIdSuffix pfx ≠ "@s3") :
    ∃ L : List (Nat × String × String),
      seg.map (fun r => r.SyntheticId) = L.map cloudSyntheticId ∧ L.Nodup ∧
      (∀ x ∈ L, labelSlot x = (1, cloudIdSuffix pfx)) ∧ ∀ x ∈ L, LabelOK input x := by
  obtain ⟨e, hk⟩ := trustBoundarySegment_ids api input pfx details ids seg h hTB
  refine ⟨_, e, ?_, ?_, ?_⟩
  · exact hn.map (fun a b hab => by simpa using hab)
  · intro x hx
    obtain ⟨id, _, rfl⟩ := List.mem_map.1 hx
    exact labelSlot_of_ne _ _ _ h1 h2
  · intro x hx
    obtain ⟨id, hid, rfl⟩ := List.mem_map.1 hx
    exact ⟨hs, Or.inr (Or.inl ⟨rfl, hk id hid⟩)⟩

theorem mostSensitiveSegment_labels (api : TypesAPI) (input : Model) (added : Bool)
    (techAssets : List String) (pfx details : String) (seg : List Risk)
    (h : MostSensitiveSegment api input added techAssets pfx details seg)
    (hTA : ∀ kv ∈ input.TechnicalAssets, kv.2.Id = kv.1)
    (hs : cloudIdSuffix pfx ∈ cloudSuffixes)
    (h1 : cloudIdSuffix pfx ≠ "@ec2") (h2 : cloudIdSuffix pfx ≠ "@s3") :
    ∃ L : List (Nat × String × String),
      seg.map (fun r => r.SyntheticId) = L.map cloudSyntheticId ∧ L.Nodup ∧
      (∀ x ∈ L, labelSlot x = (2, cloudIdSuffix pfx)) ∧ ∀ x ∈ L, LabelOK input x := by
  rcases h with h | ⟨_, id, a, _, ha, h⟩
  · exact ⟨[], by simp [h], List.nodup_nil, by simp, by simp⟩
  · have hid : a.Id = id := hTA _ (mapGet_mem _ _ _ ha)
    refine ⟨[(2, id, cloudIdSuffix pfx)], ?_, List.nodup_singleton _, ?_, ?_⟩
    · rw [h]
      simp [createRiskForTechnicalAsset, cloudSyntheticId, hid]
    · intro x hx
      rw [List.mem_singleton] at hx
      rw [hx]
      exact labelSlot_of_ne _ _ _ h1 h2
    · intro x hx
      rw [List.mem_singleton] at hx
      rw [hx]
      exact ⟨hs, Or.inr (Or.inr ⟨rfl, mapGet_mem_keys _ _ _ ha⟩)⟩

theorem mem_subtag_pair (ec2 s3 : Bool) (id : String) (x : Nat × String × String)
    (hx : x ∈ (if ec2 = true then [((2 : Nat), id, "@ec2")] else [])
      ++ (if s3 = true then [((2 : Nat), id, "@s3")] else [])) :
    x = (2, id, "@ec2") ∨ x = (2, id, "@s3") := by
  cases ec2 <;> cases s3 <;> simp_all

theorem subtagSegment_labels (api : TypesAPI) (input : Model) (ids : List String)
    (seg : List Risk) (h : SubtagSegment api input ids seg)
    (hTA : ∀ kv ∈ input.TechnicalAssets, kv.2.Id = kv.1) (hn : ids.Nodup) :
    ∃ L : List (Nat × String × String),
      seg.map (fun r => r.SyntheticId) = L.map cloudSyntheticId ∧ L.Nodup ∧
      (∀ x ∈ L, labelSlot x = (2, "sub")) ∧ (∀ x ∈ L, LabelOK input x) ∧
      ∀ x ∈ L, x.2.1 ∈ ids := by
  obtain ⟨parts, h1, h2⟩ := h
  rw [h1]
  clear h1
  induction h2 with
  | nil => exact ⟨[], by simp, List.nodup_nil, by simp, by simp, by simp⟩
  | @cons id rs ids parts hd _ ih =>
    rw [List.nodup_cons] at hn
    obtain ⟨L, e, nL, sL, oL, mL⟩ := ih hn.2
    obtain ⟨tA, ec2, s3, hta, hrs⟩ := hd
    have hid : tA.Id = id := hTA _ (mapGet_mem _ _ _ hta)
    have hkey := mapGet_mem_keys _ _ _ hta
    refine ⟨((if ec2 = true then [((2 : Nat), id, "@ec2")] else [])
        ++ (if s3 = true then [((2 : Nat), id, "@s3")] else [])) ++ L, ?_, ?_, ?_, ?_, ?_⟩
    · rw [List.flatten_cons, List.map_append, e, hrs, List.map_append]
      have c1 : cloudIdSuffix "EC2" = "@ec2" := by decide
      have c2 : cloudIdSuffix "S3" = "@s3" := by decide
      cases ec2 <;> cases s3 <;>
        simp [createRiskForTechnicalAsset, cloudSyntheticId, hid, c1, c2]
    · rw [List.nodup_append]
      refine ⟨by cases ec2 <;> cases s3 <;> simp, nL, ?_⟩
      intro x hx hx2
      have := mL x hx2
      have hxid : x.2.1 = id := by
        rcases mem_subtag_pair ec2 s3 id x hx with e1 | e1 <;> rw [e1]
      rw [hxid] at this
      exact hn.1 this
    · intro x hx
      rcases List.mem_append.1 hx with hx | hx
      · rcases mem_subtag_pair ec2 s3 id x hx with e1 | e1 <;> rw [e1] <;> simp [labelSlot]
      · exact sL x hx
    · intro x hx
      rcases List.mem_append.1 hx with hx | hx
      · rcases mem_subtag_pair ec2 s3 id x hx with e1 | e1 <;> rw [e1] <;>
          exact ⟨by simp [cloudSuffixes], Or.inr (Or.inr ⟨rfl, hkey⟩)⟩
      · exact oL x hx
    · intro x hx
      rcases List.mem_append.1 hx with hx | hx
      · rcases mem_subtag_pair ec2 s3 id x hx with e1 | e1 <;> rw [e1] <;>
          exact List.mem_cons_self _ _
      · exact List.mem_cons_of_mem _ (mL x hx)

theorem cloud_labels (api : TypesAPI) (ord : List String → List String)
    (hord : ∀ s, (ord s).Perm s) (input : Model) (risks : List Risk) (e : Option String)
    (hTA : ∀ kv ∈ input.TechnicalAssets, kv.2.Id = kv.1)
    (hTB : ∀ kv ∈ input.TrustBoundaries, kv.2.Id = kv.1)
    (hSR : ∀ kv ∈ input.SharedRuntimes, kv.2.Id = kv.1)
    (h : MissingCloudHardeningRule.GenerateRisks api ord input = some (risks, e)) :
    ∃ L : List (Nat × String × String),
      risks.map (fun r => r.SyntheticId) = L.map cloudSyntheticId ∧ L.Nodup ∧
      ∀ x ∈ L, LabelOK input x := by
  obtain ⟨b, hb, hr, _⟩ := generateRisks_cloud_inv api ord input risks e h
  obtain ⟨n1, n2, n3, n4, n5, n6, n7, n8, n9, n10, n11, n12, n13, n14, n15, n16⟩ :=
    allNodup_classify api ord input b hb
  obtain ⟨s1, s2, s3, s4, s5, t1, t2, t3, t4, t5, a1, a2, a3, a4, sub, hrisks, p1, p2, p3, p4,
    p5, p6, p7, p8, p9, p10, p11, p12, p13, p14, p15⟩ := emit_spec api ord hord input b risks hr
  have ordNodup : ∀ s : List String, s.Nodup → (ord s).Nodup := fun s hs => (hord s).nodup_iff.2 hs
  obtain ⟨L1, e1, d1, c1, o1⟩ := sharedRuntimeSegment_labels _ _ _ _ _ _ p1 hSR (ordNodup _ n4)
    (by decide) (by decide) (by decide)
  obtain ⟨L2, e2, d2, c2, o2⟩ := sharedRuntimeSegment_labels _ _ _ _ _ _ p2 hSR (ordNodup _ n7)
    (by decide) (by decide) (by decide)
  obtain ⟨L3, e3, d3, c3, o3⟩ := sharedRuntimeSegment_labels _ _ _ _ _ _ p3 hSR (ordNodup _ n10)
    (by decide) (by decide) (by decide)
  obtain ⟨L4, e4, d4, c4, o4⟩ := sharedRuntimeSegment_labels _ _ _ _ _ _ p4 hSR (ordNodup _ n13)
    (by decide) (by decide) (by decide)
  obtain ⟨L5, e5, d5, c5, o5⟩ := sharedRuntimeSegment_labels _ _ _ _ _ _ p5 hSR (ordNodup _ n1)
    (by decide) (by decide) (by decide)
  obtain ⟨L6, e6, d6, c6, o6⟩ := trustBoundarySegment_labels _ _ _ _ _ _ p6 hTB (ordNodup _ n5)
    (by decide) (by decide) (by decide)
  obtain ⟨L7, e7, d7, c7, o7⟩ := trustBoundarySegment_labels _ _ _ _ _ _ p7 hTB (ordNodup _ n8)
    (by decide) (by decide) (by decide)
  obtain ⟨L8, e8, d8, c8, o8⟩ := trustBoundarySegment_labels _ _ _ _ _ _ p8 hTB (ordNodup _ n11)
    (by decide) (by decide) (by decide)
  obtain ⟨L9, e9, d9, c9, o9⟩ := trustBoundarySegment_labels _ _ _ _ _ _ p9 hTB (ordNodup _ n14)
    (by decide) (by decide) (by decide)
  obtain ⟨L10, e10, d10, c10, o10⟩ := trustBoundarySegment_labels _ _ _ _ _ _ p10 hTB (ordNodup _ n2)
    (by decide) (by decide) (by decide)
  obtain ⟨L11, e11, d11, c11, o11⟩ := mostSensitiveSegment_labels _ _ _ _ _ _ _ p11 hTA
    (by decide) (by decide) (by decide)
  obtain ⟨L12, e12, d12, c12, o12⟩ := mostSensitiveSegment_labels _ _ _ _ _ _ _ p12 hTA
    (by decide) (by decide) (by decide)
  obtain ⟨L13, e13, d13, c13, o13⟩ := mostSensitiveSegment_labels _ _ _ _ _ _ _ p13 hTA
    (by decide) (by decide) (by decide)
  obtain ⟨L14, e14, d14, c14, o14⟩ := mostSensitiveSegment_labels _ _ _ _ _ _ _ p14 hTA
    (by decide) (by decide) (by decide)
  obtain ⟨L15, e15, d15, c15, o15, _⟩ := subtagSegment_labels _ _ _ _ p15 hTA (ordNodup _ n16)
  refine ⟨[L1, L2, L3, L4, L5, L6, L7, L8, L9, L10, L11, L12, L13, L14, L15].flatten, ?_, ?_, ?_⟩
  · rw [hrisks]
    simp only [List.map_append, e1, e2, e3, e4, e5, e6, e7, e8, e9, e10, e11, e12, e13, e14, e15,
      List.flatten_cons, List.flatten_nil, List.append_nil, List.append_assoc]
  · refine nodup_flatten_of_slots labelSlot _
      [(0, cloudIdSuffix "AWS"), (0, cloudIdSuffix "Azure"), (0, cloudIdSuffix "GCP"),
        (0, cloudIdSuffix "OCP"), (0, cloudIdSuffix ""),
        (1, cloudIdSuffix "AWS"), (1, cloudIdSuffix "Azure"), (1, cloudIdSuffix "GCP"),
        (1, cloudIdSuffix "OCP"), (1, cloudIdSuffix ""),
        (2, cloudIdSuffix "AWS"), (2, cloudIdSuffix "Azure"), (2, cloudIdSuffix "GCP"),
        (2, cloudIdSuffix "OCP"), (2, "sub")] ?_ (by decide) ?_
    · exact .cons c1 (.cons c2 (.cons c3 (.cons c4 (.cons c5 (.cons c6 (.cons c7 (.cons c8
        (.cons c9 (.cons c10 (.cons c11 (.cons c12 (.cons c13 (.cons c14
        (.cons c15 .nil))))))))))))))
    · intro seg hseg
      simp only [List.mem_cons, List.mem_singleton, List.not_mem_nil, or_false] at hseg
      rcases hseg with r | r | r | r | r | r | r | r | r | r | r | r | r | r | r <;> rw [r] <;>
        assumption
  · intro x hx
    simp only [List.flatten_cons, List.flatten_nil, List.append_nil, List.mem_append] at hx
    rcases hx with hx | hx | hx | hx | hx | hx | hx | hx | hx | hx | hx | hx | hx | hx | hx
    · exact o1 x hx
    · exact o2 x hx
    · exact o3 x hx
    · exact o4 x hx
    · exact o5 x hx
    · exact o6 x hx
    · exact o7 x hx
    · exact o8 x hx
    · exact o9 x hx
    · exact o10 x hx
    · exact o11 x hx
    · exact o12 x hx
    · exact o13 x hx
    · exact o14 x hx
    · exact o15 x hx

/-- C10 is false as stated: ids equal map keys in `sharedIdModel` and in `atSignModel`, yet in
each the rule returns two risks with the same synthetic id (a shared runtime and a trust
boundary with the same id; a boundary id that ends in "@aws"). -/
theorem C10_counterexample :
    idsAreKeys sharedIdModel ∧
    (MissingCloudHardeningRule.GenerateRisks specAPI id sharedIdModel).map
        (fun res => res.1.map (fun r => r.SyntheticId))
      = some ["missing-cloud-hardening@x@aws", "missing-cloud-hardening@x@aws"] ∧
    idsAreKeys atSignModel ∧
    (MissingCloudHardeningRule.GenerateRisks specAPI id atSignModel).map
        (fun res => res.1.map (fun r => r.SyntheticId))
      = some ["missing-cloud-hardening@t@aws", "missing-cloud-hardening@t@aws"] ∧
    ¬ ["missing-cloud-hardening@x@aws", "missing-cloud-hardening@x@aws"].Nodup :=
  ⟨by decide, by decide, by decide, by decide, by decide⟩

/-! ## Missing cloud hardening rule: one tagged trust boundary -/

theorem addAccordingToBaseTag_untagged_aws (tA : TechnicalAsset) (b : Buckets)
    (hT : tA.Tags = []) :
    addAccordingToBaseTag tA ["aws"] b
      = b.setTechAssetIDsAWS (b.techAssetIDsAWS.insert tA.Id) := by
  have h0 : tA.IsTaggedWithAny specificSubTagsAWS = false := by
    simp [TechnicalAsset.IsTaggedWithAny, containsCaseInsensitiveAny, hT]
  have h1 : isTaggedWithBaseTag ["aws"] "aws" = true := by decide
  have h2 : isTaggedWithBaseTag ["aws"] "azure" = false := by decide
  have h3 : isTaggedWithBaseTag ["aws"] "gcp" = false := by decide
  have h4 : isTaggedWithBaseTag ["aws"] "ocp" = false := by decide
  simp [addAccordingToBaseTag, h0, h1, h2, h3, h4, Buckets.setTechAssetIDsAWS]

theorem untagged_not_supported (tA : TechnicalAsset) (hT : tA.Tags = []) :
    tA.IsTaggedWithAny SupportedTags = false := by
  simp [TechnicalAsset.IsTaggedWithAny, containsCaseInsensitiveAny, hT]

theorem classifyInside_untagged (input : Model) (tb : TrustBoundary) (ids : List String)
    (b : Buckets) (hTags : tb.Tags = ["aws"])
    (hU : ∀ kv ∈ input.TechnicalAssets, kv.2.Tags = [])
    (hids : ∀ id ∈ ids, id ∈ mapKeys input.TechnicalAssets) :
    ∃ X, classifyInside input true tb ids b = some (b.setTechAssetIDsAWS X) := by
  induction ids generalizing b with
  | nil => exact ⟨b.techAssetIDsAWS, rfl⟩
  | cons id rest ih =>
    obtain ⟨tA, hta⟩ := mapGet_isSome_of_mem_keys _ _ (hids id (List.mem_cons_self _ _))
    have hT : tA.Tags = [] := hU _ (mapGet_mem _ _ _ hta)
    obtain ⟨X, hX⟩ := ih (b.setTechAssetIDsAWS (b.techAssetIDsAWS.insert tA.Id))
      (fun x hx => hids x (List.mem_cons_of_mem _ hx))
    refine ⟨X, ?_⟩
    simp only [classifyInside, hta, untagged_not_supported tA hT, hTags,
      addAccordingToBaseTag_untagged_aws tA b hT]
    exact hX

theorem classifyInsideTagged_untagged (input : Model) (tb : TrustBoundary) (ids : List String)
    (b : Buckets) (hTags : tb.Tags = ["aws"])
    (hU : ∀ kv ∈ input.TechnicalAssets, kv.2.Tags = [])
    (hids : ∀ id ∈ ids, id ∈ mapKeys input.TechnicalAssets) :
    ∃ X, classifyInsideTagged input tb ids b = some (b.setTechAssetIDsAWS X) := by
  induction ids generalizing b with
  | nil => exact ⟨b.techAssetIDsAWS, rfl⟩
  | cons id rest ih =>
    obtain ⟨tA, hta⟩ := mapGet_isSome_of_mem_keys _ _ (hids id (List.mem_cons_self _ _))
    have hT : tA.Tags = [] := hU _ (mapGet_mem _ _ _ hta)
    obtain ⟨X, hX⟩ := ih (b.setTechAssetIDsAWS (b.techAssetIDsAWS.insert tA.Id))
      (fun x hx => hids x (List.mem_cons_of_mem _ hx))
    refine ⟨X, ?_⟩
    simp only [classifyInsideTagged, hta, untagged_not_supported tA hT, hTags,
      addAccordingToBaseTag_untagged_aws tA b hT]
    exact hX

theorem deleteAll_nil (ord : List String → List String) (ids : List String) :
    deleteAll ord ids [] = [] := by
  unfold deleteAll
  generalize ord ids = l
  induction l with
  | nil => rfl
  | cons x rest ih => simpa using ih

theorem ord_nil (ord : List String → List String) (hord : ∀ s, (ord s).Perm s) : ord [] = [] :=
  List.Perm.eq_nil (hord [])

theorem ord_singleton (ord : List String → List String) (hord : ∀ s, (ord s).Perm s)
    (k : String) : ord [k] = [k] :=
  List.perm_singleton.1 (hord [k])

/-- classification of a model that consists of one trust boundary tagged `aws` with untagged
assets -/
theorem classify_single_aws_boundary (api : TypesAPI) (ord : List String → List String)
    (input : Model) (k : String) (tb : TrustBoundary)
    (hTB : input.TrustBoundaries = [(k, tb)]) (hSR : input.SharedRuntimes = [])
    (hId : tb.Id = k) (hTags : tb.Tags = ["aws"])
    (hU : ∀ kv ∈ input.TechnicalAssets, kv.2.Tags = [])
    (hids : ∀ id ∈ api.RecursivelyAllTechnicalAssetIDsInside input tb,
      id ∈ mapKeys input.TechnicalAssets) :
    ∃ X, classify api ord input = some (awsBoundaryBuckets k X) := by
  have hts : tb.IsTaggedWithAny SupportedTags = true := by
    simp only [TrustBoundary.IsTaggedWithAny, hTags]
    decide
  have h1 : isTaggedWithBaseTag ["aws"] "aws" = true := by decide
  have h2 : isTaggedWithBaseTag ["aws"] "azure" = false := by decide
  have h3 : isTaggedWithBaseTag ["aws"] "gcp" = false := by decide
  have h4 : isTaggedWithBaseTag ["aws"] "ocp" = false := by decide
  have hadd : addTrustBoundaryAccordingToBaseTag tb Buckets.empty = awsBoundaryBuckets k [] := by
    simp [addTrustBoundaryAccordingToBaseTag, hts, hTags, h1, h2, h3, h4, hId, Buckets.empty,
      awsBoundaryBuckets]
  obtain ⟨X1, hX1⟩ := classifyInside_untagged input tb
    (api.RecursivelyAllTechnicalAssetIDsInside input tb) (awsBoundaryBuckets k []) hTags hU hids
  have hta : TechnicalAssetsTaggedWithAny input SupportedTags = [] := by
    unfold TechnicalAssetsTaggedWithAny
    rw [List.filter_eq_nil_iff]
    intro a ha
    obtain ⟨kv, hkv, rfl⟩ := List.mem_map.1 ha
    simp [untagged_not_supported kv.2 (hU kv hkv)]
  have htbs : TrustBoundariesTaggedWithAny input SupportedTags = [tb] := by
    simp [TrustBoundariesTaggedWithAny, hTB, hts]
  obtain ⟨X2, hX2⟩ := classifyInsideTagged_untagged input tb
    (api.RecursivelyAllTechnicalAssetIDsInside input tb) (awsBoundaryBuckets k X1) hTags hU hids
  have e1 : (awsBoundaryBuckets k []).setTechAssetIDsAWS X1 = awsBoundaryBuckets k X1 := rfl
  have e2 : (awsBoundaryBuckets k X1).setTechAssetIDsAWS X2 = awsBoundaryBuckets k X2 := rfl
  have e3 : subsume ord (awsBoundaryBuckets k X2) = awsBoundaryBuckets k X2 := by
    simp [subsume, awsBoundaryBuckets, deleteAll_nil]
  rw [e1] at hX1
  rw [e2] at hX2
  refine ⟨X2, ?_⟩
  unfold classify
  simp only [hTB, classifyTrustBoundaries, hts, hadd, hX1, hta, htbs, classifyTaggedAssets,
    classifyTaggedBoundaries, hSR, classifySharedRuntimes, Bool.not_true, Bool.false_and,
    Bool.false_eq_true, if_false]
  rw [hX2]
  simp [e3]

theorem findMostSensitive_nil (api : TypesAPI) (ord : List String → List String)
    (hord : ∀ s, (ord s).Perm s) (input : Model) :
    findMostSensitiveTechnicalAsset api ord input [] = some none := by
  unfold findMostSensitiveTechnicalAsset
  rw [ord_nil ord hord]
  rfl

/-- emission for the sets of a model that consists of one trust boundary tagged `aws` -/
theorem emit_single_aws_boundary (api : TypesAPI) (ord : List String → List String)
    (hord : ∀ s, (ord s).Perm s) (input : Model) (k : String) (tb : TrustBoundary)
    (hTB : input.TrustBoundaries = [(k, tb)]) (X : List String) :
    emit api ord input (awsBoundaryBuckets k X)
      = some [createRiskForTrustBoundary api input tb "AWS" "CIS Benchmark for AWS"] := by
  have hk : mapGet input.TrustBoundaries k = some tb := by simp [hTB, mapGet]
  simp [emit, awsBoundaryBuckets, ord_nil ord hord, ord_singleton ord hord, emitSharedRuntimes,
    emitTrustBoundaries, hk, emitMostSensitive, findMostSensitive_nil api ord hord,
    emitSubtagSpecific]

/-! ## Sorted keys -/

theorem stringLE_total (a b : String) : stringLE a b ∨ stringLE b a :=
  le_total a.data b.data

theorem stringLE_trans (a b c : String) (h1 : stringLE a b) (h2 : stringLE b c) :
    stringLE a c :=
  le_trans (α := List Char) h1 h2

theorem stringLE_antisymm (a b : String) (h1 : stringLE a b) (h2 : stringLE b a) : a = b :=
  String.ext (le_antisymm (α := List Char) h1 h2)

theorem sortStrings_sorted (keys : List String) : (sortStrings keys).Sorted stringLE :=
  @List.sorted_insertionSort _ stringLE _ ⟨stringLE_total⟩ ⟨stringLE_trans⟩ keys

theorem sortStrings_eq_of_perm (l1 l2 : List String) (h : l1.Perm l2) :
    sortStrings l1 = sortStrings l2 :=
  @List.eq_of_perm_of_sorted _ stringLE ⟨stringLE_antisymm⟩ _ _
    (((sortStrings_perm l1).trans h).trans (sortStrings_perm l2).symm)
    (sortStrings_sorted l1) (sortStrings_sorted l2)

theorem sortStrings_strict (keys : List String) (h : keys.Nodup) :
    (sortStrings keys).Pairwise stringLT := by
  have h1 : (sortStrings keys).Pairwise stringLE := sortStrings_sorted keys
  have h2 : (sortStrings keys).Pairwise (· ≠ ·) := (sortStrings_perm keys).nodup_iff.2 h
  refine (h1.and h2).imp ?_
  intro a b hab
  exact lt_of_le_of_ne (α := List Char) hab.1 (fun e => hab.2 (String.ext e))

theorem mapGet_eq_none {α : Type} (m : List (String × α)) (key : String)
    (h : key ∉ mapKeys m) : mapGet m key = none := by
  cases hg : mapGet m key with
  | none => rfl
  | some v => exact absurd (mapGet_mem_keys m key v hg) h

theorem mapGet_of_mem {α : Type} (m : List (String × α)) (key : String) (v : α)
    (hn : (mapKeys m).Nodup) (h : (key, v) ∈ m) : mapGet m key = some v := by
  induction m with
  | nil => simp at h
  | cons kv rest ih =>
    obtain ⟨k, w⟩ := kv
    simp only [mapKeys, List.map_cons, List.nodup_cons] at hn
    rcases List.mem_cons.1 h with e | e
    · simp only [Prod.mk.injEq] at e
      simp [mapGet, e.1, e.2]
    · have hk : k ≠ key := by
        intro hk
        apply hn.1
        rw [hk]
        exact List.mem_map.2 ⟨(key, v), e, rfl⟩
      simp only [mapGet, hk, if_false]
      exact ih hn.2 e

theorem mapGet_perm {α : Type} (m m2 : List (String × α)) (key : String)
    (hp : m2.Perm m) (hn : (mapKeys m).Nodup) : mapGet m2 key = mapGet m key := by
  have hk : (mapKeys m2).Perm (mapKeys m) := hp.map _
  have hn2 : (mapKeys m2).Nodup := hk.nodup_iff.2 hn
  cases hg : mapGet m key with
  | none =>
    apply mapGet_eq_none
    intro hmem
    obtain ⟨v, hv⟩ := mapGet_isSome_of_mem_keys m key (hk.mem_iff.1 hmem)
    rw [hg] at hv
    exact absurd hv (by simp)
  | some v =>
    exact mapGet_of_mem m2 key v hn2 (hp.mem_iff.2 (mapGet_mem m key v hg))

/-! ## Unencrypted asset rule: order of the returned risks -/

theorem risksOfAsset_congr (api : TypesAPI) (m1 m2 : Model) (a : TechnicalAsset)
    (hC : api.HighestStoredConfidentiality m1 a = api.HighestStoredConfidentiality m2 a)
    (hI : api.HighestStoredIntegrity m1 a = api.HighestStoredIntegrity m2 a) :
    UnencryptedAssetRule.risksOfAsset api m1 a = UnencryptedAssetRule.risksOfAsset api m2 a := by
  unfold UnencryptedAssetRule.risksOfAsset
  rw [hC, hI]

theorem risksOfAsset_syntheticId (api : TypesAPI) (input : Model) (A : TechnicalAsset) (r : Risk)
    (h : r ∈ UnencryptedAssetRule.risksOfAsset api input A) :
    r.SyntheticId = "unencrypted-asset" ++ "@" ++ r.MostRelevantTechnicalAssetId := by
  unfold UnencryptedAssetRule.risksOfAsset at h
  split_ifs at h <;> simp_all [UnencryptedAssetRule.createRisk]

theorem specAPI_storedAccessors : storedAccessorsReadDataAssetsOnly specAPI := by
  intro m1 m2 a h
  simp [specAPI, dataAssetsOf, h]

/-- C11: in a model whose technical assets carry their map key as Id (the keys of a map being
pairwise distinct), `UnencryptedAssetRule.GenerateRisks` returns, without error, risks in
strictly ascending byte order of `MostRelevantTechnicalAssetId`; their SyntheticIds are pairwise
distinct; and the returned sequence is the same for every other enumeration order of the map
`TechnicalAssets` (the accessors of stored data reading only the map `DataAssets`). -/
theorem C11_unencrypted_sorted (api : TypesAPI) (input : Model)
    (hid : ∀ kv ∈ input.TechnicalAssets, kv.2.Id = kv.1)
    (hnd : (mapKeys input.TechnicalAssets).Nodup) :
    ∃ risks,
      UnencryptedAssetRule.GenerateRisks api input = some (risks, none) ∧
      risks.Pairwise (fun r s =>
        stringLT r.MostRelevantTechnicalAssetId s.MostRelevantTechnicalAssetId) ∧
      (risks.map (fun r => r.SyntheticId)).Nodup ∧
      ∀ input2 : Model, input2.TechnicalAssets.Perm input.TechnicalAssets →
        input2.DataAssets = input.DataAssets → storedAccessorsReadDataAssetsOnly api →
        UnencryptedAssetRule.GenerateRisks api input2
          = UnencryptedAssetRule.GenerateRisks api input := by
  have hsorted : ((SortedTechnicalAssetIDs input).flatMap (fun id =>
        match mapGet input.TechnicalAssets id with
        | some a => UnencryptedAssetRule.risksOfAsset api input a
        | none => [])).Pairwise (fun r s =>
        stringLT r.MostRelevantTechnicalAssetId s.MostRelevantTechnicalAssetId) := by
    rw [List.pairwise_flatMap]
    refine ⟨?_, ?_⟩
    · intro id _
      cases hA : mapGet input.TechnicalAssets id with
      | none => simp
      | some A =>
        simp only
        have := risksOfAsset_length api input A
        match hl : UnencryptedAssetRule.risksOfAsset api input A with
        | [] => simp
        | [r] => simp
        | r :: s :: t => rw [hl] at this; simp at this
    · refine (sortStrings_strict _ hnd).imp_of_mem ?_
      intro id1 id2 h1 h2 hlt r hr s hs
      have k1 := (mem_sortStrings _ _).1 h1
      have k2 := (mem_sortStrings _ _).1 h2
      obtain ⟨A1, hA1⟩ := mapGet_isSome_of_mem_keys _ _ k1
      obtain ⟨A2, hA2⟩ := mapGet_isSome_of_mem_keys _ _ k2
      simp only [hA1] at hr
      simp only [hA2] at hs
      rw [risksOfAsset_scope api input A1 r hr, risksOfAsset_scope api input A2 s hs,
        hid _ (mapGet_mem _ _ _ hA1), hid _ (mapGet_mem _ _ _ hA2)]
      exact hlt
  refine ⟨_, unencrypted_generateRisks_eq api input, hsorted, ?_, ?_⟩
  · rw [List.Nodup, List.pairwise_map]
    refine hsorted.imp_of_mem ?_
    intro r s hr hs hlt heq
    rw [List.mem_flatMap] at hr hs
    obtain ⟨i1, _, hr⟩ := hr
    obtain ⟨i2, _, hs⟩ := hs
    cases hA1 : mapGet input.TechnicalAssets i1 with
    | none => simp [hA1] at hr
    | some A1 =>
      cases hA2 : mapGet input.TechnicalAssets i2 with
      | none => simp [hA2] at hs
      | some A2 =>
        simp only [hA1] at hr
        simp only [hA2] at hs
        rw [risksOfAsset_syntheticId api input A1 r hr,
          risksOfAsset_syntheticId api input A2 s hs] at heq
        have hd := congrArg String.data heq
        simp only [String.data_append] at hd
        have := List.append_cancel_left hd
        unfold stringLT at hlt
        rw [this] at hlt
        exact lt_irrefl _ hlt
  · intro input2 hp hD hapi
    rw [unencrypted_generateRisks_eq, unencrypted_generateRisks_eq]
    have hk : SortedTechnicalAssetIDs input2 = SortedTechnicalAssetIDs input :=
      sortStrings_eq_of_perm _ _ (hp.map _)
    rw [hk]
    refine congrArg (fun l => some (l, (none : Option String))) (List.flatMap_congr ?_)
    intro id _
    rw [mapGet_perm _ _ id hp hnd]
    cases mapGet input.TechnicalAssets id with
    | none => rfl
    | some a =>
      simp only
      exact risksOfAsset_congr api input2 input a (hapi _ _ a hD).1 (hapi _ _ a hD).2

/-- An instance of C11: the model `twoStoresModel` lists "kv" before "db"; the risk of "db" is
returned before the risk of "kv", and the model with the two assets listed in the other order
returns the same sequence. -/
theorem C11_unencrypted_sorted_witness :
    (∀ kv ∈ twoStoresModel.TechnicalAssets, kv.2.Id = kv.1) ∧
    (mapKeys twoStoresModel.TechnicalAssets).Nodup ∧
    (UnencryptedAssetRule.GenerateRisks specAPI twoStoresModel).map
        (fun res => res.1.map (fun r => r.SyntheticId))
      = some ["unencrypted-asset@db", "unencrypted-asset@kv"] ∧
    ∃ risks,
      UnencryptedAssetRule.GenerateRisks specAPI twoStoresModel = some (risks, none) ∧
      risks.Pairwise (fun r s =>
        stringLT r.MostRelevantTechnicalAssetId s.MostRelevantTechnicalAssetId) ∧
      (risks.map (fun r => r.SyntheticId)).Nodup ∧
      UnencryptedAssetRule.GenerateRisks specAPI twoStoresModelSwapped
        = UnencryptedAssetRule.GenerateRisks specAPI twoStoresModel := by
  obtain ⟨risks, h1, h2, h3, h4⟩ :=
    C11_unencrypted_sorted specAPI twoStoresModel (by decide) (by decide)
  exact ⟨by decide, by decide, by decide, risks, h1, h2, h3,
    h4 twoStoresModelSwapped (List.reverse_perm _) rfl specAPI_storedAccessors⟩

/-! ## Unencrypted asset rule: an additional out-of-scope asset -/

theorem mapGet_insert_ne {α : Type} (l1 l2 : List (String × α)) (k : String) (a : α)
    (id : String) (h : id ≠ k) : mapGet (l1 ++ (k, a) :: l2) id = mapGet (l1 ++ l2) id := by
  induction l1 with
  | nil => simp [mapGet, Ne.symm h]
  | cons kv rest ih =>
    simp only [List.cons_append, mapGet]
    split_ifs
    · rfl
    · exact ih

theorem sortStrings_cons_split (k : String) (keys : List String) :
    ∃ A B, sortStrings keys = A ++ B ∧ sortStrings (k :: keys) = A ++ k :: B := by
  refine ⟨(sortStrings keys).takeWhile (fun b => decide ¬stringLE k b),
    (sortStrings keys).dropWhile (fun b => decide ¬stringLE k b),
    (List.takeWhile_append_dropWhile _ _).symm, ?_⟩
  show List.orderedInsert stringLE k (List.insertionSort stringLE keys) = _
  rw [List.orderedInsert_eq_take_drop]
  rfl

theorem sortStrings_insert_split (k : String) (k1 k2 : List String) :
    ∃ A B, sortStrings (k1 ++ k2) = A ++ B ∧ sortStrings (k1 ++ k :: k2) = A ++ k :: B := by
  obtain ⟨A, B, h1, h2⟩ := sortStrings_cons_split k (k1 ++ k2)
  refine ⟨A, B, h1, ?_⟩
  rw [← h2]
  exact sortStrings_eq_of_perm _ _ List.perm_middle

/-- C13: a model M' that differs from M only by one additional technical asset (under a new
key, anywhere in the enumeration of the map) that is out of scope, whatever else the asset
holds, gets the same result of `UnencryptedAssetRule.GenerateRisks` as M (the accessors of stored
data reading only the map `DataAssets`). -/
theorem C13_unencrypted_ignores_out_of_scope (api : TypesAPI) (M : Model)
    (l1 l2 : List (String × TechnicalAsset)) (k : String) (a : TechnicalAsset)
    (hM : M.TechnicalAssets = l1 ++ l2) (hk : k ∉ mapKeys M.TechnicalAssets)
    (ha : a.OutOfScope = true) (hapi : storedAccessorsReadDataAssetsOnly api) :
    UnencryptedAssetRule.GenerateRisks api { M with TechnicalAssets := l1 ++ (k, a) :: l2 }
      = UnencryptedAssetRule.GenerateRisks api M := by
  rw [unencrypted_generateRisks_eq, unencrypted_generateRisks_eq]
  refine congrArg (fun l => some (l, (none : Option String))) ?_
  obtain ⟨A, B, h1, h2⟩ := sortStrings_insert_split k (mapKeys l1) (mapKeys l2)
  have e1 : SortedTechnicalAssetIDs M = A ++ B := by
    unfold SortedTechnicalAssetIDs
    rw [hM, ← h1]
    simp [mapKeys]
  have e2 : SortedTechnicalAssetIDs { M with TechnicalAssets := l1 ++ (k, a) :: l2 }
      = A ++ k :: B := by
    unfold SortedTechnicalAssetIDs
    rw [← h2]
    simp [mapKeys]
  have hkAB : k ∉ A ++ B := by
    rw [← e1]
    intro hmem
    exact hk ((mem_sortStrings _ _).1 hmem)
  have hg : ∀ id ∈ A ++ B, id ≠ k := fun id hmem e => hkAB (e ▸ hmem)
  have hself : mapGet (l1 ++ (k, a) :: l2) k = some a := by
    have hk1 : k ∉ mapKeys l1 := by
      intro hmem
      apply hk
      rw [hM]
      simp only [mapKeys, List.map_append, List.mem_append]
      exact Or.inl hmem
    clear hg hkAB e1 e2 h1 h2 hM
    induction l1 with
    | nil => simp [mapGet]
    | cons kv rest ih =>
      simp only [mapKeys, List.map_cons, List.mem_cons, not_or] at hk1
      simp only [List.cons_append, mapGet, Ne.symm hk1.1, if_false]
      exact ih hk1.2
  have hnil : UnencryptedAssetRule.risksOfAsset api
      { M with TechnicalAssets := l1 ++ (k, a) :: l2 } a = [] := by
    simp [UnencryptedAssetRule.risksOfAsset, ha]
  rw [e1, e2]
  simp only [List.flatMap_append, List.flatMap_cons, hself, hnil, List.nil_append]
  congr 1 <;>
  · refine List.flatMap_congr ?_
    intro id hmem
    have hne : id ≠ k := hg id (by simp [hmem])
    rw [mapGet_insert_ne l1 l2 k a id hne, hM]
    cases mapGet (l1 ++ l2) id with
    | none => rfl
    | some t =>
      simp only
      have hh := hapi { M with TechnicalAssets := l1 ++ (k, a) :: l2 } M t rfl
      exact risksOfAsset_congr api _ M t hh.1 hh.2

/-- An instance of C13: the out-of-scope datastore "oos", which stores strictly confidential
data unencrypted, added to `twoStoresModel`. -/
theorem C13_unencrypted_ignores_out_of_scope_witness :
    twoStoresModel.TechnicalAssets =
      [("kv", kvE3)] ++
        [("db", { plainAsset "db" .Datastore .Confidential .Operational .Operational [] with
                  DataAssetsStored := ["pii"] })] ∧
    "oos" ∉ mapKeys twoStoresModel.TechnicalAssets ∧ oosAsset.OutOfScope = true ∧
    UnencryptedAssetRule.GenerateRisks specAPI twoStoresWithOosModel
      = UnencryptedAssetRule.GenerateRisks specAPI twoStoresModel :=
  ⟨rfl, by decide, rfl,
    C13_unencrypted_ignores_out_of_scope specAPI twoStoresModel _ _ "oos" oosAsset rfl
      (by decide) rfl specAPI_storedAccessors⟩

/-! ## Missing cloud hardening rule: an additional out-of-scope asset -/

/-- C12 (the code at the failing input): `twoStoresModel` has no cloud component and gets no
risk; with the out-of-scope asset "oos" tagged `aws` added (in no trust boundary, no shared
runtime, target of no link) the rule returns one risk, scoped to the out-of-scope asset. -/
theorem C12_out_of_scope_asset_reported :
    oosAsset.OutOfScope = true ∧
    twoStoresWithOosModel.TechnicalAssets
      = [("kv", kvE3)] ++ ("oos", oosAsset) :: twoStoresModel.TechnicalAssets.drop 1 ∧
    MissingCloudHardeningRule.GenerateRisks specAPI id twoStoresModel = some ([], none) ∧
    (MissingCloudHardeningRule.GenerateRisks specAPI id twoStoresWithOosModel).map
        (fun res => res.1.map (fun r => (r.SyntheticId, r.MostRelevantTechnicalAssetId)))
      = some [("missing-cloud-hardening@oos@aws", "oos")] :=
  ⟨by decide, by decide, by decide, by decide⟩

/-! ## Base tags -/

theorem hasPrefix_iff (s p : String) :
    HasPrefix s p = true ↔ ∃ rest : String, s = p ++ rest := by
  unfold HasPrefix
  rw [decide_eq_true_iff]
  constructor
  · rintro ⟨t, ht⟩
    exact ⟨String.mk t, String.ext (by simp [String.data_append, ht])⟩
  · rintro ⟨rest, h⟩
    exact ⟨rest.data, by rw [h, String.data_append]⟩

/-- C20: `isTaggedWithBaseTag tags P` is true exactly when some tag of the list, trimmed and
lower-cased, equals the trimmed and lower-cased base tag or is the trimmed and lower-cased base
tag followed by ":" and any rest; the tags `AWS` and ` aws:ec2 ` match the base tag `aws`, the
tag `awsome` does not. -/
theorem C20_isTaggedWithBaseTag_iff (tags : List String) (P : String) :
    (isTaggedWithBaseTag tags P = true ↔
      ∃ tag ∈ tags, ToLower (TrimSpace tag) = ToLower (TrimSpace P)
        ∨ ∃ rest : String, ToLower (TrimSpace tag) = ToLower (TrimSpace P) ++ ":" ++ rest) ∧
    isTaggedWithBaseTag ["AWS"] "aws" = true ∧
    isTaggedWithBaseTag [" aws:ec2 "] "aws" = true ∧
    isTaggedWithBaseTag ["awsome"] "aws" = false ∧
    isTaggedWithBaseTag ["gcp", "awsome", "Aws:S3"] " AWS " = true := by
  refine ⟨?_, by decide, by decide, by decide, by decide⟩
  unfold isTaggedWithBaseTag
  simp only [List.any_eq_true, Bool.or_eq_true, beq_iff_eq, hasPrefix_iff]

/-! ## Relative attacker attractiveness: what `applyRAA` reads -/

theorem scoreProcessedOrStored_congr (tx : Taxonomy) (m1 m2 : Model)
    (h : m1.DataAssets = m2.DataAssets) (ids : List String) (score : ℚ) :
    scoreProcessedOrStored tx m1 ids score = scoreProcessedOrStored tx m2 ids score := by
  induction ids generalizing score with
  | nil => rfl
  | cons id rest ih =>
    simp only [scoreProcessedOrStored, h]
    cases mapGet m2.DataAssets id with
    | none => rfl
    | some d => exact ih _

theorem scoreTransferred_congr (tx : Taxonomy) (m1 m2 : Model)
    (h : m1.DataAssets = m2.DataAssets) (ids : List String) (score : ℚ) :
    scoreTransferred tx m1 ids score = scoreTransferred tx m2 ids score := by
  induction ids generalizing score with
  | nil => rfl
  | cons id rest ih =>
    simp only [scoreTransferred, h]
    cases mapGet m2.DataAssets id with
    | none => rfl
    | some d => exact ih _

theorem scoreLinks_congr (tx : Taxonomy) (m1 m2 : Model)
    (h : m1.DataAssets = m2.DataAssets) (links : List CommunicationLink) (score : ℚ) :
    scoreLinks tx m1 links score = scoreLinks tx m2 links score := by
  induction links generalizing score with
  | nil => rfl
  | cons l rest ih =>
    simp only [scoreLinks, scoreTransferred_congr tx m1 m2 h]
    cases scoreTransferred tx m2 l.DataAssetsSent score with
    | none => rfl
    | some s1 =>
      simp only
      cases scoreTransferred tx m2 l.DataAssetsReceived s1 with
      | none => rfl
      | some s2 => exact ih _

theorem calculateAttackerAttractiveness_eraseRAA (tx : Taxonomy) (input : Model)
    (a : TechnicalAsset) :
    calculateAttackerAttractiveness tx input a.eraseRAA
      = calculateAttackerAttractiveness tx input a := rfl

theorem calculateAttackerAttractiveness_model (tx : Taxonomy) (m1 m2 : Model)
    (h : m1.DataAssets = m2.DataAssets) (a : TechnicalAsset) :
    calculateAttackerAttractiveness tx m1 a = calculateAttackerAttractiveness tx m2 a := by
  unfold calculateAttackerAttractiveness
  simp only [scoreProcessedOrStored_congr tx m1 m2 h, scoreLinks_congr tx m1 m2 h]

theorem calculateAttackerAttractiveness_congr (tx : Taxonomy) (m1 m2 : Model)
    (h : m1.DataAssets = m2.DataAssets) (a1 a2 : TechnicalAsset)
    (ha : a1.eraseRAA = a2.eraseRAA) :
    calculateAttackerAttractiveness tx m1 a1 = calculateAttackerAttractiveness tx m2 a2 := by
  rw [← calculateAttackerAttractiveness_eraseRAA tx m1 a1, ha,
    calculateAttackerAttractiveness_eraseRAA, calculateAttackerAttractiveness_model tx m1 m2 h]

theorem raaEquiv_refl (m : Model) : raaEquiv m m :=
  ⟨rfl, rfl, fun _ => rfl⟩

theorem raaEquiv_symm (m1 m2 : Model) (h : raaEquiv m1 m2) : raaEquiv m2 m1 :=
  ⟨h.1.symm, h.2.1.symm, fun id => (h.2.2 id).symm⟩

theorem raaEquiv_trans (m1 m2 m3 : Model) (h : raaEquiv m1 m2) (h2 : raaEquiv m2 m3) :
    raaEquiv m1 m3 :=
  ⟨h.1.trans h2.1, h.2.1.trans h2.2.1, fun id => (h.2.2 id).trans (h2.2.2 id)⟩

theorem raaEquiv_lookup (m1 m2 : Model) (h : raaEquiv m1 m2) (id : String) :
    (mapGet m1.TechnicalAssets id = none ∧ mapGet m2.TechnicalAssets id = none) ∨
    ∃ a1 a2, mapGet m1.TechnicalAssets id = some a1 ∧ mapGet m2.TechnicalAssets id = some a2 ∧
      a1.eraseRAA = a2.eraseRAA := by
  have := h.2.2 id
  cases h1 : mapGet m1.TechnicalAssets id with
  | none =>
    cases h2 : mapGet m2.TechnicalAssets id with
    | none => exact Or.inl ⟨rfl, rfl⟩
    | some a2 => rw [h1, h2] at this; simp at this
  | some a1 =>
    cases h2 : mapGet m2.TechnicalAssets id with
    | none => rw [h1, h2] at this; simp at this
    | some a2 =>
      rw [h1, h2] at this
      simp only [Option.map_some', Option.some.injEq] at this
      exact Or.inr ⟨a1, a2, rfl, rfl, this⟩

theorem minMaxLoop_congr (tx : Taxonomy) (m1 m2 : Model) (h : raaEquiv m1 m2)
    (keys : List String) (acc : ℚ × ℚ) :
    minMaxLoop tx m1 keys acc = minMaxLoop tx m2 keys acc := by
  induction keys generalizing acc with
  | nil => rfl
  | cons key rest ih =>
    rcases raaEquiv_lookup m1 m2 h key with ⟨h1, h2⟩ | ⟨a1, a2, h1, h2, he⟩
    · simp only [minMaxLoop, h1, h2]
    · simp only [minMaxLoop, h1, h2, calculateAttackerAttractiveness_congr tx m1 m2 h.1 a1 a2 he]
      cases calculateAttackerAttractiveness tx m2 a2 with
      | none => rfl
      | some aa => exact ih _

theorem calculateRelative_congr (tx : Taxonomy) (m1 m2 : Model) (h : raaEquiv m1 m2) (x : ℚ) :
    calculateRelativeAttackerAttractiveness tx m1 x
      = calculateRelativeAttackerAttractiveness tx m2 x := by
  unfold calculateRelativeAttackerAttractiveness
  rw [h.2.1, minMaxLoop_congr tx m1 m2 h]

theorem pivotingLoop_congr (tx : Taxonomy) (m1 m2 : Model) (h : raaEquiv m1 m2)
    (a1 a2 : TechnicalAsset) (ha : a1.eraseRAA = a2.eraseRAA) (links : List CommunicationLink)
    (adjustment : ℚ) :
    pivotingLoop tx m1 a1 links adjustment = pivotingLoop tx m2 a2 links adjustment := by
  induction links generalizing adjustment with
  | nil => rfl
  | cons l rest ih =>
    rcases raaEquiv_lookup m1 m2 h l.TargetId with ⟨h1, h2⟩ | ⟨n1, n2, h1, h2, he⟩
    · simp only [pivotingLoop, h1, h2]
    · simp only [pivotingLoop, h1, h2,
        calculateAttackerAttractiveness_congr tx m1 m2 h.1 n1 n2 he,
        calculateAttackerAttractiveness_congr tx m1 m2 h.1 a1 a2 ha,
        calculateRelative_congr tx m1 m2 h]
      cases calculateAttackerAttractiveness tx m2 n2 with
      | none => rfl
      | some aaN =>
        simp only
        cases calculateRelativeAttackerAttractiveness tx m2 aaN with
        | none => rfl
        | some pN =>
          simp only
          cases calculateAttackerAttractiveness tx m2 a2 with
          | none => rfl
          | some aaS =>
            simp only
            cases calculateRelativeAttackerAttractiveness tx m2 aaS with
            | none => rfl
            | some pS => exact ih _

theorem calculatePivoting_congr (tx : Taxonomy) (m1 m2 : Model) (h : raaEquiv m1 m2)
    (a1 a2 : TechnicalAsset) (ha : a1.eraseRAA = a2.eraseRAA) :
    calculatePivotingNeighbourEffectAdjustment tx m1 a1
      = calculatePivotingNeighbourEffectAdjustment tx m2 a2 := by
  have ho : a1.OutOfScope = a2.OutOfScope := by
    show a1.eraseRAA.OutOfScope = a2.eraseRAA.OutOfScope
    rw [ha]
  have hl : a1.CommunicationLinks = a2.CommunicationLinks := by
    show a1.eraseRAA.CommunicationLinks = a2.eraseRAA.CommunicationLinks
    rw [ha]
  unfold calculatePivotingNeighbourEffectAdjustment
  rw [ho, hl, pivotingLoop_congr tx m1 m2 h a1 a2 ha]

theorem raaOf_congr (tx : Taxonomy) (m1 m2 : Model) (h : raaEquiv m1 m2)
    (a1 a2 : TechnicalAsset) (ha : a1.eraseRAA = a2.eraseRAA) :
    raaOf tx m1 a1 = raaOf tx m2 a2 := by
  unfold raaOf
  rw [calculateAttackerAttractiveness_congr tx m1 m2 h.1 a1 a2 ha,
    calculatePivoting_congr tx m1 m2 h a1 a2 ha]
  simp only [calculateRelative_congr tx m1 m2 h]

theorem raaOf_lookup_congr (tx : Taxonomy) (m1 m2 : Model) (h : raaEquiv m1 m2) (id : String) :
    (mapGet m1.TechnicalAssets id).bind (raaOf tx m1)
      = (mapGet m2.TechnicalAssets id).bind (raaOf tx m2) := by
  rcases raaEquiv_lookup m1 m2 h id with ⟨h1, h2⟩ | ⟨a1, a2, h1, h2, he⟩
  · rw [h1, h2]
    rfl
  · rw [h1, h2]
    exact raaOf_congr tx m1 m2 h a1 a2 he

/-! ## Relative attacker attractiveness: the loop of `applyRAA` -/

theorem mapGet_map_snd {α β : Type} (f : α → β) (l : List (String × α)) (id : String) :
    mapGet (l.map (fun kv => (kv.1, f kv.2))) id = (mapGet l id).map f := by
  induction l with
  | nil => rfl
  | cons kv rest ih =>
    obtain ⟨k, v⟩ := kv
    simp only [List.map_cons, mapGet]
    split_ifs
    · rfl
    · exact ih

theorem raaEquiv_of_frame (m1 m2 : Model) (hD : m1.DataAssets = m2.DataAssets)
    (hT : m1.TechnicalAssets.map (fun kv => (kv.1, kv.2.eraseRAA))
      = m2.TechnicalAssets.map (fun kv => (kv.1, kv.2.eraseRAA))) : raaEquiv m1 m2 := by
  refine ⟨hD, ?_, ?_⟩
  · have := congrArg mapKeys hT
    simp only [mapKeys, List.map_map] at this
    exact congrArg sortStrings this
  · intro id
    rw [← mapGet_map_snd, ← mapGet_map_snd, hT]

theorem mapGet_map_key {α β : Type} (g : String → α → β) (l : List (String × α))
    (id : String) :
    mapGet (l.map (fun kv => (kv.1, g kv.1 kv.2))) id = (mapGet l id).map (g id) := by
  induction l with
  | nil => rfl
  | cons kv rest ih =>
    obtain ⟨k, v⟩ := kv
    simp only [List.map_cons, mapGet]
    by_cases h : k = id
    · simp only [h, if_true, Option.map_some']
    · simp only [h, if_false]
      exact ih

theorem mapGet_setRAA (input : Model) (k : String) (r : ℚ) (id : String) :
    mapGet (setRAA input k r).TechnicalAssets id
      = (mapGet input.TechnicalAssets id).map
          (fun a => if id = k then { a with RAA := r } else a) := by
  have h : (setRAA input k r).TechnicalAssets
      = input.TechnicalAssets.map (fun kv =>
          (kv.1, (fun (key : String) (a : TechnicalAsset) =>
            if key = k then { a with RAA := r } else a) kv.1 kv.2)) := by
    unfold setRAA
    simp only
    apply List.map_congr_left
    intro kv _
    split_ifs <;> rfl
  rw [h]
  exact mapGet_map_key
    (fun (key : String) (a : TechnicalAsset) => if key = k then { a with RAA := r } else a)
    input.TechnicalAssets id

theorem setRAA_frame (input : Model) (k : String) (r : ℚ) :
    (setRAA input k r).TechnicalAssets.map (fun kv => (kv.1, kv.2.eraseRAA))
      = input.TechnicalAssets.map (fun kv => (kv.1, kv.2.eraseRAA)) := by
  unfold setRAA
  simp only [List.map_map]
  apply List.map_congr_left
  intro kv _
  simp only [Function.comp]
  split_ifs <;> rfl

theorem raaEquiv_setRAA (input : Model) (k : String) (r : ℚ) :
    raaEquiv (setRAA input k r) input :=
  raaEquiv_of_frame _ _ rfl (setRAA_frame input k r)

theorem applyRAALoop_cons (tx : Taxonomy) (k : String) (rest : List String) (input : Model) :
    applyRAALoop tx (k :: rest) input =
      ((mapGet input.TechnicalAssets k).bind (raaOf tx input)).bind
        (fun raa => applyRAALoop tx rest (setRAA input k raa)) := by
  simp only [applyRAALoop, raaOf]
  cases mapGet input.TechnicalAssets k with
  | none => rfl
  | some a =>
    simp only [Option.bind]
    cases calculateAttackerAttractiveness tx input a with
    | none => rfl
    | some aa =>
      simp only
      cases calculatePivotingNeighbourEffectAdjustment tx input a with
      | none => rfl
      | some adj =>
        simp only
        cases calculateRelativeAttackerAttractiveness tx input (aa + adj) with
        | none => rfl
        | some raa => rfl

theorem applyRAALoop_some (tx : Taxonomy) (keys : List String) (input out : Model)
    (h : applyRAALoop tx keys input = some out) :
    (out.DataAssets = input.DataAssets ∧ out.TrustBoundaries = input.TrustBoundaries ∧
      out.SharedRuntimes = input.SharedRuntimes ∧
      out.TechnicalAssets.map (fun kv => (kv.1, kv.2.eraseRAA))
        = input.TechnicalAssets.map (fun kv => (kv.1, kv.2.eraseRAA))) ∧
    (∀ id ∈ keys, ((mapGet input.TechnicalAssets id).bind (raaOf tx input)).isSome = true ∧
      (mapGet out.TechnicalAssets id).map (fun a => a.RAA)
        = (mapGet input.TechnicalAssets id).bind (raaOf tx input)) ∧
    (∀ id, id ∉ keys → mapGet out.TechnicalAssets id = mapGet input.TechnicalAssets id) := by
  induction keys generalizing input with
  | nil =>
    simp only [applyRAALoop, Option.some.injEq] at h
    subst h
    exact ⟨⟨rfl, rfl, rfl, rfl⟩, fun id hid => absurd hid (by simp), fun _ _ => rfl⟩
  | cons k rest ih =>
    rw [applyRAALoop_cons] at h
    cases hk : (mapGet input.TechnicalAssets k).bind (raaOf tx input) with
    | none => rw [hk] at h; exact absurd h (by simp)
    | some raa =>
      rw [hk] at h
      simp only [Option.some_bind] at h
      obtain ⟨⟨f1, f2, f3, f4⟩, hv, hn⟩ := ih (setRAA input k raa) h
      have he := raaEquiv_setRAA input k raa
      refine ⟨⟨f1, f2, f3, f4.trans (setRAA_frame input k raa)⟩, ?_, ?_⟩
      · intro id hid
        by_cases hr : id ∈ rest
        · have := hv id hr
          rw [raaOf_lookup_congr tx _ _ he id] at this
          exact this
        · rcases List.mem_cons.1 hid with e | e
          · subst e
            refine ⟨by rw [hk]; rfl, ?_⟩
            rw [hn id hr, mapGet_setRAA, hk]
            cases hg : mapGet input.TechnicalAssets id with
            | none => rw [hg] at hk; simp at hk
            | some a => simp
          · exact absurd e hr
      · intro id hid
        simp only [List.mem_cons, not_or] at hid
        rw [hn id hid.2, mapGet_setRAA]
        cases mapGet input.TechnicalAssets id with
        | none => rfl
        | some a => simp [hid.1]

theorem applyRAALoop_none (tx : Taxonomy) (keys : List String) (input : Model)
    (h : applyRAALoop tx keys input = none) :
    ∃ k ∈ keys, (mapGet input.TechnicalAssets k).bind (raaOf tx input) = none := by
  induction keys generalizing input with
  | nil => simp [applyRAALoop] at h
  | cons k rest ih =>
    rw [applyRAALoop_cons] at h
    cases hk : (mapGet input.TechnicalAssets k).bind (raaOf tx input) with
    | none => exact ⟨k, List.mem_cons_self _ _, hk⟩
    | some raa =>
      rw [hk] at h
      simp only [Option.some_bind] at h
      obtain ⟨k2, hk2, hnone⟩ := ih (setRAA input k raa) h
      rw [raaOf_lookup_congr tx _ _ (raaEquiv_setRAA input k raa) k2] at hnone
      exact ⟨k2, List.mem_cons_of_mem _ hk2, hnone⟩

theorem raaAfter_eq_closedForm (tx : Taxonomy) (input : Model) (id : String) :
    raaAfter tx input id = raaClosedForm tx input id := by
  unfold raaAfter raaClosedForm applyRAA
  cases h : applyRAALoop tx (mapKeys input.TechnicalAssets) input with
  | none =>
    obtain ⟨k, hk, hnone⟩ := applyRAALoop_none tx _ input h
    have : ((mapKeys input.TechnicalAssets).all
        (fun k => ((mapGet input.TechnicalAssets k).bind (raaOf tx input)).isSome)) = false := by
      rw [List.all_eq_false]
      exact ⟨k, hk, by rw [hnone]; simp⟩
    simp [this]
  | some out =>
    obtain ⟨_, hv, hn⟩ := applyRAALoop_some tx _ input out h
    have : ((mapKeys input.TechnicalAssets).all
        (fun k => ((mapGet input.TechnicalAssets k).bind (raaOf tx input)).isSome)) = true := by
      rw [List.all_eq_true]
      exact fun k hk => (hv k hk).1
    simp only [this, if_true]
    by_cases hid : id ∈ mapKeys input.TechnicalAssets
    · exact (hv id hid).2
    · rw [hn id hid, mapGet_eq_none _ _ hid]
      rfl

theorem raaClosedForm_congr (tx : Taxonomy) (m1 m2 : Model) (h : raaEquiv m1 m2) (id : String) :
    raaClosedForm tx m1 id = raaClosedForm tx m2 id := by
  unfold raaClosedForm
  have hall : (mapKeys m1.TechnicalAssets).all
        (fun k => ((mapGet m1.TechnicalAssets k).bind (raaOf tx m1)).isSome)
      = (mapKeys m2.TechnicalAssets).all
        (fun k => ((mapGet m2.TechnicalAssets k).bind (raaOf tx m2)).isSome) := by
    have hf : (fun k => ((mapGet m1.TechnicalAssets k).bind (raaOf tx m1)).isSome)
        = (fun k => ((mapGet m2.TechnicalAssets k).bind (raaOf tx m2)).isSome) := by
      funext k
      rw [raaOf_lookup_congr tx m1 m2 h k]
    rw [hf]
    have hmem : ∀ k, k ∈ mapKeys m1.TechnicalAssets ↔ k ∈ mapKeys m2.TechnicalAssets := by
      intro k
      rw [← mem_sortStrings, h.2.1, mem_sortStrings]
    rw [Bool.eq_iff_iff, List.all_eq_true, List.all_eq_true]
    exact ⟨fun H k hk => H k ((hmem k).2 hk), fun H k hk => H k ((hmem k).1 hk)⟩
  rw [hall, raaOf_lookup_congr tx m1 m2 h id]

/-! ## Relative attacker attractiveness: frame and single asset -/

/-- C16: when `applyRAA` returns, the maps `DataAssets`, `TrustBoundaries` and `SharedRuntimes`
are the ones before the call, the keys of `TechnicalAssets` are unchanged, in the same
enumeration, and every technical asset equals its previous value once the field `RAA` is
cleared on both sides; on a model without dangling ids `applyRAA` does return. -/
theorem C16_applyRAA_changes_only_RAA (tx : Taxonomy) (input : Model) :
    (∀ out, applyRAA tx input = some out →
      mapKeys out.TechnicalAssets = mapKeys input.TechnicalAssets ∧
      out.DataAssets = input.DataAssets ∧ out.TrustBoundaries = input.TrustBoundaries ∧
      out.SharedRuntimes = input.SharedRuntimes ∧
      out.TechnicalAssets.map (fun kv => (kv.1, kv.2.eraseRAA))
        = input.TechnicalAssets.map (fun kv => (kv.1, kv.2.eraseRAA))) ∧
    (noDanglingIds input → ∃ out, applyRAA tx input = some out) := by
  constructor
  · intro out h
    obtain ⟨⟨f1, f2, f3, f4⟩, _, _⟩ := applyRAALoop_some tx _ input out h
    refine ⟨?_, f1, f2, f3, f4⟩
    have := congrArg mapKeys f4
    simpa only [mapKeys, List.map_map] using this
  · intro hN
    obtain ⟨out, hout, _⟩ := applyRAALoop_spec tx (mapKeys input.TechnicalAssets) input hN.1
      (fun k hk => hk)
    exact ⟨out, hout⟩

/-- An instance of C16: `applyRAA` on `pivotModel` returns a model that differs from it only in
the fields `RAA`, which hold 660 and 100. -/
theorem C16_applyRAA_changes_only_RAA_witness :
    noDanglingIds pivotModel ∧
    ∃ out, applyRAA fibonacciTaxonomy pivotModel = some out ∧
      out.TechnicalAssets.map (fun kv => (kv.1, kv.2.RAA)) = [("a", 660), ("n", 100)] ∧
      mapKeys out.TechnicalAssets = mapKeys pivotModel.TechnicalAssets ∧
      out.DataAssets = pivotModel.DataAssets ∧
      out.TrustBoundaries = pivotModel.TrustBoundaries ∧
      out.SharedRuntimes = pivotModel.SharedRuntimes ∧
      out.TechnicalAssets.map (fun kv => (kv.1, kv.2.eraseRAA))
        = pivotModel.TechnicalAssets.map (fun kv => (kv.1, kv.2.eraseRAA)) := by
  obtain ⟨out, hout⟩ := (C16_applyRAA_changes_only_RAA fibonacciTaxonomy pivotModel).2
    (by decide)
  have hv : (applyRAA fibonacciTaxonomy pivotModel).map
      (fun m => m.TechnicalAssets.map (fun kv => (kv.1, kv.2.RAA)))
      = some [("a", 660), ("n", 100)] := by decide!
  rw [hout] at hv
  simp only [Option.map_some', Option.some.injEq] at hv
  exact ⟨by decide, out, hout, hv,
    (C16_applyRAA_changes_only_RAA fibonacciTaxonomy pivotModel).1 out hout⟩

theorem pivotingLoop_self (tx : Taxonomy) (input : Model) (k : String) (A : TechnicalAsset)
    (hT : input.TechnicalAssets = [(k, A)]) (links : List CommunicationLink)
    (hl : ∀ l ∈ links, l.TargetId ∈ mapKeys input.TechnicalAssets) (adjustment v : ℚ)
    (h : pivotingLoop tx input A links adjustment = some v) : v = adjustment := by
  induction links generalizing adjustment with
  | nil =>
    simp only [pivotingLoop, Option.some.injEq] at h
    exact h.symm
  | cons l rest ih =>
    have ht : l.TargetId = k := by
      have := hl l (List.mem_cons_self _ _)
      rw [hT] at this
      simpa [mapKeys] using this
    have hg : mapGet input.TechnicalAssets l.TargetId = some A := by
      rw [hT, ht]
      simp [mapGet]
    simp only [pivotingLoop, hg] at h
    cases haa : calculateAttackerAttractiveness tx input A with
    | none => simp [haa] at h
    | some aa =>
      simp only [haa] at h
      cases hp : calculateRelativeAttackerAttractiveness tx input aa with
      | none => simp [hp] at h
      | some p =>
        simp only [hp, sub_self, lt_self_iff_false, gt_iff_lt, if_false] at h
        exact ih (fun x hx => hl x (List.mem_cons_of_mem _ hx)) _ h

theorem sortStrings_singleton (k : String) : sortStrings [k] = [k] := rfl

/-- C14: in a model whose only technical asset is A, stored under the key k, with the ids used
by A existing and the raw attractiveness of A strictly between the two initial values of the
minimum and the maximum (-9223372036854775808 and 9223372036854775807), `applyRAA` returns and
the value stored for A is exactly 1, whatever the ratings, data, technology and scope flag of A
and also when A has links to itself. -/
theorem C14_single_asset_raa_is_one (tx : Taxonomy) (input : Model) (k : String)
    (A : TechnicalAsset) (hT : input.TechnicalAssets = [(k, A)]) (hA : A.refsExist input)
    (hrange : ∀ raw, calculateAttackerAttractiveness tx input A = some raw →
      -9223372036854775808 < raw ∧ raw < 9223372036854775807) :
    raaAfter tx input k = some 1 := by
  obtain ⟨raw, hraw⟩ := calculateAttackerAttractiveness_isSome tx input A hA
  obtain ⟨h1, h2⟩ := hrange raw hraw
  have hg : mapGet input.TechnicalAssets k = some A := by
    rw [hT]
    simp [mapGet]
  have hrel : ∀ x, calculateRelativeAttackerAttractiveness tx input x
      = some (if (x - raw) / (raw + 1 - raw) * 100 ≤ 0 then 1
              else (x - raw) / (raw + 1 - raw) * 100) := by
    intro x
    unfold calculateRelativeAttackerAttractiveness
    have hk : sortStrings (mapKeys input.TechnicalAssets) = [k] := by
      rw [hT]
      rfl
    rw [hk]
    simp only [minMaxLoop, hg, hraw, h2, h1, gt_iff_lt, if_true, lt_self_iff_false,
      not_false_eq_true]
  have hadj : calculatePivotingNeighbourEffectAdjustment tx input A = some 0 := by
    obtain ⟨v, hv⟩ := calculatePivoting_isSome tx input
      (by rw [hT]; intro kv hkv; simp only [List.mem_singleton] at hkv; rw [hkv]; exact hA) A hA
    rw [hv]
    unfold calculatePivotingNeighbourEffectAdjustment at hv
    by_cases ho : A.OutOfScope = true
    · simp only [ho, if_true, Option.some.injEq] at hv
      rw [hv]
    · simp only [ho] at hv
      rw [pivotingLoop_self tx input k A hT _ (fun l hl => (hA.2.2 l hl).1) 0 v hv]
  have hraa : raaOf tx input A = some 1 := by
    unfold raaOf
    simp only [hraw, hadj, hrel, add_zero, sub_self, zero_div, zero_mul, le_refl, if_true]
  rw [raaAfter_eq_closedForm]
  unfold raaClosedForm
  simp only [hT, mapKeys, List.map_cons, List.map_nil, List.all_cons, List.all_nil,
    Bool.and_true]
  rw [hT] at hg
  simp only [hg, Option.some_bind]
  simp only [hraa, Option.isSome_some, if_true]

/-- Scenario E1 as an instance of C14: "web" gets the value 1; so does the only asset of
`selfLinkModel`, a multi-tenant datastore with data and a link to itself. -/
theorem C14_single_asset_raa_is_one_witness :
    scenarioE1.TechnicalAssets
      = [("web", plainAsset "web" .Process .Internal .Operational .Operational [])] ∧
    (plainAsset "web" .Process .Internal .Operational .Operational []).refsExist scenarioE1 ∧
    calculateAttackerAttractiveness fibonacciTaxonomy scenarioE1
      (plainAsset "web" .Process .Internal .Operational .Operational []) = some 29 ∧
    raaAfter fibonacciTaxonomy scenarioE1 "web" = some 1 ∧
    raaAfter fibonacciTaxonomy selfLinkModel "solo" = some 1 :=
  ⟨rfl, by decide, by decide!,
    C14_single_asset_raa_is_one fibonacciTaxonomy scenarioE1 "web"
      (plainAsset "web" .Process .Internal .Operational .Operational []) rfl (by decide)
      (fun raw hraw => by
        have h29 : calculateAttackerAttractiveness fibonacciTaxonomy scenarioE1
            (plainAsset "web" .Process .Internal .Operational .Operational []) = some 29 := by
          decide!
        rw [h29] at hraw
        simp only [Option.some.injEq] at hraw
        rw [← hraw]
        norm_num),
    by decide!⟩

/-! ## Relative attacker attractiveness: out-of-scope assets -/

theorem scoreProcessedOrStored_nonneg (tx : Taxonomy) (htx : tx.nonneg) (input : Model)
    (ids : List String) (score v : ℚ) (hs : 0 ≤ score)
    (h : scoreProcessedOrStored tx input ids score = some v) : 0 ≤ v := by
  induction ids generalizing score with
  | nil =>
    simp only [scoreProcessedOrStored, Option.some.injEq] at h
    exact h ▸ hs
  | cons id rest ih =>
    cases hd : mapGet input.DataAssets id with
    | none => simp [scoreProcessedOrStored, hd] at h
    | some d =>
      simp only [scoreProcessedOrStored, hd] at h
      refine ih _ ?_ h
      have h3 := htx.2.2.1 d.Confidentiality
      have h4 := htx.2.2.2.1 d.Integrity
      have h4b := htx.2.2.2.1 d.Availability
      have h7 := htx.2.2.2.2.2.2 d.Quantity
      positivity

theorem scoreTransferred_nonneg (tx : Taxonomy) (htx : tx.nonneg) (input : Model)
    (ids : List String) (score v : ℚ) (hs : 0 ≤ score)
    (h : scoreTransferred tx input ids score = some v) : 0 ≤ v := by
  induction ids generalizing score with
  | nil =>
    simp only [scoreTransferred, Option.some.injEq] at h
    exact h ▸ hs
  | cons id rest ih =>
    cases hd : mapGet input.DataAssets id with
    | none => simp [scoreTransferred, hd] at h
    | some d =>
      simp only [scoreTransferred, hd] at h
      refine ih _ ?_ h
      have h5 := htx.2.2.2.2.1 d.Confidentiality
      have h6 := htx.2.2.2.2.2.1 d.Integrity
      have h6b := htx.2.2.2.2.2.1 d.Availability
      have h7 := htx.2.2.2.2.2.2 d.Quantity
      positivity

theorem scoreLinks_nonneg (tx : Taxonomy) (htx : tx.nonneg) (input : Model)
    (links : List CommunicationLink) (score v : ℚ) (hs : 0 ≤ score)
    (h : scoreLinks tx input links score = some v) : 0 ≤ v := by
  induction links generalizing score with
  | nil =>
    simp only [scoreLinks, Option.some.injEq] at h
    exact h ▸ hs
  | cons l rest ih =>
    cases h1 : scoreTransferred tx input l.DataAssetsSent score with
    | none => simp [scoreLinks, h1] at h
    | some s1 =>
      cases h2 : scoreTransferred tx input l.DataAssetsReceived s1 with
      | none => simp [scoreLinks, h1, h2] at h
      | some s2 =>
        simp only [scoreLinks, h1, h2] at h
        exact ih _ (scoreTransferred_nonneg tx htx input _ _ _
          (scoreTransferred_nonneg tx htx input _ _ _ hs h1) h2) h

theorem applyTechnologyFactor_nonneg (a : TechnicalAsset) (score : ℚ) (hs : 0 ≤ score) :
    0 ≤ applyTechnologyFactor a score := by
  unfold applyTechnologyFactor
  split_ifs <;> positivity

theorem calculateAttackerAttractiveness_nonneg (tx : Taxonomy) (htx : tx.nonneg)
    (input : Model) (a : TechnicalAsset) (v : ℚ)
    (h : calculateAttackerAttractiveness tx input a = some v) : 0 ≤ v := by
  unfold calculateAttackerAttractiveness at h
  by_cases ho : a.OutOfScope = true
  · simp only [ho, if_true, Option.some.injEq] at h
    exact h ▸ le_refl _
  · rw [if_neg ho] at h
    cases h1 : scoreProcessedOrStored tx input a.DataAssetsProcessed
        (0 + tx.ConfidentialityForAsset a.Confidentiality + tx.CriticalityForAsset a.Integrity
          + tx.CriticalityForAsset a.Availability) with
    | none => rw [h1] at h; exact absurd h (by simp)
    | some s1 =>
      rw [h1] at h
      cases h2 : scoreProcessedOrStored tx input a.DataAssetsStored s1 with
      | none => simp only [h2] at h; exact absurd h (by simp)
      | some s2 =>
        cases h3 : scoreLinks tx input a.CommunicationLinks s2 with
        | none => simp only [h2, h3] at h; exact absurd h (by simp)
        | some s3 =>
          simp only [h2, h3, Option.some.injEq] at h
          have c1 := htx.1 a.Confidentiality
          have c2 := htx.2.1 a.Integrity
          have c3 := htx.2.1 a.Availability
          have p1 : 0 ≤ s1 := scoreProcessedOrStored_nonneg tx htx input _ _ _ (by positivity) h1
          have p2 : 0 ≤ s2 := scoreProcessedOrStored_nonneg tx htx input _ _ _ p1 h2
          have p3 : 0 ≤ s3 := scoreLinks_nonneg tx htx input _ _ _ p2 h3
          have p4 := applyTechnologyFactor_nonneg a s3 p3
          rw [← h]
          split_ifs <;> positivity

theorem minMaxLoop_min_ge (tx : Taxonomy) (input : Model) (c : ℚ) (keys : List String)
    (hall : ∀ key ∈ keys, ∀ a v, mapGet input.TechnicalAssets key = some a →
      calculateAttackerAttractiveness tx input a = some v → c ≤ v)
    (acc r : ℚ × ℚ) (hc : c ≤ acc.1) (h : minMaxLoop tx input keys acc = some r) : c ≤ r.1 := by
  induction keys generalizing acc with
  | nil =>
    simp only [minMaxLoop, Option.some.injEq] at h
    exact h ▸ hc
  | cons key rest ih =>
    cases hg : mapGet input.TechnicalAssets key with
    | none => simp [minMaxLoop, hg] at h
    | some a =>
      cases haa : calculateAttackerAttractiveness tx input a with
      | none => simp [minMaxLoop, hg, haa] at h
      | some aa =>
        simp only [minMaxLoop, hg, haa] at h
        refine ih (fun k hk => hall k (List.mem_cons_of_mem _ hk)) _ ?_ h
        have := hall key (List.mem_cons_self _ _) a aa hg haa
        simp only
        split_ifs
        · exact this
        · exact hc

theorem minMaxLoop_min_le_acc (tx : Taxonomy) (input : Model) (keys : List String)
    (acc r : ℚ × ℚ) (h : minMaxLoop tx input keys acc = some r) : r.1 ≤ acc.1 := by
  induction keys generalizing acc with
  | nil =>
    simp only [minMaxLoop, Option.some.injEq] at h
    exact h ▸ le_refl _
  | cons key rest ih =>
    cases hg : mapGet input.TechnicalAssets key with
    | none => simp [minMaxLoop, hg] at h
    | some a =>
      cases haa : calculateAttackerAttractiveness tx input a with
      | none => simp [minMaxLoop, hg, haa] at h
      | some aa =>
        simp only [minMaxLoop, hg, haa] at h
        refine le_trans (ih _ h) ?_
        simp only
        split_ifs with hlt
        · exact le_of_lt hlt
        · exact le_refl _

theorem minMaxLoop_min_le (tx : Taxonomy) (input : Model) (keys : List String) (key : String)
    (hk : key ∈ keys) (a : TechnicalAsset) (v : ℚ)
    (hg : mapGet input.TechnicalAssets key = some a)
    (hv : calculateAttackerAttractiveness tx input a = some v)
    (acc r : ℚ × ℚ) (h : minMaxLoop tx input keys acc = some r) : r.1 ≤ v := by
  induction keys generalizing acc with
  | nil => simp at hk
  | cons k0 rest ih =>
    cases hg0 : mapGet input.TechnicalAssets k0 with
    | none => simp [minMaxLoop, hg0] at h
    | some a0 =>
      cases haa : calculateAttackerAttractiveness tx input a0 with
      | none => simp [minMaxLoop, hg0, haa] at h
      | some aa =>
        simp only [minMaxLoop, hg0, haa] at h
        rcases List.mem_cons.1 hk with e | e
        · subst e
          rw [hg] at hg0
          simp only [Option.some.injEq] at hg0
          subst hg0
          rw [hv] at haa
          simp only [Option.some.injEq] at haa
          subst haa
          refine le_trans (minMaxLoop_min_le_acc tx input rest _ r h) ?_
          simp only
          split_ifs with hlt
          · exact le_refl _
          · exact not_lt.1 hlt
        · exact ih e _ h

theorem fibonacciTaxonomy_nonneg : fibonacciTaxonomy.nonneg := by
  refine ⟨?_, ?_, ?_, ?_, ?_, ?_, ?_⟩ <;> intro c <;> cases c <;>
    simp only [fibonacciTaxonomy] <;> norm_num

/-- C17 (the claim fails): the out-of-scope asset "oos" of `twoStoresWithOosModel`, a model
without dangling ids, has raw attractiveness 0 and holds the value 1, not 0, after `applyRAA`. -/
theorem C17_counterexample :
    noDanglingIds twoStoresWithOosModel ∧
    mapGet twoStoresWithOosModel.TechnicalAssets "oos" = some oosAsset ∧
    oosAsset.OutOfScope = true ∧
    calculateAttackerAttractiveness fibonacciTaxonomy twoStoresWithOosModel oosAsset = some 0 ∧
    raaAfter fibonacciTaxonomy twoStoresWithOosModel "oos" = some 1 ∧
    raaAfter fibonacciTaxonomy twoStoresWithOosModel "oos" ≠ some 0 :=
  ⟨by decide, by decide, rfl, by decide!, by decide!, by decide!⟩

/-- C17 as amended: with non-negative weights, in a model without dangling ids an out-of-scope
technical asset A has raw attractiveness 0 and `applyRAA` stores the value 1 for it: its
percentage is 0, which line 58 replaces by 1. -/
theorem C17_out_of_scope_raa_is_one (tx : Taxonomy) (htx : tx.nonneg) (input : Model)
    (hN : noDanglingIds input) (id : String) (A : TechnicalAsset)
    (hA : mapGet input.TechnicalAssets id = some A) (ho : A.OutOfScope = true) :
    calculateAttackerAttractiveness tx input A = some 0 ∧ raaAfter tx input id = some 1 := by
  have hraw : calculateAttackerAttractiveness tx input A = some 0 := by
    simp [calculateAttackerAttractiveness, ho]
  have hadj : calculatePivotingNeighbourEffectAdjustment tx input A = some 0 := by
    simp [calculatePivotingNeighbourEffectAdjustment, ho]
  have hkey : id ∈ mapKeys input.TechnicalAssets := mapGet_mem_keys _ _ _ hA
  obtain ⟨out, hout, _⟩ := applyRAALoop_spec tx (mapKeys input.TechnicalAssets) input hN.1
    (fun k hk => hk)
  obtain ⟨_, hv, _⟩ := applyRAALoop_some tx _ input out hout
  have hrel : calculateRelativeAttackerAttractiveness tx input (0 + 0) = some 1 := by
    obtain ⟨r, hr⟩ := calculateRelative_isSome tx input hN.1 (0 + 0)
    rw [hr]
    unfold calculateRelativeAttackerAttractiveness at hr
    cases hmm : minMaxLoop tx input (sortStrings (mapKeys input.TechnicalAssets))
        (9223372036854775807, -9223372036854775808) with
    | none => rw [hmm] at hr; exact absurd hr (by simp)
    | some mm =>
      obtain ⟨mn, mx⟩ := mm
      have hge : 0 ≤ mn :=
        minMaxLoop_min_ge tx input 0 _
          (fun key _ a v _ hv2 => calculateAttackerAttractiveness_nonneg tx htx input a v hv2)
          _ (mn, mx) (by norm_num) hmm
      have hle : mn ≤ 0 :=
        minMaxLoop_min_le tx input _ id ((mem_sortStrings _ _).2 hkey) A 0 hA hraw _ (mn, mx) hmm
      have h0 : mn = 0 := le_antisymm hle hge
      rw [hmm] at hr
      simp only [h0, add_zero, sub_self, zero_div, zero_mul, le_refl, if_true,
        Option.some.injEq] at hr
      rw [← hr]
  refine ⟨hraw, ?_⟩
  have := (hv id hkey).2
  rw [hA] at this
  simp only [Option.some_bind, raaOf, hraw, hadj, hrel] at this
  unfold raaAfter applyRAA
  rw [hout]
  exact this

/-- An instance of C17 as amended: the out-of-scope asset "oos" of `twoStoresWithOosModel`. -/
theorem C17_out_of_scope_raa_is_one_witness :
    noDanglingIds twoStoresWithOosModel ∧
    mapGet twoStoresWithOosModel.TechnicalAssets "oos" = some oosAsset ∧
    oosAsset.OutOfScope = true ∧
    (calculateAttackerAttractiveness fibonacciTaxonomy twoStoresWithOosModel oosAsset = some 0 ∧
      raaAfter fibonacciTaxonomy twoStoresWithOosModel "oos" = some 1) :=
  ⟨by decide, by decide, rfl,
    C17_out_of_scope_raa_is_one fibonacciTaxonomy fibonacciTaxonomy_nonneg
      twoStoresWithOosModel (by decide) "oos" oosAsset (by decide) rfl⟩

/-! ## Relative attacker attractiveness: reproducibility -/

theorem raaEquiv_of_perm (m1 m2 : Model) (hp : m2.TechnicalAssets.Perm m1.TechnicalAssets)
    (hnd : (mapKeys m1.TechnicalAssets).Nodup) (hD : m2.DataAssets = m1.DataAssets) :
    raaEquiv m2 m1 :=
  ⟨hD, sortStrings_eq_of_perm _ _ (hp.map _), fun id => by rw [mapGet_perm _ _ id hp hnd]⟩

/-- C19: the values written by `applyRAA` are the same (and `applyRAA` panics on the same
models) for every enumeration order of the map `TechnicalAssets`, whose keys are pairwise
distinct, and for every content of the fields `RAA` before the call; and when `applyRAA`
returns, a second call on its result returns too and leaves every stored value unchanged. -/
theorem C19_raa_reproducible (tx : Taxonomy) (input : Model) :
    (∀ input2 : Model, input2.TechnicalAssets.Perm input.TechnicalAssets →
      (mapKeys input.TechnicalAssets).Nodup → input2.DataAssets = input.DataAssets →
      ∀ id, raaAfter tx input2 id = raaAfter tx input id) ∧
    (∀ input2 : Model, input2.DataAssets = input.DataAssets →
      input2.TechnicalAssets.map (fun kv => (kv.1, kv.2.eraseRAA))
        = input.TechnicalAssets.map (fun kv => (kv.1, kv.2.eraseRAA)) →
      ∀ id, raaAfter tx input2 id = raaAfter tx input id) ∧
    (∀ out, applyRAA tx input = some out →
      ∃ out2, applyRAA tx out = some out2 ∧
        ∀ id, (mapGet out2.TechnicalAssets id).map (fun a => a.RAA)
          = (mapGet out.TechnicalAssets id).map (fun a => a.RAA)) := by
  refine ⟨?_, ?_, ?_⟩
  · intro input2 hp hnd hD id
    rw [raaAfter_eq_closedForm, raaAfter_eq_closedForm]
    exact raaClosedForm_congr tx _ _ (raaEquiv_of_perm input input2 hp hnd hD) id
  · intro input2 hD hT id
    rw [raaAfter_eq_closedForm, raaAfter_eq_closedForm]
    exact raaClosedForm_congr tx _ _ (raaEquiv_of_frame input2 input hD hT) id
  · intro out hout
    obtain ⟨⟨f1, _, _, f4⟩, hv, _⟩ := applyRAALoop_some tx _ input out hout
    have he : raaEquiv out input := raaEquiv_of_frame out input f1 f4
    have hsame : ∀ id, raaAfter tx out id = raaAfter tx input id := by
      intro id
      rw [raaAfter_eq_closedForm, raaAfter_eq_closedForm]
      exact raaClosedForm_congr tx _ _ he id
    have hkeys : mapKeys out.TechnicalAssets = mapKeys input.TechnicalAssets := by
      have := congrArg mapKeys f4
      simpa only [mapKeys, List.map_map] using this
    cases h2 : applyRAA tx out with
    | none =>
      obtain ⟨k, hk, hnone⟩ := applyRAALoop_none tx _ out h2
      rw [raaOf_lookup_congr tx out input he k] at hnone
      rw [hkeys] at hk
      have := (hv k hk).1
      rw [hnone] at this
      exact absurd this (by simp)
    | some out2 =>
      refine ⟨out2, rfl, ?_⟩
      intro id
      have e1 : raaAfter tx out id = (mapGet out2.TechnicalAssets id).map (fun a => a.RAA) := by
        unfold raaAfter
        rw [h2]
      have e2 : raaAfter tx input id = (mapGet out.TechnicalAssets id).map (fun a => a.RAA) := by
        unfold raaAfter
        rw [hout]
      rw [← e1, ← e2]
      exact hsame id

/-- An instance of C19: `pivotModelSwapped` enumerates the assets of `pivotModel` in the other
order and holds 77 in every field `RAA`; both models get the same values, 660 for "a"; and a
second call of `applyRAA` changes no value. -/
theorem C19_raa_reproducible_witness :
    pivotModelSwapped.TechnicalAssets.map (fun kv => (kv.1, kv.2.RAA)) = [("n", 77), ("a", 77)] ∧
    raaAfter fibonacciTaxonomy pivotModel "a" = some 660 ∧
    (∀ id, raaAfter fibonacciTaxonomy pivotModelSwapped id
      = raaAfter fibonacciTaxonomy pivotModel id) ∧
    ∃ out, applyRAA fibonacciTaxonomy pivotModel = some out ∧
      ∃ out2, applyRAA fibonacciTaxonomy out = some out2 ∧
        ∀ id, (mapGet out2.TechnicalAssets id).map (fun a => a.RAA)
          = (mapGet out.TechnicalAssets id).map (fun a => a.RAA) := by
  have h := C19_raa_reproducible fibonacciTaxonomy pivotModel
  obtain ⟨out, hout, _⟩ := applyRAALoop_spec fibonacciTaxonomy
    (mapKeys pivotModel.TechnicalAssets) pivotModel (by decide) (fun k hk => hk)
  refine ⟨by decide!, by decide!, ?_, out, hout, h.2.2 out hout⟩
  intro id
  have e1 := h.1 { pivotModel with TechnicalAssets := pivotModel.TechnicalAssets.reverse }
    (List.reverse_perm _) (by decide) rfl id
  have e2 := (C19_raa_reproducible fibonacciTaxonomy
      { pivotModel with TechnicalAssets := pivotModel.TechnicalAssets.reverse }).2.1
    pivotModelSwapped rfl (by decide) id
  exact e2.trans e1

/-! ## Relative attacker attractiveness: the pivoting adjustment below the floor -/

/-- C18 (the code at the failing input): in scenario E2 the expected values hold, "db" gets 100
and "gw" gets 9075/1124, above its percentage 1.  In `pivotFloorModel`, which has no dangling
ids, the in-scope asset "a" has a link to "n", the percentage of "n" (100) is above the
percentage of "a" (1) and the adjustment of "a" is 33, yet `applyRAA` stores 1100/1259 for "a",
which is below its percentage. -/
theorem C18_pivot_below_percentage :
    (raaAfter fibonacciTaxonomy scenarioE2 "db" = some 100 ∧
      pct fibonacciTaxonomy scenarioE2 gwE2 = some 1 ∧
      raaAfter fibonacciTaxonomy scenarioE2 "gw" = some (9075 / 1124)) ∧
    noDanglingIds pivotFloorModel ∧
    mapGet pivotFloorModel.TechnicalAssets "a" = some aPivotFloor ∧
    mapGet pivotFloorModel.TechnicalAssets "n" = some nPivotFloor ∧
    aPivotFloor.OutOfScope = false ∧
    aPivotFloor.CommunicationLinks.map (fun l => l.TargetId) = ["n"] ∧
    calculateAttackerAttractiveness fibonacciTaxonomy pivotFloorModel aPivotFloor = some 18 ∧
    calculateAttackerAttractiveness fibonacciTaxonomy pivotFloorModel nPivotFloor = some 3795 ∧
    pct fibonacciTaxonomy pivotFloorModel aPivotFloor = some 1 ∧
    pct fibonacciTaxonomy pivotFloorModel nPivotFloor = some 100 ∧
    calculatePivotingNeighbourEffectAdjustment fibonacciTaxonomy pivotFloorModel aPivotFloor
      = some 33 ∧
    raaAfter fibonacciTaxonomy pivotFloorModel "a" = some (1100 / 1259) ∧
    (1100 / 1259 : ℚ) < 1 :=
  ⟨⟨by decide!, by decide!, by decide!⟩, by decide, by decide, by decide, rfl, by decide,
    by decide!, by decide!, by decide!, by decide!, by decide!, by decide!, by norm_num⟩

/-! ## Relative attacker attractiveness: the divisor -/

theorem calculateRelative_eq_spread (tx : Taxonomy) (input : Model) (x : ℚ) :
    calculateRelativeAttackerAttractiveness tx input x
      = (minMaxLoop tx input (sortStrings (mapKeys input.TechnicalAssets))
          (9223372036854775807, -9223372036854775808)).map
          (fun mm => if (x - mm.1) / spread id mm.1 mm.2 * 100 ≤ 0 then 1
                     else (x - mm.1) / spread id mm.1 mm.2 * 100) := by
  unfold calculateRelativeAttackerAttractiveness
  cases minMaxLoop tx input (sortStrings (mapKeys input.TechnicalAssets))
      (9223372036854775807, -9223372036854775808) with
  | none => rfl
  | some mm => rfl

theorem spread_exact_pos (mn mx : ℚ) : 0 < spread id mn mx := by
  unfold spread
  by_cases h : mn < mx
  · simp only [h, not_true_eq_false, if_false, id]
    linarith
  · simp only [h, not_false_eq_true, if_true, id]
    linarith

theorem float64Round_examples :
    float64Round 18 = 18 ∧ float64Round (-3 / 2) = -3 / 2 ∧
    float64Round (1 / 10) = 3602879701896397 / 36028797018963968 ∧
    float64Round (9007199254740992 + 1) = 9007199254740992 ∧
    float64Round (9007199254740992 + 3) = 9007199254740996 :=
  ⟨by decide!, by decide!, by decide!, by decide!, by decide!⟩

/-! ## Unencrypted asset rule: the fields of a risk -/

theorem generateRisks_unencrypted_mem (api : TypesAPI) (input : Model) (risks : List Risk)
    (e : Option String) (h : UnencryptedAssetRule.GenerateRisks api input = some (risks, e))
    (r : Risk) (hr : r ∈ risks) :
    ∃ id A, mapGet input.TechnicalAssets id = some A ∧
      r ∈ UnencryptedAssetRule.risksOfAsset api input A := by
  rw [unencrypted_generateRisks_eq] at h
  simp only [Option.some.injEq, Prod.mk.injEq] at h
  rw [← h.1, List.mem_flatMap] at hr
  obtain ⟨id, _, hmem⟩ := hr
  cases hA : mapGet input.TechnicalAssets id with
  | none => simp [hA] at hmem
  | some A =>
    simp only [hA] at hmem
    exact ⟨id, A, hA, hmem⟩

theorem risksOfAsset_created (api : TypesAPI) (input : Model) (A : TechnicalAsset) (r : Risk)
    (h : r ∈ UnencryptedAssetRule.risksOfAsset api input A) :
    ∃ impact requiresEndUserKey,
      r = UnencryptedAssetRule.createRisk api A impact requiresEndUserKey := by
  unfold UnencryptedAssetRule.risksOfAsset at h
  split_ifs at h
  all_goals first
    | exact absurd h (List.not_mem_nil _)
    | exact ⟨_, _, List.mem_singleton.1 h⟩

/-- C22: every risk that `UnencryptedAssetRule.GenerateRisks` returns was built by `createRisk`
for a technical asset A of the model; it has the category id "unencrypted-asset", likelihood
unlikely, data breach probability improbable, the id of A as most relevant technical asset and
no most relevant trust boundary or shared runtime, the breach list [A.Id], the synthetic id
"unencrypted-asset@" followed by A.Id, and the severity computed from unlikely and its impact. -/
theorem C22_unencrypted_risk_fields (api : TypesAPI) (input : Model) (risks : List Risk)
    (e : Option String) (h : UnencryptedAssetRule.GenerateRisks api input = some (risks, e))
    (r : Risk) (hr : r ∈ risks) :
    ∃ id A, mapGet input.TechnicalAssets id = some A ∧
      r ∈ UnencryptedAssetRule.risksOfAsset api input A ∧
      r.CategoryId = "unencrypted-asset" ∧
      r.ExploitationLikelihood = .Unlikely ∧
      r.DataBreachProbability = .Improbable ∧
      r.MostRelevantTechnicalAssetId = A.Id ∧
      r.MostRelevantTrustBoundaryId = "" ∧ r.MostRelevantSharedRuntimeId = "" ∧
      r.DataBreachTechnicalAssetIDs = [A.Id] ∧
      r.SyntheticId = "unencrypted-asset@" ++ A.Id ∧
      r.Severity = CalculateSeverity .Unlikely r.ExploitationImpact := by
  obtain ⟨id, A, hA, hmem⟩ := generateRisks_unencrypted_mem api input risks e h r hr
  obtain ⟨impact, k, hc⟩ := risksOfAsset_created api input A r hmem
  refine ⟨id, A, hA, hmem, ?_⟩
  subst hc
  refine ⟨rfl, rfl, rfl, rfl, rfl, rfl, rfl, ?_, rfl⟩
  show "unencrypted-asset" ++ "@" ++ A.Id = "unencrypted-asset@" ++ A.Id
  rw [show "unencrypted-asset" ++ "@" = "unencrypted-asset@" by decide]

/-- Scenario E3 as an instance of C22: the one risk returned has the synthetic id
"unencrypted-asset@kv" and the fields listed in C22 for the asset "kv". -/
theorem C22_unencrypted_risk_fields_witness :
    UnencryptedAssetRule.GenerateRisks specAPI scenarioE3 = some ([riskE3], none) ∧
    riskE3.SyntheticId = "unencrypted-asset@kv" ∧
    ∃ id A, mapGet scenarioE3.TechnicalAssets id = some A ∧
      riskE3 ∈ UnencryptedAssetRule.risksOfAsset specAPI scenarioE3 A ∧
      riskE3.CategoryId = "unencrypted-asset" ∧
      riskE3.ExploitationLikelihood = .Unlikely ∧
      riskE3.DataBreachProbability = .Improbable ∧
      riskE3.MostRelevantTechnicalAssetId = A.Id ∧
      riskE3.MostRelevantTrustBoundaryId = "" ∧ riskE3.MostRelevantSharedRuntimeId = "" ∧
      riskE3.DataBreachTechnicalAssetIDs = [A.Id] ∧
      riskE3.SyntheticId = "unencrypted-asset@" ++ A.Id ∧
      riskE3.Severity = CalculateSeverity .Unlikely riskE3.ExploitationImpact :=
  ⟨by decide, rfl,
    C22_unencrypted_risk_fields specAPI scenarioE3 [riskE3] none (by decide) riskE3 (by simp)⟩

/-! ## Missing cloud hardening rule: the rating of a risk -/

theorem cloudImpact_eq_spec (c : Confidentiality) (i a : Criticality) :
    cloudImpact c i a = specCloudImpact c i a := by
  cases c <;> cases i <;> cases a <;> decide

theorem specCloudImpact_mono (c c2 : Confidentiality) (i i2 a a2 : Criticality)
    (hc : c ≤ c2) (hi : i ≤ i2) (ha : a ≤ a2) :
    (specCloudImpact c i a).toNat ≤ (specCloudImpact c2 i2 a2).toNat := by
  cases c <;> cases c2 <;> first
    | exact absurd hc (by decide)
    | (cases i <;> cases i2 <;> first
        | exact absurd hi (by decide)
        | (cases a <;> cases a2 <;> first
            | exact absurd ha (by decide)
            | decide))

theorem forall2_mem_right {α β : Type} (R : α → β → Prop) (l1 : List α) (l2 : List β)
    (h : List.Forall₂ R l1 l2) (y : β) (hy : y ∈ l2) : ∃ x ∈ l1, R x y := by
  induction h with
  | nil => simp at hy
  | cons hxy _ ih =>
    rcases List.mem_cons.1 hy with e | e
    · exact ⟨_, List.mem_cons_self _ _, e ▸ hxy⟩
    · obtain ⟨x, hx, hR⟩ := ih e
      exact ⟨x, List.mem_cons_of_mem _ hx, hR⟩

theorem sharedRuntimeSegment_mem (api : TypesAPI) (input : Model) (pfx details : String)
    (ids : List String) (seg : List Risk) (h : SharedRuntimeSegment api input pfx details ids seg)
    (r : Risk) (hr : r ∈ seg) :
    ∃ id sr, id ∈ ids ∧ mapGet input.SharedRuntimes id = some sr ∧
      r = createRiskForSharedRuntime api input sr pfx details := by
  obtain ⟨id, hid, sr, h1, h2⟩ := forall2_mem_right _ _ _ h r hr
  exact ⟨id, sr, hid, h1, h2⟩

theorem trustBoundarySegment_mem (api : TypesAPI) (input : Model) (pfx details : String)
    (ids : List String) (seg : List Risk) (h : TrustBoundarySegment api input pfx details ids seg)
    (r : Risk) (hr : r ∈ seg) :
    ∃ id tb, id ∈ ids ∧ mapGet input.TrustBoundaries id = some tb ∧
      r = createRiskForTrustBoundary api input tb pfx details := by
  obtain ⟨id, hid, tb, h1, h2⟩ := forall2_mem_right _ _ _ h r hr
  exact ⟨id, tb, hid, h1, h2⟩

theorem mostSensitiveSegment_mem (api : TypesAPI) (input : Model) (added : Bool)
    (techAssets : List String) (pfx details : String) (seg : List Risk)
    (h : MostSensitiveSegment api input added techAssets pfx details seg)
    (r : Risk) (hr : r ∈ seg) :
    ∃ id ta, id ∈ techAssets ∧ mapGet input.TechnicalAssets id = some ta ∧
      r = createRiskForTechnicalAsset api input ta pfx details := by
  rcases h with h | ⟨_, id, a, hid, hg, hseg⟩
  · rw [h] at hr
    exact absurd hr (List.not_mem_nil _)
  · rw [hseg] at hr
    exact ⟨id, a, hid, hg, List.mem_singleton.1 hr⟩

theorem subtagSegment_mem (api : TypesAPI) (input : Model) (ids : List String)
    (seg : List Risk) (h : SubtagSegment api input ids seg) (r : Risk) (hr : r ∈ seg) :
    ∃ id ta pfx details, id ∈ ids ∧ mapGet input.TechnicalAssets id = some ta ∧
      r = createRiskForTechnicalAsset api input ta pfx details := by
  obtain ⟨parts, hseg, hparts⟩ := h
  rw [hseg, List.mem_flatten] at hr
  obtain ⟨rs, hrs, hmem⟩ := hr
  obtain ⟨id, hid, tA, ec2, s3, hg, hrsEq⟩ := forall2_mem_right _ _ _ hparts rs hrs
  rw [hrsEq, List.mem_append] at hmem
  rcases hmem with hm | hm
  · cases ec2 with
    | false => simp at hm
    | true =>
      simp only [if_true, List.mem_singleton] at hm
      exact ⟨id, tA, _, _, hid, hg, hm⟩
  · cases s3 with
    | false => simp at hm
    | true =>
      simp only [if_true, List.mem_singleton] at hm
      exact ⟨id, tA, _, _, hid, hg, hm⟩

theorem cloud_risk_built (api : TypesAPI) (ord : List String → List String)
    (hord : ∀ s, (ord s).Perm s) (input : Model) (risks : List Risk) (e : Option String)
    (h : MissingCloudHardeningRule.GenerateRisks api ord input = some (risks, e))
    (r : Risk) (hr : r ∈ risks) :
    (∃ id sr pfx details, mapGet input.SharedRuntimes id = some sr ∧
      r = createRiskForSharedRuntime api input sr pfx details) ∨
    (∃ id tb pfx details, mapGet input.TrustBoundaries id = some tb ∧
      r = createRiskForTrustBoundary api input tb pfx details) ∨
    (∃ id ta pfx details, mapGet input.TechnicalAssets id = some ta ∧
      r = createRiskForTechnicalAsset api input ta pfx details) := by
  obtain ⟨b, _, hemit, _⟩ := generateRisks_cloud_inv api ord input risks e h
  obtain ⟨s1, s2, s3, s4, s5, t1, t2, t3, t4, t5, a1, a2, a3, a4, sub, hrisks, p1, p2, p3, p4,
    p5, p6, p7, p8, p9, p10, p11, p12, p13, p14, p15⟩ := emit_spec api ord hord input b risks hemit
  rw [hrisks] at hr
  simp only [List.mem_append] at hr
  have hS : ∀ pfx details ids seg, SharedRuntimeSegment api input pfx details ids seg →
      r ∈ seg → ∃ id sr pfx details, mapGet input.SharedRuntimes id = some sr ∧
        r = createRiskForSharedRuntime api input sr pfx details := by
    intro pfx details ids seg hs hm
    obtain ⟨id, sr, _, h1, h2⟩ := sharedRuntimeSegment_mem api input pfx details ids seg hs r hm
    exact ⟨id, sr, pfx, details, h1, h2⟩
  have hT : ∀ pfx details ids seg, TrustBoundarySegment api input pfx details ids seg →
      r ∈ seg → ∃ id tb pfx details, mapGet input.TrustBoundaries id = some tb ∧
        r = createRiskForTrustBoundary api input tb pfx details := by
    intro pfx details ids seg hs hm
    obtain ⟨id, tb, _, h1, h2⟩ := trustBoundarySegment_mem api input pfx details ids seg hs r hm
    exact ⟨id, tb, pfx, details, h1, h2⟩
  have hA : ∀ added ids pfx details seg, MostSensitiveSegment api input added ids pfx details seg →
      r ∈ seg → ∃ id ta pfx details, mapGet input.TechnicalAssets id = some ta ∧
        r = createRiskForTechnicalAsset api input ta pfx details := by
    intro added ids pfx details seg hs hm
    obtain ⟨id, ta, _, h1, h2⟩ :=
      mostSensitiveSegment_mem api input added ids pfx details seg hs r hm
    exact ⟨id, ta, pfx, details, h1, h2⟩
  rcases hr with ((((((((((((((hm | hm) | hm) | hm) | hm) | hm) | hm) | hm) | hm) | hm) | hm)
    | hm) | hm) | hm) | hm)
  · exact Or.inl (hS _ _ _ _ p1 hm)
  · exact Or.inl (hS _ _ _ _ p2 hm)
  · exact Or.inl (hS _ _ _ _ p3 hm)
  · exact Or.inl (hS _ _ _ _ p4 hm)
  · exact Or.inl (hS _ _ _ _ p5 hm)
  · exact Or.inr (Or.inl (hT _ _ _ _ p6 hm))
  · exact Or.inr (Or.inl (hT _ _ _ _ p7 hm))
  · exact Or.inr (Or.inl (hT _ _ _ _ p8 hm))
  · exact Or.inr (Or.inl (hT _ _ _ _ p9 hm))
  · exact Or.inr (Or.inl (hT _ _ _ _ p10 hm))
  · exact Or.inr (Or.inr (hA _ _ _ _ _ p11 hm))
  · exact Or.inr (Or.inr (hA _ _ _ _ _ p12 hm))
  · exact Or.inr (Or.inr (hA _ _ _ _ _ p13 hm))
  · exact Or.inr (Or.inr (hA _ _ _ _ _ p14 hm))
  · obtain ⟨id, ta, pfx, details, _, h1, h2⟩ := subtagSegment_mem api input _ sub p15 r hm
    exact Or.inr (Or.inr ⟨id, ta, pfx, details, h1, h2⟩)

/-- C21: each of the three `createRiskFor...` methods builds a risk with likelihood unlikely,
data breach probability probable and the impact worded in the specification (very high, else
high, else medium) for the highest ratings of its scope; that impact is monotone in each of the
three ratings; and every risk returned by `MissingCloudHardeningRule.GenerateRisks` was built
by one of the three methods for a scope stored in the model, so it has these values. -/
theorem C21_cloud_risk_rating (api : TypesAPI) (ord : List String → List String)
    (hord : ∀ s, (ord s).Perm s) (input : Model) :
    (∀ sr pfx details,
      (createRiskForSharedRuntime api input sr pfx details).ExploitationLikelihood = .Unlikely ∧
      (createRiskForSharedRuntime api input sr pfx details).DataBreachProbability = .Probable ∧
      (createRiskForSharedRuntime api input sr pfx details).ExploitationImpact =
        specCloudImpact (api.FindSharedRuntimeHighestConfidentiality input sr)
          (api.FindSharedRuntimeHighestIntegrity input sr)
          (api.FindSharedRuntimeHighestAvailability input sr)) ∧
    (∀ tb pfx details,
      (createRiskForTrustBoundary api input tb pfx details).ExploitationLikelihood = .Unlikely ∧
      (createRiskForTrustBoundary api input tb pfx details).DataBreachProbability = .Probable ∧
      (createRiskForTrustBoundary api input tb pfx details).ExploitationImpact =
        specCloudImpact (api.FindTrustBoundaryHighestConfidentiality input tb)
          (api.FindTrustBoundaryHighestIntegrity input tb)
          (api.FindTrustBoundaryHighestAvailability input tb)) ∧
    (∀ ta pfx details,
      (createRiskForTechnicalAsset api input ta pfx details).ExploitationLikelihood = .Unlikely ∧
      (createRiskForTechnicalAsset api input ta pfx details).DataBreachProbability = .Probable ∧
      (createRiskForTechnicalAsset api input ta pfx details).ExploitationImpact =
        specCloudImpact (api.HighestProcessedConfidentiality input ta)
          (api.HighestProcessedIntegrity input ta)
          (api.HighestProcessedAvailability input ta)) ∧
    (∀ (c c2 : Confidentiality) (i i2 a a2 : Criticality), c ≤ c2 → i ≤ i2 → a ≤ a2 →
      (specCloudImpact c i a).toNat ≤ (specCloudImpact c2 i2 a2).toNat) ∧
    (∀ risks e, MissingCloudHardeningRule.GenerateRisks api ord input = some (risks, e) →
      ∀ r ∈ risks, r.ExploitationLikelihood = .Unlikely ∧ r.DataBreachProbability = .Probable ∧
        ∃ c i a, CloudRiskOfScope api input r c i a ∧
          r.ExploitationImpact = specCloudImpact c i a) := by
  refine ⟨fun sr pfx details => ⟨rfl, rfl, cloudImpact_eq_spec _ _ _⟩,
    fun tb pfx details => ⟨rfl, rfl, cloudImpact_eq_spec _ _ _⟩,
    fun ta pfx details => ⟨rfl, rfl, cloudImpact_eq_spec _ _ _⟩,
    specCloudImpact_mono, ?_⟩
  intro risks e h r hr
  rcases cloud_risk_built api ord hord input risks e h r hr with
    ⟨id, sr, pfx, details, hg, hc⟩ | ⟨id, tb, pfx, details, hg, hc⟩ | ⟨id, ta, pfx, details, hg, hc⟩
  · subst hc
    exact ⟨rfl, rfl, _, _, _, Or.inl ⟨id, sr, pfx, details, hg, rfl, rfl, rfl, rfl⟩,
      cloudImpact_eq_spec _ _ _⟩
  · subst hc
    exact ⟨rfl, rfl, _, _, _, Or.inr (Or.inl ⟨id, tb, pfx, details, hg, rfl, rfl, rfl, rfl⟩),
      cloudImpact_eq_spec _ _ _⟩
  · subst hc
    exact ⟨rfl, rfl, _, _, _, Or.inr (Or.inr ⟨id, ta, pfx, details, hg, rfl, rfl, rfl, rfl⟩),
      cloudImpact_eq_spec _ _ _⟩

/-- Scenario E5 as an instance of C21: the one risk returned, built for the trust boundary
"aws-vpc" whose assets are rated internal and operational, is unlikely, probable and of medium
impact. -/
theorem C21_cloud_risk_rating_witness :
    MissingCloudHardeningRule.GenerateRisks specAPI id scenarioE5 = some ([riskE5], none) ∧
    riskE5.ExploitationImpact = .MediumImpact ∧
    (riskE5.ExploitationLikelihood = .Unlikely ∧ riskE5.DataBreachProbability = .Probable ∧
      ∃ c i a, CloudRiskOfScope specAPI scenarioE5 riskE5 c i a ∧
        riskE5.ExploitationImpact = specCloudImpact c i a) ∧
    (specCloudImpact .Restricted .Operational .Critical).toNat
      ≤ (specCloudImpact .Restricted .Operational .MissionCritical).toNat :=
  ⟨by decide, rfl,
    (C21_cloud_risk_rating specAPI id (fun _ => List.Perm.refl _) scenarioE5).2.2.2.2
      [riskE5] none (by decide) riskE5 (by simp),
    (C21_cloud_risk_rating specAPI id (fun _ => List.Perm.refl _) scenarioE5).2.2.2.1
      .Restricted .Restricted .Operational .Operational .Critical .MissionCritical
      (by decide) (by decide) (by decide)⟩

/-! ## Unencrypted asset rule and its detection logic -/

theorem risksOfAsset_needs_both (api : TypesAPI) (input : Model) (A : TechnicalAsset)
    (h : api.HighestStoredConfidentiality input A < .Confidential
      ∨ api.HighestStoredIntegrity input A < .Critical) :
    UnencryptedAssetRule.risksOfAsset api input A = [] := by
  unfold UnencryptedAssetRule.risksOfAsset
  split_ifs <;> rfl

/-- C23 (the code at the failing input): the datastore "kv" of `confidentialOnlyModel` is in
scope, unencrypted, no encryption waiver, and stores a strictly confidential data asset of
operational integrity, yet the rule returns no risk; likewise for `criticalOnlyModel`, where
the stored data is public and of mission critical integrity. -/
theorem C23_confidential_or_critical_gets_no_risk :
    (mapGet confidentialOnlyModel.TechnicalAssets "kv" = some kvConfidentialOnly ∧
      kvConfidentialOnly.OutOfScope = false ∧ kvConfidentialOnly.Encryption = .NoneEncryption ∧
      isEncryptionWaiver kvConfidentialOnly = false ∧
      kvConfidentialOnly.DataAssetsStored = ["secret"] ∧
      specAPI.HighestStoredConfidentiality confidentialOnlyModel kvConfidentialOnly
        = .StrictlyConfidential ∧
      specAPI.HighestStoredIntegrity confidentialOnlyModel kvConfidentialOnly = .Operational ∧
      UnencryptedAssetRule.GenerateRisks specAPI confidentialOnlyModel = some ([], none)) ∧
    (mapGet criticalOnlyModel.TechnicalAssets "kv" = some kvCriticalOnly ∧
      kvCriticalOnly.OutOfScope = false ∧ kvCriticalOnly.Encryption = .NoneEncryption ∧
      isEncryptionWaiver kvCriticalOnly = false ∧
      kvCriticalOnly.DataAssetsStored = ["ledger"] ∧
      specAPI.HighestStoredConfidentiality criticalOnlyModel kvCriticalOnly = .Public ∧
      specAPI.HighestStoredIntegrity criticalOnlyModel kvCriticalOnly = .MissionCritical ∧
      UnencryptedAssetRule.GenerateRisks specAPI criticalOnlyModel = some ([], none)) :=
  ⟨⟨by decide, rfl, rfl, by decide, rfl, by decide, by decide, by decide⟩,
    ⟨by decide, rfl, rfl, by decide, rfl, by decide, by decide, by decide⟩⟩

/-- C24 (the claim fails): the datastore "kv" of `encryptedNoEndUserModel` is in scope, no
encryption waiver, stores strictly confidential and mission critical data and is encrypted
transparently, not with end user individual keys, yet the rule returns no risk: its technology
is not usually storing end user data. -/
theorem C24_counterexample :
    mapGet encryptedNoEndUserModel.TechnicalAssets "kv" = some kvNoEndUser ∧
    kvNoEndUser.OutOfScope = false ∧ isEncryptionWaiver kvNoEndUser = false ∧
    kvNoEndUser.DataAssetsStored = ["pii"] ∧
    specAPI.HighestStoredConfidentiality encryptedNoEndUserModel kvNoEndUser
      = .StrictlyConfidential ∧
    specAPI.HighestStoredIntegrity encryptedNoEndUserModel kvNoEndUser = .MissionCritical ∧
    kvNoEndUser.Encryption = .Transparent ∧
    kvNoEndUser.Encryption ≠ .DataWithEndUserIndividualKey ∧
    GetAttribute kvNoEndUser.Technologies [.IsUsuallyStoringEndUserData] = false ∧
    UnencryptedAssetRule.GenerateRisks specAPI encryptedNoEndUserModel = some ([], none) :=
  ⟨by decide, rfl, by decide, rfl, by decide, by decide, rfl, by decide, by decide, by decide⟩

/-- C24 as amended: a technical asset A of the model that is in scope, no encryption waiver,
stores data whose highest confidentiality is at least confidential and whose highest integrity
is at least critical, one of the two being the top rating, that is unencrypted or has a
technology usually storing end user data, and whose encryption is not with end user individual
keys, gets an unencrypted-asset risk: the result contains a risk built for A. -/
theorem C24_end_user_key_required (api : TypesAPI) (input : Model) (id : String)
    (A : TechnicalAsset) (hA : mapGet input.TechnicalAssets id = some A)
    (hscope : A.OutOfScope = false) (hwaiver : isEncryptionWaiver A = false)
    (hstored : A.DataAssetsStored ≠ [])
    (hc : Confidentiality.Confidential ≤ api.HighestStoredConfidentiality input A)
    (hi : Criticality.Critical ≤ api.HighestStoredIntegrity input A)
    (htop : api.HighestStoredConfidentiality input A = .StrictlyConfidential
      ∨ api.HighestStoredIntegrity input A = .MissionCritical)
    (huser : A.Encryption = .NoneEncryption
      ∨ GetAttribute A.Technologies [.IsUsuallyStoringEndUserData] = true)
    (henc : A.Encryption ≠ .DataWithEndUserIndividualKey) :
    ∃ risks r, UnencryptedAssetRule.GenerateRisks api input = some (risks, none) ∧ r ∈ risks ∧
      r ∈ UnencryptedAssetRule.risksOfAsset api input A ∧
      r.MostRelevantTechnicalAssetId = A.Id ∧
      r.SyntheticId = "unencrypted-asset" ++ "@" ++ A.Id := by
  have hne : UnencryptedAssetRule.risksOfAsset api input A ≠ [] := by
    rw [risksOfAsset_ne_nil_iff]
    have hw : GetAttribute A.Technologies [.IsNoStorageAtRest] = false ∧
        GetAttribute A.Technologies [.IsEmbeddedComponent] = false := by
      unfold isEncryptionWaiver at hwaiver
      simpa [Bool.or_eq_false_iff] using hwaiver
    refine ⟨hscope, hw.1, hw.2, hstored, hc, hi, ?_⟩
    rcases huser with h | h
    · exact Or.inl h
    · exact Or.inr ⟨htop, h, henc⟩
  obtain ⟨r, hr⟩ := List.exists_mem_of_ne_nil _ hne
  refine ⟨_, r, unencrypted_generateRisks_eq api input, ?_, hr,
    risksOfAsset_scope api input A r hr, ?_⟩
  · rw [List.mem_flatMap]
    refine ⟨id, (mem_sortStrings _ _).2 (mapGet_mem_keys _ _ _ hA), ?_⟩
    simp only [hA]
    exact hr
  · rw [risksOfAsset_syntheticId api input A r hr, risksOfAsset_scope api input A r hr]

/-- Scenario E4 as an instance of C24 as amended: "kv" stores end user data, strictly
confidential and mission critical, encrypted transparently, and gets the risk
"unencrypted-asset@kv". -/
theorem C24_end_user_key_required_witness :
    mapGet scenarioE4.TechnicalAssets "kv" = some kvE4 ∧
    UnencryptedAssetRule.GenerateRisks specAPI scenarioE4 = some ([riskE4], none) ∧
    ∃ risks r, UnencryptedAssetRule.GenerateRisks specAPI scenarioE4 = some (risks, none) ∧
      r ∈ risks ∧ r ∈ UnencryptedAssetRule.risksOfAsset specAPI scenarioE4 kvE4 ∧
      r.MostRelevantTechnicalAssetId = kvE4.Id ∧
      r.SyntheticId = "unencrypted-asset" ++ "@" ++ kvE4.Id :=
  ⟨by decide, by decide,
    C24_end_user_key_required specAPI scenarioE4 "kv" kvE4 (by decide) (by decide) (by decide)
      (by decide) (by decide) (by decide) (by decide) (by decide) (by decide)⟩

/-! ## Attacker attractiveness in closed form -/

theorem dataAssetsOf_cons (input : Model) (id : String) (rest : List String) (d : DataAsset)
    (h : mapGet input.DataAssets id = some d) :
    dataAssetsOf input (id :: rest) = d :: dataAssetsOf input rest := by
  unfold dataAssetsOf
  rw [List.filterMap_cons, h]

theorem scoreProcessedOrStored_eq (tx : Taxonomy) (input : Model) (ids : List String)
    (h : ∀ id ∈ ids, id ∈ mapKeys input.DataAssets) (score : ℚ) :
    scoreProcessedOrStored tx input ids score
      = some (score + ((dataAssetsOf input ids).map (dataWeight tx)).sum) := by
  induction ids generalizing score with
  | nil => simp [scoreProcessedOrStored, dataAssetsOf]
  | cons id rest ih =>
    obtain ⟨d, hd⟩ := mapGet_isSome_of_mem_keys _ _ (h id (List.mem_cons_self _ _))
    simp only [scoreProcessedOrStored, hd, dataAssetsOf_cons input id rest d hd, List.map_cons,
      List.sum_cons]
    rw [ih (fun x hx => h x (List.mem_cons_of_mem _ hx))]
    congr 1
    unfold dataWeight
    ring

theorem scoreTransferred_eq (tx : Taxonomy) (input : Model) (ids : List String)
    (h : ∀ id ∈ ids, id ∈ mapKeys input.DataAssets) (score : ℚ) :
    scoreTransferred tx input ids score
      = some (score + ((dataAssetsOf input ids).map (transferWeight tx)).sum) := by
  induction ids generalizing score with
  | nil => simp [scoreTransferred, dataAssetsOf]
  | cons id rest ih =>
    obtain ⟨d, hd⟩ := mapGet_isSome_of_mem_keys _ _ (h id (List.mem_cons_self _ _))
    simp only [scoreTransferred, hd, dataAssetsOf_cons input id rest d hd, List.map_cons,
      List.sum_cons]
    rw [ih (fun x hx => h x (List.mem_cons_of_mem _ hx))]
    congr 1
    unfold transferWeight
    ring

theorem scoreLinks_eq (tx : Taxonomy) (input : Model) (links : List CommunicationLink)
    (h : ∀ l ∈ links, (∀ id ∈ l.DataAssetsSent, id ∈ mapKeys input.DataAssets) ∧
      (∀ id ∈ l.DataAssetsReceived, id ∈ mapKeys input.DataAssets)) (score : ℚ) :
    scoreLinks tx input links score
      = some (score + (links.map (fun l =>
          ((dataAssetsOf input l.DataAssetsSent).map (transferWeight tx)).sum
            + ((dataAssetsOf input l.DataAssetsReceived).map (transferWeight tx)).sum)).sum) := by
  induction links generalizing score with
  | nil => simp [scoreLinks]
  | cons l rest ih =>
    obtain ⟨hs, hr⟩ := h l (List.mem_cons_self _ _)
    simp only [scoreLinks, scoreTransferred_eq tx input _ hs, scoreTransferred_eq tx input _ hr,
      List.map_cons, List.sum_cons]
    rw [ih (fun x hx => h x (List.mem_cons_of_mem _ hx))]
    congr 1
    ring

theorem applyTechnologyFactor_eq (A : TechnicalAsset) (score : ℚ) :
    applyTechnologyFactor A score = score * specTechnologyMultiplier A := by
  unfold applyTechnologyFactor specTechnologyMultiplier technologyRules
  simp only [List.find?_cons, List.find?_nil]
  by_cases h1 : GetAttribute A.Technologies [.LoadBalancer, .ReverseProxy] = true
  · simp only [h1, if_true]
    ring
  by_cases h2 : GetAttribute A.Technologies [.Monitoring] = true
  · simp only [h1, h2, if_true, if_false, Bool.false_eq_true]
    try ring
  by_cases h3 : GetAttribute A.Technologies [.ContainerPlatform] = true
  · simp only [h1, h2, h3, if_true, if_false, Bool.false_eq_true]
  by_cases h4 : GetAttribute A.Technologies [.Vault] = true
  · simp only [h1, h2, h3, h4, if_true, if_false, Bool.false_eq_true]
  by_cases h5 : GetAttribute A.Technologies
      [.BuildPipeline, .SourcecodeRepository, .ArtifactRegistry] = true
  · simp only [h1, h2, h3, h4, h5, if_true, if_false, Bool.false_eq_true]
  by_cases h6 : GetAttribute A.Technologies
      [.IdentityProvider, .IdentityStoreDatabase, .IdentityStoreLDAP] = true
  · simp only [h1, h2, h3, h4, h5, h6, if_true, if_false, Bool.false_eq_true]
  simp only [h1, h2, h3, h4, h5, h6, if_false, Bool.false_eq_true]
  split_ifs
  · rfl
  · ring

theorem calculateAttackerAttractiveness_raw (tx : Taxonomy) (input : Model) (A : TechnicalAsset)
    (hA : A.refsExist input) (ho : A.OutOfScope = false) :
    calculateAttackerAttractiveness tx input A
      = some (if A.MultiTenant then applyTechnologyFactor A (specRawScore tx input A) * (3 / 2)
              else applyTechnologyFactor A (specRawScore tx input A)) := by
  obtain ⟨hp, hs, hl⟩ := hA
  unfold calculateAttackerAttractiveness
  rw [if_neg (by simp [ho])]
  rw [scoreProcessedOrStored_eq tx input _ hp]
  simp only [scoreProcessedOrStored_eq tx input _ hs,
    scoreLinks_eq tx input _ (fun l hl2 => (hl l hl2).2)]
  have e : 0 + tx.ConfidentialityForAsset A.Confidentiality + tx.CriticalityForAsset A.Integrity
        + tx.CriticalityForAsset A.Availability
        + ((dataAssetsOf input A.DataAssetsProcessed).map (dataWeight tx)).sum
        + ((dataAssetsOf input A.DataAssetsStored).map (dataWeight tx)).sum
        + (A.CommunicationLinks.map (fun l =>
            ((dataAssetsOf input l.DataAssetsSent).map (transferWeight tx)).sum
              + ((dataAssetsOf input l.DataAssetsReceived).map (transferWeight tx)).sum)).sum
      = specRawScore tx input A := by
    unfold specRawScore
    ring
  rw [e]

theorem calculateAttackerAttractiveness_eq (tx : Taxonomy) (input : Model) (A : TechnicalAsset)
    (hA : A.refsExist input) (ho : A.OutOfScope = false) :
    calculateAttackerAttractiveness tx input A
      = some (specRawScore tx input A * specTechnologyMultiplier A * specMultiTenantFactor A) := by
  rw [calculateAttackerAttractiveness_raw tx input A hA ho]
  congr 1
  unfold specMultiTenantFactor
  simp only [applyTechnologyFactor_eq]
  split_ifs <;> ring

/-! ## The scorer in `float64`: exact arithmetic as an instance, the sum as a fold -/

theorem scoreProcessedOrStoredRounded_id (tx : Taxonomy) (input : Model) (ids : List String)
    (score : ℚ) :
    scoreProcessedOrStoredRounded id tx input ids score
      = scoreProcessedOrStored tx input ids score := by
  induction ids generalizing score with
  | nil => rfl
  | cons x rest ih =>
    cases hd : mapGet input.DataAssets x with
    | none => simp [scoreProcessedOrStoredRounded, scoreProcessedOrStored, hd]
    | some d =>
      simp only [scoreProcessedOrStoredRounded, scoreProcessedOrStored, hd, id]
      exact ih _

theorem scoreTransferredRounded_id (tx : Taxonomy) (input : Model) (ids : List String)
    (score : ℚ) :
    scoreTransferredRounded id tx input ids score = scoreTransferred tx input ids score := by
  induction ids generalizing score with
  | nil => rfl
  | cons x rest ih =>
    cases hd : mapGet input.DataAssets x with
    | none => simp [scoreTransferredRounded, scoreTransferred, hd]
    | some d =>
      simp only [scoreTransferredRounded, scoreTransferred, hd, id]
      exact ih _

theorem scoreLinksRounded_id (tx : Taxonomy) (input : Model) (links : List CommunicationLink)
    (score : ℚ) :
    scoreLinksRounded id tx input links score = scoreLinks tx input links score := by
  induction links generalizing score with
  | nil => rfl
  | cons l rest ih =>
    simp only [scoreLinksRounded, scoreLinks, scoreTransferredRounded_id]
    cases scoreTransferred tx input l.DataAssetsSent score with
    | none => rfl
    | some s1 =>
      simp only
      cases scoreTransferred tx input l.DataAssetsReceived s1 with
      | none => rfl
      | some s2 => exact ih _

theorem applyTechnologyFactorRounded_id (A : TechnicalAsset) (score : ℚ) :
    applyTechnologyFactorRounded id A score = applyTechnologyFactor A score := by
  unfold applyTechnologyFactorRounded applyTechnologyFactor
  simp only [id]

theorem calculateAttackerAttractivenessRounded_id (tx : Taxonomy) (input : Model)
    (A : TechnicalAsset) :
    calculateAttackerAttractivenessRounded id tx input A
      = calculateAttackerAttractiveness tx input A := by
  unfold calculateAttackerAttractivenessRounded calculateAttackerAttractiveness rawScoreRounded
  simp only [scoreProcessedOrStoredRounded_id, scoreLinksRounded_id,
    applyTechnologyFactorRounded_id, id]
  by_cases ho : A.OutOfScope = true
  · simp only [ho, if_true]
  · simp only [ho, if_false, Bool.false_eq_true]
    generalize 0 + tx.ConfidentialityForAsset A.Confidentiality
      + tx.CriticalityForAsset A.Integrity + tx.CriticalityForAsset A.Availability = s0
    cases scoreProcessedOrStored tx input A.DataAssetsProcessed s0 with
    | none => rfl
    | some s1 =>
      simp only
      cases scoreProcessedOrStored tx input A.DataAssetsStored s1 with
      | none => rfl
      | some s2 =>
        simp only

theorem applyTechnologyFactorRounded_eq (rnd : ℚ → ℚ) (A : TechnicalAsset) (score : ℚ) :
    applyTechnologyFactorRounded rnd A score = specTechnologyApplied rnd A score := by
  unfold applyTechnologyFactorRounded specTechnologyApplied specTechnologyOperation
    technologyOperations
  simp only [List.find?_cons, List.find?_nil]
  by_cases h1 : GetAttribute A.Technologies [.LoadBalancer, .ReverseProxy] = true
  · simp only [h1, if_true]
  by_cases h2 : GetAttribute A.Technologies [.Monitoring] = true
  · simp only [h1, h2, if_true, if_false, Bool.false_eq_true]
  by_cases h3 : GetAttribute A.Technologies [.ContainerPlatform] = true
  · simp only [h1, h2, h3, if_true, if_false, Bool.false_eq_true]
  by_cases h4 : GetAttribute A.Technologies [.Vault] = true
  · simp only [h1, h2, h3, h4, if_true, if_false, Bool.false_eq_true]
  by_cases h5 : GetAttribute A.Technologies
      [.BuildPipeline, .SourcecodeRepository, .ArtifactRegistry] = true
  · simp only [h1, h2, h3, h4, h5, if_true, if_false, Bool.false_eq_true]
  by_cases h6 : GetAttribute A.Technologies
      [.IdentityProvider, .IdentityStoreDatabase, .IdentityStoreLDAP] = true
  · simp only [h1, h2, h3, h4, h5, h6, if_true, if_false, Bool.false_eq_true]
  simp only [h1, h2, h3, h4, h5, h6, if_false, Bool.false_eq_true]
  split_ifs <;> rfl

theorem calculateAttackerAttractivenessRounded_eq (rnd : ℚ → ℚ) (tx : Taxonomy) (input : Model)
    (A : TechnicalAsset) (ho : A.OutOfScope = false) :
    calculateAttackerAttractivenessRounded rnd tx input A
      = (rawScoreRounded rnd tx input A).map (specMultiplied rnd A) := by
  unfold calculateAttackerAttractivenessRounded
  rw [if_neg (by simp [ho])]
  cases rawScoreRounded rnd tx input A with
  | none => rfl
  | some score =>
    simp only [Option.map_some', specMultiplied, applyTechnologyFactorRounded_eq]

theorem specMultiplied_id (A : TechnicalAsset) (score : ℚ) :
    specMultiplied id A score
      = score * specTechnologyMultiplier A * specMultiTenantFactor A := by
  unfold specMultiplied specMultiTenantFactor
  rw [← applyTechnologyFactorRounded_eq, applyTechnologyFactorRounded_id,
    applyTechnologyFactor_eq]
  split_ifs
  · rfl
  · ring

/-- C28: the technology multiplier applied by `calculateAttackerAttractiveness` is the one
operation of the first rule that matches in the order load balancer or reverse proxy (division
by 5.5), monitoring (division by 5), container platform (times 5), vault (times 2), build
pipeline, source code repository or artifact registry (times 2), identity provider or identity
store (times 2.5), else times 2 for a datastore, else none; for a multi-tenant asset the result
is then multiplied by 1.5, whatever the technology.  This holds in `float64` (each of the two
operations rounded) as in exact arithmetic, where the operations are the factors 2/11, 1/5, 5,
2, 2, 5/2, 2 and 3/2.  A load balancer that is a container platform is only divided by 5.5 and
a datastore that is a vault is multiplied by 2 once. -/
theorem C28_one_technology_multiplier (rnd : ℚ → ℚ) (tx : Taxonomy) (input : Model)
    (A : TechnicalAsset) :
    (∀ score, applyTechnologyFactor A score = score * specTechnologyMultiplier A) ∧
    (∀ score, applyTechnologyFactorRounded rnd A score = specTechnologyApplied rnd A score) ∧
    (A.OutOfScope = false →
      calculateAttackerAttractivenessRounded rnd tx input A
        = (rawScoreRounded rnd tx input A).map (specMultiplied rnd A)) ∧
    (A.OutOfScope = false →
      calculateAttackerAttractiveness tx input A
        = (rawScoreRounded id tx input A).map
            (fun score => score * specTechnologyMultiplier A * specMultiTenantFactor A)) ∧
    specTechnologyMultiplier lbContainerAsset = 2 / 11 ∧
    specTechnologyMultiplier vaultStoreAsset = 2 ∧
    (∀ score, specTechnologyApplied rnd lbContainerAsset score = rnd (score / (11 / 2))) ∧
    (∀ score, specTechnologyApplied rnd vaultStoreAsset score = rnd (score * 2)) ∧
    calculateAttackerAttractiveness fibonacciTaxonomy emptyModel lbContainerAsset
      = some (29 / (11 / 2) * (3 / 2)) ∧
    calculateAttackerAttractiveness fibonacciTaxonomy emptyModel vaultStoreAsset
      = some (29 * 2) ∧
    calculateAttackerAttractivenessRounded float64Round float64Taxonomy emptyModel
        lbContainerAsset
      = some (float64Round (float64Round (29 / (11 / 2)) * (3 / 2))) ∧
    calculateAttackerAttractivenessRounded float64Round float64Taxonomy emptyModel
        vaultStoreAsset = some 58 := by
  refine ⟨applyTechnologyFactor_eq A, applyTechnologyFactorRounded_eq rnd A,
    calculateAttackerAttractivenessRounded_eq rnd tx input A, ?_, by decide!, by decide!,
    fun _ => rfl, fun _ => rfl, by decide!, by decide!, by decide!, by decide!⟩
  intro ho
  rw [← calculateAttackerAttractivenessRounded_id,
    calculateAttackerAttractivenessRounded_eq id tx input A ho]
  congr 1
  funext score
  exact specMultiplied_id A score

/-- An instance of C28 in `float64`: the multi-tenant load balancer and container platform
"edge" has the score 29 before the multipliers; it is divided by 5.5 and the result is
multiplied by 1.5. -/
theorem C28_one_technology_multiplier_witness :
    lbContainerAsset.OutOfScope = false ∧ lbContainerAsset.MultiTenant = true ∧
    rawScoreRounded float64Round float64Taxonomy emptyModel lbContainerAsset = some 29 ∧
    specMultiplied float64Round lbContainerAsset 29
      = float64Round (float64Round (29 / (11 / 2)) * (3 / 2)) ∧
    calculateAttackerAttractivenessRounded float64Round float64Taxonomy emptyModel
        lbContainerAsset
      = (rawScoreRounded float64Round float64Taxonomy emptyModel lbContainerAsset).map
          (specMultiplied float64Round lbContainerAsset) :=
  ⟨rfl, rfl, by decide!, by decide!,
    (C28_one_technology_multiplier float64Round float64Taxonomy emptyModel
      lbContainerAsset).2.2.1 rfl⟩

/-! ## The rounding `float64Round` keeps a positive number positive -/

theorem minMaxLoop_acc_le_max (tx : Taxonomy) (input : Model) (keys : List String)
    (acc r : ℚ × ℚ) (h : minMaxLoop tx input keys acc = some r) : acc.2 ≤ r.2 := by
  induction keys generalizing acc with
  | nil =>
    simp only [minMaxLoop, Option.some.injEq] at h
    exact h ▸ le_refl _
  | cons key rest ih =>
    cases hg : mapGet input.TechnicalAssets key with
    | none => simp [minMaxLoop, hg] at h
    | some a =>
      cases haa : calculateAttackerAttractiveness tx input a with
      | none => simp [minMaxLoop, hg, haa] at h
      | some aa =>
        simp only [minMaxLoop, hg, haa] at h
        refine le_trans ?_ (ih _ h)
        simp only
        split_ifs with hlt
        · exact le_of_lt hlt
        · exact le_refl _

theorem minMaxLoop_max_ge (tx : Taxonomy) (input : Model) (keys : List String) (key : String)
    (hk : key ∈ keys) (a : TechnicalAsset) (v : ℚ)
    (hg : mapGet input.TechnicalAssets key = some a)
    (hv : calculateAttackerAttractiveness tx input a = some v)
    (acc r : ℚ × ℚ) (h : minMaxLoop tx input keys acc = some r) : v ≤ r.2 := by
  induction keys generalizing acc with
  | nil => simp at hk
  | cons k0 rest ih =>
    cases hg0 : mapGet input.TechnicalAssets k0 with
    | none => simp [minMaxLoop, hg0] at h
    | some a0 =>
      cases haa : calculateAttackerAttractiveness tx input a0 with
      | none => simp [minMaxLoop, hg0, haa] at h
      | some aa =>
        simp only [minMaxLoop, hg0, haa] at h
        rcases List.mem_cons.1 hk with e | e
        · subst e
          rw [hg] at hg0
          simp only [Option.some.injEq] at hg0
          subst hg0
          rw [hv] at haa
          simp only [Option.some.injEq] at haa
          subst haa
          refine le_trans ?_ (minMaxLoop_acc_le_max tx input rest _ r h)
          simp only
          split_ifs with hlt
          · exact le_refl _
          · exact not_lt.1 hlt
        · exact ih e _ h

theorem pct_le_hundred (tx : Taxonomy) (input : Model) (key : String) (N : TechnicalAsset)
    (hg : mapGet input.TechnicalAssets key = some N) (p : ℚ)
    (hp : pct tx input N = some p) : p ≤ 100 := by
  unfold pct at hp
  cases hv : calculateAttackerAttractiveness tx input N with
  | none => simp [hv] at hp
  | some v =>
    simp only [hv] at hp
    unfold calculateRelativeAttackerAttractiveness at hp
    cases hmm : minMaxLoop tx input (sortStrings (mapKeys input.TechnicalAssets))
        (9223372036854775807, -9223372036854775808) with
    | none => simp [hmm] at hp
    | some mm =>
      obtain ⟨mn, mx⟩ := mm
      have hkey : key ∈ sortStrings (mapKeys input.TechnicalAssets) :=
        (mem_sortStrings _ _).2 (mapGet_mem_keys _ _ _ hg)
      have h1 : mn ≤ v := minMaxLoop_min_le tx input _ key hkey N v hg hv _ (mn, mx) hmm
      have h2 : v ≤ mx := minMaxLoop_max_ge tx input _ key hkey N v hg hv _ (mn, mx) hmm
      simp only [hmm, Option.some.injEq] at hp
      rw [← hp]
      by_cases hlt : mn < mx
      · simp only [hlt, not_true_eq_false, if_false]
        have hs : 0 < mx - mn := by linarith
        have hq : (v - mn) / (mx - mn) ≤ 1 := by
          rw [div_le_one hs]
          linarith
        split_ifs
        · norm_num
        · linarith
      · have hv0 : v - mn = 0 := by
          have := not_lt.1 hlt
          linarith
        simp only [hlt, not_false_eq_true, if_true, hv0, zero_div, zero_mul, le_refl]
        norm_num

theorem pct_pos (tx : Taxonomy) (input : Model) (A : TechnicalAsset) (p : ℚ)
    (hp : pct tx input A = some p) : 0 < p := by
  unfold pct at hp
  cases hv : calculateAttackerAttractiveness tx input A with
  | none => simp [hv] at hp
  | some v =>
    simp only [hv] at hp
    exact calculateRelative_pos tx input v p hp

theorem specAdjustment_nonneg (pA : ℚ) (pN : List ℚ) : 0 ≤ specAdjustment pA pN := by
  unfold specAdjustment
  induction pN with
  | nil => simp
  | cons p rest ih =>
    simp only [List.map_cons, List.foldr_cons]
    exact le_max_of_le_right ih

theorem specAdjustment_le (pA : ℚ) (pN : List ℚ) (hA : 0 < pA) (hN : ∀ p ∈ pN, p ≤ 100) :
    specAdjustment pA pN ≤ 100 / 3 := by
  unfold specAdjustment
  induction pN with
  | nil => simp only [List.map_nil, List.foldr_nil]; norm_num
  | cons p rest ih =>
    simp only [List.map_cons, List.foldr_cons]
    have hp := hN p (List.mem_cons_self _ _)
    refine max_le (max_le (by norm_num) (by linarith)) ?_
    exact ih (fun q hq => hN q (List.mem_cons_of_mem _ hq))

theorem pivotingLoop_eq (tx : Taxonomy) (input : Model)
    (hR : ∀ kv ∈ input.TechnicalAssets, kv.2.refsExist input) (A : TechnicalAsset) (pA : ℚ)
    (hpA : pct tx input A = some pA) (links : List CommunicationLink)
    (hl : ∀ l ∈ links, l.TargetId ∈ mapKeys input.TechnicalAssets) (adjustment : ℚ)
    (hadj : 0 ≤ adjustment) :
    pivotingLoop tx input A links adjustment
        = some (max adjustment (specAdjustment pA
            (links.filterMap
              (fun l => (mapGet input.TechnicalAssets l.TargetId).bind (pct tx input))))) ∧
      (links.filterMap
        (fun l => (mapGet input.TechnicalAssets l.TargetId).bind (pct tx input))).length
        = links.length := by
  induction links generalizing adjustment with
  | nil =>
    simp only [pivotingLoop, List.filterMap_nil, specAdjustment, List.map_nil, List.foldr_nil,
      max_eq_left hadj, List.length_nil, and_self]
  | cons l rest ih =>
    obtain ⟨N, hN, hNR⟩ := mapGet_refsExist input hR _ (hl l (List.mem_cons_self _ _))
    obtain ⟨aaN, haaN⟩ := calculateAttackerAttractiveness_isSome tx input N hNR
    obtain ⟨pN, hpN⟩ := calculateRelative_isSome tx input hR aaN
    have hpctN : pct tx input N = some pN := by
      unfold pct
      simp only [haaN, hpN]
    cases haaA : calculateAttackerAttractiveness tx input A with
    | none => simp [pct, haaA] at hpA
    | some aaA =>
      have hrelA : calculateRelativeAttackerAttractiveness tx input aaA = some pA := by
        simpa [pct, haaA] using hpA
      have hfm : (l :: rest).filterMap
          (fun l => (mapGet input.TechnicalAssets l.TargetId).bind (pct tx input))
          = pN :: rest.filterMap
            (fun l => (mapGet input.TechnicalAssets l.TargetId).bind (pct tx input)) := by
        rw [List.filterMap_cons]
        simp only [hN, Option.some_bind, hpctN]
      have hstep : (if pN - pA > 0 then
            (if (pN - pA) / 3 > adjustment then (pN - pA) / 3 else adjustment)
          else adjustment) = max adjustment (max 0 ((pN - pA) / 3)) := by
        by_cases hd : pN - pA > 0
        · have h3 : 0 < (pN - pA) / 3 := by positivity
          rw [if_pos hd, max_eq_right (le_of_lt h3)]
          by_cases hgt : (pN - pA) / 3 > adjustment
          · rw [if_pos hgt, max_eq_right (le_of_lt hgt)]
          · rw [if_neg hgt, max_eq_left (not_lt.1 hgt)]
        · have h3 : (pN - pA) / 3 ≤ 0 := by
            have := not_lt.1 hd
            linarith
          rw [if_neg hd, max_eq_left h3, max_eq_left hadj]
      obtain ⟨ih1, ih2⟩ := ih (fun x hx => hl x (List.mem_cons_of_mem _ hx))
        (max adjustment (max 0 ((pN - pA) / 3))) (le_max_of_le_left hadj)
      refine ⟨?_, ?_⟩
      · simp only [pivotingLoop, hN, haaN, hpN, haaA, hrelA, hstep]
        rw [ih1, hfm]
        simp only [specAdjustment, List.map_cons, List.foldr_cons, max_assoc]
      · rw [hfm, List.length_cons, List.length_cons, ih2]

/-- C29: in a model without dangling ids, `calculatePivotingNeighbourEffectAdjustment` returns
for every technical asset A whose ids exist; the adjustment lies between 0 and 100/3, is 0 when
A is out of scope or has no links, and for an in-scope A it is the maximum, over the links of A,
of `max(0, (pct(N) - pct(A)) / 3)`, every link contributing the percentage of its neighbour. -/
theorem C29_pivot_adjustment (tx : Taxonomy) (input : Model)
    (hR : ∀ kv ∈ input.TechnicalAssets, kv.2.refsExist input) (A : TechnicalAsset)
    (hA : A.refsExist input) :
    ∃ adj, calculatePivotingNeighbourEffectAdjustment tx input A = some adj ∧
      0 ≤ adj ∧ adj ≤ 100 / 3 ∧
      (A.OutOfScope = true → adj = 0) ∧ (A.CommunicationLinks = [] → adj = 0) ∧
      (A.OutOfScope = false →
        ∃ pA, pct tx input A = some pA ∧
          adj = specAdjustment pA (neighbourPercentages tx input A) ∧
          (neighbourPercentages tx input A).length = A.CommunicationLinks.length) := by
  obtain ⟨aaA, haaA⟩ := calculateAttackerAttractiveness_isSome tx input A hA
  obtain ⟨pA, hrelA⟩ := calculateRelative_isSome tx input hR aaA
  have hpA : pct tx input A = some pA := by
    unfold pct
    simp only [haaA, hrelA]
  by_cases ho : A.OutOfScope = true
  · refine ⟨0, by simp [calculatePivotingNeighbourEffectAdjustment, ho], le_refl _,
      by norm_num, fun _ => rfl, fun _ => rfl, fun h => ?_⟩
    rw [ho] at h
    exact absurd h (by decide)
  · obtain ⟨h1, h2⟩ := pivotingLoop_eq tx input hR A pA hpA A.CommunicationLinks
      (fun l hl => (hA.2.2 l hl).1) 0 (le_refl _)
    have hnn := specAdjustment_nonneg pA (neighbourPercentages tx input A)
    rw [show (A.CommunicationLinks.filterMap
        (fun l => (mapGet input.TechnicalAssets l.TargetId).bind (pct tx input)))
        = neighbourPercentages tx input A from rfl] at h1 h2
    rw [max_eq_right hnn] at h1
    have hN : ∀ p ∈ neighbourPercentages tx input A, p ≤ 100 := by
      intro p hp
      unfold neighbourPercentages at hp
      rw [List.mem_filterMap] at hp
      obtain ⟨l, _, hl⟩ := hp
      cases hg : mapGet input.TechnicalAssets l.TargetId with
      | none => simp [hg] at hl
      | some N =>
        simp only [hg, Option.some_bind] at hl
        exact pct_le_hundred tx input l.TargetId N hg p hl
    refine ⟨_, ?_, hnn, specAdjustment_le pA _ (pct_pos tx input A pA hpA) hN,
      fun h => absurd h ho, fun h => ?_, fun _ => ⟨pA, hpA, rfl, h2⟩⟩
    · unfold calculatePivotingNeighbourEffectAdjustment
      rw [if_neg ho]
      exact h1
    · unfold neighbourPercentages specAdjustment
      rw [h]
      rfl

/-- An instance of C29: in `pivotFloorModel` the asset "a" (percentage 1) has one link, to "n"
(percentage 100); its adjustment is (100 - 1) / 3 = 33. -/
theorem C29_pivot_adjustment_witness :
    noDanglingIds pivotFloorModel ∧ aPivotFloor.refsExist pivotFloorModel ∧
    mapGet pivotFloorModel.TechnicalAssets "a" = some aPivotFloor ∧
    calculatePivotingNeighbourEffectAdjustment fibonacciTaxonomy pivotFloorModel aPivotFloor
      = some 33 ∧
    pct fibonacciTaxonomy pivotFloorModel aPivotFloor = some 1 ∧
    neighbourPercentages fibonacciTaxonomy pivotFloorModel aPivotFloor = [100] ∧
    specAdjustment 1 [100] = 33 ∧
    ∃ adj, calculatePivotingNeighbourEffectAdjustment fibonacciTaxonomy pivotFloorModel
        aPivotFloor = some adj ∧
      0 ≤ adj ∧ adj ≤ 100 / 3 ∧
      (aPivotFloor.OutOfScope = true → adj = 0) ∧
      (aPivotFloor.CommunicationLinks = [] → adj = 0) ∧
      (aPivotFloor.OutOfScope = false →
        ∃ pA, pct fibonacciTaxonomy pivotFloorModel aPivotFloor = some pA ∧
          adj = specAdjustment pA
            (neighbourPercentages fibonacciTaxonomy pivotFloorModel aPivotFloor) ∧
          (neighbourPercentages fibonacciTaxonomy pivotFloorModel aPivotFloor).length
            = aPivotFloor.CommunicationLinks.length) :=
  ⟨by decide, by decide, by decide, by decide!, by decide!, by decide!, by decide!,
    C29_pivot_adjustment fibonacciTaxonomy pivotFloorModel (by decide) aPivotFloor (by decide)⟩

/-! ## The most sensitive technical asset -/

theorem findMostSensitiveLoop_some (api : TypesAPI) (input : Model) (rest : List String)
    (hR : ∀ id ∈ rest, id ∈ mapKeys input.TechnicalAssets) (cur : TechnicalAsset) :
    ∃ a, findMostSensitiveLoop api input rest (some cur) = some (some a) ∧
      ((a = cur ∧ ∀ x ∈ rest, ∀ ax, mapGet input.TechnicalAssets x = some ax →
          api.HighestSensitivityScore ax ≤ api.HighestSensitivityScore cur) ∨
       (∃ pre k post, rest = pre ++ k :: post ∧ mapGet input.TechnicalAssets k = some a ∧
          api.HighestSensitivityScore cur < api.HighestSensitivityScore a ∧
          (∀ x ∈ pre, ∀ ax, mapGet input.TechnicalAssets x = some ax →
            api.HighestSensitivityScore ax < api.HighestSensitivityScore a) ∧
          (∀ x ∈ post, ∀ ax, mapGet input.TechnicalAssets x = some ax →
            api.HighestSensitivityScore ax ≤ api.HighestSensitivityScore a))) := by
  induction rest generalizing cur with
  | nil => exact ⟨cur, rfl, Or.inl ⟨rfl, fun x hx => absurd hx (List.not_mem_nil _)⟩⟩
  | cons x r ih =>
    obtain ⟨ax, hax⟩ := mapGet_isSome_of_mem_keys _ _ (hR x (List.mem_cons_self _ _))
    have hr : ∀ id ∈ r, id ∈ mapKeys input.TechnicalAssets :=
      fun id hid => hR id (List.mem_cons_of_mem _ hid)
    by_cases hgt : api.HighestSensitivityScore ax > api.HighestSensitivityScore cur
    · obtain ⟨a, ha, hcase⟩ := ih hr ax
      refine ⟨a, by simp only [findMostSensitiveLoop, hax, hgt, if_true]; exact ha, Or.inr ?_⟩
      rcases hcase with ⟨he, hall⟩ | ⟨pre, k, post, hsplit, hk, hlt, hpre, hpost⟩
      · subst he
        exact ⟨[], x, r, rfl, hax, hgt, fun y hy => absurd hy (List.not_mem_nil _), hall⟩
      · refine ⟨x :: pre, k, post, by rw [hsplit]; rfl, hk, lt_trans hgt hlt, ?_, hpost⟩
        intro y hy ay hay
        rcases List.mem_cons.1 hy with e | e
        · subst e
          rw [hax] at hay
          exact (Option.some.inj hay) ▸ hlt
        · exact hpre y e ay hay
    · obtain ⟨a, ha, hcase⟩ := ih hr cur
      refine ⟨a, by simp only [findMostSensitiveLoop, hax, hgt, if_false]; exact ha, ?_⟩
      rcases hcase with ⟨he, hall⟩ | ⟨pre, k, post, hsplit, hk, hlt, hpre, hpost⟩
      · refine Or.inl ⟨he, ?_⟩
        intro y hy ay hay
        rcases List.mem_cons.1 hy with e | e
        · subst e
          rw [hax] at hay
          exact (Option.some.inj hay) ▸ not_lt.1 hgt
        · exact hall y e ay hay
      · refine Or.inr ⟨x :: pre, k, post, by rw [hsplit]; rfl, hk, hlt, ?_, hpost⟩
        intro y hy ay hay
        rcases List.mem_cons.1 hy with e | e
        · subst e
          rw [hax] at hay
          exact (Option.some.inj hay) ▸ lt_of_le_of_lt (not_lt.1 hgt) hlt
        · exact hpre y e ay hay

theorem findMostSensitiveLoop_sorted (api : TypesAPI) (input : Model) (L : List String)
    (hL : ∀ id ∈ L, id ∈ mapKeys input.TechnicalAssets) (hne : L ≠ [])
    (hs : L.Pairwise stringLE) :
    ∃ k a, k ∈ L ∧ mapGet input.TechnicalAssets k = some a ∧
      findMostSensitiveLoop api input L none = some (some a) ∧
      (∀ x ∈ L, ∀ ax, mapGet input.TechnicalAssets x = some ax →
        api.HighestSensitivityScore ax ≤ api.HighestSensitivityScore a) ∧
      (∀ x ∈ L, ∀ ax, mapGet input.TechnicalAssets x = some ax →
        api.HighestSensitivityScore ax = api.HighestSensitivityScore a → stringLE k x) := by
  cases L with
  | nil => exact absurd rfl hne
  | cons k0 rest =>
    obtain ⟨a0, ha0⟩ := mapGet_isSome_of_mem_keys _ _ (hL k0 (List.mem_cons_self _ _))
    obtain ⟨a, ha, hcase⟩ := findMostSensitiveLoop_some api input rest
      (fun id hid => hL id (List.mem_cons_of_mem _ hid)) a0
    have hloop : findMostSensitiveLoop api input (k0 :: rest) none = some (some a) := by
      simp only [findMostSensitiveLoop, ha0]
      exact ha
    rw [List.pairwise_cons] at hs
    rcases hcase with ⟨he, hall⟩ | ⟨pre, k, post, hsplit, hk, hlt, hpre, hpost⟩
    · subst he
      refine ⟨k0, a, List.mem_cons_self _ _, ha0, hloop, ?_, ?_⟩
      · intro x hx ax hax
        rcases List.mem_cons.1 hx with e | e
        · subst e
          rw [ha0] at hax
          exact (Option.some.inj hax) ▸ le_refl _
        · exact hall x e ax hax
      · intro x hx ax _ _
        rcases List.mem_cons.1 hx with e | e
        · subst e
          exact le_refl x.data
        · exact hs.1 x e
    · have hkmem : k ∈ rest := by rw [hsplit]; simp
      refine ⟨k, a, List.mem_cons_of_mem _ hkmem, hk, hloop, ?_, ?_⟩
      · intro x hx ax hax
        rcases List.mem_cons.1 hx with e | e
        · subst e
          rw [ha0] at hax
          exact (Option.some.inj hax) ▸ le_of_lt hlt
        · rw [hsplit, List.mem_append, List.mem_cons] at e
          rcases e with e | e | e
          · exact le_of_lt (hpre x e ax hax)
          · subst e
            rw [hk] at hax
            exact (Option.some.inj hax) ▸ le_refl _
          · exact hpost x e ax hax
      · intro x hx ax hax heq
        rcases List.mem_cons.1 hx with e | e
        · subst e
          rw [ha0] at hax
          have := (Option.some.inj hax) ▸ hlt
          exact absurd heq (ne_of_lt this)
        · have hsr := hs.2
          rw [hsplit, List.pairwise_append] at hsr
          rw [hsplit, List.mem_append, List.mem_cons] at e
          rcases e with e | e | e
          · exact absurd heq (ne_of_lt (hpre x e ax hax))
          · subst e
            exact le_refl x.data
          · exact (List.pairwise_cons.1 hsr.2.1).1 x e

/-- C30: for an id set S whose ids are keys of `TechnicalAssets`,
`findMostSensitiveTechnicalAsset` returns, and returns nothing exactly when S is empty;
otherwise it returns an asset stored under an id k of S whose `HighestSensitivityScore` is the
highest of S, k being the smallest id in sorted order among the ids of S with that score; the
result is the same for every enumeration order of S. -/
theorem C30_most_sensitive_asset (api : TypesAPI) (ord : List String → List String)
    (hord : ∀ s, (ord s).Perm s) (input : Model) (S : List String)
    (hS : ∀ id ∈ S, id ∈ mapKeys input.TechnicalAssets) :
    (findMostSensitiveTechnicalAsset api ord input S = some none ↔ S = []) ∧
    (S ≠ [] → ∃ k a, k ∈ S ∧ mapGet input.TechnicalAssets k = some a ∧
      findMostSensitiveTechnicalAsset api ord input S = some (some a) ∧
      (∀ x ∈ S, ∀ ax, mapGet input.TechnicalAssets x = some ax →
        api.HighestSensitivityScore ax ≤ api.HighestSensitivityScore a) ∧
      (∀ x ∈ S, ∀ ax, mapGet input.TechnicalAssets x = some ax →
        api.HighestSensitivityScore ax = api.HighestSensitivityScore a → stringLE k x)) ∧
    (∀ ord2 : List String → List String, (∀ s, (ord2 s).Perm s) →
      findMostSensitiveTechnicalAsset api ord2 input S
        = findMostSensitiveTechnicalAsset api ord input S) := by
  have hmem : ∀ x, x ∈ sortStrings (ord S) ↔ x ∈ S := fun x => by
    rw [mem_sortStrings, (hord S).mem_iff]
  have hsome : S ≠ [] → ∃ k a, k ∈ S ∧ mapGet input.TechnicalAssets k = some a ∧
      findMostSensitiveTechnicalAsset api ord input S = some (some a) ∧
      (∀ x ∈ S, ∀ ax, mapGet input.TechnicalAssets x = some ax →
        api.HighestSensitivityScore ax ≤ api.HighestSensitivityScore a) ∧
      (∀ x ∈ S, ∀ ax, mapGet input.TechnicalAssets x = some ax →
        api.HighestSensitivityScore ax = api.HighestSensitivityScore a → stringLE k x) := by
    intro hne
    have hneL : sortStrings (ord S) ≠ [] := by
      obtain ⟨x, hx⟩ := List.exists_mem_of_ne_nil _ hne
      exact List.ne_nil_of_mem ((hmem x).2 hx)
    obtain ⟨k, a, hk, hg, hloop, hmax, htie⟩ := findMostSensitiveLoop_sorted api input
      (sortStrings (ord S)) (fun id hid => hS id ((hmem id).1 hid)) hneL (sortStrings_sorted _)
    exact ⟨k, a, (hmem k).1 hk, hg, hloop, fun x hx => hmax x ((hmem x).2 hx),
      fun x hx => htie x ((hmem x).2 hx)⟩
  refine ⟨⟨?_, ?_⟩, hsome, ?_⟩
  · intro h
    by_contra hne
    obtain ⟨k, a, _, _, hloop, _⟩ := hsome hne
    rw [hloop] at h
    exact absurd h (by simp)
  · intro h
    subst h
    exact findMostSensitive_nil api ord hord input
  · intro ord2 hord2
    unfold findMostSensitiveTechnicalAsset
    rw [sortStrings_eq_of_perm (ord2 S) (ord S) ((hord2 S).trans (hord S).symm)]

/-- An instance of C30 in `smallPercentModel`: of the set {"mon", "lb"}, two assets with the
same score, the asset "lb" is returned, for both enumeration orders; of {"mon", "lb", "big"}
the asset "big" with the highest score. -/
theorem C30_most_sensitive_asset_witness :
    (∀ id ∈ ["mon", "lb"], id ∈ mapKeys smallPercentModel.TechnicalAssets) ∧
    (findMostSensitiveTechnicalAsset specAPI id smallPercentModel ["mon", "lb"]).map
      (fun o => o.map (fun a => a.Id)) = some (some "lb") ∧
    (findMostSensitiveTechnicalAsset specAPI id smallPercentModel ["mon", "lb", "big"]).map
      (fun o => o.map (fun a => a.Id)) = some (some "big") ∧
    findMostSensitiveTechnicalAsset specAPI List.reverse smallPercentModel ["mon", "lb"]
      = findMostSensitiveTechnicalAsset specAPI id smallPercentModel ["mon", "lb"] ∧
    (∃ k a, k ∈ ["mon", "lb"] ∧ mapGet smallPercentModel.TechnicalAssets k = some a ∧
      findMostSensitiveTechnicalAsset specAPI id smallPercentModel ["mon", "lb"]
        = some (some a) ∧
      (∀ x ∈ ["mon", "lb"], ∀ ax, mapGet smallPercentModel.TechnicalAssets x = some ax →
        specAPI.HighestSensitivityScore ax ≤ specAPI.HighestSensitivityScore a) ∧
      (∀ x ∈ ["mon", "lb"], ∀ ax, mapGet smallPercentModel.TechnicalAssets x = some ax →
        specAPI.HighestSensitivityScore ax = specAPI.HighestSensitivityScore a →
        stringLE k x)) :=
  ⟨by decide, by decide!, by decide!,
    (C30_most_sensitive_asset specAPI id (fun _ => List.Perm.refl _) smallPercentModel
      ["mon", "lb"] (by decide)).2.2 List.reverse (fun s => List.reverse_perm s),
    (C30_most_sensitive_asset specAPI id (fun _ => List.Perm.refl _) smallPercentModel
      ["mon", "lb"] (by decide)).2.1 (by decide)⟩

/-! ## Missing cloud hardening rule: the classification pass returns -/

theorem inKeys_empty (input : Model) : Buckets.empty.inKeys input := by
  simp [Buckets.inKeys, Buckets.empty]

theorem inKeys_insert_sharedRuntimesWithUnspecificCloudRisks (input : Model) (c : Bool) (id : String) (b : Buckets)
    (hk : id ∈ mapKeys input.SharedRuntimes) (h : b.inKeys input) :
    Buckets.inKeys input
      (if c then { b with sharedRuntimesWithUnspecificCloudRisks := b.sharedRuntimesWithUnspecificCloudRisks.insert id } else b) := by
  cases c with
  | false => exact h
  | true =>
    obtain ⟨h1, h2, h3, h4, h5, h6, h7, h8, h9, h10, h11, h12, h13, h14, h15, h16⟩ := h
    refine ⟨?_, h2, h3, h4, h5, h6, h7, h8, h9, h10, h11, h12, h13, h14, h15, h16⟩
    intro x hx
    rcases List.mem_insert_iff.1 hx with e | e
    · exact e ▸ hk
    · exact h1 x e

theorem inKeys_insert_trustBoundariesWithUnspecificCloudRisks (input : Model) (c : Bool) (id : String) (b : Buckets)
    (hk : id ∈ mapKeys input.TrustBoundaries) (h : b.inKeys input) :
    Buckets.inKeys input
      (if c then { b with trustBoundariesWithUnspecificCloudRisks := b.trustBoundariesWithUnspecificCloudRisks.insert id } else b) := by
  cases c with
  | false => exact h
  | true =>
    obtain ⟨h1, h2, h3, h4, h5, h6, h7, h8, h9, h10, h11, h12, h13, h14, h15, h16⟩ := h
    refine ⟨h1, ?_, h3, h4, h5, h6, h7, h8, h9, h10, h11, h12, h13, h14, h15, h16⟩
    intro x hx
    rcases List.mem_insert_iff.1 hx with e | e
    · exact e ▸ hk
    · exact h2 x e

theorem inKeys_insert_techAssetsWithUnspecificCloudRisks (input : Model) (c : Bool) (id : String) (b : Buckets)
    (hk : id ∈ mapKeys input.TechnicalAssets) (h : b.inKeys input) :
    Buckets.inKeys input
      (if c then { b with techAssetsWithUnspecificCloudRisks := b.techAssetsWithUnspecificCloudRisks.insert id } else b) := by
  cases c with
  | false => exact h
  | true =>
    obtain ⟨h1, h2, h3, h4, h5, h6, h7, h8, h9, h10, h11, h12, h13, h14, h15, h16⟩ := h
    refine ⟨h1, h2, ?_, h4, h5, h6, h7, h8, h9, h10, h11, h12, h13, h14, h15, h16⟩
    intro x hx
    rcases List.mem_insert_iff.1 hx with e | e
    · exact e ▸ hk
    · exact h3 x e

theorem inKeys_insert_sharedRuntimeIDsAWS (input : Model) (c : Bool) (id : String) (b : Buckets)
    (hk : id ∈ mapKeys input.SharedRuntimes) (h : b.inKeys input) :
    Buckets.inKeys input
      (if c then { b with sharedRuntimeIDsAWS := b.sharedRuntimeIDsAWS.insert id } else b) := by
  cases c with
  | false => exact h
  | true =>
    obtain ⟨h1, h2, h3, h4, h5, h6, h7, h8, h9, h10, h11, h12, h13, h14, h15, h16⟩ := h
    refine ⟨h1, h2, h3, ?_, h5, h6, h7, h8, h9, h10, h11, h12, h13, h14, h15, h16⟩
    intro x hx
    rcases List.mem_insert_iff.1 hx with e | e
    · exact e ▸ hk
    · exact h4 x e

theorem inKeys_insert_trustBoundaryIDsAWS (input : Model) (c : Bool) (id : String) (b : Buckets)
    (hk : id ∈ mapKeys input.TrustBoundaries) (h : b.inKeys input) :
    Buckets.inKeys input
      (if c then { b with trustBoundaryIDsAWS := b.trustBoundaryIDsAWS.insert id } else b) := by
  cases c with
  | false => exact h
  | true =>
    obtain ⟨h1, h2, h3, h4, h5, h6, h7, h8, h9, h10, h11, h12, h13, h14, h15, h16⟩ := h
    refine ⟨h1, h2, h3, h4, ?_, h6, h7, h8, h9, h10, h11, h12, h13, h14, h15, h16⟩
    intro x hx
    rcases List.mem_insert_iff.1 hx with e | e
    · exact e ▸ hk
    · exact h5 x e

theorem inKeys_insert_techAssetIDsAWS (input : Model) (c : Bool) (id : String) (b : Buckets)
    (hk : id ∈ mapKeys input.TechnicalAssets) (h : b.inKeys input) :
    Buckets.inKeys input
      (if c then { b with techAssetIDsAWS := b.techAssetIDsAWS.insert id } else b) := by
  cases c with
  | false => exact h
  | true =>
    obtain ⟨h1, h2, h3, h4, h5, h6, h7, h8, h9, h10, h11, h12, h13, h14, h15, h16⟩ := h
    refine ⟨h1, h2, h3, h4, h5, ?_, h7, h8, h9, h10, h11, h12, h13, h14, h15, h16⟩
    intro x hx
    rcases List.mem_insert_iff.1 hx with e | e
    · exact e ▸ hk
    · exact h6 x e

theorem inKeys_insert_sharedRuntimeIDsAzure (input : Model) (c : Bool) (id : String) (b : Buckets)
    (hk : id ∈ mapKeys input.SharedRuntimes) (h : b.inKeys input) :
    Buckets.inKeys input
      (if c then { b with sharedRuntimeIDsAzure := b.sharedRuntimeIDsAzure.insert id } else b) := by
  cases c with
  | false => exact h
  | true =>
    obtain ⟨h1, h2, h3, h4, h5, h6, h7, h8, h9, h10, h11, h12, h13, h14, h15, h16⟩ := h
    refine ⟨h1, h2, h3, h4, h5, h6, ?_, h8, h9, h10, h11, h12, h13, h14, h15, h16⟩
    intro x hx
    rcases List.mem_insert_iff.1 hx with e | e
    · exact e ▸ hk
    · exact h7 x e

theorem inKeys_insert_trustBoundaryIDsAzure (input : Model) (c : Bool) (id : String) (b : Buckets)
    (hk : id ∈ mapKeys input.TrustBoundaries) (h : b.inKeys input) :
    Buckets.inKeys input
      (if c then { b with trustBoundaryIDsAzure := b.trustBoundaryIDsAzure.insert id } else b) := by
  cases c with
  | false => exact h
  | true =>
    obtain ⟨h1, h2, h3, h4, h5, h6, h7, h8, h9, h10, h11, h12, h13, h14, h15, h16⟩ := h
    refine ⟨h1, h2, h3, h4, h5, h6, h7, ?_, h9, h10, h11, h12, h13, h14, h15, h16⟩
    intro x hx
    rcases List.mem_insert_iff.1 hx with e | e
    · exact e ▸ hk
    · exact h8 x e

theorem inKeys_insert_techAssetIDsAzure (input : Model) (c : Bool) (id : String) (b : Buckets)
    (hk : id ∈ mapKeys input.TechnicalAssets) (h : b.inKeys input) :
    Buckets.inKeys input
      (if c then { b with techAssetIDsAzure := b.techAssetIDsAzure.insert id } else b) := by
  cases c with
  | false => exact h
  | true =>
    obtain ⟨h1, h2, h3, h4, h5, h6, h7, h8, h9, h10, h11, h12, h13, h14, h15, h16⟩ := h
    refine ⟨h1, h2, h3, h4, h5, h6, h7, h8, ?_, h10, h11, h12, h13, h14, h15, h16⟩
    intro x hx
    rcases List.mem_insert_iff.1 hx with e | e
    · exact e ▸ hk
    · exact h9 x e

theorem inKeys_insert_sharedRuntimeIDsGCP (input : Model) (c : Bool) (id : String) (b : Buckets)
    (hk : id ∈ mapKeys input.SharedRuntimes) (h : b.inKeys input) :
    Buckets.inKeys input
      (if c then { b with sharedRuntimeIDsGCP := b.sharedRuntimeIDsGCP.insert id } else b) := by
  cases c with
  | false => exact h
  | true =>
    obtain ⟨h1, h2, h3, h4, h5, h6, h7, h8, h9, h10, h11, h12, h13, h14, h15, h16⟩ := h
    refine ⟨h1, h2, h3, h4, h5, h6, h7, h8, h9, ?_, h11, h12, h13, h14, h15, h16⟩
    intro x hx
    rcases List.mem_insert_iff.1 hx with e | e
    · exact e ▸ hk
    · exact h10 x e

theorem inKeys_insert_trustBoundaryIDsGCP (input : Model) (c : Bool) (id : String) (b : Buckets)
    (hk : id ∈ mapKeys input.TrustBoundaries) (h : b.inKeys input) :
    Buckets.inKeys input
      (if c then { b with trustBoundaryIDsGCP := b.trustBoundaryIDsGCP.insert id } else b) := by
  cases c with
  | false => exact h
  | true =>
    obtain ⟨h1, h2, h3, h4, h5, h6, h7, h8, h9, h10, h11, h12, h13, h14, h15, h16⟩ := h
    refine ⟨h1, h2, h3, h4, h5, h6, h7, h8, h9, h10, ?_, h12, h13, h14, h15, h16⟩
    intro x hx
    rcases List.mem_insert_iff.1 hx with e | e
    · exact e ▸ hk
    · exact h11 x e

theorem inKeys_insert_techAssetIDsGCP (input : Model) (c : Bool) (id : String) (b : Buckets)
    (hk : id ∈ mapKeys input.TechnicalAssets) (h : b.inKeys input) :
    Buckets.inKeys input
      (if c then { b with techAssetIDsGCP := b.techAssetIDsGCP.insert id } else b) := by
  cases c with
  | false => exact h
  | true =>
    obtain ⟨h1, h2, h3, h4, h5, h6, h7, h8, h9, h10, h11, h12, h13, h14, h15, h16⟩ := h
    refine ⟨h1, h2, h3, h4, h5, h6, h7, h8, h9, h10, h11, ?_, h13, h14, h15, h16⟩
    intro x hx
    rcases List.mem_insert_iff.1 hx with e | e
    · exact e ▸ hk
    · exact h12 x e

theorem inKeys_insert_sharedRuntimeIDsOCP (input : Model) (c : Bool) (id : String) (b : Buckets)
    (hk : id ∈ mapKeys input.SharedRuntimes) (h : b.inKeys input) :
    Buckets.inKeys input
      (if c then { b with sharedRuntimeIDsOCP := b.sharedRuntimeIDsOCP.insert id } else b) := by
  cases c with
  | false => exact h
  | true =>
    obtain ⟨h1, h2, h3, h4, h5, h6, h7, h8, h9, h10, h11, h12, h13, h14, h15, h16⟩ := h
    refine ⟨h1, h2, h3, h4, h5, h6, h7, h8, h9, h10, h11, h12, ?_, h14, h15, h16⟩
    intro x hx
    rcases List.mem_insert_iff.1 hx with e | e
    · exact e ▸ hk
    · exact h13 x e

theorem inKeys_insert_trustBoundaryIDsOCP (input : Model) (c : Bool) (id : String) (b : Buckets)
    (hk : id ∈ mapKeys input.TrustBoundaries) (h : b.inKeys input) :
    Buckets.inKeys input
      (if c then { b with trustBoundaryIDsOCP := b.trustBoundaryIDsOCP.insert id } else b) := by
  cases c with
  | false => exact h
  | true =>
    obtain ⟨h1, h2, h3, h4, h5, h6, h7, h8, h9, h10, h11, h12, h13, h14, h15, h16⟩ := h
    refine ⟨h1, h2, h3, h4, h5, h6, h7, h8, h9, h10, h11, h12, h13, ?_, h15, h16⟩
    intro x hx
    rcases List.mem_insert_iff.1 hx with e | e
    · exact e ▸ hk
    · exact h14 x e

theorem inKeys_insert_techAssetIDsOCP (input : Model) (c : Bool) (id : String) (b : Buckets)
    (hk : id ∈ mapKeys input.TechnicalAssets) (h : b.inKeys input) :
    Buckets.inKeys input
      (if c then { b with techAssetIDsOCP := b.techAssetIDsOCP.insert id } else b) := by
  cases c with
  | false => exact h
  | true =>
    obtain ⟨h1, h2, h3, h4, h5, h6, h7, h8, h9, h10, h11, h12, h13, h14, h15, h16⟩ := h
    refine ⟨h1, h2, h3, h4, h5, h6, h7, h8, h9, h10, h11, h12, h13, h14, ?_, h16⟩
    intro x hx
    rcases List.mem_insert_iff.1 hx with e | e
    · exact e ▸ hk
    · exact h15 x e

theorem inKeys_insert_techAssetIDsWithSubtagSpecificCloudRisks (input : Model) (c : Bool) (id : String) (b : Buckets)
    (hk : id ∈ mapKeys input.TechnicalAssets) (h : b.inKeys input) :
    Buckets.inKeys input
      (if c then { b with techAssetIDsWithSubtagSpecificCloudRisks := b.techAssetIDsWithSubtagSpecificCloudRisks.insert id } else b) := by
  cases c with
  | false => exact h
  | true =>
    obtain ⟨h1, h2, h3, h4, h5, h6, h7, h8, h9, h10, h11, h12, h13, h14, h15, h16⟩ := h
    refine ⟨h1, h2, h3, h4, h5, h6, h7, h8, h9, h10, h11, h12, h13, h14, h15, ?_⟩
    intro x hx
    rcases List.mem_insert_iff.1 hx with e | e
    · exact e ▸ hk
    · exact h16 x e

theorem inKeys_addAccordingToBaseTag (input : Model) (techAsset : TechnicalAsset)
    (tags : List String) (b : Buckets) (hk : techAsset.Id ∈ mapKeys input.TechnicalAssets)
    (h : b.inKeys input) : (addAccordingToBaseTag techAsset tags b).inKeys input :=
  inKeys_insert_techAssetIDsOCP input _ _ _ hk
    (inKeys_insert_techAssetIDsGCP input _ _ _ hk
      (inKeys_insert_techAssetIDsAzure input _ _ _ hk
        (inKeys_insert_techAssetIDsAWS input _ _ _ hk
          (inKeys_insert_techAssetIDsWithSubtagSpecificCloudRisks input _ _ _ hk h))))

theorem inKeys_addTrustBoundary (input : Model) (tb : TrustBoundary) (b : Buckets)
    (hk : tb.Id ∈ mapKeys input.TrustBoundaries) (h : b.inKeys input) :
    (addTrustBoundaryAccordingToBaseTag tb b).inKeys input := by
  unfold addTrustBoundaryAccordingToBaseTag
  by_cases hc : tb.IsTaggedWithAny SupportedTags = true
  · rw [if_pos hc]
    exact inKeys_insert_trustBoundaryIDsOCP input _ _ _ hk
      (inKeys_insert_trustBoundaryIDsGCP input _ _ _ hk
        (inKeys_insert_trustBoundaryIDsAzure input _ _ _ hk
          (inKeys_insert_trustBoundaryIDsAWS input _ _ _ hk h)))
  · rw [if_neg hc]
    exact inKeys_insert_trustBoundariesWithUnspecificCloudRisks input true _ _ hk h

theorem inKeys_addSharedRuntime (input : Model) (sr : SharedRuntime) (b : Buckets)
    (hk : sr.Id ∈ mapKeys input.SharedRuntimes) (h : b.inKeys input) :
    (addSharedRuntimeAccordingToBaseTag sr b).inKeys input := by
  unfold addSharedRuntimeAccordingToBaseTag
  by_cases hc : sr.IsTaggedWithAny SupportedTags = true
  · rw [if_pos hc]
    exact inKeys_insert_sharedRuntimeIDsOCP input _ _ _ hk
      (inKeys_insert_sharedRuntimeIDsGCP input _ _ _ hk
        (inKeys_insert_sharedRuntimeIDsAzure input _ _ _ hk
          (inKeys_insert_sharedRuntimeIDsAWS input _ _ _ hk h)))
  · rw [if_neg hc]
    exact inKeys_insert_sharedRuntimesWithUnspecificCloudRisks input true _ _ hk h

theorem inKeys_unspecific (input : Model) (id : String) (b : Buckets)
    (hk : id ∈ mapKeys input.TechnicalAssets) (h : b.inKeys input) :
    Buckets.inKeys input { b with techAssetsWithUnspecificCloudRisks :=
      b.techAssetsWithUnspecificCloudRisks.insert id } :=
  inKeys_insert_techAssetsWithUnspecificCloudRisks input true id b hk h

theorem mem_deleteAll (ord : List String → List String) (ids s : List String) (x : String)
    (h : x ∈ deleteAll ord ids s) : x ∈ s := by
  unfold deleteAll at h
  generalize ord ids = l at h
  induction l generalizing s with
  | nil => exact h
  | cons id rest ih =>
    simp only [List.foldl_cons] at h
    exact (List.mem_filter.1 (ih _ h)).1

theorem inKeys_subsume (input : Model) (ord : List String → List String) (b : Buckets)
    (h : b.inKeys input) : (subsume ord b).inKeys input := by
  unfold Buckets.inKeys at h
  obtain ⟨h1, h2, h3, h4, h5, h6, h7, h8, h9, h10, h11, h12, h13, h14, h15, h16⟩ := h
  unfold subsume Buckets.inKeys
  refine ⟨?_, ?_, ?_, h4, h5, h6, h7, h8, h9, h10, h11, h12, h13, h14, h15, h16⟩
  · intro x hx
    exact h1 x (mem_deleteAll _ _ _ _ (mem_deleteAll _ _ _ _ (mem_deleteAll _ _ _ _
      (mem_deleteAll _ _ _ _ hx))))
  · intro x hx
    exact h2 x (mem_deleteAll _ _ _ _ (mem_deleteAll _ _ _ _ (mem_deleteAll _ _ _ _
      (mem_deleteAll _ _ _ _ hx))))
  · intro x hx
    exact h3 x (mem_deleteAll _ _ _ _ (mem_deleteAll _ _ _ _ (mem_deleteAll _ _ _ _
      (mem_deleteAll _ _ _ _ (mem_deleteAll _ _ _ _ hx)))))

theorem id_mem_keys_of_mapGet (input : Model) (hid : ∀ kv ∈ input.TechnicalAssets, kv.2.Id = kv.1)
    (id : String) (tA : TechnicalAsset) (h : mapGet input.TechnicalAssets id = some tA) :
    tA.Id ∈ mapKeys input.TechnicalAssets := by
  have := hid _ (mapGet_mem _ _ _ h)
  simp only at this
  rw [this]
  exact mapGet_mem_keys _ _ _ h

theorem classifyInside_total (input : Model)
    (hid : ∀ kv ∈ input.TechnicalAssets, kv.2.Id = kv.1) (tagged : Bool) (tb : TrustBoundary)
    (ids : List String) (hids : ∀ id ∈ ids, id ∈ mapKeys input.TechnicalAssets) (b : Buckets)
    (hb : b.inKeys input) :
    ∃ b2, classifyInside input tagged tb ids b = some b2 ∧ b2.inKeys input := by
  induction ids generalizing b with
  | nil => exact ⟨b, rfl, hb⟩
  | cons id rest ih =>
    obtain ⟨tA, hta⟩ := mapGet_isSome_of_mem_keys _ _ (hids id (List.mem_cons_self _ _))
    have hk := id_mem_keys_of_mapGet input hid id tA hta
    have hr : ∀ x ∈ rest, x ∈ mapKeys input.TechnicalAssets :=
      fun x hx => hids x (List.mem_cons_of_mem _ hx)
    simp only [classifyInside, hta]
    split_ifs
    · exact ih hr _ (inKeys_addAccordingToBaseTag input _ _ _ hk hb)
    · exact ih hr _ (inKeys_addAccordingToBaseTag input _ _ _ hk hb)
    · exact ih hr _ (inKeys_unspecific input id b (hids id (List.mem_cons_self _ _)) hb)

theorem classifyTrustBoundaries_total (api : TypesAPI) (input : Model)
    (hid : ∀ kv ∈ input.TechnicalAssets, kv.2.Id = kv.1)
    (l : List (String × TrustBoundary))
    (hl : ∀ kv ∈ l, kv.2.Id ∈ mapKeys input.TrustBoundaries ∧
      ∀ id ∈ api.RecursivelyAllTechnicalAssetIDsInside input kv.2,
        id ∈ mapKeys input.TechnicalAssets)
    (b : Buckets) (hb : b.inKeys input) :
    ∃ b2, classifyTrustBoundaries api input l b = some b2 ∧ b2.inKeys input := by
  induction l generalizing b with
  | nil => exact ⟨b, rfl, hb⟩
  | cons kv rest ih =>
    have hr : ∀ x ∈ rest, x.2.Id ∈ mapKeys input.TrustBoundaries ∧
        ∀ id ∈ api.RecursivelyAllTechnicalAssetIDsInside input x.2,
          id ∈ mapKeys input.TechnicalAssets :=
      fun x hx => hl x (List.mem_cons_of_mem _ hx)
    obtain ⟨hk, hin⟩ := hl kv (List.mem_cons_self _ _)
    simp only [classifyTrustBoundaries]
    split_ifs
    · exact ih hr b hb
    · obtain ⟨b1, h1, hb1⟩ := classifyInside_total input hid
        (kv.2.IsTaggedWithAny SupportedTags) kv.2 _ hin _
        (inKeys_addTrustBoundary input kv.2 b hk hb)
      simp only [h1]
      exact ih hr b1 hb1

theorem classifyTaggedAssets_inKeys (input : Model) (l : List TechnicalAsset)
    (hl : ∀ tA ∈ l, tA.Id ∈ mapKeys input.TechnicalAssets) (b : Buckets) (hb : b.inKeys input) :
    (classifyTaggedAssets l b).inKeys input := by
  induction l generalizing b with
  | nil => exact hb
  | cons tA rest ih =>
    simp only [classifyTaggedAssets]
    exact ih (fun x hx => hl x (List.mem_cons_of_mem _ hx)) _
      (inKeys_addAccordingToBaseTag input _ _ _ (hl tA (List.mem_cons_self _ _)) hb)

theorem classifyInsideTagged_total (input : Model)
    (hid : ∀ kv ∈ input.TechnicalAssets, kv.2.Id = kv.1) (tB : TrustBoundary)
    (ids : List String) (hids : ∀ id ∈ ids, id ∈ mapKeys input.TechnicalAssets) (b : Buckets)
    (hb : b.inKeys input) :
    ∃ b2, classifyInsideTagged input tB ids b = some b2 ∧ b2.inKeys input := by
  induction ids generalizing b with
  | nil => exact ⟨b, rfl, hb⟩
  | cons id rest ih =>
    obtain ⟨tA, hta⟩ := mapGet_isSome_of_mem_keys _ _ (hids id (List.mem_cons_self _ _))
    have hk := id_mem_keys_of_mapGet input hid id tA hta
    have hr : ∀ x ∈ rest, x ∈ mapKeys input.TechnicalAssets :=
      fun x hx => hids x (List.mem_cons_of_mem _ hx)
    simp only [classifyInsideTagged, hta]
    split_ifs
    · exact ih hr _ (inKeys_addAccordingToBaseTag input _ _ _ hk hb)
    · exact ih hr _ (inKeys_addAccordingToBaseTag input _ _ _ hk hb)

theorem classifyTaggedBoundaries_total (api : TypesAPI) (input : Model)
    (hid : ∀ kv ∈ input.TechnicalAssets, kv.2.Id = kv.1) (l : List TrustBoundary)
    (hl : ∀ tB ∈ l, ∀ id ∈ api.RecursivelyAllTechnicalAssetIDsInside input tB,
      id ∈ mapKeys input.TechnicalAssets)
    (b : Buckets) (hb : b.inKeys input) :
    ∃ b2, classifyTaggedBoundaries api input l b = some b2 ∧ b2.inKeys input := by
  induction l generalizing b with
  | nil => exact ⟨b, rfl, hb⟩
  | cons tB rest ih =>
    obtain ⟨b1, h1, hb1⟩ := classifyInsideTagged_total input hid tB _
      (hl tB (List.mem_cons_self _ _)) b hb
    simp only [classifyTaggedBoundaries, h1]
    exact ih (fun x hx => hl x (List.mem_cons_of_mem _ hx)) b1 hb1

theorem classifyRunning_total (input : Model)
    (hid : ∀ kv ∈ input.TechnicalAssets, kv.2.Id = kv.1) (sR : SharedRuntime)
    (ids : List String) (hids : ∀ id ∈ ids, id ∈ mapKeys input.TechnicalAssets) (b : Buckets)
    (hb : b.inKeys input) :
    ∃ b2, classifyRunning input sR ids b = some b2 ∧ b2.inKeys input := by
  induction ids generalizing b with
  | nil => exact ⟨b, rfl, hb⟩
  | cons id rest ih =>
    obtain ⟨tA, hta⟩ := mapGet_isSome_of_mem_keys _ _ (hids id (List.mem_cons_self _ _))
    have hk := id_mem_keys_of_mapGet input hid id tA hta
    simp only [classifyRunning, hta]
    exact ih (fun x hx => hids x (List.mem_cons_of_mem _ hx)) _
      (inKeys_addAccordingToBaseTag input _ _ _ hk hb)

theorem classifySharedRuntimes_total (input : Model)
    (hid : ∀ kv ∈ input.TechnicalAssets, kv.2.Id = kv.1)
    (l : List (String × SharedRuntime))
    (hl : ∀ kv ∈ l, kv.2.Id ∈ mapKeys input.SharedRuntimes ∧
      ∀ id ∈ kv.2.TechnicalAssetsRunning, id ∈ mapKeys input.TechnicalAssets)
    (b : Buckets) (hb : b.inKeys input) :
    ∃ b2, classifySharedRuntimes input l b = some b2 ∧ b2.inKeys input := by
  induction l generalizing b with
  | nil => exact ⟨b, rfl, hb⟩
  | cons kv rest ih =>
    obtain ⟨hk, hin⟩ := hl kv (List.mem_cons_self _ _)
    obtain ⟨b1, h1, hb1⟩ := classifyRunning_total input hid kv.2 _ hin _
      (inKeys_addSharedRuntime input kv.2 b hk hb)
    simp only [classifySharedRuntimes, h1]
    exact ih (fun x hx => hl x (List.mem_cons_of_mem _ hx)) b1 hb1

theorem classify_total (api : TypesAPI) (ord : List String → List String) (input : Model)
    (hW : cloudWellFormed api input) :
    ∃ b, classify api ord input = some b ∧ b.inKeys input := by
  obtain ⟨hN, hI, hin, _, _⟩ := hW
  have hkeyTB : ∀ kv ∈ input.TrustBoundaries, kv.2.Id ∈ mapKeys input.TrustBoundaries := by
    intro kv hkv
    rw [hI.2.1 kv hkv]
    exact List.mem_map.2 ⟨kv, hkv, rfl⟩
  have hkeySR : ∀ kv ∈ input.SharedRuntimes, kv.2.Id ∈ mapKeys input.SharedRuntimes := by
    intro kv hkv
    rw [hI.2.2 kv hkv]
    exact List.mem_map.2 ⟨kv, hkv, rfl⟩
  have hkeyTA : ∀ kv ∈ input.TechnicalAssets, kv.2.Id ∈ mapKeys input.TechnicalAssets := by
    intro kv hkv
    rw [hI.1 kv hkv]
    exact List.mem_map.2 ⟨kv, hkv, rfl⟩
  obtain ⟨b1, h1, hb1⟩ := classifyTrustBoundaries_total api input hI.1 input.TrustBoundaries
    (fun kv hkv => ⟨hkeyTB kv hkv, hin kv hkv⟩) Buckets.empty (inKeys_empty input)
  have hb1' := classifyTaggedAssets_inKeys input (TechnicalAssetsTaggedWithAny input SupportedTags)
    (by
      intro tA htA
      unfold TechnicalAssetsTaggedWithAny at htA
      obtain ⟨kv, hkv, e⟩ := List.mem_map.1 (List.mem_filter.1 htA).1
      exact e ▸ hkeyTA kv hkv) b1 hb1
  obtain ⟨b2, h2, hb2⟩ := classifyTaggedBoundaries_total api input hI.1
    (TrustBoundariesTaggedWithAny input SupportedTags)
    (by
      intro tB htB
      unfold TrustBoundariesTaggedWithAny at htB
      obtain ⟨kv, hkv, e⟩ := List.mem_map.1 (List.mem_filter.1 htB).1
      exact e ▸ hin kv hkv) _ hb1'
  obtain ⟨b3, h3, hb3⟩ := classifySharedRuntimes_total input hI.1 input.SharedRuntimes
    (fun kv hkv => ⟨hkeySR kv hkv, hN.2.2 kv hkv⟩) b2 hb2
  refine ⟨subsume ord b3, ?_, inKeys_subsume input ord b3 hb3⟩
  unfold classify
  simp only [h1, h2, h3]

/-! ## Missing cloud hardening rule: the emission pass returns -/

theorem emitSharedRuntimes_total (api : TypesAPI) (input : Model) (pfx details : String)
    (ids : List String) (hids : ∀ id ∈ ids, id ∈ mapKeys input.SharedRuntimes)
    (risks : List Risk) :
    ∃ out, emitSharedRuntimes api input pfx details ids risks = some out := by
  induction ids generalizing risks with
  | nil => exact ⟨risks, rfl⟩
  | cons id rest ih =>
    obtain ⟨sr, hsr⟩ := mapGet_isSome_of_mem_keys _ _ (hids id (List.mem_cons_self _ _))
    simp only [emitSharedRuntimes, hsr]
    exact ih (fun x hx => hids x (List.mem_cons_of_mem _ hx)) _

theorem emitTrustBoundaries_total (api : TypesAPI) (input : Model) (pfx details : String)
    (ids : List String) (hids : ∀ id ∈ ids, id ∈ mapKeys input.TrustBoundaries)
    (risks : List Risk) :
    ∃ out, emitTrustBoundaries api input pfx details ids risks = some out := by
  induction ids generalizing risks with
  | nil => exact ⟨risks, rfl⟩
  | cons id rest ih =>
    obtain ⟨tb, htb⟩ := mapGet_isSome_of_mem_keys _ _ (hids id (List.mem_cons_self _ _))
    simp only [emitTrustBoundaries, htb]
    exact ih (fun x hx => hids x (List.mem_cons_of_mem _ hx)) _

theorem findMostSensitive_total (api : TypesAPI) (ord : List String → List String)
    (hord : ∀ s, (ord s).Perm s) (input : Model) (S : List String)
    (hS : ∀ id ∈ S, id ∈ mapKeys input.TechnicalAssets) :
    ∃ r, findMostSensitiveTechnicalAsset api ord input S = some r := by
  unfold findMostSensitiveTechnicalAsset
  have hL : ∀ id ∈ sortStrings (ord S), id ∈ mapKeys input.TechnicalAssets := by
    intro id hid
    exact hS id ((hord S).mem_iff.1 ((mem_sortStrings _ _).1 hid))
  cases hl : sortStrings (ord S) with
  | nil => exact ⟨none, rfl⟩
  | cons k rest =>
    rw [hl] at hL
    obtain ⟨a0, ha0⟩ := mapGet_isSome_of_mem_keys _ _ (hL k (List.mem_cons_self _ _))
    obtain ⟨a, ha, _⟩ := findMostSensitiveLoop_some api input rest
      (fun id hid => hL id (List.mem_cons_of_mem _ hid)) a0
    exact ⟨some a, by simp only [findMostSensitiveLoop, ha0]; exact ha⟩

theorem emitMostSensitive_total (api : TypesAPI) (ord : List String → List String)
    (hord : ∀ s, (ord s).Perm s) (input : Model) (added : Bool) (S : List String)
    (hS : ∀ id ∈ S, id ∈ mapKeys input.TechnicalAssets) (pfx details : String)
    (risks : List Risk) :
    ∃ out, emitMostSensitive api ord input added S pfx details risks = some out := by
  unfold emitMostSensitive
  cases added with
  | true => exact ⟨risks, by simp⟩
  | false =>
    obtain ⟨r, hr⟩ := findMostSensitive_total api ord hord input S hS
    simp only [Bool.false_eq_true, if_false, hr]
    cases r with
    | none => exact ⟨_, rfl⟩
    | some a => exact ⟨_, rfl⟩

theorem traversingUp_boundary_total (api : TypesAPI) (model : Model) (rank : TrustBoundary → Nat)
    (hrank : ∀ tb p, api.FindParentTrustBoundary model tb = some p → rank p < rank tb)
    (fuel : Nat) (tb : TrustBoundary) (tags : List String) (h : rank tb < fuel) :
    ∃ r, isTrustedBoundaryTaggedWithAnyTraversingUp api model fuel tb tags = some r := by
  induction fuel generalizing tb with
  | zero => exact absurd h (Nat.not_lt_zero _)
  | succ n ih =>
    unfold isTrustedBoundaryTaggedWithAnyTraversingUp
    by_cases ht : tb.IsTaggedWithAny tags = true
    · exact ⟨true, by simp [ht]⟩
    · simp only [ht, Bool.false_eq_true, if_false]
      cases hp : api.FindParentTrustBoundary model tb with
      | none => exact ⟨false, rfl⟩
      | some p =>
        have hlt := hrank tb p hp
        obtain ⟨r, hr⟩ := ih p (by omega)
        exact ⟨r, by simp only [hr]⟩

theorem traversingUp_asset_total (api : TypesAPI) (model : Model)
    (hW : cloudWellFormed api model) (id : String) (ta : TechnicalAsset)
    (hta : mapGet model.TechnicalAssets id = some ta) (tags : List String) :
    ∃ r, isTechnicalAssetTaggedWithAnyTraversingUp api model ta tags = some r := by
  obtain ⟨_, _, _, hget, rank, hbound, hrank⟩ := hW
  unfold isTechnicalAssetTaggedWithAnyTraversingUp
  by_cases hc : containsCaseInsensitiveAny ta.Tags tags = true
  · exact ⟨true, by simp [hc]⟩
  · rw [if_neg hc]
    by_cases he : api.GetTechnicalAssetTrustBoundaryId model ta = ""
    · refine ⟨model.SharedRuntimes.any (fun sr =>
        contains sr.2.TechnicalAssetsRunning ta.Id && sr.2.IsTaggedWithAny tags), ?_⟩
      simp [he]
    · rcases hget (id, ta) (mapGet_mem _ _ _ hta) with h0 | h0
      · exact absurd h0 he
      · obtain ⟨tb, htb⟩ := mapGet_isSome_of_mem_keys _ _ h0
        obtain ⟨r, hr⟩ := traversingUp_boundary_total api model rank hrank
          (model.TrustBoundaries.length + 1) tb tags (Nat.lt_succ_of_le (hbound tb))
        simp only [ne_eq, he, not_false_eq_true, if_true, htb, hr]
        cases r with
        | true => exact ⟨true, rfl⟩
        | false => exact ⟨_, rfl⟩

theorem emitSubtagSpecific_total (api : TypesAPI) (input : Model)
    (hW : cloudWellFormed api input) (ids : List String)
    (hids : ∀ id ∈ ids, id ∈ mapKeys input.TechnicalAssets) (risks : List Risk) :
    ∃ out, emitSubtagSpecific api input ids risks = some out := by
  induction ids generalizing risks with
  | nil => exact ⟨risks, rfl⟩
  | cons id rest ih =>
    obtain ⟨tA, hta⟩ := mapGet_isSome_of_mem_keys _ _ (hids id (List.mem_cons_self _ _))
    obtain ⟨ec2, h1⟩ := traversingUp_asset_total api input hW id tA hta ["aws:ec2"]
    obtain ⟨s3, h2⟩ := traversingUp_asset_total api input hW id tA hta ["aws:s3"]
    simp only [emitSubtagSpecific, hta, h1, h2]
    exact ih (fun x hx => hids x (List.mem_cons_of_mem _ hx)) _

theorem emit_total (api : TypesAPI) (ord : List String → List String)
    (hord : ∀ s, (ord s).Perm s) (input : Model) (hW : cloudWellFormed api input)
    (b : Buckets) (hb : b.inKeys input) : ∃ risks, emit api ord input b = some risks := by
  obtain ⟨h1, h2, h3, h4, h5, h6, h7, h8, h9, h10, h11, h12, h13, h14, h15, h16⟩ := hb
  have ho : ∀ (s keys : List String), (∀ x ∈ s, x ∈ keys) → ∀ x ∈ ord s, x ∈ keys :=
    fun s keys hs x hx => hs x ((hord s).mem_iff.1 hx)
  unfold emit
  obtain ⟨r1, e1⟩ := emitSharedRuntimes_total api input "AWS" "CIS Benchmark for AWS"
    _ (ho _ _ h4) []
  obtain ⟨r2, e2⟩ := emitSharedRuntimes_total api input "Azure"
    "CIS Benchmark for Microsoft Azure" _ (ho _ _ h7) r1
  obtain ⟨r3, e3⟩ := emitSharedRuntimes_total api input "GCP"
    "CIS Benchmark for Google Cloud Computing Platform" _ (ho _ _ h10) r2
  obtain ⟨r4, e4⟩ := emitSharedRuntimes_total api input "OCP"
    "Vendor Best Practices for Oracle Cloud Platform" _ (ho _ _ h13) r3
  obtain ⟨r5, e5⟩ := emitSharedRuntimes_total api input "" "" _ (ho _ _ h1) r4
  obtain ⟨r6, e6⟩ := emitTrustBoundaries_total api input "AWS" "CIS Benchmark for AWS"
    _ (ho _ _ h5) r5
  obtain ⟨r7, e7⟩ := emitTrustBoundaries_total api input "Azure"
    "CIS Benchmark for Microsoft Azure" _ (ho _ _ h8) r6
  obtain ⟨r8, e8⟩ := emitTrustBoundaries_total api input "GCP"
    "CIS Benchmark for Google Cloud Computing Platform" _ (ho _ _ h11) r7
  obtain ⟨r9, e9⟩ := emitTrustBoundaries_total api input "OCP"
    "Vendor Best Practices for Oracle Cloud Platform" _ (ho _ _ h14) r8
  obtain ⟨r10, e10⟩ := emitTrustBoundaries_total api input "" "" _ (ho _ _ h2) r9
  obtain ⟨r11, e11⟩ := emitMostSensitive_total api ord hord input
    (decide (ord b.sharedRuntimeIDsAWS ≠ [] ∨ ord b.trustBoundaryIDsAWS ≠ []))
    b.techAssetIDsAWS h6 "AWS" "CIS Benchmark for AWS" r10
  obtain ⟨r12, e12⟩ := emitMostSensitive_total api ord hord input
    (decide (ord b.sharedRuntimeIDsAzure ≠ [] ∨ ord b.trustBoundaryIDsAzure ≠ []))
    b.techAssetIDsAzure h9 "Azure" "CIS Benchmark for Microsoft Azure" r11
  obtain ⟨r13, e13⟩ := emitMostSensitive_total api ord hord input
    (decide (ord b.sharedRuntimeIDsGCP ≠ [] ∨ ord b.trustBoundaryIDsGCP ≠ []))
    b.techAssetIDsGCP h12 "GCP" "CIS Benchmark for Google Cloud Computing Platform" r12
  obtain ⟨r14, e14⟩ := emitMostSensitive_total api ord hord input
    (decide (ord b.sharedRuntimeIDsOCP ≠ [] ∨ ord b.trustBoundaryIDsOCP ≠ []))
    b.techAssetIDsOCP h15 "OCP" "Vendor Best Practices for Oracle Cloud Platform" r13
  obtain ⟨r15, e15⟩ := emitSubtagSpecific_total api input hW _ (ho _ _ h16) r14
  exact ⟨r15, by
    simp only [e1, e2, e3, e4, e5, e6, e7, e8, e9, e10, e11, e12, e13, e14, e15,
      Option.some_bind]⟩

theorem cloud_generateRisks_total (api : TypesAPI) (ord : List String → List String)
    (hord : ∀ s, (ord s).Perm s) (input : Model) (hW : cloudWellFormed api input) :
    ∃ risks, MissingCloudHardeningRule.GenerateRisks api ord input = some (risks, none) := by
  obtain ⟨b, hb, hk⟩ := classify_total api ord input hW
  obtain ⟨risks, hr⟩ := emit_total api ord hord input hW b hk
  exact ⟨risks, by unfold MissingCloudHardeningRule.GenerateRisks; simp only [hb, hr]⟩

/-! ## Missing cloud hardening rule: dangling ids -/

theorem classifyRunning_dangling (input : Model) (sR : SharedRuntime) (ids : List String)
    (id : String) (hid : id ∈ ids) (hk : id ∉ mapKeys input.TechnicalAssets) (b : Buckets) :
    classifyRunning input sR ids b = none := by
  induction ids generalizing b with
  | nil => exact absurd hid (List.not_mem_nil _)
  | cons x rest ih =>
    cases hx : mapGet input.TechnicalAssets x with
    | none => simp only [classifyRunning, hx]
    | some tA =>
      simp only [classifyRunning, hx]
      rcases List.mem_cons.1 hid with e | e
      · subst e
        exact absurd (mapGet_mem_keys _ _ _ hx) hk
      · exact ih e _

theorem classifySharedRuntimes_dangling (input : Model) (l : List (String × SharedRuntime))
    (kv : String × SharedRuntime) (hkv : kv ∈ l) (id : String)
    (hid : id ∈ kv.2.TechnicalAssetsRunning) (hk : id ∉ mapKeys input.TechnicalAssets)
    (b : Buckets) : classifySharedRuntimes input l b = none := by
  induction l generalizing b with
  | nil => exact absurd hkv (List.not_mem_nil _)
  | cons x rest ih =>
    simp only [classifySharedRuntimes]
    rcases List.mem_cons.1 hkv with e | e
    · subst e
      rw [classifyRunning_dangling input kv.2 _ id hid hk]
    · cases classifyRunning input x.2 x.2.TechnicalAssetsRunning
          (addSharedRuntimeAccordingToBaseTag x.2 b) with
      | none => rfl
      | some b1 => exact ih e b1

theorem classifyInside_dangling (input : Model) (tagged : Bool) (tb : TrustBoundary)
    (ids : List String) (id : String) (hid : id ∈ ids)
    (hk : id ∉ mapKeys input.TechnicalAssets) (b : Buckets) :
    classifyInside input tagged tb ids b = none := by
  induction ids generalizing b with
  | nil => exact absurd hid (List.not_mem_nil _)
  | cons x rest ih =>
    cases hx : mapGet input.TechnicalAssets x with
    | none => simp only [classifyInside, hx]
    | some tA =>
      simp only [classifyInside, hx]
      rcases List.mem_cons.1 hid with e | e
      · subst e
        exact absurd (mapGet_mem_keys _ _ _ hx) hk
      · split_ifs
        · exact ih e _
        · exact ih e _
        · exact ih e _

theorem classifyTrustBoundaries_dangling (api : TypesAPI) (input : Model)
    (l : List (String × TrustBoundary)) (kv : String × TrustBoundary) (hkv : kv ∈ l)
    (hcloud : kv.2.IsTaggedWithAny SupportedTags = true ∨ kv.2.BoundaryType.IsWithinCloud = true)
    (id : String) (hid : id ∈ api.RecursivelyAllTechnicalAssetIDsInside input kv.2)
    (hk : id ∉ mapKeys input.TechnicalAssets) (b : Buckets) :
    classifyTrustBoundaries api input l b = none := by
  induction l generalizing b with
  | nil => exact absurd hkv (List.not_mem_nil _)
  | cons x rest ih =>
    simp only [classifyTrustBoundaries]
    rcases List.mem_cons.1 hkv with e | e
    · subst e
      have hc : ¬ ((!kv.2.IsTaggedWithAny SupportedTags && !kv.2.BoundaryType.IsWithinCloud)
          = true) := by
        rcases hcloud with h | h <;> simp [h]
      rw [if_neg hc, classifyInside_dangling input _ kv.2 _ id hid hk]
    · split_ifs
      · exact ih e b
      · cases classifyInside input (x.2.IsTaggedWithAny SupportedTags) x.2
            (api.RecursivelyAllTechnicalAssetIDsInside input x.2)
            (addTrustBoundaryAccordingToBaseTag x.2 b) with
        | none => rfl
        | some b1 => exact ih e b1

theorem cloud_generateRisks_none_of_classify (api : TypesAPI) (ord : List String → List String)
    (input : Model) (h : classify api ord input = none) :
    MissingCloudHardeningRule.GenerateRisks api ord input = none := by
  unfold MissingCloudHardeningRule.GenerateRisks
  rw [h]

theorem cloudWellFormed_scenarioE6 : cloudWellFormed specAPI scenarioE6 := by
  refine ⟨by decide, by decide, by decide, by decide, fun _ => 0, fun _ => Nat.zero_le _, ?_⟩
  intro tb p h
  simp [specAPI, scenarioE6, boundaryE6, emptyBoundary, contains] at h

theorem classifyInside_preserves (P : Buckets → Prop)
    (hTA : ∀ ta tags b, P b → P (addAccordingToBaseTag ta tags b))
    (hU : ∀ id b, P b → P { b with techAssetsWithUnspecificCloudRisks :=
      b.techAssetsWithUnspecificCloudRisks.insert id })
    (input : Model) (tagged : Bool) (tb : TrustBoundary) (ids : List String) (b b2 : Buckets)
    (h : classifyInside input tagged tb ids b = some b2) (hb : P b) : P b2 := by
  induction ids generalizing b with
  | nil =>
    simp only [classifyInside, Option.some.injEq] at h
    exact h ▸ hb
  | cons id rest ih =>
    cases hta : mapGet input.TechnicalAssets id with
    | none => simp [classifyInside, hta] at h
    | some tA =>
      simp only [classifyInside, hta] at h
      split_ifs at h
      · exact ih _ h (hTA _ _ _ hb)
      · exact ih _ h (hTA _ _ _ hb)
      · exact ih _ h (hU _ _ hb)

theorem classifyTrustBoundaries_preserves (P : Buckets → Prop)
    (hTA : ∀ ta tags b, P b → P (addAccordingToBaseTag ta tags b))
    (hTB : ∀ tb b, P b → P (addTrustBoundaryAccordingToBaseTag tb b))
    (hU : ∀ id b, P b → P { b with techAssetsWithUnspecificCloudRisks :=
      b.techAssetsWithUnspecificCloudRisks.insert id })
    (api : TypesAPI) (input : Model) (l : List (String × TrustBoundary)) (b b2 : Buckets)
    (h : classifyTrustBoundaries api input l b = some b2) (hb : P b) : P b2 := by
  induction l generalizing b with
  | nil =>
    simp only [classifyTrustBoundaries, Option.some.injEq] at h
    exact h ▸ hb
  | cons kv rest ih =>
    simp only [classifyTrustBoundaries] at h
    split_ifs at h
    · exact ih _ h hb
    · cases h1 : classifyInside input (kv.2.IsTaggedWithAny SupportedTags) kv.2
          (api.RecursivelyAllTechnicalAssetIDsInside input kv.2)
          (addTrustBoundaryAccordingToBaseTag kv.2 b) with
      | none => simp [h1] at h
      | some b1 =>
        simp only [h1] at h
        exact ih _ h (classifyInside_preserves P hTA hU input _ _ _ _ _ h1 (hTB _ _ hb))

theorem classifyTaggedAssets_preserves (P : Buckets → Prop)
    (hTA : ∀ ta tags b, P b → P (addAccordingToBaseTag ta tags b))
    (l : List TechnicalAsset) (b : Buckets) (hb : P b) : P (classifyTaggedAssets l b) := by
  induction l generalizing b with
  | nil => exact hb
  | cons tA rest ih =>
    simp only [classifyTaggedAssets]
    exact ih _ (hTA _ _ _ hb)

theorem classifyInsideTagged_preserves (P : Buckets → Prop)
    (hTA : ∀ ta tags b, P b → P (addAccordingToBaseTag ta tags b))
    (input : Model) (tB : TrustBoundary) (ids : List String) (b b2 : Buckets)
    (h : classifyInsideTagged input tB ids b = some b2) (hb : P b) : P b2 := by
  induction ids generalizing b with
  | nil =>
    simp only [classifyInsideTagged, Option.some.injEq] at h
    exact h ▸ hb
  | cons id rest ih =>
    cases hta : mapGet input.TechnicalAssets id with
    | none => simp [classifyInsideTagged, hta] at h
    | some tA =>
      simp only [classifyInsideTagged, hta] at h
      split_ifs at h
      · exact ih _ h (hTA _ _ _ hb)
      · exact ih _ h (hTA _ _ _ hb)

theorem classifyTaggedBoundaries_preserves (P : Buckets → Prop)
    (hTA : ∀ ta tags b, P b → P (addAccordingToBaseTag ta tags b))
    (api : TypesAPI) (input : Model) (l : List TrustBoundary) (b b2 : Buckets)
    (h : classifyTaggedBoundaries api input l b = some b2) (hb : P b) : P b2 := by
  induction l generalizing b with
  | nil =>
    simp only [classifyTaggedBoundaries, Option.some.injEq] at h
    exact h ▸ hb
  | cons tB rest ih =>
    cases h1 : classifyInsideTagged input tB
        (api.RecursivelyAllTechnicalAssetIDsInside input tB) b with
    | none => simp [classifyTaggedBoundaries, h1] at h
    | some b1 =>
      simp only [classifyTaggedBoundaries, h1] at h
      exact ih _ h (classifyInsideTagged_preserves P hTA input _ _ _ _ h1 hb)

theorem classifyRunning_preserves (P : Buckets → Prop)
    (hTA : ∀ ta tags b, P b → P (addAccordingToBaseTag ta tags b))
    (input : Model) (sR : SharedRuntime) (ids : List String) (b b2 : Buckets)
    (h : classifyRunning input sR ids b = some b2) (hb : P b) : P b2 := by
  induction ids generalizing b with
  | nil =>
    simp only [classifyRunning, Option.some.injEq] at h
    exact h ▸ hb
  | cons id rest ih =>
    cases hta : mapGet input.TechnicalAssets id with
    | none => simp [classifyRunning, hta] at h
    | some tA =>
      simp only [classifyRunning, hta] at h
      exact ih _ h (hTA _ _ _ hb)

theorem classifySharedRuntimes_preserves (P : Buckets → Prop)
    (hTA : ∀ ta tags b, P b → P (addAccordingToBaseTag ta tags b))
    (hSR : ∀ sr b, P b → P (addSharedRuntimeAccordingToBaseTag sr b))
    (input : Model) (l : List (String × SharedRuntime)) (b b2 : Buckets)
    (h : classifySharedRuntimes input l b = some b2) (hb : P b) : P b2 := by
  induction l generalizing b with
  | nil =>
    simp only [classifySharedRuntimes, Option.some.injEq] at h
    exact h ▸ hb
  | cons kv rest ih =>
    cases h1 : classifyRunning input kv.2 kv.2.TechnicalAssetsRunning
        (addSharedRuntimeAccordingToBaseTag kv.2 b) with
    | none => simp [classifySharedRuntimes, h1] at h
    | some b1 =>
      simp only [classifySharedRuntimes, h1] at h
      exact ih _ h (classifyRunning_preserves P hTA input _ _ _ _ h1 (hSR _ _ hb))

theorem addAccordingToBaseTag_trustBoundaryIDsAWS (ta : TechnicalAsset) (tags : List String)
    (b : Buckets) :
    (addAccordingToBaseTag ta tags b).trustBoundaryIDsAWS = b.trustBoundaryIDsAWS := by
  unfold addAccordingToBaseTag
  simp only
  split_ifs <;> rfl

theorem addSharedRuntime_trustBoundaryIDsAWS (sr : SharedRuntime) (b : Buckets) :
    (addSharedRuntimeAccordingToBaseTag sr b).trustBoundaryIDsAWS = b.trustBoundaryIDsAWS := by
  unfold addSharedRuntimeAccordingToBaseTag
  simp only
  split_ifs <;> rfl

theorem addSharedRuntime_subtag (sr : SharedRuntime) (b : Buckets) :
    (addSharedRuntimeAccordingToBaseTag sr b).techAssetIDsWithSubtagSpecificCloudRisks
      = b.techAssetIDsWithSubtagSpecificCloudRisks := by
  unfold addSharedRuntimeAccordingToBaseTag
  simp only
  split_ifs <;> rfl

theorem addTrustBoundary_subtag (tb : TrustBoundary) (b : Buckets) :
    (addTrustBoundaryAccordingToBaseTag tb b).techAssetIDsWithSubtagSpecificCloudRisks
      = b.techAssetIDsWithSubtagSpecificCloudRisks := by
  unfold addTrustBoundaryAccordingToBaseTag
  simp only
  split_ifs <;> rfl

theorem addTrustBoundary_mono_AWS (tb : TrustBoundary) (b : Buckets) (x : String)
    (h : x ∈ b.trustBoundaryIDsAWS) :
    x ∈ (addTrustBoundaryAccordingToBaseTag tb b).trustBoundaryIDsAWS := by
  unfold addTrustBoundaryAccordingToBaseTag
  simp only
  split_ifs <;> simp [List.mem_insert_iff, h]

theorem addTrustBoundary_self_AWS (tb : TrustBoundary) (b : Buckets)
    (ht : tb.IsTaggedWithAny SupportedTags = true)
    (ha : isTaggedWithBaseTag tb.Tags "aws" = true) :
    tb.Id ∈ (addTrustBoundaryAccordingToBaseTag tb b).trustBoundaryIDsAWS := by
  unfold addTrustBoundaryAccordingToBaseTag
  simp only [ht, ha, if_true]
  split_ifs <;> simp [List.mem_insert_iff]

theorem addAccordingToBaseTag_mono_subtag (ta : TechnicalAsset) (tags : List String)
    (b : Buckets) (x : String) (h : x ∈ b.techAssetIDsWithSubtagSpecificCloudRisks) :
    x ∈ (addAccordingToBaseTag ta tags b).techAssetIDsWithSubtagSpecificCloudRisks := by
  unfold addAccordingToBaseTag
  simp only
  split_ifs <;> simp [List.mem_insert_iff, h]

theorem addAccordingToBaseTag_self_subtag (ta : TechnicalAsset) (tags : List String)
    (b : Buckets) (ht : ta.IsTaggedWithAny specificSubTagsAWS = true) :
    ta.Id ∈ (addAccordingToBaseTag ta tags b).techAssetIDsWithSubtagSpecificCloudRisks := by
  unfold addAccordingToBaseTag
  simp only [ht, if_true]
  split_ifs <;> simp [List.mem_insert_iff]

/-! ## Missing cloud hardening rule: a sub-tagged asset in a tagged trust boundary -/

theorem addAccordingToBaseTag_keep_AWS (x : String) (ta : TechnicalAsset) (tags : List String)
    (d : Buckets) (h : x ∈ d.trustBoundaryIDsAWS) :
    x ∈ (addAccordingToBaseTag ta tags d).trustBoundaryIDsAWS := by
  rw [addAccordingToBaseTag_trustBoundaryIDsAWS]; exact h

theorem addSharedRuntime_keep_AWS (x : String) (sr : SharedRuntime) (d : Buckets)
    (h : x ∈ d.trustBoundaryIDsAWS) :
    x ∈ (addSharedRuntimeAccordingToBaseTag sr d).trustBoundaryIDsAWS := by
  rw [addSharedRuntime_trustBoundaryIDsAWS]; exact h

theorem addSharedRuntime_keep_subtag (x : String) (sr : SharedRuntime) (d : Buckets)
    (h : x ∈ d.techAssetIDsWithSubtagSpecificCloudRisks) :
    x ∈ (addSharedRuntimeAccordingToBaseTag sr d).techAssetIDsWithSubtagSpecificCloudRisks := by
  rw [addSharedRuntime_subtag]; exact h

theorem classifyTrustBoundaries_enters_AWS (api : TypesAPI) (input : Model)
    (l : List (String × TrustBoundary)) (kv : String × TrustBoundary) (hkv : kv ∈ l)
    (ht : kv.2.IsTaggedWithAny SupportedTags = true)
    (ha : isTaggedWithBaseTag kv.2.Tags "aws" = true) (b b2 : Buckets)
    (h : classifyTrustBoundaries api input l b = some b2) :
    kv.2.Id ∈ b2.trustBoundaryIDsAWS := by
  have hkeep : ∀ (l2 : List (String × TrustBoundary)) (c c2 : Buckets),
      classifyTrustBoundaries api input l2 c = some c2 →
      kv.2.Id ∈ c.trustBoundaryIDsAWS → kv.2.Id ∈ c2.trustBoundaryIDsAWS :=
    fun l2 c c2 hc hm =>
      classifyTrustBoundaries_preserves (fun d => kv.2.Id ∈ d.trustBoundaryIDsAWS)
        (fun ta tags d hd => addAccordingToBaseTag_keep_AWS _ ta tags d hd)
        (fun tb d hd => addTrustBoundary_mono_AWS tb d _ hd)
        (fun _ _ hd => hd) api input l2 c c2 hc hm
  induction l generalizing b with
  | nil => exact absurd hkv (List.not_mem_nil _)
  | cons x rest ih =>
    simp only [classifyTrustBoundaries] at h
    rcases List.mem_cons.1 hkv with e | e
    · subst e
      have hc : ¬ ((!kv.2.IsTaggedWithAny SupportedTags && !kv.2.BoundaryType.IsWithinCloud)
          = true) := by simp [ht]
      rw [if_neg hc] at h
      cases h1 : classifyInside input (kv.2.IsTaggedWithAny SupportedTags) kv.2
          (api.RecursivelyAllTechnicalAssetIDsInside input kv.2)
          (addTrustBoundaryAccordingToBaseTag kv.2 b) with
      | none => simp [h1] at h
      | some b1 =>
        simp only [h1] at h
        refine hkeep rest b1 b2 h ?_
        exact classifyInside_preserves (fun d => kv.2.Id ∈ d.trustBoundaryIDsAWS)
          (fun ta tags d hd => addAccordingToBaseTag_keep_AWS _ ta tags d hd)
          (fun _ _ hd => hd) input _ _ _ _ _ h1 (addTrustBoundary_self_AWS kv.2 b ht ha)
    · split_ifs at h
      · exact ih e b h
      · cases h1 : classifyInside input (x.2.IsTaggedWithAny SupportedTags) x.2
            (api.RecursivelyAllTechnicalAssetIDsInside input x.2)
            (addTrustBoundaryAccordingToBaseTag x.2 b) with
        | none => simp [h1] at h
        | some b1 =>
          simp only [h1] at h
          exact ih e b1 h

theorem classifyTaggedAssets_enters_subtag (l : List TechnicalAsset) (A : TechnicalAsset)
    (hA : A ∈ l) (ht : A.IsTaggedWithAny specificSubTagsAWS = true) (b : Buckets) :
    A.Id ∈ (classifyTaggedAssets l b).techAssetIDsWithSubtagSpecificCloudRisks := by
  induction l generalizing b with
  | nil => exact absurd hA (List.not_mem_nil _)
  | cons x rest ih =>
    simp only [classifyTaggedAssets]
    rcases List.mem_cons.1 hA with e | e
    · subst e
      exact classifyTaggedAssets_preserves
        (fun d => A.Id ∈ d.techAssetIDsWithSubtagSpecificCloudRisks)
        (fun ta tags d hd => addAccordingToBaseTag_mono_subtag ta tags d _ hd) rest _
        (addAccordingToBaseTag_self_subtag A A.Tags b ht)
    · exact ih e _

theorem tagged_of_mem (tags supported : List String) (t : String) (h1 : t ∈ tags)
    (h2 : t ∈ supported) : containsCaseInsensitiveAny tags supported = true := by
  unfold containsCaseInsensitiveAny
  rw [List.any_eq_true]
  refine ⟨t, h1, ?_⟩
  rw [List.any_eq_true]
  exact ⟨t, h2, by simp⟩

theorem classify_enters (api : TypesAPI) (ord : List String → List String) (input : Model)
    (b : Buckets) (h : classify api ord input = some b)
    (kB : String) (B : TrustBoundary) (hB : (kB, B) ∈ input.TrustBoundaries)
    (hBtag : "aws" ∈ B.Tags) (kA : String) (A : TechnicalAsset)
    (hA : (kA, A) ∈ input.TechnicalAssets) (hAtag : "aws:s3" ∈ A.Tags) :
    B.Id ∈ b.trustBoundaryIDsAWS ∧ A.Id ∈ b.techAssetIDsWithSubtagSpecificCloudRisks := by
  unfold classify at h
  cases h1 : classifyTrustBoundaries api input input.TrustBoundaries Buckets.empty with
  | none => simp [h1] at h
  | some b1 =>
    simp only [h1] at h
    cases h2 : classifyTaggedBoundaries api input
        (TrustBoundariesTaggedWithAny input SupportedTags)
        (classifyTaggedAssets (TechnicalAssetsTaggedWithAny input SupportedTags) b1) with
    | none => simp [h2] at h
    | some b2 =>
      simp only [h2] at h
      cases h3 : classifySharedRuntimes input input.SharedRuntimes b2 with
      | none => simp [h3] at h
      | some b3 =>
        simp only [h3, Option.some.injEq] at h
        subst h
        have hBt : B.IsTaggedWithAny SupportedTags = true :=
          tagged_of_mem B.Tags SupportedTags "aws" hBtag (by decide)
        have hBa : isTaggedWithBaseTag B.Tags "aws" = true := by
          unfold isTaggedWithBaseTag
          rw [List.any_eq_true]
          exact ⟨"aws", hBtag, by decide⟩
        have hAt : A.IsTaggedWithAny SupportedTags = true :=
          tagged_of_mem A.Tags SupportedTags "aws:s3" hAtag (by decide)
        have hAs : A.IsTaggedWithAny specificSubTagsAWS = true :=
          tagged_of_mem A.Tags specificSubTagsAWS "aws:s3" hAtag (by decide)
        constructor
        · show B.Id ∈ b3.trustBoundaryIDsAWS
          have e1 : B.Id ∈ b1.trustBoundaryIDsAWS :=
            classifyTrustBoundaries_enters_AWS api input _ (kB, B) hB hBt hBa _ _ h1
          have e1' := classifyTaggedAssets_preserves (fun d => B.Id ∈ d.trustBoundaryIDsAWS)
            (fun ta tags d hd => addAccordingToBaseTag_keep_AWS _ ta tags d hd)
            (TechnicalAssetsTaggedWithAny input SupportedTags) b1 e1
          have e2 := classifyTaggedBoundaries_preserves
            (fun d => B.Id ∈ d.trustBoundaryIDsAWS)
            (fun ta tags d hd => addAccordingToBaseTag_keep_AWS _ ta tags d hd)
            api input _ _ _ h2 e1'
          exact classifySharedRuntimes_preserves (fun d => B.Id ∈ d.trustBoundaryIDsAWS)
            (fun ta tags d hd => addAccordingToBaseTag_keep_AWS _ ta tags d hd)
            (fun sr d hd => addSharedRuntime_keep_AWS _ sr d hd)
            input _ _ _ h3 e2
        · show A.Id ∈ b3.techAssetIDsWithSubtagSpecificCloudRisks
          have hmem : A ∈ TechnicalAssetsTaggedWithAny input SupportedTags := by
            unfold TechnicalAssetsTaggedWithAny
            exact List.mem_filter.2 ⟨List.mem_map.2 ⟨(kA, A), hA, rfl⟩, hAt⟩
          have e1 := classifyTaggedAssets_enters_subtag _ A hmem hAs b1
          have e2 := classifyTaggedBoundaries_preserves
            (fun d => A.Id ∈ d.techAssetIDsWithSubtagSpecificCloudRisks)
            (fun ta tags d hd => addAccordingToBaseTag_mono_subtag ta tags d _ hd)
            api input _ _ _ h2 e1
          exact classifySharedRuntimes_preserves
            (fun d => A.Id ∈ d.techAssetIDsWithSubtagSpecificCloudRisks)
            (fun ta tags d hd => addAccordingToBaseTag_mono_subtag ta tags d _ hd)
            (fun sr d hd => addSharedRuntime_keep_subtag _ sr d hd)
            input _ _ _ h3 e2

theorem forall2_mem_left {α β : Type} (R : α → β → Prop) (l1 : List α) (l2 : List β)
    (h : List.Forall₂ R l1 l2) (x : α) (hx : x ∈ l1) : ∃ y ∈ l2, R x y := by
  induction h with
  | nil => simp at hx
  | cons hxy _ ih =>
    rcases List.mem_cons.1 hx with e | e
    · exact ⟨_, List.mem_cons_self _ _, e ▸ hxy⟩
    · obtain ⟨y, hy, hR⟩ := ih e
      exact ⟨y, List.mem_cons_of_mem _ hy, hR⟩

theorem emitSubtagSpecific_s3 (api : TypesAPI) (input : Model) (ids : List String)
    (risks out : List Risk) (h : emitSubtagSpecific api input ids risks = some out) :
    (∀ r ∈ risks, r ∈ out) ∧
    (∀ id ∈ ids, ∀ tA, mapGet input.TechnicalAssets id = some tA →
      containsCaseInsensitiveAny tA.Tags ["aws:s3"] = true →
      createRiskForTechnicalAsset api input tA "S3" "Security Best Practices for AWS S3"
        ∈ out) := by
  induction ids generalizing risks with
  | nil =>
    simp only [emitSubtagSpecific, Option.some.injEq] at h
    subst h
    exact ⟨fun r hr => hr, fun id hid => absurd hid (List.not_mem_nil _)⟩
  | cons x rest ih =>
    cases hx : mapGet input.TechnicalAssets x with
    | none => simp [emitSubtagSpecific, hx] at h
    | some tX =>
      cases h1 : isTechnicalAssetTaggedWithAnyTraversingUp api input tX ["aws:ec2"] with
      | none => simp [emitSubtagSpecific, hx, h1] at h
      | some ec2 =>
        cases h2 : isTechnicalAssetTaggedWithAnyTraversingUp api input tX ["aws:s3"] with
        | none => simp [emitSubtagSpecific, hx, h1, h2] at h
        | some s3 =>
          simp only [emitSubtagSpecific, hx, h1, h2] at h
          obtain ⟨ihkeep, ihnew⟩ := ih _ h
          refine ⟨?_, ?_⟩
          · intro r hr
            apply ihkeep
            rw [List.mem_append]
            left
            split_ifs
            · exact List.mem_append_left _ hr
            · exact hr
          · intro id hid tA hta htag
            rcases List.mem_cons.1 hid with e | e
            · subst e
              rw [hx] at hta
              have hte : tX = tA := Option.some.inj hta
              subst hte
              have hs3 : s3 = true := by
                unfold isTechnicalAssetTaggedWithAnyTraversingUp at h2
                rw [if_pos htag] at h2
                exact (Option.some.inj h2).symm
              apply ihkeep
              rw [List.mem_append]
              right
              simp [hs3]
            · exact ihnew id e tA hta htag

theorem emit_contains (api : TypesAPI) (ord : List String → List String)
    (hord : ∀ s, (ord s).Perm s) (input : Model) (b : Buckets) (risks : List Risk)
    (h : emit api ord input b = some risks) :
    (∀ kB ∈ b.trustBoundaryIDsAWS, ∀ B, mapGet input.TrustBoundaries kB = some B →
      createRiskForTrustBoundary api input B "AWS" "CIS Benchmark for AWS" ∈ risks) ∧
    (∀ kA ∈ b.techAssetIDsWithSubtagSpecificCloudRisks, ∀ A,
      mapGet input.TechnicalAssets kA = some A →
      containsCaseInsensitiveAny A.Tags ["aws:s3"] = true →
      createRiskForTechnicalAsset api input A "S3" "Security Best Practices for AWS S3"
        ∈ risks) := by
  constructor
  · intro kB hkB B hB
    obtain ⟨s1, s2, s3, s4, s5, t1, t2, t3, t4, t5, a1, a2, a3, a4, sub, hrisks, _, _, _, _, _,
      p6, _⟩ := emit_spec api ord hord input b risks h
    obtain ⟨r, hr, tb, htb, hre⟩ := forall2_mem_left _ _ _ p6 kB ((hord _).mem_iff.2 hkB)
    rw [hB] at htb
    have : B = tb := Option.some.inj htb
    subst this
    rw [hrisks, ← hre]
    simp only [List.mem_append]
    tauto
  · intro kA hkA A hA htag
    unfold emit at h
    simp only [Option.bind_eq_some] at h
    obtain ⟨r14, _, h15⟩ := h
    exact (emitSubtagSpecific_s3 api input _ r14 risks h15).2 kA ((hord _).mem_iff.2 hkA) A hA
      htag

theorem cloudTitle_s3 (scopeTitle : String) :
    cloudTitle scopeTitle "S3" "Security Best Practices for AWS S3"
      = "<b>Missing Cloud Hardening (S3)</b> risk at <b>" ++ scopeTitle
          ++ "</b>: <u>Security Best Practices for AWS S3</u>" := by
  unfold cloudTitle
  rw [if_pos (by decide), if_pos (by decide)]
  apply String.ext
  simp only [String.data_append, List.append_assoc]
  rfl

theorem cloudTitle_aws (scopeTitle : String) :
    cloudTitle scopeTitle "AWS" "CIS Benchmark for AWS"
      = "<b>Missing Cloud Hardening (AWS)</b> risk at <b>" ++ scopeTitle
          ++ "</b>: <u>CIS Benchmark for AWS</u>" := by
  unfold cloudTitle
  rw [if_pos (by decide), if_pos (by decide)]
  apply String.ext
  simp only [String.data_append, List.append_assoc]
  rfl

theorem syntheticId_suffix (key sfx : String) :
    "missing-cloud-hardening" ++ "@" ++ key ++ sfx = "missing-cloud-hardening@" ++ key ++ sfx := by
  apply String.ext
  simp only [String.data_append, List.append_assoc]
  rfl

/-- C25 (the claim fails): in scenario E6 the rule returns two risks, the generic AWS risk at
the boundary "aws-vpc" and the sub-tag specific risk "missing-cloud-hardening@bucket@s3"; the
title of the latter names "S3" followed by "Security Best Practices for AWS S3", and does not
contain "CIS Benchmark". -/
theorem C25_counterexample :
    "aws:s3" ∈ bucketE6.Tags ∧ "aws" ∈ boundaryE6.Tags ∧
    "bucket" ∈ specAPI.RecursivelyAllTechnicalAssetIDsInside scenarioE6 boundaryE6 ∧
    (MissingCloudHardeningRule.GenerateRisks specAPI id scenarioE6).map
        (fun res => (res.1.map (fun r => (r.SyntheticId, r.Title)), res.2))
      = some ([("missing-cloud-hardening@aws-vpc@aws",
            "<b>Missing Cloud Hardening (AWS)</b> risk at <b>aws-vpc</b>: <u>CIS Benchmark for AWS</u>"),
          ("missing-cloud-hardening@bucket@s3",
            "<b>Missing Cloud Hardening (S3)</b> risk at <b>bucket</b>: <u>Security Best Practices for AWS S3</u>")],
          none) ∧
    ¬ ("CIS Benchmark".data <:+:
        "<b>Missing Cloud Hardening (S3)</b> risk at <b>bucket</b>: <u>Security Best Practices for AWS S3</u>".data) :=
  ⟨by decide, by decide, by decide, by decide, by decide!⟩

/-- C25 as amended: on a well formed model with a trust boundary `B` (key `kB`) tagged `aws`
and a technical asset `A` (key `kA`) whose own tags include `aws:s3` (whether or not it lies
inside `B`), the cloud rule returns, with a nil error, a list of risks that holds the generic
AWS risk at the boundary (SyntheticId "missing-cloud-hardening@kB@aws", citing "CIS Benchmark
for AWS") and the sub-tag specific risk scoped to the asset (SyntheticId
"missing-cloud-hardening@kA@s3"), whose title names "S3" followed by the reference "Security
Best Practices for AWS S3". -/
theorem C25_subtag_risk_in_tagged_boundary (api : TypesAPI) (ord : List String → List String)
    (hord : ∀ s, (ord s).Perm s) (input : Model) (hW : cloudWellFormed api input)
    (kB : String) (B : TrustBoundary) (hB : mapGet input.TrustBoundaries kB = some B)
    (hBtag : "aws" ∈ B.Tags)
    (kA : String) (A : TechnicalAsset) (hA : mapGet input.TechnicalAssets kA = some A)
    (hAtag : "aws:s3" ∈ A.Tags) :
    ∃ risks rB rA,
      MissingCloudHardeningRule.GenerateRisks api ord input = some (risks, none) ∧
      rB ∈ risks ∧ rA ∈ risks ∧
      rB = createRiskForTrustBoundary api input B "AWS" "CIS Benchmark for AWS" ∧
      rB.SyntheticId = "missing-cloud-hardening@" ++ kB ++ "@aws" ∧
      rB.MostRelevantTrustBoundaryId = kB ∧
      rB.Title = "<b>Missing Cloud Hardening (AWS)</b> risk at <b>" ++ B.Title
        ++ "</b>: <u>CIS Benchmark for AWS</u>" ∧
      rA = createRiskForTechnicalAsset api input A "S3" "Security Best Practices for AWS S3" ∧
      rA.SyntheticId = "missing-cloud-hardening@" ++ kA ++ "@s3" ∧
      rA.MostRelevantTechnicalAssetId = kA ∧
      rA.DataBreachTechnicalAssetIDs = [kA] ∧
      rA.Title = "<b>Missing Cloud Hardening (S3)</b> risk at <b>" ++ A.Title
        ++ "</b>: <u>Security Best Practices for AWS S3</u>" := by
  obtain ⟨risks, hr⟩ := cloud_generateRisks_total api ord hord input hW
  obtain ⟨b, hb, he, _⟩ := generateRisks_cloud_inv api ord input risks none hr
  have hBm := mapGet_mem _ _ _ hB
  have hAm := mapGet_mem _ _ _ hA
  have hBid : B.Id = kB := hW.2.1.2.1 _ hBm
  have hAid : A.Id = kA := hW.2.1.1 _ hAm
  obtain ⟨eB, eA⟩ := classify_enters api ord input b hb kB B hBm hBtag kA A hAm hAtag
  obtain ⟨cB, cA⟩ := emit_contains api ord hord input b risks he
  rw [hBid] at eB
  rw [hAid] at eA
  refine ⟨risks, _, _, hr, cB kB eB B hB,
    cA kA eA A hA (tagged_of_mem A.Tags ["aws:s3"] "aws:s3" hAtag (by decide)),
    rfl, ?_, hBid, cloudTitle_aws B.Title, rfl, ?_, hAid, ?_, cloudTitle_s3 A.Title⟩
  · show "missing-cloud-hardening" ++ "@" ++ B.Id ++ cloudIdSuffix "AWS" = _
    rw [hBid, syntheticId_suffix]
    rfl
  · show "missing-cloud-hardening" ++ "@" ++ A.Id ++ cloudIdSuffix "S3" = _
    rw [hAid, syntheticId_suffix]
    rfl
  · show [A.Id] = [kA]
    rw [hAid]

/-- An instance of C25 as amended: scenario E6 itself, with the boundary "aws-vpc" and the
asset "bucket". -/
theorem C25_subtag_risk_in_tagged_boundary_witness :
    cloudWellFormed specAPI scenarioE6 ∧
    mapGet scenarioE6.TrustBoundaries "aws-vpc" = some boundaryE6 ∧ "aws" ∈ boundaryE6.Tags ∧
    mapGet scenarioE6.TechnicalAssets "bucket" = some bucketE6 ∧ "aws:s3" ∈ bucketE6.Tags ∧
    ∃ risks rB rA,
      MissingCloudHardeningRule.GenerateRisks specAPI id scenarioE6 = some (risks, none) ∧
      rB ∈ risks ∧ rA ∈ risks ∧
      rB = createRiskForTrustBoundary specAPI scenarioE6 boundaryE6 "AWS"
        "CIS Benchmark for AWS" ∧
      rB.SyntheticId = "missing-cloud-hardening@" ++ "aws-vpc" ++ "@aws" ∧
      rB.MostRelevantTrustBoundaryId = "aws-vpc" ∧
      rB.Title = "<b>Missing Cloud Hardening (AWS)</b> risk at <b>" ++ boundaryE6.Title
        ++ "</b>: <u>CIS Benchmark for AWS</u>" ∧
      rA = createRiskForTechnicalAsset specAPI scenarioE6 bucketE6 "S3"
        "Security Best Practices for AWS S3" ∧
      rA.SyntheticId = "missing-cloud-hardening@" ++ "bucket" ++ "@s3" ∧
      rA.MostRelevantTechnicalAssetId = "bucket" ∧
      rA.DataBreachTechnicalAssetIDs = ["bucket"] ∧
      rA.Title = "<b>Missing Cloud Hardening (S3)</b> risk at <b>" ++ bucketE6.Title
        ++ "</b>: <u>Security Best Practices for AWS S3</u>" :=
  ⟨cloudWellFormed_scenarioE6, by decide, by decide, by decide, by decide,
    C25_subtag_risk_in_tagged_boundary specAPI id (fun _ => List.Perm.refl _) scenarioE6
      cloudWellFormed_scenarioE6 "aws-vpc" boundaryE6 (by decide) (by decide)
      "bucket" bucketE6 (by decide) (by decide)⟩

/-! ## Relative attacker attractiveness: monotonicity of the normalisation -/

theorem floorToOne_mono_above (mn s a b : ℚ) (hs : 0 < s) (ha : mn < a) (hab : a ≤ b) :
    (if (a - mn) / s * 100 ≤ 0 then 1 else (a - mn) / s * 100)
      ≤ (if (b - mn) / s * 100 ≤ 0 then 1 else (b - mn) / s * 100) := by
  have h1 : 0 < (a - mn) / s * 100 := by
    have : 0 < (a - mn) / s := div_pos (by linarith) hs
    linarith
  have h2 : (a - mn) / s * 100 ≤ (b - mn) / s * 100 := by
    have : (a - mn) / s ≤ (b - mn) / s := div_le_div_of_nonneg_right (by linarith) hs.le
    linarith
  rw [if_neg (not_le.2 h1), if_neg (not_le.2 (lt_of_lt_of_le h1 h2))]
  exact h2

theorem floorToOne_at_minimum (mn s a : ℚ) (hs : 0 < s) (ha : a ≤ mn) :
    (if (a - mn) / s * 100 ≤ 0 then 1 else (a - mn) / s * 100) = 1 := by
  have h1 : (a - mn) / s * 100 ≤ 0 := by
    have : (a - mn) / s ≤ 0 := div_nonpos_of_nonpos_of_nonneg (by linarith) hs.le
    linarith
  rw [if_pos h1]

/-- C33 (the claim fails): in `smallPercentModel`, which has no dangling ids, the asset "lb" has
the lowest raw attractiveness 36/11 and the asset "mon" the raw attractiveness 18/5; the
percentage of "lb" is the floor value 1 and the percentage of "mon" is 80/2247, so the ranking by
percentage inverts the ranking by raw attractiveness. -/
theorem C33_counterexample :
    noDanglingIds smallPercentModel ∧
    (mapGet smallPercentModel.TechnicalAssets "lb").bind
      (calculateAttackerAttractiveness fibonacciTaxonomy smallPercentModel) = some (36 / 11) ∧
    (mapGet smallPercentModel.TechnicalAssets "mon").bind
      (calculateAttackerAttractiveness fibonacciTaxonomy smallPercentModel) = some (18 / 5) ∧
    ((36 : ℚ) / 11 ≤ 18 / 5) ∧
    calculateRelativeAttackerAttractiveness fibonacciTaxonomy smallPercentModel (36 / 11)
      = some 1 ∧
    calculateRelativeAttackerAttractiveness fibonacciTaxonomy smallPercentModel (18 / 5)
      = some (80 / 2247) ∧
    ¬ ((1 : ℚ) ≤ 80 / 2247) :=
  ⟨by decide, by decide!, by decide!, by norm_num, by decide!, by decide!, by norm_num⟩

/-- C33 as amended: on a model without dangling ids `calculateRelativeAttackerAttractiveness`
returns for every argument; with `mn` the lowest raw attractiveness of the model, it is monotone
non-decreasing on the arguments above `mn`, it maps every argument at or below `mn` to the floor
value 1, and for `a ≤ b` the percentage of `a` is at most the percentage of `b` as soon as the
latter is at least 1; the raw attractiveness of every technical asset of the model is at least
`mn`. -/
theorem C33_relative_monotone_above_minimum (tx : Taxonomy) (input : Model)
    (h : noDanglingIds input) :
    ∃ mn, rawMinimum tx input = some mn ∧
      (∀ a, ∃ p, calculateRelativeAttackerAttractiveness tx input a = some p) ∧
      (∀ a b pa pb, calculateRelativeAttackerAttractiveness tx input a = some pa →
        calculateRelativeAttackerAttractiveness tx input b = some pb → a ≤ b →
        (mn < a → pa ≤ pb) ∧ (a ≤ mn → pa = 1) ∧ (1 ≤ pb → pa ≤ pb)) ∧
      (∀ key A v, mapGet input.TechnicalAssets key = some A →
        calculateAttackerAttractiveness tx input A = some v → mn ≤ v) := by
  obtain ⟨mm, hmm⟩ := minMaxLoop_isSome tx input (sortStrings (mapKeys input.TechnicalAssets))
    (fun key hkey => mapGet_refsExist input h.1 key ((mem_sortStrings _ _).1 hkey))
    (9223372036854775807, -9223372036854775808)
  have hs := spread_exact_pos mm.1 mm.2
  refine ⟨mm.1, by unfold rawMinimum; rw [hmm]; rfl, calculateRelative_isSome tx input h.1, ?_,
    ?_⟩
  · intro a b pa pb hpa hpb hab
    rw [calculateRelative_eq_spread, hmm] at hpa hpb
    simp only [Option.map_some', Option.some.injEq] at hpa hpb
    have habove : mm.1 < a → pa ≤ pb := fun ha => by
      rw [← hpa, ← hpb]
      exact floorToOne_mono_above mm.1 _ a b hs ha hab
    have hfloor : a ≤ mm.1 → pa = 1 := fun ha => by
      rw [← hpa]
      exact floorToOne_at_minimum mm.1 _ a hs ha
    refine ⟨habove, hfloor, fun hb => ?_⟩
    rcases lt_or_le mm.1 a with ha | ha
    · exact habove ha
    · rw [hfloor ha]
      exact hb
  · intro key A v hg hv
    exact minMaxLoop_min_le tx input _ key
      ((mem_sortStrings _ _).2 (mapGet_mem_keys _ _ _ hg)) A v hg hv _ mm hmm

/-- An instance of C33 as amended: `smallPercentModel` with the weights of
`fibonacciTaxonomy`. -/
theorem C33_relative_monotone_above_minimum_witness :
    noDanglingIds smallPercentModel ∧
    ∃ mn, rawMinimum fibonacciTaxonomy smallPercentModel = some mn ∧
      (∀ a, ∃ p,
        calculateRelativeAttackerAttractiveness fibonacciTaxonomy smallPercentModel a = some p) ∧
      (∀ a b pa pb,
        calculateRelativeAttackerAttractiveness fibonacciTaxonomy smallPercentModel a = some pa →
        calculateRelativeAttackerAttractiveness fibonacciTaxonomy smallPercentModel b = some pb →
        a ≤ b → (mn < a → pa ≤ pb) ∧ (a ≤ mn → pa = 1) ∧ (1 ≤ pb → pa ≤ pb)) ∧
      (∀ key A v, mapGet smallPercentModel.TechnicalAssets key = some A →
        calculateAttackerAttractiveness fibonacciTaxonomy smallPercentModel A = some v →
        mn ≤ v) :=
  ⟨by decide, C33_relative_monotone_above_minimum fibonacciTaxonomy smallPercentModel
    (by decide)⟩

/-! ## Tag traversal: termination -/

theorem countP_lt_of_imp {α : Type} (p q : α → Bool) (l : List α)
    (h : ∀ x ∈ l, p x = true → q x = true) (a : α) (ha : a ∈ l) (hq : q a = true)
    (hp : p a = false) : l.countP p < l.countP q := by
  induction l with
  | nil => simp at ha
  | cons x xs ih =>
    have hxs : ∀ y ∈ xs, p y = true → q y = true := fun y hy => h y (List.mem_cons_of_mem _ hy)
    have hle : xs.countP p ≤ xs.countP q := List.countP_mono_left hxs
    simp only [List.countP_cons]
    rcases List.mem_cons.1 ha with e | e
    · subst e
      simp only [hq, hp, if_true, Bool.false_eq_true, if_false]
      omega
    · have hlt := ih hxs e
      by_cases hpx : p x = true
      · simp only [hpx, h x (List.mem_cons_self _ _) hpx, if_true]
        omega
      · have hpx2 : p x = false := by simpa using hpx
        simp only [hpx2, Bool.false_eq_true, if_false]
        split_ifs <;> omega

theorem parentsAcyclic_rank (api : TypesAPI) (model : Model) (hA : parentsAcyclic api model) :
    ∃ rank : TrustBoundary → Nat,
      (∀ tb, rank tb ≤ model.TrustBoundaries.length) ∧
      (∀ tb ∈ model.TrustBoundaries.map Prod.snd, rank tb < model.TrustBoundaries.length) ∧
      ∀ tb p, api.FindParentTrustBoundary model tb = some p → rank p < rank tb := by
  classical
  refine ⟨fun tb => (model.TrustBoundaries.map Prod.snd).countP
    (fun x => decide (Relation.TransGen (parentOf api model) tb x)), ?_, ?_, ?_⟩
  · intro tb
    have := List.countP_le_length (fun x => decide (Relation.TransGen (parentOf api model) tb x))
      (l := model.TrustBoundaries.map Prod.snd)
    simpa using this
  · intro tb htb
    have := countP_lt_of_imp
      (fun x => decide (Relation.TransGen (parentOf api model) tb x)) (fun _ => true)
      (model.TrustBoundaries.map Prod.snd) (fun _ _ _ => rfl) tb htb rfl
      (by simpa using hA.2 tb)
    simpa using this
  · intro tb p hp
    refine countP_lt_of_imp _ _ _ ?_ p (hA.1 tb p hp) ?_ ?_
    · intro x _ hx
      simp only [decide_eq_true_eq] at hx ⊢
      exact Relation.TransGen.head hp hx
    · simp only [decide_eq_true_eq]
      exact Relation.TransGen.single hp
    · simpa using hA.2 p

theorem traversingUp_boundary_fuel_mono (api : TypesAPI) (model : Model) (fuel : Nat)
    (tb : TrustBoundary) (tags : List String) (r : Bool)
    (h : isTrustedBoundaryTaggedWithAnyTraversingUp api model fuel tb tags = some r)
    (fuel2 : Nat) (hf : fuel ≤ fuel2) :
    isTrustedBoundaryTaggedWithAnyTraversingUp api model fuel2 tb tags = some r := by
  induction fuel generalizing tb fuel2 r with
  | zero => simp [isTrustedBoundaryTaggedWithAnyTraversingUp] at h
  | succ n ih =>
    obtain ⟨m, rfl⟩ : ∃ m, fuel2 = m + 1 := ⟨fuel2 - 1, by omega⟩
    unfold isTrustedBoundaryTaggedWithAnyTraversingUp at h ⊢
    by_cases ht : tb.IsTaggedWithAny tags = true
    · simpa [ht] using h
    · simp only [ht, Bool.false_eq_true, if_false] at h ⊢
      cases hp : api.FindParentTrustBoundary model tb with
      | none => simpa [hp] using h
      | some p =>
        simp only [hp] at h ⊢
        cases hr : isTrustedBoundaryTaggedWithAnyTraversingUp api model n p tags with
        | none => simp [hr] at h
        | some r2 =>
          simp only [hr] at h
          rw [ih p r2 hr m (by omega)]
          exact h

/-- C36: when the parent relation given by `FindParentTrustBoundary` is acyclic over the trust
boundaries of the model, there is a measure bounded by the number of trust boundaries that
strictly decreases from a boundary to its parent; `isTrustedBoundaryTaggedWithAnyTraversingUp`
returns within as many calls as there are trust boundaries when started at a boundary of the
model (one more for any other boundary), more fuel does not change a result, and
`isTechnicalAssetTaggedWithAnyTraversingUp` returns for every asset whose trust boundary id is
empty or a key of `TrustBoundaries`. -/
theorem C36_traversing_up_terminates (api : TypesAPI) (model : Model)
    (hA : parentsAcyclic api model) :
    (∃ rank : TrustBoundary → Nat,
      (∀ tb, rank tb ≤ model.TrustBoundaries.length) ∧
      ∀ tb p, api.FindParentTrustBoundary model tb = some p → rank p < rank tb) ∧
    (∀ tb ∈ model.TrustBoundaries.map Prod.snd, ∀ tags, ∃ r,
      isTrustedBoundaryTaggedWithAnyTraversingUp api model model.TrustBoundaries.length tb tags
        = some r) ∧
    (∀ tb tags, ∃ r,
      isTrustedBoundaryTaggedWithAnyTraversingUp api model (model.TrustBoundaries.length + 1)
        tb tags = some r) ∧
    (∀ fuel tb tags r,
      isTrustedBoundaryTaggedWithAnyTraversingUp api model fuel tb tags = some r →
      ∀ fuel2, fuel ≤ fuel2 →
        isTrustedBoundaryTaggedWithAnyTraversingUp api model fuel2 tb tags = some r) ∧
    (∀ ta tags,
      (api.GetTechnicalAssetTrustBoundaryId model ta = ""
        ∨ api.GetTechnicalAssetTrustBoundaryId model ta ∈ mapKeys model.TrustBoundaries) →
      ∃ r, isTechnicalAssetTaggedWithAnyTraversingUp api model ta tags = some r) := by
  obtain ⟨rank, hbound, hin, hrank⟩ := parentsAcyclic_rank api model hA
  refine ⟨⟨rank, hbound, hrank⟩, ?_, ?_, ?_, ?_⟩
  · intro tb htb tags
    exact traversingUp_boundary_total api model rank hrank _ tb tags (hin tb htb)
  · intro tb tags
    exact traversingUp_boundary_total api model rank hrank _ tb tags
      (Nat.lt_succ_of_le (hbound tb))
  · intro fuel tb tags r h fuel2 hf
    exact traversingUp_boundary_fuel_mono api model fuel tb tags r h fuel2 hf
  · intro ta tags hT
    unfold isTechnicalAssetTaggedWithAnyTraversingUp
    by_cases hc : containsCaseInsensitiveAny ta.Tags tags = true
    · exact ⟨true, by simp [hc]⟩
    · rw [if_neg hc]
      by_cases he : api.GetTechnicalAssetTrustBoundaryId model ta = ""
      · refine ⟨model.SharedRuntimes.any (fun sr =>
          contains sr.2.TechnicalAssetsRunning ta.Id && sr.2.IsTaggedWithAny tags), ?_⟩
        simp [he]
      · rcases hT with h0 | h0
        · exact absurd h0 he
        · obtain ⟨tb, htb⟩ := mapGet_isSome_of_mem_keys _ _ h0
          obtain ⟨r, hr⟩ := traversingUp_boundary_total api model rank hrank
            (model.TrustBoundaries.length + 1) tb tags (Nat.lt_succ_of_le (hbound tb))
          simp only [ne_eq, he, not_false_eq_true, if_true, htb, hr]
          cases r with
          | true => exact ⟨true, rfl⟩
          | false => exact ⟨_, rfl⟩

theorem parentOf_nestedCloudModel (tb p : TrustBoundary)
    (h : parentOf specAPI nestedCloudModel tb p) : p = outerNested ∧ tb.Id = "inner" := by
  unfold parentOf at h
  simp only [specAPI, nestedCloudModel, List.map_cons, List.map_nil, List.find?_cons,
    innerNested, outerNested, emptyBoundary, contains, List.any_nil, List.any_cons,
    Bool.or_false, List.find?_nil] at h
  by_cases hi : ("inner" == tb.Id) = true
  · simp only [hi] at h
    exact ⟨(Option.some.inj h).symm, (beq_iff_eq.1 hi).symm⟩
  · simp [hi] at h

theorem parentsAcyclic_nestedCloudModel : parentsAcyclic specAPI nestedCloudModel := by
  refine ⟨fun tb p h => ?_, fun tb h => ?_⟩
  · rw [(parentOf_nestedCloudModel tb p h).1]
    decide
  · obtain ⟨b, hb, hrest⟩ := Relation.TransGen.head'_iff.1 h
    obtain ⟨hbo, hid⟩ := parentOf_nestedCloudModel tb b hb
    subst hbo
    rcases Relation.ReflTransGen.cases_head hrest with e | ⟨c, hc, _⟩
    · rw [← e] at hid
      exact absurd hid (by decide)
    · exact absurd (parentOf_nestedCloudModel _ c hc).2 (by decide)

/-- An instance of C36: in `nestedCloudModel` the parent relation is acyclic ("inner" lies in
"outer", which has no parent); the walk from "inner" returns with two calls, the number of trust
boundaries, and does not return with one. -/
theorem C36_traversing_up_terminates_witness :
    parentsAcyclic specAPI nestedCloudModel ∧
    (∃ r, isTrustedBoundaryTaggedWithAnyTraversingUp specAPI nestedCloudModel
      nestedCloudModel.TrustBoundaries.length innerNested ["aws:ec2"] = some r) ∧
    isTrustedBoundaryTaggedWithAnyTraversingUp specAPI nestedCloudModel 2 innerNested ["aws:ec2"]
      = some true ∧
    isTrustedBoundaryTaggedWithAnyTraversingUp specAPI nestedCloudModel 1 innerNested ["aws:ec2"]
      = none ∧
    (∃ r, isTechnicalAssetTaggedWithAnyTraversingUp specAPI nestedCloudModel vmNested
      ["aws:ec2"] = some r) :=
  ⟨parentsAcyclic_nestedCloudModel,
    (C36_traversing_up_terminates specAPI nestedCloudModel
      parentsAcyclic_nestedCloudModel).2.1 innerNested (by decide) ["aws:ec2"],
    by decide, by decide,
    (C36_traversing_up_terminates specAPI nestedCloudModel
      parentsAcyclic_nestedCloudModel).2.2.2.2 vmNested ["aws:ec2"] (by decide)⟩

/-! ## Tag traversal: what it computes -/

theorem traversingUp_boundary_iff (api : TypesAPI) (model : Model) (fuel : Nat)
    (tb : TrustBoundary) (tags : List String) (r : Bool)
    (h : isTrustedBoundaryTaggedWithAnyTraversingUp api model fuel tb tags = some r) :
    r = true ↔ ∃ anc, Relation.ReflTransGen (parentOf api model) tb anc
      ∧ anc.IsTaggedWithAny tags = true := by
  induction fuel generalizing tb r with
  | zero => simp [isTrustedBoundaryTaggedWithAnyTraversingUp] at h
  | succ n ih =>
    unfold isTrustedBoundaryTaggedWithAnyTraversingUp at h
    by_cases ht : tb.IsTaggedWithAny tags = true
    · rw [if_pos ht] at h
      have hr : r = true := (Option.some.inj h).symm
      exact ⟨fun _ => ⟨tb, Relation.ReflTransGen.refl, ht⟩, fun _ => hr⟩
    · rw [if_neg ht] at h
      cases hp : api.FindParentTrustBoundary model tb with
      | none =>
        simp only [hp] at h
        have hr : r = false := (Option.some.inj h).symm
        subst hr
        refine ⟨fun hf => absurd hf (by simp), ?_⟩
        rintro ⟨anc, hanc, htag⟩
        rcases Relation.ReflTransGen.cases_head hanc with e | ⟨c, hc, _⟩
        · rw [← e] at htag
          exact absurd htag ht
        · unfold parentOf at hc
          rw [hp] at hc
          exact absurd hc (by simp)
      | some p =>
        simp only [hp] at h
        cases hr : isTrustedBoundaryTaggedWithAnyTraversingUp api model n p tags with
        | none => simp [hr] at h
        | some r2 =>
          simp only [hr] at h
          have hr2 : r2 = r := Option.some.inj h
          subst hr2
          rw [ih p r2 hr]
          constructor
          · rintro ⟨anc, hanc, htag⟩
            exact ⟨anc, Relation.ReflTransGen.head hp hanc, htag⟩
          · rintro ⟨anc, hanc, htag⟩
            rcases Relation.ReflTransGen.cases_head hanc with e | ⟨c, hc, hrest⟩
            · rw [← e] at htag
              exact absurd htag ht
            · unfold parentOf at hc
              rw [hp] at hc
              have hcp : p = c := Option.some.inj hc
              subst hcp
              exact ⟨anc, hrest, htag⟩

theorem contains_iff (a : List String) (x : String) : contains a x = true ↔ x ∈ a := by
  unfold contains
  rw [List.any_eq_true]
  constructor
  · rintro ⟨n, hn, he⟩
    rw [← beq_iff_eq.1 he]
    exact hn
  · intro h
    exact ⟨x, h, by simp⟩

theorem traversingUp_asset_iff (api : TypesAPI) (model : Model) (ta : TechnicalAsset)
    (tags : List String) (r : Bool)
    (h : isTechnicalAssetTaggedWithAnyTraversingUp api model ta tags = some r) :
    r = true ↔ taggedTraversingUp api model ta tags := by
  unfold isTechnicalAssetTaggedWithAnyTraversingUp at h
  unfold taggedTraversingUp
  by_cases hc : containsCaseInsensitiveAny ta.Tags tags = true
  · rw [if_pos hc] at h
    exact ⟨fun _ => Or.inl hc, fun _ => (Option.some.inj h).symm⟩
  · rw [if_neg hc] at h
    have hrt : (model.SharedRuntimes.any (fun sr =>
        contains sr.2.TechnicalAssetsRunning ta.Id && sr.2.IsTaggedWithAny tags)) = true ↔
        ∃ sr ∈ model.SharedRuntimes,
          ta.Id ∈ sr.2.TechnicalAssetsRunning ∧ sr.2.IsTaggedWithAny tags = true := by
      rw [List.any_eq_true]
      constructor
      · rintro ⟨sr, hsr, hb⟩
        rw [Bool.and_eq_true] at hb
        exact ⟨sr, hsr, (contains_iff _ _).1 hb.1, hb.2⟩
      · rintro ⟨sr, hsr, h1, h2⟩
        exact ⟨sr, hsr, by rw [Bool.and_eq_true]; exact ⟨(contains_iff _ _).2 h1, h2⟩⟩
    by_cases he : api.GetTechnicalAssetTrustBoundaryId model ta = ""
    · simp only [ne_eq, he, not_true_eq_false, if_false, Option.some.injEq] at h
      rw [← h, hrt]
      constructor
      · intro hx
        exact Or.inr (Or.inr hx)
      · rintro (h1 | ⟨_, _, h2, _⟩ | h3)
        · exact absurd h1 hc
        · exact absurd he h2
        · exact h3
    · simp only [ne_eq, he, not_false_eq_true, if_true] at h
      cases htb : mapGet model.TrustBoundaries (api.GetTechnicalAssetTrustBoundaryId model ta) with
      | none => simp [htb] at h
      | some tb =>
        simp only [htb] at h
        cases hb : isTrustedBoundaryTaggedWithAnyTraversingUp api model
            (model.TrustBoundaries.length + 1) tb tags with
        | none => simp [hb] at h
        | some rb =>
          simp only [hb] at h
          have hbi := traversingUp_boundary_iff api model _ tb tags rb hb
          cases rb with
          | true =>
            simp only [Option.some.injEq] at h
            obtain ⟨anc, hanc, htag⟩ := hbi.1 rfl
            exact ⟨fun _ => Or.inr (Or.inl ⟨tb, anc, he, rfl, hanc, htag⟩), fun _ => h.symm⟩
          | false =>
            simp only [Option.some.injEq] at h
            rw [← h, hrt]
            constructor
            · intro hx
              exact Or.inr (Or.inr hx)
            · rintro (h1 | ⟨tb2, anc, _, h2, hanc, htag⟩ | h3)
              · exact absurd h1 hc
              · have : tb2 = tb := (Option.some.inj h2).symm
                subst this
                exact absurd (hbi.2 ⟨anc, hanc, htag⟩) (by simp)
              · exact h3

/-- C31: when the parent relation of the trust boundaries is acyclic and the trust boundary id
of the asset `ta` is empty or a key of `TrustBoundaries`,
`isTechnicalAssetTaggedWithAnyTraversingUp` returns, and it returns true if and only if `ta`
itself carries one of the tags, or its enclosing trust boundary or one of the ancestors of that
boundary carries one, or a shared runtime whose `TechnicalAssetsRunning` contains the id of `ta`
carries one. -/
theorem C31_traversing_up_iff (api : TypesAPI) (model : Model) (hA : parentsAcyclic api model)
    (ta : TechnicalAsset) (tags : List String)
    (hT : api.GetTechnicalAssetTrustBoundaryId model ta = ""
      ∨ api.GetTechnicalAssetTrustBoundaryId model ta ∈ mapKeys model.TrustBoundaries) :
    ∃ r, isTechnicalAssetTaggedWithAnyTraversingUp api model ta tags = some r ∧
      (r = true ↔ taggedTraversingUp api model ta tags) := by
  obtain ⟨rank, hbound, _, hrank⟩ := parentsAcyclic_rank api model hA
  have htotal : ∃ r, isTechnicalAssetTaggedWithAnyTraversingUp api model ta tags = some r := by
    unfold isTechnicalAssetTaggedWithAnyTraversingUp
    by_cases hc : containsCaseInsensitiveAny ta.Tags tags = true
    · exact ⟨true, by simp [hc]⟩
    · rw [if_neg hc]
      by_cases he : api.GetTechnicalAssetTrustBoundaryId model ta = ""
      · refine ⟨model.SharedRuntimes.any (fun sr =>
          contains sr.2.TechnicalAssetsRunning ta.Id && sr.2.IsTaggedWithAny tags), ?_⟩
        simp [he]
      · rcases hT with h0 | h0
        · exact absurd h0 he
        · obtain ⟨tb, htb⟩ := mapGet_isSome_of_mem_keys _ _ h0
          obtain ⟨r, hr⟩ := traversingUp_boundary_total api model rank hrank
            (model.TrustBoundaries.length + 1) tb tags (Nat.lt_succ_of_le (hbound tb))
          simp only [ne_eq, he, not_false_eq_true, if_true, htb, hr]
          cases r with
          | true => exact ⟨true, rfl⟩
          | false => exact ⟨_, rfl⟩
  obtain ⟨r, hr⟩ := htotal
  exact ⟨r, hr, traversingUp_asset_iff api model ta tags r hr⟩

/-- An instance of C31 in `nestedCloudModel`: the asset "vm", tagged `aws:ebs` only, lies in the
untagged boundary "inner" whose parent "outer" is tagged `aws:ec2`; the traversal for `aws:ec2`
returns true, and the traversal for `aws:s3` returns false. -/
theorem C31_traversing_up_iff_witness :
    parentsAcyclic specAPI nestedCloudModel ∧
    specAPI.GetTechnicalAssetTrustBoundaryId nestedCloudModel vmNested = "inner" ∧
    isTechnicalAssetTaggedWithAnyTraversingUp specAPI nestedCloudModel vmNested ["aws:ec2"]
      = some true ∧
    isTechnicalAssetTaggedWithAnyTraversingUp specAPI nestedCloudModel vmNested ["aws:s3"]
      = some false ∧
    ∃ r, isTechnicalAssetTaggedWithAnyTraversingUp specAPI nestedCloudModel vmNested
        ["aws:ec2"] = some r ∧
      (r = true ↔ taggedTraversingUp specAPI nestedCloudModel vmNested ["aws:ec2"]) :=
  ⟨parentsAcyclic_nestedCloudModel, by decide, by decide, by decide,
    C31_traversing_up_iff specAPI nestedCloudModel parentsAcyclic_nestedCloudModel vmNested
      ["aws:ec2"] (Or.inr (by decide))⟩

/-! ## Missing cloud hardening rule: the classification pass as a list of insertions -/

theorem mem_ite_insert (c : Prop) [Decidable c] (s : List String) (id x : String) :
    x ∈ (if c then s.insert id else s)
      ↔ x ∈ s ∨ x ∈ (if c then ([] : List String).insert id else []) := by
  split_ifs <;> simp [List.mem_insert_iff, or_comm]

theorem mem_or_nil (s : List String) (x : String) : x ∈ s ↔ x ∈ s ∨ x ∈ ([] : List String) := by
  simp

theorem mem_insert_or (s : List String) (id x : String) :
    x ∈ s.insert id ↔ x ∈ s ∨ x ∈ ([] : List String).insert id := by
  simp [List.mem_insert_iff, or_comm]

theorem addAccordingToBaseTag_nf (ta : TechnicalAsset) (tags : List String) (b : Buckets) :
    addAccordingToBaseTag ta tags b =
      { b with
        techAssetIDsWithSubtagSpecificCloudRisks :=
          if ta.IsTaggedWithAny specificSubTagsAWS = true then
            b.techAssetIDsWithSubtagSpecificCloudRisks.insert ta.Id
          else b.techAssetIDsWithSubtagSpecificCloudRisks
        techAssetIDsAWS :=
          if isTaggedWithBaseTag tags "aws" = true then b.techAssetIDsAWS.insert ta.Id
          else b.techAssetIDsAWS
        techAssetIDsAzure :=
          if isTaggedWithBaseTag tags "azure" = true then b.techAssetIDsAzure.insert ta.Id
          else b.techAssetIDsAzure
        techAssetIDsGCP :=
          if isTaggedWithBaseTag tags "gcp" = true then b.techAssetIDsGCP.insert ta.Id
          else b.techAssetIDsGCP
        techAssetIDsOCP :=
          if isTaggedWithBaseTag tags "ocp" = true then b.techAssetIDsOCP.insert ta.Id
          else b.techAssetIDsOCP } := by
  unfold addAccordingToBaseTag
  simp only
  split_ifs <;> rfl

theorem addTrustBoundary_nf (tb : TrustBoundary) (b : Buckets) :
    addTrustBoundaryAccordingToBaseTag tb b =
      { b with
        trustBoundariesWithUnspecificCloudRisks :=
          if ¬ tb.IsTaggedWithAny SupportedTags = true then
            b.trustBoundariesWithUnspecificCloudRisks.insert tb.Id
          else b.trustBoundariesWithUnspecificCloudRisks
        trustBoundaryIDsAWS :=
          if tb.IsTaggedWithAny SupportedTags = true ∧ isTaggedWithBaseTag tb.Tags "aws" = true
          then b.trustBoundaryIDsAWS.insert tb.Id else b.trustBoundaryIDsAWS
        trustBoundaryIDsAzure :=
          if tb.IsTaggedWithAny SupportedTags = true ∧ isTaggedWithBaseTag tb.Tags "azure" = true
          then b.trustBoundaryIDsAzure.insert tb.Id else b.trustBoundaryIDsAzure
        trustBoundaryIDsGCP :=
          if tb.IsTaggedWithAny SupportedTags = true ∧ isTaggedWithBaseTag tb.Tags "gcp" = true
          then b.trustBoundaryIDsGCP.insert tb.Id else b.trustBoundaryIDsGCP
        trustBoundaryIDsOCP :=
          if tb.IsTaggedWithAny SupportedTags = true ∧ isTaggedWithBaseTag tb.Tags "ocp" = true
          then b.trustBoundaryIDsOCP.insert tb.Id else b.trustBoundaryIDsOCP } := by
  unfold addTrustBoundaryAccordingToBaseTag
  by_cases ht : tb.IsTaggedWithAny SupportedTags = true
  · simp only [ht, if_true, true_and, not_true_eq_false, if_false]
    split_ifs <;> rfl
  · simp only [ht, if_false, false_and, not_false_eq_true, if_true, Bool.false_eq_true]

theorem addSharedRuntime_nf (sr : SharedRuntime) (b : Buckets) :
    addSharedRuntimeAccordingToBaseTag sr b =
      { b with
        sharedRuntimesWithUnspecificCloudRisks :=
          if ¬ sr.IsTaggedWithAny SupportedTags = true then
            b.sharedRuntimesWithUnspecificCloudRisks.insert sr.Id
          else b.sharedRuntimesWithUnspecificCloudRisks
        sharedRuntimeIDsAWS :=
          if sr.IsTaggedWithAny SupportedTags = true ∧ isTaggedWithBaseTag sr.Tags "aws" = true
          then b.sharedRuntimeIDsAWS.insert sr.Id else b.sharedRuntimeIDsAWS
        sharedRuntimeIDsAzure :=
          if sr.IsTaggedWithAny SupportedTags = true ∧ isTaggedWithBaseTag sr.Tags "azure" = true
          then b.sharedRuntimeIDsAzure.insert sr.Id else b.sharedRuntimeIDsAzure
        sharedRuntimeIDsGCP :=
          if sr.IsTaggedWithAny SupportedTags = true ∧ isTaggedWithBaseTag sr.Tags "gcp" = true
          then b.sharedRuntimeIDsGCP.insert sr.Id else b.sharedRuntimeIDsGCP
        sharedRuntimeIDsOCP :=
          if sr.IsTaggedWithAny SupportedTags = true ∧ isTaggedWithBaseTag sr.Tags "ocp" = true
          then b.sharedRuntimeIDsOCP.insert sr.Id else b.sharedRuntimeIDsOCP } := by
  unfold addSharedRuntimeAccordingToBaseTag
  by_cases ht : sr.IsTaggedWithAny SupportedTags = true
  · simp only [ht, if_true, true_and, not_true_eq_false, if_false]
    split_ifs <;> rfl
  · simp only [ht, if_false, false_and, not_false_eq_true, if_true, Bool.false_eq_true]

theorem mem_apply_get (op : ClassifyOp) (b : Buckets) (i : BucketName) (x : String) :
    x ∈ (op.apply b).get i ↔ x ∈ b.get i ∨ x ∈ (op.apply Buckets.empty).get i := by
  cases op with
  | asset tA tags =>
    rw [show (ClassifyOp.asset tA tags).apply b = _ from addAccordingToBaseTag_nf tA tags b,
      show (ClassifyOp.asset tA tags).apply Buckets.empty = _ from
        addAccordingToBaseTag_nf tA tags Buckets.empty]
    cases i <;> first | exact mem_ite_insert _ _ _ _ | exact mem_or_nil _ _
  | unspecific id =>
    cases i <;> first | exact mem_insert_or _ _ _ | exact mem_or_nil _ _
  | boundary tb =>
    rw [show (ClassifyOp.boundary tb).apply b = _ from addTrustBoundary_nf tb b,
      show (ClassifyOp.boundary tb).apply Buckets.empty = _ from
        addTrustBoundary_nf tb Buckets.empty]
    cases i <;> first | exact mem_ite_insert _ _ _ _ | exact mem_or_nil _ _
  | runtime sr =>
    rw [show (ClassifyOp.runtime sr).apply b = _ from addSharedRuntime_nf sr b,
      show (ClassifyOp.runtime sr).apply Buckets.empty = _ from
        addSharedRuntime_nf sr Buckets.empty]
    cases i <;> first | exact mem_ite_insert _ _ _ _ | exact mem_or_nil _ _

theorem mem_applyOps_get (ops : List ClassifyOp) (b : Buckets) (i : BucketName) (x : String) :
    x ∈ (applyOps ops b).get i
      ↔ x ∈ b.get i ∨ ∃ op ∈ ops, x ∈ (op.apply Buckets.empty).get i := by
  induction ops generalizing b with
  | nil => simp [applyOps]
  | cons op rest ih =>
    have hstep : applyOps (op :: rest) b = applyOps rest (op.apply b) := rfl
    rw [hstep, ih, mem_apply_get]
    constructor
    · rintro ((h | h) | ⟨o, ho, h⟩)
      · exact Or.inl h
      · exact Or.inr ⟨op, List.mem_cons_self _ _, h⟩
      · exact Or.inr ⟨o, List.mem_cons_of_mem _ ho, h⟩
    · rintro (h | ⟨o, ho, h⟩)
      · exact Or.inl (Or.inl h)
      · rcases List.mem_cons.1 ho with e | e
        · subst e
          exact Or.inl (Or.inr h)
        · exact Or.inr ⟨o, e, h⟩

theorem applyOps_append (l1 l2 : List ClassifyOp) (b : Buckets) :
    applyOps (l1 ++ l2) b = applyOps l2 (applyOps l1 b) := by
  unfold applyOps
  rw [List.foldl_append]

theorem applyOps_cons (op : ClassifyOp) (rest : List ClassifyOp) (b : Buckets) :
    applyOps (op :: rest) b = applyOps rest (op.apply b) := rfl

theorem classifyInside_eq_ops (input : Model) (tagged : Bool) (tb : TrustBoundary)
    (ids : List String) (b b2 : Buckets)
    (h : classifyInside input tagged tb ids b = some b2) :
    b2 = applyOps (ids.filterMap (opInside input tagged tb)) b := by
  induction ids generalizing b with
  | nil =>
    simp only [classifyInside, Option.some.injEq] at h
    exact h.symm
  | cons id rest ih =>
    cases hta : mapGet input.TechnicalAssets id with
    | none => simp [classifyInside, hta] at h
    | some tA =>
      simp only [classifyInside, hta] at h
      have hop : opInside input tagged tb id = some
          (if tA.IsTaggedWithAny SupportedTags then ClassifyOp.asset tA tA.Tags
            else if tagged then ClassifyOp.asset tA tb.Tags else ClassifyOp.unspecific id) := by
        unfold opInside
        rw [hta]
        rfl
      rw [List.filterMap_cons_some hop, applyOps_cons]
      by_cases h1 : tA.IsTaggedWithAny SupportedTags = true
      · rw [if_pos h1] at h ⊢
        exact ih _ h
      · rw [if_neg h1] at h ⊢
        by_cases h2 : tagged = true
        · rw [if_pos h2] at h ⊢
          exact ih _ h
        · rw [if_neg h2] at h ⊢
          exact ih _ h

theorem classifyTrustBoundaries_eq_ops (api : TypesAPI) (input : Model)
    (l : List (String × TrustBoundary)) (b b2 : Buckets)
    (h : classifyTrustBoundaries api input l b = some b2) :
    b2 = applyOps (l.flatMap (opsOfTrustBoundary api input)) b := by
  induction l generalizing b with
  | nil =>
    simp only [classifyTrustBoundaries, Option.some.injEq] at h
    exact h.symm
  | cons kv rest ih =>
    simp only [classifyTrustBoundaries] at h
    rw [List.flatMap_cons, applyOps_append]
    by_cases hc : (!kv.2.IsTaggedWithAny SupportedTags && !kv.2.BoundaryType.IsWithinCloud) = true
    · have e : opsOfTrustBoundary api input kv = [] := by
        unfold opsOfTrustBoundary
        rw [if_pos hc]
      rw [if_pos hc] at h
      rw [e]
      exact ih _ h
    · have e : opsOfTrustBoundary api input kv = ClassifyOp.boundary kv.2 ::
          (api.RecursivelyAllTechnicalAssetIDsInside input kv.2).filterMap
            (opInside input (kv.2.IsTaggedWithAny SupportedTags) kv.2) := by
        unfold opsOfTrustBoundary
        rw [if_neg hc]
      rw [if_neg hc] at h
      cases h1 : classifyInside input (kv.2.IsTaggedWithAny SupportedTags) kv.2
          (api.RecursivelyAllTechnicalAssetIDsInside input kv.2)
          (addTrustBoundaryAccordingToBaseTag kv.2 b) with
      | none => simp [h1] at h
      | some b1 =>
        simp only [h1] at h
        rw [ih _ h, classifyInside_eq_ops input _ kv.2 _ _ b1 h1, e]
        rfl

theorem classifyTaggedAssets_eq_ops (l : List TechnicalAsset) (b : Buckets) :
    classifyTaggedAssets l b = applyOps (l.map (fun tA => ClassifyOp.asset tA tA.Tags)) b := by
  induction l generalizing b with
  | nil => rfl
  | cons tA rest ih =>
    simp only [classifyTaggedAssets, List.map_cons, applyOps_cons]
    exact ih _

theorem classifyInsideTagged_eq_ops (input : Model) (tB : TrustBoundary)
    (ids : List String) (b b2 : Buckets) (h : classifyInsideTagged input tB ids b = some b2) :
    b2 = applyOps (ids.filterMap (opInsideTagged input tB)) b := by
  induction ids generalizing b with
  | nil =>
    simp only [classifyInsideTagged, Option.some.injEq] at h
    exact h.symm
  | cons id rest ih =>
    cases hta : mapGet input.TechnicalAssets id with
    | none => simp [classifyInsideTagged, hta] at h
    | some tA =>
      simp only [classifyInsideTagged, hta] at h
      have hop : opInsideTagged input tB id = some
          (if tA.IsTaggedWithAny SupportedTags then ClassifyOp.asset tA tA.Tags
            else ClassifyOp.asset tA tB.Tags) := by
        unfold opInsideTagged
        rw [hta]
        rfl
      rw [List.filterMap_cons_some hop, applyOps_cons]
      by_cases h1 : tA.IsTaggedWithAny SupportedTags = true
      · rw [if_pos h1] at h ⊢
        exact ih _ h
      · rw [if_neg h1] at h ⊢
        exact ih _ h

theorem classifyTaggedBoundaries_eq_ops (api : TypesAPI) (input : Model)
    (l : List TrustBoundary) (b b2 : Buckets)
    (h : classifyTaggedBoundaries api input l b = some b2) :
    b2 = applyOps (l.flatMap (fun tB =>
      (api.RecursivelyAllTechnicalAssetIDsInside input tB).filterMap
        (opInsideTagged input tB))) b := by
  induction l generalizing b with
  | nil =>
    simp only [classifyTaggedBoundaries, Option.some.injEq] at h
    exact h.symm
  | cons tB rest ih =>
    cases h1 : classifyInsideTagged input tB
        (api.RecursivelyAllTechnicalAssetIDsInside input tB) b with
    | none => simp [classifyTaggedBoundaries, h1] at h
    | some b1 =>
      simp only [classifyTaggedBoundaries, h1] at h
      rw [List.flatMap_cons, applyOps_append, ← classifyInsideTagged_eq_ops input tB _ _ b1 h1]
      exact ih _ h

theorem classifyRunning_eq_ops (input : Model) (sR : SharedRuntime)
    (ids : List String) (b b2 : Buckets) (h : classifyRunning input sR ids b = some b2) :
    b2 = applyOps (ids.filterMap (opRunning input sR)) b := by
  induction ids generalizing b with
  | nil =>
    simp only [classifyRunning, Option.some.injEq] at h
    exact h.symm
  | cons id rest ih =>
    cases hta : mapGet input.TechnicalAssets id with
    | none => simp [classifyRunning, hta] at h
    | some tA =>
      simp only [classifyRunning, hta] at h
      have hop : opRunning input sR id = some (ClassifyOp.asset tA sR.Tags) := by
        unfold opRunning
        rw [hta]
        rfl
      rw [List.filterMap_cons_some hop, applyOps_cons]
      exact ih _ h

theorem classifySharedRuntimes_eq_ops (input : Model)
    (l : List (String × SharedRuntime)) (b b2 : Buckets)
    (h : classifySharedRuntimes input l b = some b2) :
    b2 = applyOps (l.flatMap (opsOfSharedRuntime input)) b := by
  induction l generalizing b with
  | nil =>
    simp only [classifySharedRuntimes, Option.some.injEq] at h
    exact h.symm
  | cons kv rest ih =>
    cases h1 : classifyRunning input kv.2 kv.2.TechnicalAssetsRunning
        (addSharedRuntimeAccordingToBaseTag kv.2 b) with
    | none => simp [classifySharedRuntimes, h1] at h
    | some b1 =>
      simp only [classifySharedRuntimes, h1] at h
      rw [List.flatMap_cons, applyOps_append, ih _ h,
        classifyRunning_eq_ops input kv.2 _ _ b1 h1]
      rfl

theorem classify_eq_ops (api : TypesAPI) (ord : List String → List String) (input : Model)
    (b : Buckets) (h : classify api ord input = some b) :
    b = subsume ord (applyOps (classifyOps api input) Buckets.empty) := by
  unfold classify at h
  cases h1 : classifyTrustBoundaries api input input.TrustBoundaries Buckets.empty with
  | none => simp [h1] at h
  | some b1 =>
    simp only [h1] at h
    cases h2 : classifyTaggedBoundaries api input
        (TrustBoundariesTaggedWithAny input SupportedTags)
        (classifyTaggedAssets (TechnicalAssetsTaggedWithAny input SupportedTags) b1) with
    | none => simp [h2] at h
    | some b2 =>
      simp only [h2] at h
      cases h3 : classifySharedRuntimes input input.SharedRuntimes b2 with
      | none => simp [h3] at h
      | some b3 =>
        simp only [h3, Option.some.injEq] at h
        rw [← h]
        unfold classifyOps
        rw [applyOps_append, applyOps_append, applyOps_append,
          ← classifyTrustBoundaries_eq_ops api input _ _ b1 h1,
          ← classifyTaggedAssets_eq_ops,
          ← classifyTaggedBoundaries_eq_ops api input _ _ b2 h2,
          ← classifySharedRuntimes_eq_ops input _ _ b3 h3]

/-! ## Missing cloud hardening rule: the emission pass in closed form -/

theorem emitSharedRuntimes_eq (api : TypesAPI) (input : Model) (pfx details : String)
    (ids : List String) (risks out : List Risk)
    (h : emitSharedRuntimes api input pfx details ids risks = some out) :
    out = risks ++ sharedRuntimeRisks api input pfx details ids := by
  induction ids generalizing risks with
  | nil =>
    simp only [emitSharedRuntimes, Option.some.injEq] at h
    simp [sharedRuntimeRisks, h]
  | cons id rest ih =>
    cases hg : mapGet input.SharedRuntimes id with
    | none => simp [emitSharedRuntimes, hg] at h
    | some sr =>
      simp only [emitSharedRuntimes, hg] at h
      rw [ih _ h]
      unfold sharedRuntimeRisks
      rw [List.filterMap_cons_some (by rw [hg]; rfl)]
      simp

theorem emitTrustBoundaries_eq (api : TypesAPI) (input : Model) (pfx details : String)
    (ids : List String) (risks out : List Risk)
    (h : emitTrustBoundaries api input pfx details ids risks = some out) :
    out = risks ++ trustBoundaryRisks api input pfx details ids := by
  induction ids generalizing risks with
  | nil =>
    simp only [emitTrustBoundaries, Option.some.injEq] at h
    simp [trustBoundaryRisks, h]
  | cons id rest ih =>
    cases hg : mapGet input.TrustBoundaries id with
    | none => simp [emitTrustBoundaries, hg] at h
    | some tb =>
      simp only [emitTrustBoundaries, hg] at h
      rw [ih _ h]
      unfold trustBoundaryRisks
      rw [List.filterMap_cons_some (by rw [hg]; rfl)]
      simp

theorem emitMostSensitive_eq (api : TypesAPI) (ord : List String → List String)
    (input : Model) (added : Bool) (techAssets : List String) (pfx details : String)
    (risks out : List Risk)
    (h : emitMostSensitive api ord input added techAssets pfx details risks = some out) :
    out = risks ++ mostSensitiveRisks api ord input added techAssets pfx details := by
  unfold emitMostSensitive at h
  unfold mostSensitiveRisks
  by_cases ha : added = true
  · rw [if_pos ha] at h ⊢
    simp only [Option.some.injEq] at h
    simp [h]
  · rw [if_neg ha] at h ⊢
    cases hf : findMostSensitiveTechnicalAsset api ord input techAssets with
    | none => simp [hf] at h
    | some o =>
      cases o with
      | none =>
        simp only [hf, Option.some.injEq] at h
        simp [h]
      | some a =>
        simp only [hf, Option.some.injEq] at h
        exact h.symm

theorem emitSubtagSpecific_eq (api : TypesAPI) (input : Model) (ids : List String)
    (risks out : List Risk) (h : emitSubtagSpecific api input ids risks = some out) :
    out = risks ++ ids.flatMap (subtagRisksOfId api input) := by
  induction ids generalizing risks with
  | nil =>
    simp only [emitSubtagSpecific, Option.some.injEq] at h
    simp [h]
  | cons id rest ih =>
    cases hta : mapGet input.TechnicalAssets id with
    | none => simp [emitSubtagSpecific, hta] at h
    | some tA =>
      cases hec2 : isTechnicalAssetTaggedWithAnyTraversingUp api input tA ["aws:ec2"] with
      | none => simp [emitSubtagSpecific, hta, hec2] at h
      | some ec2 =>
        cases hs3 : isTechnicalAssetTaggedWithAnyTraversingUp api input tA ["aws:s3"] with
        | none => simp [emitSubtagSpecific, hta, hec2, hs3] at h
        | some s3 =>
          simp only [emitSubtagSpecific, hta, hec2, hs3] at h
          rw [ih _ h, List.flatMap_cons]
          have hid : subtagRisksOfId api input id =
              (if ec2 = true then
                [createRiskForTechnicalAsset api input tA "EC2" "CIS Benchmark for Amazon Linux"]
              else [])
              ++ (if s3 = true then
                [createRiskForTechnicalAsset api input tA "S3"
                  "Security Best Practices for AWS S3"]
              else []) := by
            unfold subtagRisksOfId
            simp only [hta, hec2, hs3, Option.some.injEq]
          rw [hid]
          cases ec2 <;> cases s3 <;> simp

theorem emit_eq_emitted (api : TypesAPI) (ord : List String → List String) (input : Model)
    (b : Buckets) (risks : List Risk) (h : emit api ord input b = some risks) :
    risks = emittedRisks api ord input b := by
  unfold emit at h
  simp only [Option.bind_eq_some] at h
  obtain ⟨r14, ⟨r13, ⟨r12, ⟨r11, ⟨r10, ⟨r9, ⟨r8, ⟨r7, ⟨r6, ⟨r5, ⟨r4, ⟨r3, ⟨r2, ⟨r1, h1, h2⟩,
    h3⟩, h4⟩, h5⟩, h6⟩, h7⟩, h8⟩, h9⟩, h10⟩, h11⟩, h12⟩, h13⟩, h14⟩, h15⟩ := h
  have e1 := emitSharedRuntimes_eq _ _ _ _ _ _ _ h1
  have e2 := emitSharedRuntimes_eq _ _ _ _ _ _ _ h2
  have e3 := emitSharedRuntimes_eq _ _ _ _ _ _ _ h3
  have e4 := emitSharedRuntimes_eq _ _ _ _ _ _ _ h4
  have e5 := emitSharedRuntimes_eq _ _ _ _ _ _ _ h5
  have e6 := emitTrustBoundaries_eq _ _ _ _ _ _ _ h6
  have e7 := emitTrustBoundaries_eq _ _ _ _ _ _ _ h7
  have e8 := emitTrustBoundaries_eq _ _ _ _ _ _ _ h8
  have e9 := emitTrustBoundaries_eq _ _ _ _ _ _ _ h9
  have e10 := emitTrustBoundaries_eq _ _ _ _ _ _ _ h10
  have e11 := emitMostSensitive_eq _ _ _ _ _ _ _ _ _ h11
  have e12 := emitMostSensitive_eq _ _ _ _ _ _ _ _ _ h12
  have e13 := emitMostSensitive_eq _ _ _ _ _ _ _ _ _ h13
  have e14 := emitMostSensitive_eq _ _ _ _ _ _ _ _ _ h14
  have e15 := emitSubtagSpecific_eq _ _ _ _ _ h15
  rw [e15, e14, e13, e12, e11, e10, e9, e8, e7, e6, e5, e4, e3, e2, e1]
  unfold emittedRisks emittedSharedRuntimeRisks emittedTrustBoundaryRisks
    emittedMostSensitiveRisks emittedSubtagRisks
  simp only [List.nil_append, List.append_assoc]

theorem cloud_generateRisks_eq (api : TypesAPI) (ord : List String → List String)
    (input : Model) (risks : List Risk) (e : Option String)
    (h : MissingCloudHardeningRule.GenerateRisks api ord input = some (risks, e)) :
    risks = emittedRisks api ord input
      (subsume ord (applyOps (classifyOps api input) Buckets.empty)) := by
  obtain ⟨b, hb, hr, _⟩ := generateRisks_cloud_inv api ord input risks e h
  rw [emit_eq_emitted api ord input b risks hr, classify_eq_ops api ord input b hb]

/-! ## Missing cloud hardening rule: which insertions the classification pass performs -/

theorem mem_deleteAll_iff (ord : List String → List String) (hord : ∀ s, (ord s).Perm s)
    (ids s : List String) (x : String) : x ∈ deleteAll ord ids s ↔ x ∈ s ∧ x ∉ ids := by
  have hl : ∀ (l s : List String),
      x ∈ l.foldl (fun acc id => acc.filter (fun y => decide (y ≠ id))) s ↔ x ∈ s ∧ x ∉ l := by
    intro l
    induction l with
    | nil => simp
    | cons id rest ih =>
      intro s
      simp only [List.foldl_cons]
      rw [ih]
      simp only [List.mem_filter, decide_eq_true_eq, List.mem_cons, not_or]
      tauto
  unfold deleteAll
  rw [hl, (hord ids).mem_iff]

theorem opInside_some (input : Model) (tagged : Bool) (tb : TrustBoundary) (id : String)
    (op : ClassifyOp) (h : opInside input tagged tb id = some op) :
    (∃ tA tags, mapGet input.TechnicalAssets id = some tA ∧ op = ClassifyOp.asset tA tags)
      ∨ op = ClassifyOp.unspecific id := by
  unfold opInside at h
  cases hg : mapGet input.TechnicalAssets id with
  | none => simp [hg] at h
  | some tA =>
    simp only [hg, Option.map_some', Option.some.injEq] at h
    split_ifs at h
    · exact Or.inl ⟨tA, _, rfl, h.symm⟩
    · exact Or.inl ⟨tA, _, rfl, h.symm⟩
    · exact Or.inr h.symm

theorem opInsideTagged_some (input : Model) (tB : TrustBoundary) (id : String)
    (op : ClassifyOp) (h : opInsideTagged input tB id = some op) :
    ∃ tA tags, mapGet input.TechnicalAssets id = some tA ∧ op = ClassifyOp.asset tA tags := by
  unfold opInsideTagged at h
  cases hg : mapGet input.TechnicalAssets id with
  | none => simp [hg] at h
  | some tA =>
    simp only [hg, Option.map_some', Option.some.injEq] at h
    split_ifs at h
    · exact ⟨tA, _, rfl, h.symm⟩
    · exact ⟨tA, _, rfl, h.symm⟩

theorem opRunning_some (input : Model) (sR : SharedRuntime) (id : String)
    (op : ClassifyOp) (h : opRunning input sR id = some op) :
    ∃ tA tags, mapGet input.TechnicalAssets id = some tA ∧ op = ClassifyOp.asset tA tags := by
  unfold opRunning at h
  cases hg : mapGet input.TechnicalAssets id with
  | none => simp [hg] at h
  | some tA =>
    simp only [hg, Option.map_some', Option.some.injEq] at h
    exact ⟨tA, _, rfl, h.symm⟩

theorem mem_classifyOps (api : TypesAPI) (input : Model) (op : ClassifyOp) :
    op ∈ classifyOps api input ↔
      (∃ kv ∈ input.TrustBoundaries, op ∈ opsOfTrustBoundary api input kv) ∨
      (∃ tA ∈ TechnicalAssetsTaggedWithAny input SupportedTags,
        op = ClassifyOp.asset tA tA.Tags) ∨
      (∃ tB ∈ TrustBoundariesTaggedWithAny input SupportedTags,
        ∃ id ∈ api.RecursivelyAllTechnicalAssetIDsInside input tB,
          opInsideTagged input tB id = some op) ∨
      (∃ kv ∈ input.SharedRuntimes, op ∈ opsOfSharedRuntime input kv) := by
  unfold classifyOps
  simp only [List.mem_append, List.mem_flatMap, List.mem_map, List.mem_filterMap, or_assoc]
  constructor
  · rintro (h | ⟨tA, h1, h2⟩ | h | h)
    · exact Or.inl h
    · exact Or.inr (Or.inl ⟨tA, h1, h2.symm⟩)
    · exact Or.inr (Or.inr (Or.inl h))
    · exact Or.inr (Or.inr (Or.inr h))
  · rintro (h | ⟨tA, h1, h2⟩ | h | h)
    · exact Or.inl h
    · exact Or.inr (Or.inl ⟨tA, h1, h2.symm⟩)
    · exact Or.inr (Or.inr (Or.inl h))
    · exact Or.inr (Or.inr (Or.inr h))

theorem mem_opsOfTrustBoundary (api : TypesAPI) (input : Model) (kv : String × TrustBoundary)
    (op : ClassifyOp) (h : op ∈ opsOfTrustBoundary api input kv) :
    op = ClassifyOp.boundary kv.2 ∨
      (∃ tA tags id, mapGet input.TechnicalAssets id = some tA ∧ op = ClassifyOp.asset tA tags)
      ∨ ∃ id, op = ClassifyOp.unspecific id := by
  unfold opsOfTrustBoundary at h
  split_ifs at h
  · exact absurd h (List.not_mem_nil _)
  · rcases List.mem_cons.1 h with e | e
    · exact Or.inl e
    · obtain ⟨id, _, hid⟩ := List.mem_filterMap.1 e
      rcases opInside_some input _ kv.2 id op hid with ⟨tA, tags, h1, h2⟩ | h2
      · exact Or.inr (Or.inl ⟨tA, tags, id, h1, h2⟩)
      · exact Or.inr (Or.inr ⟨id, h2⟩)

theorem mem_opsOfSharedRuntime (input : Model) (kv : String × SharedRuntime)
    (op : ClassifyOp) (h : op ∈ opsOfSharedRuntime input kv) :
    op = ClassifyOp.runtime kv.2 ∨
      ∃ tA tags id, mapGet input.TechnicalAssets id = some tA ∧ op = ClassifyOp.asset tA tags := by
  unfold opsOfSharedRuntime at h
  rcases List.mem_cons.1 h with e | e
  · exact Or.inl e
  · obtain ⟨id, _, hid⟩ := List.mem_filterMap.1 e
    obtain ⟨tA, tags, h1, h2⟩ := opRunning_some input kv.2 id op hid
    exact Or.inr ⟨tA, tags, id, h1, h2⟩

theorem runtime_mem_classifyOps (api : TypesAPI) (input : Model) (sr : SharedRuntime) :
    ClassifyOp.runtime sr ∈ classifyOps api input ↔ ∃ kv ∈ input.SharedRuntimes, kv.2 = sr := by
  rw [mem_classifyOps]
  constructor
  · rintro (⟨kv, hkv, h⟩ | ⟨tA, _, h⟩ | ⟨tB, _, id, _, h⟩ | ⟨kv, hkv, h⟩)
    · rcases mem_opsOfTrustBoundary api input kv _ h with e | ⟨_, _, _, _, e⟩ | ⟨_, e⟩ <;>
        exact absurd e (by simp)
    · exact absurd h (by simp)
    · obtain ⟨_, _, _, e⟩ := opInsideTagged_some input tB id _ h
      exact absurd e (by simp)
    · rcases mem_opsOfSharedRuntime input kv _ h with e | ⟨_, _, _, _, e⟩
      · exact ⟨kv, hkv, (ClassifyOp.runtime.inj e).symm⟩
      · exact absurd e (by simp)
  · rintro ⟨kv, hkv, rfl⟩
    exact Or.inr (Or.inr (Or.inr ⟨kv, hkv, by unfold opsOfSharedRuntime; exact List.mem_cons_self _ _⟩))

theorem boundary_mem_classifyOps (api : TypesAPI) (input : Model) (tb : TrustBoundary) :
    ClassifyOp.boundary tb ∈ classifyOps api input ↔
      ∃ kv ∈ input.TrustBoundaries, kv.2 = tb ∧
        ¬ ((!kv.2.IsTaggedWithAny SupportedTags && !kv.2.BoundaryType.IsWithinCloud) = true) := by
  rw [mem_classifyOps]
  constructor
  · rintro (⟨kv, hkv, h⟩ | ⟨tA, _, h⟩ | ⟨tB, _, id, _, h⟩ | ⟨kv, hkv, h⟩)
    · have hc : ¬ ((!kv.2.IsTaggedWithAny SupportedTags && !kv.2.BoundaryType.IsWithinCloud)
          = true) := by
        intro hc
        unfold opsOfTrustBoundary at h
        rw [if_pos hc] at h
        exact absurd h (List.not_mem_nil _)
      rcases mem_opsOfTrustBoundary api input kv _ h with e | ⟨_, _, _, _, e⟩ | ⟨_, e⟩
      · exact ⟨kv, hkv, (ClassifyOp.boundary.inj e).symm, hc⟩
      · exact absurd e (by simp)
      · exact absurd e (by simp)
    · exact absurd h (by simp)
    · obtain ⟨_, _, _, e⟩ := opInsideTagged_some input tB id _ h
      exact absurd e (by simp)
    · rcases mem_opsOfSharedRuntime input kv _ h with e | ⟨_, _, _, _, e⟩ <;>
        exact absurd e (by simp)
  · rintro ⟨kv, hkv, rfl, hc⟩
    refine Or.inl ⟨kv, hkv, ?_⟩
    unfold opsOfTrustBoundary
    rw [if_neg hc]
    exact List.mem_cons_self _ _

theorem asset_of_mem_classifyOps (api : TypesAPI) (input : Model) (tA : TechnicalAsset)
    (tags : List String) (h : ClassifyOp.asset tA tags ∈ classifyOps api input) :
    ∃ k, (k, tA) ∈ input.TechnicalAssets := by
  have hget : ∀ (tX : TechnicalAsset) (tagsX : List String) (id : String),
      mapGet input.TechnicalAssets id = some tX →
      ClassifyOp.asset tA tags = ClassifyOp.asset tX tagsX →
      ∃ k, (k, tA) ∈ input.TechnicalAssets := by
    intro tX tagsX id hg e
    have : tA = tX := (ClassifyOp.asset.inj e).1
    subst this
    exact ⟨id, mapGet_mem _ _ _ hg⟩
  rw [mem_classifyOps] at h
  rcases h with ⟨kv, _, h⟩ | ⟨tX, hX, h⟩ | ⟨tB, _, id, _, h⟩ | ⟨kv, _, h⟩
  · rcases mem_opsOfTrustBoundary api input kv _ h with e | ⟨tX, tagsX, id, hg, e⟩ | ⟨_, e⟩
    · exact absurd e (by simp)
    · exact hget tX tagsX id hg e
    · exact absurd e (by simp)
  · have : tA = tX := (ClassifyOp.asset.inj h).1
    subst this
    unfold TechnicalAssetsTaggedWithAny at hX
    obtain ⟨kv, hkv, e⟩ := List.mem_map.1 (List.mem_filter.1 hX).1
    exact ⟨kv.1, by rw [← e]; exact hkv⟩
  · obtain ⟨tX, tagsX, hg, e⟩ := opInsideTagged_some input tB id _ h
    exact hget tX tagsX id hg e
  · rcases mem_opsOfSharedRuntime input kv _ h with e | ⟨tX, tagsX, id, hg, e⟩
    · exact absurd e (by simp)
    · exact hget tX tagsX id hg e

/-! ## Tags: a supported tag carries a base tag -/

theorem isSpace_lowerChar (c : Char) : isSpace (lowerChar c) = isSpace c := by
  unfold lowerChar
  split_ifs with h
  · obtain ⟨h1, h2⟩ := h
    have h1n : 65 ≤ c.toNat := h1
    have h2n : c.toNat ≤ 90 := h2
    have hc : isSpace c = false := by
      unfold isSpace
      simp only [Bool.or_eq_false_iff, Bool.and_eq_false_iff, decide_eq_false_iff_not]
      omega
    rw [hc]
    generalize c.toNat = n at h1n h2n
    interval_cases n <;> decide
  · rfl

theorem trimSpace_toLower (s : String) : TrimSpace (ToLower s) = ToLower (TrimSpace s) := by
  have hfun : (isSpace ∘ lowerChar) = isSpace := funext isSpace_lowerChar
  unfold TrimSpace ToLower
  simp only [List.dropWhile_map, hfun, ← List.map_reverse]

theorem base_of_supported (c : String) (hc : c ∈ SupportedTags) :
    ∃ base ∈ ["aws", "azure", "gcp", "ocp"],
      (c == ToLower (TrimSpace base) || HasPrefix c (ToLower (TrimSpace base) ++ ":")) = true := by
  have hall : ∀ c ∈ SupportedTags, ∃ base ∈ ["aws", "azure", "gcp", "ocp"],
      (c == ToLower (TrimSpace base) || HasPrefix c (ToLower (TrimSpace base) ++ ":")) = true := by
    decide
  exact hall c hc

theorem supported_has_base (tags : List String)
    (h : containsCaseInsensitiveAny tags SupportedTags = true) :
    isTaggedWithBaseTag tags "aws" = true ∨ isTaggedWithBaseTag tags "azure" = true
      ∨ isTaggedWithBaseTag tags "gcp" = true ∨ isTaggedWithBaseTag tags "ocp" = true := by
  unfold containsCaseInsensitiveAny at h
  rw [List.any_eq_true] at h
  obtain ⟨n, hn, h2⟩ := h
  rw [List.any_eq_true] at h2
  obtain ⟨c, hc, he⟩ := h2
  have hcc : ∀ c ∈ SupportedTags, TrimSpace (ToLower c) = c := by decide
  rw [hcc c hc, trimSpace_toLower] at he
  have hce : c = ToLower (TrimSpace n) := beq_iff_eq.1 he
  obtain ⟨base, hb, hbase⟩ := base_of_supported c hc
  rw [hce] at hbase
  have hany : isTaggedWithBaseTag tags base = true := by
    unfold isTaggedWithBaseTag
    rw [List.any_eq_true]
    exact ⟨n, hn, hbase⟩
  simp only [List.mem_cons, List.mem_singleton, List.not_mem_nil, or_false] at hb
  rcases hb with rfl | rfl | rfl | rfl
  · exact Or.inl hany
  · exact Or.inr (Or.inl hany)
  · exact Or.inr (Or.inr (Or.inl hany))
  · exact Or.inr (Or.inr (Or.inr hany))

/-! ## Missing cloud hardening rule: the risks of a shared runtime -/

theorem runtime_bucket_of_op (op : ClassifyOp) (i : BucketName)
    (hi : i = .sharedRuntimesWithUnspecificCloudRisks ∨ i = .sharedRuntimeIDsAWS
      ∨ i = .sharedRuntimeIDsAzure ∨ i = .sharedRuntimeIDsGCP ∨ i = .sharedRuntimeIDsOCP)
    (x : String) (h : x ∈ (op.apply Buckets.empty).get i) :
    ∃ sr, op = ClassifyOp.runtime sr := by
  cases op with
  | asset tA tags =>
    exfalso
    change x ∈ (addAccordingToBaseTag tA tags Buckets.empty).get i at h
    rw [addAccordingToBaseTag_nf] at h
    rcases hi with rfl | rfl | rfl | rfl | rfl <;> exact absurd h (List.not_mem_nil _)
  | unspecific id =>
    exfalso
    rcases hi with rfl | rfl | rfl | rfl | rfl <;> exact absurd h (List.not_mem_nil _)
  | boundary tb =>
    exfalso
    change x ∈ (addTrustBoundaryAccordingToBaseTag tb Buckets.empty).get i at h
    rw [addTrustBoundary_nf] at h
    rcases hi with rfl | rfl | rfl | rfl | rfl <;> exact absurd h (List.not_mem_nil _)
  | runtime sr => exact ⟨sr, rfl⟩

theorem runtime_apply_provider (sr : SharedRuntime) (p : Provider) (x : String) :
    x ∈ ((ClassifyOp.runtime sr).apply Buckets.empty).sharedRuntimeIDs p ↔
      (sr.IsTaggedWithAny SupportedTags = true ∧ isTaggedWithBaseTag sr.Tags p.baseTag = true)
        ∧ x = sr.Id := by
  change x ∈ (addSharedRuntimeAccordingToBaseTag sr Buckets.empty).sharedRuntimeIDs p ↔ _
  rw [addSharedRuntime_nf]
  cases p <;> simp only [Buckets.sharedRuntimeIDs, Provider.baseTag, Buckets.empty] <;>
    split_ifs with hc <;> simp [hc]

theorem runtime_apply_unspecific (sr : SharedRuntime) (x : String) :
    x ∈ ((ClassifyOp.runtime sr).apply Buckets.empty).sharedRuntimesWithUnspecificCloudRisks ↔
      ¬ sr.IsTaggedWithAny SupportedTags = true ∧ x = sr.Id := by
  change x ∈ (addSharedRuntimeAccordingToBaseTag sr Buckets.empty
    ).sharedRuntimesWithUnspecificCloudRisks ↔ _
  rw [addSharedRuntime_nf]
  simp only [Buckets.empty]
  split_ifs with hc <;> simp [hc]

theorem sharedRuntimeIDs_eq_get (p : Provider) :
    ∃ i, (i = .sharedRuntimesWithUnspecificCloudRisks ∨ i = .sharedRuntimeIDsAWS
      ∨ i = .sharedRuntimeIDsAzure ∨ i = .sharedRuntimeIDsGCP ∨ i = .sharedRuntimeIDsOCP) ∧
      ∀ c : Buckets, c.sharedRuntimeIDs p = c.get i := by
  cases p
  · exact ⟨.sharedRuntimeIDsAWS, by simp, fun _ => rfl⟩
  · exact ⟨.sharedRuntimeIDsAzure, by simp, fun _ => rfl⟩
  · exact ⟨.sharedRuntimeIDsGCP, by simp, fun _ => rfl⟩
  · exact ⟨.sharedRuntimeIDsOCP, by simp, fun _ => rfl⟩

theorem mem_of_keys_nodup {α : Type} (m : List (String × α)) (hn : (mapKeys m).Nodup)
    (kv : String × α) (hkv : kv ∈ m) (v : α) (hv : mapGet m kv.1 = some v) : kv.2 = v := by
  have := mapGet_of_mem m kv.1 kv.2 hn hkv
  rw [this] at hv
  exact Option.some.inj hv

theorem classified_sharedRuntimeIDs (api : TypesAPI) (input : Model)
    (hI : ∀ kv ∈ input.SharedRuntimes, kv.2.Id = kv.1)
    (hN : (mapKeys input.SharedRuntimes).Nodup) (k : String) (R : SharedRuntime)
    (hR : mapGet input.SharedRuntimes k = some R) (p : Provider) :
    k ∈ (applyOps (classifyOps api input) Buckets.empty).sharedRuntimeIDs p ↔
      R.IsTaggedWithAny SupportedTags = true ∧ isTaggedWithBaseTag R.Tags p.baseTag = true := by
  obtain ⟨i, hi, hget⟩ := sharedRuntimeIDs_eq_get p
  rw [hget, mem_applyOps_get]
  constructor
  · rintro (h | ⟨op, hop, h⟩)
    · rcases hi with rfl | rfl | rfl | rfl | rfl <;> exact absurd h (List.not_mem_nil _)
    · obtain ⟨sr, rfl⟩ := runtime_bucket_of_op op i hi k h
      obtain ⟨kv, hkv, rfl⟩ := (runtime_mem_classifyOps api input sr).1 hop
      rw [← hget] at h
      obtain ⟨hc, hk⟩ := (runtime_apply_provider kv.2 p k).1 h
      have hk1 : kv.1 = k := by rw [← hI kv hkv, hk]
      have : kv.2 = R := mem_of_keys_nodup _ hN kv hkv R (by rw [hk1]; exact hR)
      rw [← this]
      exact hc
  · intro hc
    refine Or.inr ⟨ClassifyOp.runtime R, ?_, ?_⟩
    · exact (runtime_mem_classifyOps api input R).2 ⟨(k, R), mapGet_mem _ _ _ hR, rfl⟩
    · rw [← hget]
      exact (runtime_apply_provider R p k).2 ⟨hc, (hI _ (mapGet_mem _ _ _ hR)).symm⟩

theorem classified_sharedRuntimesUnspecific (api : TypesAPI) (input : Model)
    (hI : ∀ kv ∈ input.SharedRuntimes, kv.2.Id = kv.1)
    (hN : (mapKeys input.SharedRuntimes).Nodup) (k : String) (R : SharedRuntime)
    (hR : mapGet input.SharedRuntimes k = some R) :
    k ∈ (applyOps (classifyOps api input) Buckets.empty).sharedRuntimesWithUnspecificCloudRisks
      ↔ ¬ R.IsTaggedWithAny SupportedTags = true := by
  change k ∈ (applyOps (classifyOps api input) Buckets.empty).get
    .sharedRuntimesWithUnspecificCloudRisks ↔ _
  rw [mem_applyOps_get]
  constructor
  · rintro (h | ⟨op, hop, h⟩)
    · exact absurd h (List.not_mem_nil _)
    · obtain ⟨sr, rfl⟩ := runtime_bucket_of_op op _ (Or.inl rfl) k h
      obtain ⟨kv, hkv, rfl⟩ := (runtime_mem_classifyOps api input sr).1 hop
      obtain ⟨hc, hk⟩ := (runtime_apply_unspecific kv.2 k).1 h
      have hk1 : kv.1 = k := by rw [← hI kv hkv, hk]
      have : kv.2 = R := mem_of_keys_nodup _ hN kv hkv R (by rw [hk1]; exact hR)
      rw [← this]
      exact hc
  · intro hc
    refine Or.inr ⟨ClassifyOp.runtime R, ?_, ?_⟩
    · exact (runtime_mem_classifyOps api input R).2 ⟨(k, R), mapGet_mem _ _ _ hR, rfl⟩
    · exact (runtime_apply_unspecific R k).2 ⟨hc, (hI _ (mapGet_mem _ _ _ hR)).symm⟩

theorem filter_sharedRuntimeRisks (api : TypesAPI) (input : Model)
    (hI : ∀ kv ∈ input.SharedRuntimes, kv.2.Id = kv.1) (pfx details : String)
    (ids : List String) (hn : ids.Nodup) (k : String) (R : SharedRuntime)
    (hR : mapGet input.SharedRuntimes k = some R) :
    risksOfSharedRuntime (sharedRuntimeRisks api input pfx details ids) k
      = if k ∈ ids then [createRiskForSharedRuntime api input R pfx details] else [] := by
  unfold risksOfSharedRuntime
  induction ids with
  | nil => simp [sharedRuntimeRisks]
  | cons id rest ih =>
    have hrest := ih (List.nodup_cons.1 hn).2
    have hnot : id ∉ rest := (List.nodup_cons.1 hn).1
    unfold sharedRuntimeRisks at hrest ⊢
    by_cases hid : id = k
    · subst hid
      have hk : R.Id = id := hI _ (mapGet_mem _ _ _ hR)
      rw [List.filterMap_cons_some (by rw [hR]; rfl), List.filter_cons_of_pos (by
        show ((createRiskForSharedRuntime api input R pfx details).MostRelevantSharedRuntimeId
          == id) = true
        exact beq_iff_eq.2 hk), hrest, if_neg hnot, if_pos (List.mem_cons_self _ _)]
    · have hmem : k ∈ id :: rest ↔ k ∈ rest := by
        simp [List.mem_cons, Ne.symm hid]
      cases hg : mapGet input.SharedRuntimes id with
      | none =>
        rw [List.filterMap_cons_none (by rw [hg]; rfl), hrest]
        simp only [hmem]
      | some sr =>
        have hs : sr.Id = id := hI _ (mapGet_mem _ _ _ hg)
        rw [List.filterMap_cons_some (by rw [hg]; rfl), List.filter_cons_of_neg (by
          show ¬ ((createRiskForSharedRuntime api input sr pfx details
            ).MostRelevantSharedRuntimeId == k) = true
          rw [beq_iff_eq]
          show ¬ sr.Id = k
          rw [hs]
          exact hid), hrest]
        simp only [hmem]

theorem risksOfSharedRuntime_append (l1 l2 : List Risk) (k : String) :
    risksOfSharedRuntime (l1 ++ l2) k = risksOfSharedRuntime l1 k ++ risksOfSharedRuntime l2 k := by
  unfold risksOfSharedRuntime
  exact List.filter_append _ _

theorem risksOfSharedRuntime_nil_of (l : List Risk) (k : String) (hk : k ≠ "")
    (h : ∀ r ∈ l, r.MostRelevantSharedRuntimeId = "") : risksOfSharedRuntime l k = [] := by
  unfold risksOfSharedRuntime
  rw [List.filter_eq_nil_iff]
  intro r hr
  rw [h r hr]
  simpa using Ne.symm hk

theorem trustBoundaryRisks_runtimeId (api : TypesAPI) (input : Model) (pfx details : String)
    (ids : List String) (r : Risk) (hr : r ∈ trustBoundaryRisks api input pfx details ids) :
    r.MostRelevantSharedRuntimeId = "" := by
  unfold trustBoundaryRisks at hr
  obtain ⟨id, _, h⟩ := List.mem_filterMap.1 hr
  cases hg : mapGet input.TrustBoundaries id with
  | none => simp [hg] at h
  | some tb =>
    simp only [hg, Option.map_some', Option.some.injEq] at h
    rw [← h]
    rfl

theorem mostSensitiveRisks_runtimeId (api : TypesAPI) (ord : List String → List String)
    (input : Model) (added : Bool) (techAssets : List String) (pfx details : String) (r : Risk)
    (hr : r ∈ mostSensitiveRisks api ord input added techAssets pfx details) :
    r.MostRelevantSharedRuntimeId = "" := by
  unfold mostSensitiveRisks at hr
  split_ifs at hr
  · exact absurd hr (List.not_mem_nil _)
  · split at hr
    · rw [List.mem_singleton.1 hr]
      rfl
    · exact absurd hr (List.not_mem_nil _)

theorem subtagRisksOfId_runtimeId (api : TypesAPI) (input : Model) (id : String) (r : Risk)
    (hr : r ∈ subtagRisksOfId api input id) : r.MostRelevantSharedRuntimeId = "" := by
  unfold subtagRisksOfId at hr
  split at hr
  · exact absurd hr (List.not_mem_nil _)
  · rw [List.mem_append] at hr
    rcases hr with h | h <;> split_ifs at h
    · rw [List.mem_singleton.1 h]
      rfl
    · exact absurd h (List.not_mem_nil _)
    · rw [List.mem_singleton.1 h]
      rfl
    · exact absurd h (List.not_mem_nil _)

/-- C35: on a well formed model whose shared runtime keys are pairwise distinct, the rule
returns, and for every shared runtime `R` stored under a non-empty key `k` the returned risks
with `MostRelevantSharedRuntimeId = k` are exactly: the one unspecific risk
"missing-cloud-hardening@k" when `R` carries no supported tag, and otherwise one risk per
provider whose base tag `R` carries (at least one) and no unspecific risk; cloud relation of
the runtime or of the assets running on it plays no part. -/
theorem C35_shared_runtime_risks (api : TypesAPI) (ord : List String → List String)
    (hord : ∀ s, (ord s).Perm s) (input : Model) (hW : cloudWellFormed api input)
    (hN : (mapKeys input.SharedRuntimes).Nodup) (k : String) (R : SharedRuntime)
    (hR : mapGet input.SharedRuntimes k = some R) (hk : k ≠ "") :
    ∃ risks, MissingCloudHardeningRule.GenerateRisks api ord input = some (risks, none) ∧
      risksOfSharedRuntime risks k = expectedSharedRuntimeRisks api input R ∧
      risksOfSharedRuntime risks k ≠ [] ∧
      (createRiskForSharedRuntime api input R "" "").SyntheticId
        = "missing-cloud-hardening@" ++ k ∧
      (R.IsTaggedWithAny SupportedTags = true →
        createRiskForSharedRuntime api input R "" "" ∉ risksOfSharedRuntime risks k) := by
  obtain ⟨risks, hrisks⟩ := cloud_generateRisks_total api ord hord input hW
  obtain ⟨b, hb, hemit, _⟩ := generateRisks_cloud_inv api ord input risks none hrisks
  have hnd := allNodup_classify api ord input b hb
  have hbe := classify_eq_ops api ord input b hb
  have hI := hW.2.1.2.2
  have hRid : R.Id = k := hI _ (mapGet_mem _ _ _ hR)
  obtain ⟨n1, _, _, n4, _, _, n7, _, _, n10, _, _, n13, _, _, _⟩ := hnd
  have ordNodup : ∀ s : List String, s.Nodup → (ord s).Nodup :=
    fun s hs => (hord s).nodup_iff.2 hs
  have hprov : ∀ p : Provider, k ∈ ord (b.sharedRuntimeIDs p) ↔
      R.IsTaggedWithAny SupportedTags = true ∧ isTaggedWithBaseTag R.Tags p.baseTag = true := by
    intro p
    rw [(hord _).mem_iff, ← classified_sharedRuntimeIDs api input hI hN k R hR p, hbe]
    cases p <;> rfl
  have hun : k ∈ ord b.sharedRuntimesWithUnspecificCloudRisks ↔
      ¬ R.IsTaggedWithAny SupportedTags = true := by
    rw [(hord _).mem_iff, ← classified_sharedRuntimesUnspecific api input hI hN k R hR]
    have hA := classified_sharedRuntimeIDs api input hI hN k R hR .AWS
    have hB := classified_sharedRuntimeIDs api input hI hN k R hR .Azure
    have hC := classified_sharedRuntimeIDs api input hI hN k R hR .GCP
    have hD := classified_sharedRuntimeIDs api input hI hN k R hR .OCP
    have hU := classified_sharedRuntimesUnspecific api input hI hN k R hR
    rw [hbe]
    show k ∈ deleteAll ord _ (deleteAll ord _ (deleteAll ord _ (deleteAll ord _ _))) ↔ _
    rw [mem_deleteAll_iff ord hord, mem_deleteAll_iff ord hord, mem_deleteAll_iff ord hord,
      mem_deleteAll_iff ord hord]
    constructor
    · intro h
      exact h.1.1.1.1
    · intro h
      have ht := hU.1 h
      exact ⟨⟨⟨⟨h, fun hx => ht (hA.1 hx).1⟩, fun hx => ht (hB.1 hx).1⟩,
        fun hx => ht (hC.1 hx).1⟩, fun hx => ht (hD.1 hx).1⟩
  have hfilter : risksOfSharedRuntime risks k =
      (if k ∈ ord b.sharedRuntimeIDsAWS then
        [createRiskForSharedRuntime api input R "AWS" "CIS Benchmark for AWS"] else [])
      ++ (if k ∈ ord b.sharedRuntimeIDsAzure then
        [createRiskForSharedRuntime api input R "Azure" "CIS Benchmark for Microsoft Azure"]
        else [])
      ++ (if k ∈ ord b.sharedRuntimeIDsGCP then
        [createRiskForSharedRuntime api input R "GCP"
          "CIS Benchmark for Google Cloud Computing Platform"] else [])
      ++ (if k ∈ ord b.sharedRuntimeIDsOCP then
        [createRiskForSharedRuntime api input R "OCP"
          "Vendor Best Practices for Oracle Cloud Platform"] else [])
      ++ (if k ∈ ord b.sharedRuntimesWithUnspecificCloudRisks then
        [createRiskForSharedRuntime api input R "" ""] else []) := by
    rw [emit_eq_emitted api ord input b risks hemit]
    unfold emittedRisks
    rw [risksOfSharedRuntime_append, risksOfSharedRuntime_append, risksOfSharedRuntime_append]
    have hT : risksOfSharedRuntime (emittedTrustBoundaryRisks api ord input b) k = [] := by
      apply risksOfSharedRuntime_nil_of _ _ hk
      intro r hr
      unfold emittedTrustBoundaryRisks at hr
      simp only [List.mem_append] at hr
      rcases hr with (((h | h) | h) | h) | h <;>
        exact trustBoundaryRisks_runtimeId api input _ _ _ r h
    have hM : risksOfSharedRuntime (emittedMostSensitiveRisks api ord input b) k = [] := by
      apply risksOfSharedRuntime_nil_of _ _ hk
      intro r hr
      unfold emittedMostSensitiveRisks at hr
      simp only [List.mem_append] at hr
      rcases hr with ((h | h) | h) | h <;>
        exact mostSensitiveRisks_runtimeId api ord input _ _ _ _ r h
    have hS : risksOfSharedRuntime (emittedSubtagRisks api ord input b) k = [] := by
      apply risksOfSharedRuntime_nil_of _ _ hk
      intro r hr
      unfold emittedSubtagRisks at hr
      obtain ⟨id, _, h⟩ := List.mem_flatMap.1 hr
      exact subtagRisksOfId_runtimeId api input id r h
    rw [hT, hM, hS, List.append_nil, List.append_nil, List.append_nil]
    unfold emittedSharedRuntimeRisks
    rw [risksOfSharedRuntime_append, risksOfSharedRuntime_append, risksOfSharedRuntime_append,
      risksOfSharedRuntime_append,
      filter_sharedRuntimeRisks api input hI _ _ _ (ordNodup _ n4) k R hR,
      filter_sharedRuntimeRisks api input hI _ _ _ (ordNodup _ n7) k R hR,
      filter_sharedRuntimeRisks api input hI _ _ _ (ordNodup _ n10) k R hR,
      filter_sharedRuntimeRisks api input hI _ _ _ (ordNodup _ n13) k R hR,
      filter_sharedRuntimeRisks api input hI _ _ _ (ordNodup _ n1) k R hR]
  have hA := hprov .AWS
  have hB := hprov .Azure
  have hC := hprov .GCP
  have hD := hprov .OCP
  simp only [Buckets.sharedRuntimeIDs, Provider.baseTag] at hA hB hC hD
  have hexp : risksOfSharedRuntime risks k = expectedSharedRuntimeRisks api input R := by
    rw [hfilter]
    unfold expectedSharedRuntimeRisks
    simp only [hA, hB, hC, hD, hun]
    by_cases ht : R.IsTaggedWithAny SupportedTags = true
    · simp only [ht, true_and, not_true_eq_false, if_true, if_false, List.append_nil]
      cases h1 : isTaggedWithBaseTag R.Tags "aws" <;>
        cases h2 : isTaggedWithBaseTag R.Tags "azure" <;>
        cases h3 : isTaggedWithBaseTag R.Tags "gcp" <;>
        cases h4 : isTaggedWithBaseTag R.Tags "ocp" <;>
        simp [List.filter_cons, Provider.baseTag, Provider.name, Provider.details, h1, h2, h3,
          h4]
    · simp [ht]
  refine ⟨risks, hrisks, hexp, ?_, ?_, ?_⟩
  · rw [hexp]
    unfold expectedSharedRuntimeRisks
    by_cases ht : R.IsTaggedWithAny SupportedTags = true
    · rw [if_pos ht]
      have hbase := supported_has_base R.Tags ht
      intro hnil
      rw [List.map_eq_nil_iff, List.filter_eq_nil_iff] at hnil
      rcases hbase with h | h | h | h
      · exact hnil Provider.AWS (by simp) h
      · exact hnil Provider.Azure (by simp) h
      · exact hnil Provider.GCP (by simp) h
      · exact hnil Provider.OCP (by simp) h
    · rw [if_neg ht]
      simp
  · show "missing-cloud-hardening" ++ "@" ++ R.Id ++ cloudIdSuffix "" = _
    rw [hRid, show cloudIdSuffix "" = "" from by decide, String.append_empty]
    apply String.ext
    simp only [String.data_append, List.append_assoc]
    rfl
  · intro ht hmem
    rw [hexp] at hmem
    unfold expectedSharedRuntimeRisks at hmem
    rw [if_pos ht] at hmem
    obtain ⟨p, _, hp⟩ := List.mem_map.1 hmem
    have := congrArg Risk.SyntheticId hp
    have h2 : "missing-cloud-hardening" ++ "@" ++ R.Id ++ cloudIdSuffix p.name
        = "missing-cloud-hardening" ++ "@" ++ R.Id ++ cloudIdSuffix "" := this
    have h3 := congrArg String.data h2
    simp only [String.data_append, List.append_cancel_left_eq] at h3
    cases p <;> exact absurd h3 (by decide)

theorem cloudWellFormed_threeRuntimesModel : cloudWellFormed specAPI threeRuntimesModel := by
  refine ⟨by decide, by decide, by decide, by decide, fun _ => 0, fun _ => Nat.zero_le _, ?_⟩
  intro tb p h
  simp [specAPI, threeRuntimesModel] at h

/-- An instance of C35: `threeRuntimesModel` has no cloud boundary and no asset; its runtime
"multi", tagged `aws:ec2` and `gcp`, gets the AWS and the GCP risk, "azr" the Azure risk, and
the untagged runtime "plain" the unspecific risk "missing-cloud-hardening@plain". -/
theorem C35_shared_runtime_risks_witness :
    cloudWellFormed specAPI threeRuntimesModel ∧
    (mapKeys threeRuntimesModel.SharedRuntimes).Nodup ∧
    mapGet threeRuntimesModel.SharedRuntimes "multi"
      = some (emptyRuntime "multi" ["aws:ec2", "gcp"]) ∧
    "multi" ≠ "" ∧
    (MissingCloudHardeningRule.GenerateRisks specAPI id threeRuntimesModel).map
        (fun res => (res.1.map (fun r => (r.MostRelevantSharedRuntimeId, r.SyntheticId)), res.2))
      = some ([("multi", "missing-cloud-hardening@multi@aws"),
          ("azr", "missing-cloud-hardening@azr@azure"),
          ("multi", "missing-cloud-hardening@multi@gcp"),
          ("plain", "missing-cloud-hardening@plain")], none) ∧
    ∃ risks, MissingCloudHardeningRule.GenerateRisks specAPI id threeRuntimesModel
        = some (risks, none) ∧
      risksOfSharedRuntime risks "multi"
        = expectedSharedRuntimeRisks specAPI threeRuntimesModel
            (emptyRuntime "multi" ["aws:ec2", "gcp"]) ∧
      risksOfSharedRuntime risks "multi" ≠ [] ∧
      (createRiskForSharedRuntime specAPI threeRuntimesModel
          (emptyRuntime "multi" ["aws:ec2", "gcp"]) "" "").SyntheticId
        = "missing-cloud-hardening@" ++ "multi" ∧
      ((emptyRuntime "multi" ["aws:ec2", "gcp"]).IsTaggedWithAny SupportedTags = true →
        createRiskForSharedRuntime specAPI threeRuntimesModel
          (emptyRuntime "multi" ["aws:ec2", "gcp"]) "" "" ∉ risksOfSharedRuntime risks "multi") :=
  ⟨cloudWellFormed_threeRuntimesModel, by decide, by decide, by decide, by decide,
    C35_shared_runtime_risks specAPI id (fun _ => List.Perm.refl _) threeRuntimesModel
      cloudWellFormed_threeRuntimesModel (by decide) "multi"
      (emptyRuntime "multi" ["aws:ec2", "gcp"]) (by decide) (by decide)⟩

/-! ## Missing cloud hardening rule: the sub-tag specific risks -/

theorem subtag_bucket_of_op (op : ClassifyOp) (x : String)
    (h : x ∈ (op.apply Buckets.empty).get .techAssetIDsWithSubtagSpecificCloudRisks) :
    ∃ tA tags, op = ClassifyOp.asset tA tags ∧ tA.IsTaggedWithAny specificSubTagsAWS = true
      ∧ x = tA.Id := by
  cases op with
  | asset tA tags =>
    change x ∈ (addAccordingToBaseTag tA tags Buckets.empty).get _ at h
    rw [addAccordingToBaseTag_nf] at h
    simp only [Buckets.get, Buckets.empty] at h
    split_ifs at h with hc
    · exact ⟨tA, tags, rfl, hc, by simpa using h⟩
    · exact absurd h (List.not_mem_nil _)
  | unspecific id => exact absurd h (List.not_mem_nil _)
  | boundary tb =>
    change x ∈ (addTrustBoundaryAccordingToBaseTag tb Buckets.empty).get _ at h
    rw [addTrustBoundary_nf] at h
    exact absurd h (List.not_mem_nil _)
  | runtime sr =>
    change x ∈ (addSharedRuntimeAccordingToBaseTag sr Buckets.empty).get _ at h
    rw [addSharedRuntime_nf] at h
    exact absurd h (List.not_mem_nil _)

theorem subtag_is_supported (tags : List String)
    (h : containsCaseInsensitiveAny tags specificSubTagsAWS = true) :
    containsCaseInsensitiveAny tags SupportedTags = true := by
  unfold containsCaseInsensitiveAny at h ⊢
  rw [List.any_eq_true] at h ⊢
  obtain ⟨n, hn, h2⟩ := h
  refine ⟨n, hn, ?_⟩
  rw [List.any_eq_true] at h2 ⊢
  obtain ⟨c, hc, he⟩ := h2
  exact ⟨c, by unfold SupportedTags; exact List.mem_append_right _ hc, he⟩

theorem classified_subtag (api : TypesAPI) (input : Model)
    (hI : ∀ kv ∈ input.TechnicalAssets, kv.2.Id = kv.1)
    (hN : (mapKeys input.TechnicalAssets).Nodup) (kA : String) (A : TechnicalAsset)
    (hA : mapGet input.TechnicalAssets kA = some A) :
    kA ∈ (applyOps (classifyOps api input) Buckets.empty).techAssetIDsWithSubtagSpecificCloudRisks
      ↔ A.IsTaggedWithAny specificSubTagsAWS = true := by
  change kA ∈ (applyOps (classifyOps api input) Buckets.empty).get
    .techAssetIDsWithSubtagSpecificCloudRisks ↔ _
  rw [mem_applyOps_get]
  constructor
  · rintro (h | ⟨op, hop, h⟩)
    · exact absurd h (List.not_mem_nil _)
    · obtain ⟨tA, tags, rfl, ht, hk⟩ := subtag_bucket_of_op op kA h
      obtain ⟨k2, hk2⟩ := asset_of_mem_classifyOps api input tA tags hop
      have e1 : tA.Id = k2 := hI _ hk2
      have : tA = A := mem_of_keys_nodup _ hN (k2, tA) hk2 A (by
        show mapGet input.TechnicalAssets k2 = some A
        rw [← e1, ← hk]
        exact hA)
      rw [← this]
      exact ht
  · intro ht
    refine Or.inr ⟨ClassifyOp.asset A A.Tags, ?_, ?_⟩
    · rw [mem_classifyOps]
      refine Or.inr (Or.inl ⟨A, ?_, rfl⟩)
      unfold TechnicalAssetsTaggedWithAny
      exact List.mem_filter.2 ⟨List.mem_map.2 ⟨(kA, A), mapGet_mem _ _ _ hA, rfl⟩,
        subtag_is_supported A.Tags ht⟩
    · change kA ∈ (addAccordingToBaseTag A A.Tags Buckets.empty).get _
      rw [addAccordingToBaseTag_nf]
      simp only [Buckets.get, Buckets.empty]
      rw [if_pos ht, hI _ (mapGet_mem _ _ _ hA)]
      simp

theorem cloudIdSuffix_of_syntheticId (id p1 p2 : String)
    (h : "missing-cloud-hardening" ++ "@" ++ id ++ cloudIdSuffix p1
      = "missing-cloud-hardening" ++ "@" ++ id ++ cloudIdSuffix p2) :
    cloudIdSuffix p1 = cloudIdSuffix p2 := by
  have h3 := congrArg String.data h
  simp only [String.data_append, List.append_cancel_left_eq] at h3
  exact String.ext h3

theorem subtag_risk_not_sharedRuntime (api : TypesAPI) (input : Model) (A : TechnicalAsset)
    (pfx details : String) (hp : pfx = "EC2" ∨ pfx = "S3") (sr : SharedRuntime)
    (p d : String) (hq : p ∈ ["AWS", "Azure", "GCP", "OCP", ""]) :
    createRiskForTechnicalAsset api input A pfx details
      ≠ createRiskForSharedRuntime api input sr p d := by
  intro h
  have h1 : A.Id = "" := congrArg Risk.MostRelevantTechnicalAssetId h
  have h2 : "" = sr.Id := congrArg Risk.MostRelevantSharedRuntimeId h
  have h3 : "missing-cloud-hardening" ++ "@" ++ A.Id ++ cloudIdSuffix pfx
      = "missing-cloud-hardening" ++ "@" ++ sr.Id ++ cloudIdSuffix p :=
    congrArg Risk.SyntheticId h
  rw [h1, ← h2] at h3
  have h4 := cloudIdSuffix_of_syntheticId _ _ _ h3
  simp only [List.mem_cons, List.mem_singleton, List.not_mem_nil, or_false] at hq
  rcases hp with rfl | rfl <;> rcases hq with rfl | rfl | rfl | rfl | rfl <;>
    exact absurd h4 (by decide)

theorem subtag_risk_not_trustBoundary (api : TypesAPI) (input : Model) (A : TechnicalAsset)
    (pfx details : String) (hp : pfx = "EC2" ∨ pfx = "S3") (tb : TrustBoundary)
    (p d : String) (hq : p ∈ ["AWS", "Azure", "GCP", "OCP", ""]) :
    createRiskForTechnicalAsset api input A pfx details
      ≠ createRiskForTrustBoundary api input tb p d := by
  intro h
  have h1 : A.Id = "" := congrArg Risk.MostRelevantTechnicalAssetId h
  have h2 : "" = tb.Id := congrArg Risk.MostRelevantTrustBoundaryId h
  have h3 : "missing-cloud-hardening" ++ "@" ++ A.Id ++ cloudIdSuffix pfx
      = "missing-cloud-hardening" ++ "@" ++ tb.Id ++ cloudIdSuffix p :=
    congrArg Risk.SyntheticId h
  rw [h1, ← h2] at h3
  have h4 := cloudIdSuffix_of_syntheticId _ _ _ h3
  simp only [List.mem_cons, List.mem_singleton, List.not_mem_nil, or_false] at hq
  rcases hp with rfl | rfl <;> rcases hq with rfl | rfl | rfl | rfl | rfl <;>
    exact absurd h4 (by decide)

theorem technicalAsset_risk_pfx (api : TypesAPI) (input : Model) (A tX : TechnicalAsset)
    (pfx details p d : String)
    (h : createRiskForTechnicalAsset api input A pfx details
      = createRiskForTechnicalAsset api input tX p d) :
    A.Id = tX.Id ∧ cloudIdSuffix pfx = cloudIdSuffix p := by
  have h1 : A.Id = tX.Id := congrArg Risk.MostRelevantTechnicalAssetId h
  have h3 : "missing-cloud-hardening" ++ "@" ++ A.Id ++ cloudIdSuffix pfx
      = "missing-cloud-hardening" ++ "@" ++ tX.Id ++ cloudIdSuffix p :=
    congrArg Risk.SyntheticId h
  rw [← h1] at h3
  exact ⟨h1, cloudIdSuffix_of_syntheticId _ _ _ h3⟩

theorem subtag_risk_mem_emitted (api : TypesAPI) (ord : List String → List String)
    (input : Model) (b : Buckets) (A : TechnicalAsset) (pfx details : String)
    (hp : pfx = "EC2" ∨ pfx = "S3")
    (h : createRiskForTechnicalAsset api input A pfx details ∈ emittedRisks api ord input b) :
    ∃ id ∈ ord b.techAssetIDsWithSubtagSpecificCloudRisks, ∃ tX,
      mapGet input.TechnicalAssets id = some tX ∧ tX.Id = A.Id ∧
      (pfx = "EC2" →
        isTechnicalAssetTaggedWithAnyTraversingUp api input tX ["aws:ec2"] = some true) ∧
      (pfx = "S3" →
        isTechnicalAssetTaggedWithAnyTraversingUp api input tX ["aws:s3"] = some true) := by
  unfold emittedRisks at h
  simp only [List.mem_append] at h
  rcases h with ((h | h) | h) | h
  · exfalso
    unfold emittedSharedRuntimeRisks at h
    simp only [List.mem_append] at h
    have hseg : ∀ p d ids, p ∈ ["AWS", "Azure", "GCP", "OCP", ""] →
        createRiskForTechnicalAsset api input A pfx details
          ∈ sharedRuntimeRisks api input p d ids → False := by
      intro p d ids hq hm
      unfold sharedRuntimeRisks at hm
      obtain ⟨id, _, he⟩ := List.mem_filterMap.1 hm
      cases hg : mapGet input.SharedRuntimes id with
      | none => simp [hg] at he
      | some sr =>
        simp only [hg, Option.map_some', Option.some.injEq] at he
        exact subtag_risk_not_sharedRuntime api input A pfx details hp sr p d hq he.symm
    rcases h with (((h | h) | h) | h) | h
    · exact hseg _ _ _ (by simp) h
    · exact hseg _ _ _ (by simp) h
    · exact hseg _ _ _ (by simp) h
    · exact hseg _ _ _ (by simp) h
    · exact hseg _ _ _ (by simp) h
  · exfalso
    unfold emittedTrustBoundaryRisks at h
    simp only [List.mem_append] at h
    have hseg : ∀ p d ids, p ∈ ["AWS", "Azure", "GCP", "OCP", ""] →
        createRiskForTechnicalAsset api input A pfx details
          ∈ trustBoundaryRisks api input p d ids → False := by
      intro p d ids hq hm
      unfold trustBoundaryRisks at hm
      obtain ⟨id, _, he⟩ := List.mem_filterMap.1 hm
      cases hg : mapGet input.TrustBoundaries id with
      | none => simp [hg] at he
      | some tb =>
        simp only [hg, Option.map_some', Option.some.injEq] at he
        exact subtag_risk_not_trustBoundary api input A pfx details hp tb p d hq he.symm
    rcases h with (((h | h) | h) | h) | h
    · exact hseg _ _ _ (by simp) h
    · exact hseg _ _ _ (by simp) h
    · exact hseg _ _ _ (by simp) h
    · exact hseg _ _ _ (by simp) h
    · exact hseg _ _ _ (by simp) h
  · exfalso
    unfold emittedMostSensitiveRisks at h
    simp only [List.mem_append] at h
    have hseg : ∀ added ids p d, p ∈ ["AWS", "Azure", "GCP", "OCP"] →
        createRiskForTechnicalAsset api input A pfx details
          ∈ mostSensitiveRisks api ord input added ids p d → False := by
      intro added ids p d hq hm
      unfold mostSensitiveRisks at hm
      split_ifs at hm
      · exact absurd hm (List.not_mem_nil _)
      · split at hm
        · have he := List.mem_singleton.1 hm
          have h4 := (technicalAsset_risk_pfx api input A _ pfx details p d he).2
          simp only [List.mem_cons, List.mem_singleton, List.not_mem_nil, or_false] at hq
          rcases hp with rfl | rfl <;> rcases hq with rfl | rfl | rfl | rfl <;>
            exact absurd h4 (by decide)
        · exact absurd hm (List.not_mem_nil _)
    rcases h with ((h | h) | h) | h
    · exact hseg _ _ _ _ (by simp) h
    · exact hseg _ _ _ _ (by simp) h
    · exact hseg _ _ _ _ (by simp) h
    · exact hseg _ _ _ _ (by simp) h
  · unfold emittedSubtagRisks at h
    obtain ⟨id, hid, hm⟩ := List.mem_flatMap.1 h
    unfold subtagRisksOfId at hm
    cases hg : mapGet input.TechnicalAssets id with
    | none => simp [hg] at hm
    | some tX =>
      simp only [hg, List.mem_append] at hm
      refine ⟨id, hid, tX, hg, ?_⟩
      rcases hm with hm | hm
      · split_ifs at hm with hc
        · have he := List.mem_singleton.1 hm
          obtain ⟨h1, h4⟩ := technicalAsset_risk_pfx api input A tX pfx details _ _ he
          refine ⟨h1.symm, fun _ => hc, fun hs => ?_⟩
          subst hs
          exact absurd h4 (by decide)
        · exact absurd hm (List.not_mem_nil _)
      · split_ifs at hm with hc
        · have he := List.mem_singleton.1 hm
          obtain ⟨h1, h4⟩ := technicalAsset_risk_pfx api input A tX pfx details _ _ he
          refine ⟨h1.symm, fun hs => ?_, fun _ => hc⟩
          subst hs
          exact absurd h4 (by decide)
        · exact absurd hm (List.not_mem_nil _)

/-- C32: on a well formed model whose technical asset keys are pairwise distinct, the rule
returns, and for every technical asset `A` stored under the key `kA` it emits the EC2 sub-tag
risk of `A` (SyntheticId "missing-cloud-hardening@kA@ec2") if and only if the own tags of `A`
include a tag of the fixed AWS sub-tag list and `aws:ec2` applies to `A` by traversing up;
likewise the S3 risk with `aws:s3`; and no EC2 or S3 risk is scoped to an asset whose own tags
contain no listed AWS sub-tag. -/
theorem C32_subtag_risk_iff (api : TypesAPI) (ord : List String → List String)
    (hord : ∀ s, (ord s).Perm s) (input : Model) (hW : cloudWellFormed api input)
    (hN : (mapKeys input.TechnicalAssets).Nodup) (kA : String) (A : TechnicalAsset)
    (hA : mapGet input.TechnicalAssets kA = some A) :
    ∃ risks, MissingCloudHardeningRule.GenerateRisks api ord input = some (risks, none) ∧
      (createRiskForTechnicalAsset api input A "EC2" "CIS Benchmark for Amazon Linux" ∈ risks ↔
        A.IsTaggedWithAny specificSubTagsAWS = true
          ∧ taggedTraversingUp api input A ["aws:ec2"]) ∧
      (createRiskForTechnicalAsset api input A "S3" "Security Best Practices for AWS S3" ∈ risks ↔
        A.IsTaggedWithAny specificSubTagsAWS = true
          ∧ taggedTraversingUp api input A ["aws:s3"]) ∧
      (createRiskForTechnicalAsset api input A "EC2" "CIS Benchmark for Amazon Linux").SyntheticId
        = "missing-cloud-hardening@" ++ kA ++ "@ec2" ∧
      (createRiskForTechnicalAsset api input A "S3"
          "Security Best Practices for AWS S3").SyntheticId
        = "missing-cloud-hardening@" ++ kA ++ "@s3" ∧
      (∀ pfx details, pfx = "EC2" ∨ pfx = "S3" →
        createRiskForTechnicalAsset api input A pfx details ∈ risks →
        A.IsTaggedWithAny specificSubTagsAWS = true) := by
  obtain ⟨risks, hrisks⟩ := cloud_generateRisks_total api ord hord input hW
  obtain ⟨b, hb, hemit, _⟩ := generateRisks_cloud_inv api ord input risks none hrisks
  have hbe := classify_eq_ops api ord input b hb
  have hre := emit_eq_emitted api ord input b risks hemit
  have hI := hW.2.1.1
  have hAid : A.Id = kA := hI _ (mapGet_mem _ _ _ hA)
  have hsub : kA ∈ ord b.techAssetIDsWithSubtagSpecificCloudRisks ↔
      A.IsTaggedWithAny specificSubTagsAWS = true := by
    rw [(hord _).mem_iff, ← classified_subtag api input hI hN kA A hA, hbe]
    rfl
  obtain ⟨rE, hE⟩ := traversingUp_asset_total api input hW kA A hA ["aws:ec2"]
  obtain ⟨rS, hS⟩ := traversingUp_asset_total api input hW kA A hA ["aws:s3"]
  have hEi := traversingUp_asset_iff api input A ["aws:ec2"] rE hE
  have hSi := traversingUp_asset_iff api input A ["aws:s3"] rS hS
  have hback : ∀ pfx details, pfx = "EC2" ∨ pfx = "S3" →
      createRiskForTechnicalAsset api input A pfx details ∈ risks →
      kA ∈ ord b.techAssetIDsWithSubtagSpecificCloudRisks ∧
      (pfx = "EC2" →
        isTechnicalAssetTaggedWithAnyTraversingUp api input A ["aws:ec2"] = some true) ∧
      (pfx = "S3" →
        isTechnicalAssetTaggedWithAnyTraversingUp api input A ["aws:s3"] = some true) := by
    intro pfx details hp hm
    rw [hre] at hm
    obtain ⟨id, hid, tX, hg, hx, h1, h2⟩ :=
      subtag_risk_mem_emitted api ord input b A pfx details hp hm
    have hidk : id = kA := by
      have e1 : tX.Id = id := hI _ (mapGet_mem _ _ _ hg)
      rw [← e1, hx, hAid]
    subst hidk
    rw [hA] at hg
    have : A = tX := Option.some.inj hg
    subst this
    exact ⟨hid, h1, h2⟩
  have hfwd : kA ∈ ord b.techAssetIDsWithSubtagSpecificCloudRisks →
      ∀ r ∈ subtagRisksOfId api input kA, r ∈ risks := by
    intro hk r hr
    rw [hre]
    unfold emittedRisks emittedSubtagRisks
    exact List.mem_append_right _ (List.mem_flatMap.2 ⟨kA, hk, hr⟩)
  refine ⟨risks, hrisks, ?_, ?_, ?_, ?_, ?_⟩
  · constructor
    · intro hm
      obtain ⟨hk, h1, _⟩ := hback _ _ (Or.inl rfl) hm
      have h1' := h1 rfl
      rw [hE] at h1'
      exact ⟨hsub.1 hk, hEi.1 (Option.some.inj h1')⟩
    · rintro ⟨ht, htr⟩
      have hr : rE = true := hEi.2 htr
      apply hfwd (hsub.2 ht)
      unfold subtagRisksOfId
      simp only [hA, hE, hr, if_true]
      exact List.mem_append_left _ (List.mem_singleton.2 rfl)
  · constructor
    · intro hm
      obtain ⟨hk, _, h2⟩ := hback _ _ (Or.inr rfl) hm
      have h2' := h2 rfl
      rw [hS] at h2'
      exact ⟨hsub.1 hk, hSi.1 (Option.some.inj h2')⟩
    · rintro ⟨ht, htr⟩
      have hr : rS = true := hSi.2 htr
      apply hfwd (hsub.2 ht)
      unfold subtagRisksOfId
      simp only [hA, hS, hr, if_true]
      exact List.mem_append_right _ (List.mem_singleton.2 rfl)
  · show "missing-cloud-hardening" ++ "@" ++ A.Id ++ cloudIdSuffix "EC2" = _
    rw [hAid, syntheticId_suffix]
    rfl
  · show "missing-cloud-hardening" ++ "@" ++ A.Id ++ cloudIdSuffix "S3" = _
    rw [hAid, syntheticId_suffix]
    rfl
  · intro pfx details hp hm
    exact hsub.1 (hback pfx details hp hm).1

theorem cloudWellFormed_nestedCloudModel : cloudWellFormed specAPI nestedCloudModel := by
  obtain ⟨rank, hbound, _, hrank⟩ :=
    parentsAcyclic_rank specAPI nestedCloudModel parentsAcyclic_nestedCloudModel
  exact ⟨by decide, by decide, by decide, by decide, rank, hbound, hrank⟩

/-- An instance of C32 in `nestedCloudModel`: the asset "vm" carries the sub-tag `aws:ebs` and
inherits `aws:ec2` from the boundary "outer" above its boundary "inner"; the rule emits
"missing-cloud-hardening@vm@ec2" and no S3 risk, and nothing for the untagged asset "plain". -/
theorem C32_subtag_risk_iff_witness :
    cloudWellFormed specAPI nestedCloudModel ∧
    (mapKeys nestedCloudModel.TechnicalAssets).Nodup ∧
    mapGet nestedCloudModel.TechnicalAssets "vm" = some vmNested ∧
    (MissingCloudHardeningRule.GenerateRisks specAPI id nestedCloudModel).map
        (fun res => (res.1.map (fun r => r.SyntheticId), res.2))
      = some (["missing-cloud-hardening@outer@aws", "missing-cloud-hardening@inner",
          "missing-cloud-hardening@vm@ec2"], none) ∧
    ∃ risks, MissingCloudHardeningRule.GenerateRisks specAPI id nestedCloudModel
        = some (risks, none) ∧
      (createRiskForTechnicalAsset specAPI nestedCloudModel vmNested "EC2"
          "CIS Benchmark for Amazon Linux" ∈ risks ↔
        vmNested.IsTaggedWithAny specificSubTagsAWS = true
          ∧ taggedTraversingUp specAPI nestedCloudModel vmNested ["aws:ec2"]) ∧
      (createRiskForTechnicalAsset specAPI nestedCloudModel vmNested "S3"
          "Security Best Practices for AWS S3" ∈ risks ↔
        vmNested.IsTaggedWithAny specificSubTagsAWS = true
          ∧ taggedTraversingUp specAPI nestedCloudModel vmNested ["aws:s3"]) ∧
      (createRiskForTechnicalAsset specAPI nestedCloudModel vmNested "EC2"
          "CIS Benchmark for Amazon Linux").SyntheticId
        = "missing-cloud-hardening@" ++ "vm" ++ "@ec2" ∧
      (createRiskForTechnicalAsset specAPI nestedCloudModel vmNested "S3"
          "Security Best Practices for AWS S3").SyntheticId
        = "missing-cloud-hardening@" ++ "vm" ++ "@s3" ∧
      (∀ pfx details, pfx = "EC2" ∨ pfx = "S3" →
        createRiskForTechnicalAsset specAPI nestedCloudModel vmNested pfx details ∈ risks →
        vmNested.IsTaggedWithAny specificSubTagsAWS = true) :=
  ⟨cloudWellFormed_nestedCloudModel, by decide, by decide, by decide,
    C32_subtag_risk_iff specAPI id (fun _ => List.Perm.refl _) nestedCloudModel
      cloudWellFormed_nestedCloudModel (by decide) "vm" vmNested (by decide)⟩

/-! ## Missing cloud hardening rule: enumeration order of the maps -/

theorem mapKeys_perm {α : Type} (m2 m : List (String × α)) (h : m2.Perm m) (x : String) :
    x ∈ mapKeys m2 ↔ x ∈ mapKeys m :=
  (h.map Prod.fst).mem_iff

theorem cloudWellFormed_of_sameMaps (api : TypesAPI) (m2 m : Model) (hP : m2.sameMaps m)
    (hS : api.sameAccessors m2 m) (hW : cloudWellFormed api m) : cloudWellFormed api m2 := by
  obtain ⟨pTA, pDA, pTB, pSR⟩ := hP
  obtain ⟨sRec, sPar, sTb, _⟩ := hS
  obtain ⟨⟨d1, d2, d3⟩, ⟨i1, i2, i3⟩, hin, hget, rank, hbound, hrank⟩ := hW
  have kTA := mapKeys_perm _ _ pTA
  have kDA := mapKeys_perm _ _ pDA
  have kTB := mapKeys_perm _ _ pTB
  refine ⟨⟨?_, ?_, ?_⟩, ⟨?_, ?_, ?_⟩, ?_, ?_, rank, ?_, ?_⟩
  · intro kv hkv
    obtain ⟨r1, r2, r3⟩ := d1 kv (pTA.mem_iff.1 hkv)
    refine ⟨fun id hid => (kDA id).2 (r1 id hid), fun id hid => (kDA id).2 (r2 id hid), ?_⟩
    intro l hl
    obtain ⟨l1, l2, l3⟩ := r3 l hl
    exact ⟨(kTA _).2 l1, fun id hid => (kDA id).2 (l2 id hid),
      fun id hid => (kDA id).2 (l3 id hid)⟩
  · intro kv hkv
    obtain ⟨r1, r2⟩ := d2 kv (pTB.mem_iff.1 hkv)
    exact ⟨fun id hid => (kTA id).2 (r1 id hid), fun id hid => (kTB id).2 (r2 id hid)⟩
  · intro kv hkv id hid
    exact (kTA id).2 (d3 kv (pSR.mem_iff.1 hkv) id hid)
  · exact fun kv hkv => i1 kv (pTA.mem_iff.1 hkv)
  · exact fun kv hkv => i2 kv (pTB.mem_iff.1 hkv)
  · exact fun kv hkv => i3 kv (pSR.mem_iff.1 hkv)
  · intro kv hkv id hid
    rw [sRec] at hid
    exact (kTA id).2 (hin kv (pTB.mem_iff.1 hkv) id hid)
  · intro kv hkv
    rw [sTb]
    rcases hget kv (pTA.mem_iff.1 hkv) with h | h
    · exact Or.inl h
    · exact Or.inr ((kTB _).2 h)
  · intro tb
    rw [pTB.length_eq]
    exact hbound tb
  · intro tb p hp
    rw [sPar] at hp
    exact hrank tb p hp

theorem opInside_sameMaps (m2 m : Model)
    (hTA : ∀ id, mapGet m2.TechnicalAssets id = mapGet m.TechnicalAssets id) (tagged : Bool)
    (tb : TrustBoundary) : opInside m2 tagged tb = opInside m tagged tb := by
  funext id
  unfold opInside
  rw [hTA]

theorem opInsideTagged_sameMaps (m2 m : Model)
    (hTA : ∀ id, mapGet m2.TechnicalAssets id = mapGet m.TechnicalAssets id)
    (tB : TrustBoundary) : opInsideTagged m2 tB = opInsideTagged m tB := by
  funext id
  unfold opInsideTagged
  rw [hTA]

theorem opRunning_sameMaps (m2 m : Model)
    (hTA : ∀ id, mapGet m2.TechnicalAssets id = mapGet m.TechnicalAssets id)
    (sR : SharedRuntime) : opRunning m2 sR = opRunning m sR := by
  funext id
  unfold opRunning
  rw [hTA]

theorem classifyOps_perm (api : TypesAPI) (m2 m : Model) (hP : m2.sameMaps m)
    (hS : api.sameAccessors m2 m)
    (hTA : ∀ id, mapGet m2.TechnicalAssets id = mapGet m.TechnicalAssets id) :
    (classifyOps api m2).Perm (classifyOps api m) := by
  obtain ⟨pTA, _, pTB, pSR⟩ := hP
  obtain ⟨sRec, _⟩ := hS
  have f1 : opsOfTrustBoundary api m2 = opsOfTrustBoundary api m := by
    funext kv
    unfold opsOfTrustBoundary
    rw [sRec, opInside_sameMaps m2 m hTA]
  have f3 : opsOfSharedRuntime m2 = opsOfSharedRuntime m := by
    funext kv
    unfold opsOfSharedRuntime
    rw [opRunning_sameMaps m2 m hTA]
  have f2 : (fun tB => (api.RecursivelyAllTechnicalAssetIDsInside m2 tB).filterMap
        (opInsideTagged m2 tB))
      = (fun tB => (api.RecursivelyAllTechnicalAssetIDsInside m tB).filterMap
        (opInsideTagged m tB)) := by
    funext tB
    rw [sRec, opInsideTagged_sameMaps m2 m hTA]
  unfold classifyOps
  rw [f1, f2, f3]
  refine List.Perm.append (List.Perm.append (List.Perm.append ?_ ?_) ?_) ?_
  · exact pTB.flatMap_right _
  · unfold TechnicalAssetsTaggedWithAny
    exact ((pTA.map _).filter _).map _
  · unfold TrustBoundariesTaggedWithAny
    exact ((pTB.map _).filter _).flatMap_right _
  · exact pSR.flatMap_right _

/-! ## Missing cloud hardening rule: the id sets do not depend on the enumeration order -/

theorem allNodup_get (b : Buckets) (h : b.AllNodup) (i : BucketName) : (b.get i).Nodup := by
  obtain ⟨h1, h2, h3, h4, h5, h6, h7, h8, h9, h10, h11, h12, h13, h14, h15, h16⟩ := h
  cases i
  · exact h1
  · exact h2
  · exact h3
  · exact h4
  · exact h5
  · exact h6
  · exact h7
  · exact h8
  · exact h9
  · exact h10
  · exact h11
  · exact h12
  · exact h13
  · exact h14
  · exact h15
  · exact h16

theorem get_subsume_iff (ord ord2 : List String → List String)
    (hord : ∀ s, (ord s).Perm s) (hord2 : ∀ s, (ord2 s).Perm s) (B B2 : Buckets)
    (h : ∀ i x, x ∈ B2.get i ↔ x ∈ B.get i) (i : BucketName) (x : String) :
    x ∈ (subsume ord2 B2).get i ↔ x ∈ (subsume ord B).get i := by
  have d4 : ∀ (u a1 a2 a3 a4 : BucketName),
      (x ∈ deleteAll ord2 (B2.get a4) (deleteAll ord2 (B2.get a3) (deleteAll ord2 (B2.get a2)
        (deleteAll ord2 (B2.get a1) (B2.get u)))) ↔
      x ∈ deleteAll ord (B.get a4) (deleteAll ord (B.get a3) (deleteAll ord (B.get a2)
        (deleteAll ord (B.get a1) (B.get u))))) := by
    intro u a1 a2 a3 a4
    simp only [mem_deleteAll_iff ord hord, mem_deleteAll_iff ord2 hord2, h]
  cases i
  · exact d4 .sharedRuntimesWithUnspecificCloudRisks .sharedRuntimeIDsAWS .sharedRuntimeIDsAzure
      .sharedRuntimeIDsGCP .sharedRuntimeIDsOCP
  · exact d4 .trustBoundariesWithUnspecificCloudRisks .trustBoundaryIDsAWS
      .trustBoundaryIDsAzure .trustBoundaryIDsGCP .trustBoundaryIDsOCP
  · show x ∈ deleteAll ord2 _ (deleteAll ord2 _ (deleteAll ord2 _ (deleteAll ord2 _
        (deleteAll ord2 (B2.get .techAssetIDsWithSubtagSpecificCloudRisks)
          (B2.get .techAssetsWithUnspecificCloudRisks))))) ↔
      x ∈ deleteAll ord _ (deleteAll ord _ (deleteAll ord _ (deleteAll ord _
        (deleteAll ord (B.get .techAssetIDsWithSubtagSpecificCloudRisks)
          (B.get .techAssetsWithUnspecificCloudRisks)))))
    have hA := h .techAssetIDsAWS x
    have hB := h .techAssetIDsAzure x
    have hC := h .techAssetIDsGCP x
    have hD := h .techAssetIDsOCP x
    simp only [Buckets.get] at hA hB hC hD
    simp only [mem_deleteAll_iff ord hord, mem_deleteAll_iff ord2 hord2, h, hA, hB, hC, hD]
  · exact h .sharedRuntimeIDsAWS x
  · exact h .trustBoundaryIDsAWS x
  · exact h .techAssetIDsAWS x
  · exact h .sharedRuntimeIDsAzure x
  · exact h .trustBoundaryIDsAzure x
  · exact h .techAssetIDsAzure x
  · exact h .sharedRuntimeIDsGCP x
  · exact h .trustBoundaryIDsGCP x
  · exact h .techAssetIDsGCP x
  · exact h .sharedRuntimeIDsOCP x
  · exact h .trustBoundaryIDsOCP x
  · exact h .techAssetIDsOCP x
  · exact h .techAssetIDsWithSubtagSpecificCloudRisks x

theorem classified_perm (api : TypesAPI) (ord ord2 : List String → List String)
    (hord : ∀ s, (ord s).Perm s) (hord2 : ∀ s, (ord2 s).Perm s) (m2 m : Model)
    (hops : (classifyOps api m2).Perm (classifyOps api m)) (b b2 : Buckets)
    (hb : classify api ord m = some b) (hb2 : classify api ord2 m2 = some b2)
    (i : BucketName) : (b2.get i).Perm (b.get i) := by
  have hn := allNodup_get b (allNodup_classify api ord m b hb) i
  have hn2 := allNodup_get b2 (allNodup_classify api ord2 m2 b2 hb2) i
  rw [List.perm_ext_iff_of_nodup hn2 hn]
  intro x
  rw [classify_eq_ops api ord m b hb, classify_eq_ops api ord2 m2 b2 hb2]
  apply get_subsume_iff ord ord2 hord hord2
  intro j y
  rw [mem_applyOps_get, mem_applyOps_get]
  constructor
  · rintro (h | ⟨op, hop, h⟩)
    · exact Or.inl h
    · exact Or.inr ⟨op, hops.mem_iff.1 hop, h⟩
  · rintro (h | ⟨op, hop, h⟩)
    · exact Or.inl h
    · exact Or.inr ⟨op, hops.mem_iff.2 hop, h⟩

/-! ## Missing cloud hardening rule: the emission pass and the enumeration order -/

theorem createRiskForSharedRuntime_sameAccessors (api : TypesAPI) (m2 m : Model)
    (hS : api.sameAccessors m2 m) :
    createRiskForSharedRuntime api m2 = createRiskForSharedRuntime api m := by
  obtain ⟨_, _, _, _, _, _, _, _, _, s10, s11, s12⟩ := hS
  funext sr pfx details
  unfold createRiskForSharedRuntime
  rw [s10, s11, s12]

theorem createRiskForTrustBoundary_sameAccessors (api : TypesAPI) (m2 m : Model)
    (hS : api.sameAccessors m2 m) :
    createRiskForTrustBoundary api m2 = createRiskForTrustBoundary api m := by
  obtain ⟨s1, _, _, _, _, _, s7, s8, s9, _, _, _⟩ := hS
  funext tb pfx details
  unfold createRiskForTrustBoundary
  rw [s1, s7, s8, s9]

theorem createRiskForTechnicalAsset_sameAccessors (api : TypesAPI) (m2 m : Model)
    (hS : api.sameAccessors m2 m) :
    createRiskForTechnicalAsset api m2 = createRiskForTechnicalAsset api m := by
  obtain ⟨_, _, _, s4, s5, s6, _, _, _, _, _, _⟩ := hS
  funext ta pfx details
  unfold createRiskForTechnicalAsset
  rw [s4, s5, s6]

theorem sharedRuntimeRisks_perm (api : TypesAPI) (m2 m : Model) (hS : api.sameAccessors m2 m)
    (hSR : ∀ id, mapGet m2.SharedRuntimes id = mapGet m.SharedRuntimes id)
    (pfx details : String) (ids2 ids : List String) (h : ids2.Perm ids) :
    (sharedRuntimeRisks api m2 pfx details ids2).Perm
      (sharedRuntimeRisks api m pfx details ids) := by
  unfold sharedRuntimeRisks
  rw [createRiskForSharedRuntime_sameAccessors api m2 m hS]
  have hf : (fun id => (mapGet m2.SharedRuntimes id).map
        (fun sr => createRiskForSharedRuntime api m sr pfx details))
      = (fun id => (mapGet m.SharedRuntimes id).map
        (fun sr => createRiskForSharedRuntime api m sr pfx details)) := by
    funext id
    rw [hSR]
  rw [hf]
  exact h.filterMap _

theorem trustBoundaryRisks_perm (api : TypesAPI) (m2 m : Model) (hS : api.sameAccessors m2 m)
    (hTB : ∀ id, mapGet m2.TrustBoundaries id = mapGet m.TrustBoundaries id)
    (pfx details : String) (ids2 ids : List String) (h : ids2.Perm ids) :
    (trustBoundaryRisks api m2 pfx details ids2).Perm
      (trustBoundaryRisks api m pfx details ids) := by
  unfold trustBoundaryRisks
  rw [createRiskForTrustBoundary_sameAccessors api m2 m hS]
  have hf : (fun id => (mapGet m2.TrustBoundaries id).map
        (fun tb => createRiskForTrustBoundary api m tb pfx details))
      = (fun id => (mapGet m.TrustBoundaries id).map
        (fun tb => createRiskForTrustBoundary api m tb pfx details)) := by
    funext id
    rw [hTB]
  rw [hf]
  exact h.filterMap _

theorem findMostSensitiveLoop_sameMaps (api : TypesAPI) (m2 m : Model)
    (hTA : ∀ id, mapGet m2.TechnicalAssets id = mapGet m.TechnicalAssets id)
    (ids : List String) (acc : Option TechnicalAsset) :
    findMostSensitiveLoop api m2 ids acc = findMostSensitiveLoop api m ids acc := by
  induction ids generalizing acc with
  | nil => cases acc <;> rfl
  | cons id rest ih =>
    cases acc with
    | none =>
      simp only [findMostSensitiveLoop]
      rw [hTA, ih]
    | some a =>
      simp only [findMostSensitiveLoop]
      rw [hTA]
      cases mapGet m.TechnicalAssets id with
      | none => rfl
      | some tA =>
        simp only
        rw [ih, ih]

theorem mostSensitiveRisks_sameMaps (api : TypesAPI) (ord ord2 : List String → List String)
    (hord : ∀ s, (ord s).Perm s) (hord2 : ∀ s, (ord2 s).Perm s) (m2 m : Model)
    (hS : api.sameAccessors m2 m)
    (hTA : ∀ id, mapGet m2.TechnicalAssets id = mapGet m.TechnicalAssets id)
    (s2 s t2 t ids2 ids : List String) (hs : s2.Perm s) (ht : t2.Perm t) (hi : ids2.Perm ids)
    (pfx details : String) :
    mostSensitiveRisks api ord2 m2 (decide (ord2 s2 ≠ [] ∨ ord2 t2 ≠ [])) ids2 pfx details
      = mostSensitiveRisks api ord m (decide (ord s ≠ [] ∨ ord t ≠ [])) ids pfx details := by
  have hne : ∀ (l2 l : List String), l2.Perm l → (ord2 l2 ≠ [] ↔ ord l ≠ []) := by
    intro l2 l hp
    have hp2 : (ord2 l2).Perm (ord l) := ((hord2 l2).trans hp).trans (hord l).symm
    constructor
    · intro h1 h2
      rw [h2] at hp2
      exact h1 hp2.eq_nil
    · intro h1 h2
      rw [h2] at hp2
      exact h1 hp2.symm.eq_nil
  have hadded : decide (ord2 s2 ≠ [] ∨ ord2 t2 ≠ []) = decide (ord s ≠ [] ∨ ord t ≠ []) := by
    rw [decide_eq_decide, hne s2 s hs, hne t2 t ht]
  have hfind : findMostSensitiveTechnicalAsset api ord2 m2 ids2
      = findMostSensitiveTechnicalAsset api ord m ids := by
    unfold findMostSensitiveTechnicalAsset
    rw [sortStrings_eq_of_perm (ord2 ids2) (ord ids)
      (((hord2 ids2).trans hi).trans (hord ids).symm), findMostSensitiveLoop_sameMaps api m2 m hTA]
  unfold mostSensitiveRisks
  rw [hadded, hfind, createRiskForTechnicalAsset_sameAccessors api m2 m hS]

theorem traversingUp_boundary_sameAccessors (api : TypesAPI) (m2 m : Model)
    (hS : api.sameAccessors m2 m) (fuel : Nat) (tb : TrustBoundary) (tags : List String) :
    isTrustedBoundaryTaggedWithAnyTraversingUp api m2 fuel tb tags
      = isTrustedBoundaryTaggedWithAnyTraversingUp api m fuel tb tags := by
  induction fuel generalizing tb with
  | zero => rfl
  | succ n ih =>
    unfold isTrustedBoundaryTaggedWithAnyTraversingUp
    rw [hS.2.1]
    cases api.FindParentTrustBoundary m tb with
    | none => rfl
    | some p =>
      simp only
      rw [ih]

theorem any_perm {α : Type} (l2 l : List α) (h : l2.Perm l) (f : α → Bool) :
    l2.any f = l.any f := by
  rw [Bool.eq_iff_iff, List.any_eq_true, List.any_eq_true]
  constructor
  · rintro ⟨x, hx, hf⟩
    exact ⟨x, h.mem_iff.1 hx, hf⟩
  · rintro ⟨x, hx, hf⟩
    exact ⟨x, h.mem_iff.2 hx, hf⟩

theorem traversingUp_asset_sameMaps (api : TypesAPI) (m2 m : Model) (hP : m2.sameMaps m)
    (hS : api.sameAccessors m2 m)
    (hTB : ∀ id, mapGet m2.TrustBoundaries id = mapGet m.TrustBoundaries id)
    (ta : TechnicalAsset) (tags : List String) :
    isTechnicalAssetTaggedWithAnyTraversingUp api m2 ta tags
      = isTechnicalAssetTaggedWithAnyTraversingUp api m ta tags := by
  unfold isTechnicalAssetTaggedWithAnyTraversingUp
  rw [hS.2.2.1, hTB, hP.2.2.1.length_eq, any_perm _ _ hP.2.2.2]
  have hb : isTrustedBoundaryTaggedWithAnyTraversingUp api m2
      = isTrustedBoundaryTaggedWithAnyTraversingUp api m := by
    funext fuel tb tags2
    exact traversingUp_boundary_sameAccessors api m2 m hS fuel tb tags2
  rw [hb]

theorem subtagRisksOfId_sameMaps (api : TypesAPI) (m2 m : Model) (hP : m2.sameMaps m)
    (hS : api.sameAccessors m2 m)
    (hTA : ∀ id, mapGet m2.TechnicalAssets id = mapGet m.TechnicalAssets id)
    (hTB : ∀ id, mapGet m2.TrustBoundaries id = mapGet m.TrustBoundaries id) :
    subtagRisksOfId api m2 = subtagRisksOfId api m := by
  funext id
  unfold subtagRisksOfId
  rw [hTA, createRiskForTechnicalAsset_sameAccessors api m2 m hS]
  cases mapGet m.TechnicalAssets id with
  | none => rfl
  | some tA =>
    simp only
    rw [traversingUp_asset_sameMaps api m2 m hP hS hTB, traversingUp_asset_sameMaps api m2 m hP hS hTB]

theorem emittedRisks_perm (api : TypesAPI) (ord ord2 : List String → List String)
    (hord : ∀ s, (ord s).Perm s) (hord2 : ∀ s, (ord2 s).Perm s) (m2 m : Model)
    (hP : m2.sameMaps m) (hS : api.sameAccessors m2 m)
    (hTA : ∀ id, mapGet m2.TechnicalAssets id = mapGet m.TechnicalAssets id)
    (hTB : ∀ id, mapGet m2.TrustBoundaries id = mapGet m.TrustBoundaries id)
    (hSR : ∀ id, mapGet m2.SharedRuntimes id = mapGet m.SharedRuntimes id)
    (b2 b : Buckets) (hb : ∀ i, (b2.get i).Perm (b.get i)) :
    (emittedRisks api ord2 m2 b2).Perm (emittedRisks api ord m b) := by
  have ho : ∀ i, (ord2 (b2.get i)).Perm (ord (b.get i)) :=
    fun i => ((hord2 _).trans (hb i)).trans (hord _).symm
  unfold emittedRisks
  refine List.Perm.append (List.Perm.append (List.Perm.append ?_ ?_) ?_) ?_
  · unfold emittedSharedRuntimeRisks
    exact List.Perm.append (List.Perm.append (List.Perm.append (List.Perm.append
      (sharedRuntimeRisks_perm api m2 m hS hSR _ _ _ _ (ho .sharedRuntimeIDsAWS))
      (sharedRuntimeRisks_perm api m2 m hS hSR _ _ _ _ (ho .sharedRuntimeIDsAzure)))
      (sharedRuntimeRisks_perm api m2 m hS hSR _ _ _ _ (ho .sharedRuntimeIDsGCP)))
      (sharedRuntimeRisks_perm api m2 m hS hSR _ _ _ _ (ho .sharedRuntimeIDsOCP)))
      (sharedRuntimeRisks_perm api m2 m hS hSR _ _ _ _
        (ho .sharedRuntimesWithUnspecificCloudRisks))
  · unfold emittedTrustBoundaryRisks
    exact List.Perm.append (List.Perm.append (List.Perm.append (List.Perm.append
      (trustBoundaryRisks_perm api m2 m hS hTB _ _ _ _ (ho .trustBoundaryIDsAWS))
      (trustBoundaryRisks_perm api m2 m hS hTB _ _ _ _ (ho .trustBoundaryIDsAzure)))
      (trustBoundaryRisks_perm api m2 m hS hTB _ _ _ _ (ho .trustBoundaryIDsGCP)))
      (trustBoundaryRisks_perm api m2 m hS hTB _ _ _ _ (ho .trustBoundaryIDsOCP)))
      (trustBoundaryRisks_perm api m2 m hS hTB _ _ _ _
        (ho .trustBoundariesWithUnspecificCloudRisks))
  · unfold emittedMostSensitiveRisks
    rw [mostSensitiveRisks_sameMaps api ord ord2 hord hord2 m2 m hS hTA
        b2.sharedRuntimeIDsAWS b.sharedRuntimeIDsAWS b2.trustBoundaryIDsAWS b.trustBoundaryIDsAWS
        b2.techAssetIDsAWS b.techAssetIDsAWS (hb .sharedRuntimeIDsAWS) (hb .trustBoundaryIDsAWS)
        (hb .techAssetIDsAWS),
      mostSensitiveRisks_sameMaps api ord ord2 hord hord2 m2 m hS hTA
        b2.sharedRuntimeIDsAzure b.sharedRuntimeIDsAzure b2.trustBoundaryIDsAzure b.trustBoundaryIDsAzure
        b2.techAssetIDsAzure b.techAssetIDsAzure (hb .sharedRuntimeIDsAzure) (hb .trustBoundaryIDsAzure)
        (hb .techAssetIDsAzure),
      mostSensitiveRisks_sameMaps api ord ord2 hord hord2 m2 m hS hTA
        b2.sharedRuntimeIDsGCP b.sharedRuntimeIDsGCP b2.trustBoundaryIDsGCP b.trustBoundaryIDsGCP
        b2.techAssetIDsGCP b.techAssetIDsGCP (hb .sharedRuntimeIDsGCP) (hb .trustBoundaryIDsGCP)
        (hb .techAssetIDsGCP),
      mostSensitiveRisks_sameMaps api ord ord2 hord hord2 m2 m hS hTA
        b2.sharedRuntimeIDsOCP b.sharedRuntimeIDsOCP b2.trustBoundaryIDsOCP b.trustBoundaryIDsOCP
        b2.techAssetIDsOCP b.techAssetIDsOCP (hb .sharedRuntimeIDsOCP) (hb .trustBoundaryIDsOCP)
        (hb .techAssetIDsOCP)]
  · unfold emittedSubtagRisks
    rw [subtagRisksOfId_sameMaps api m2 m hP hS hTA hTB]
    exact (ho .techAssetIDsWithSubtagSpecificCloudRisks).flatMap_right _

/-- C34: on a well formed model whose map keys are pairwise distinct, the rule returns for
every enumeration order of the model maps (`input2` holds the maps of `input` in another order,
with the accessors of package `types` giving the same answers) and of its internal id sets
(`ord`, `ord2`); the sixteen classified id sets hold the same ids, the returned risks are the
same up to their order (equal as multisets), and so is the sorted sequence of their
SyntheticIds. -/
theorem C34_risk_multiset_order_independent (api : TypesAPI)
    (ord ord2 : List String → List String)
    (hord : ∀ s, (ord s).Perm s) (hord2 : ∀ s, (ord2 s).Perm s) (input input2 : Model)
    (hW : cloudWellFormed api input) (hN : input.keysNodup) (hP : input2.sameMaps input)
    (hS : api.sameAccessors input2 input) :
    ∃ b b2 risks risks2,
      classify api ord input = some b ∧ classify api ord2 input2 = some b2 ∧
      (∀ i, (b2.get i).Perm (b.get i)) ∧
      MissingCloudHardeningRule.GenerateRisks api ord input = some (risks, none) ∧
      MissingCloudHardeningRule.GenerateRisks api ord2 input2 = some (risks2, none) ∧
      risks2.Perm risks ∧
      sortStrings (risks2.map (fun r => r.SyntheticId))
        = sortStrings (risks.map (fun r => r.SyntheticId)) := by
  have hW2 := cloudWellFormed_of_sameMaps api input2 input hP hS hW
  obtain ⟨risks, hr⟩ := cloud_generateRisks_total api ord hord input hW
  obtain ⟨risks2, hr2⟩ := cloud_generateRisks_total api ord2 hord2 input2 hW2
  obtain ⟨b, hb, he, _⟩ := generateRisks_cloud_inv api ord input risks none hr
  obtain ⟨b2, hb2, he2, _⟩ := generateRisks_cloud_inv api ord2 input2 risks2 none hr2
  obtain ⟨nTA, nTB, nSR⟩ := hN
  have hTA : ∀ id, mapGet input2.TechnicalAssets id = mapGet input.TechnicalAssets id :=
    fun id => mapGet_perm _ _ id hP.1 nTA
  have hTB : ∀ id, mapGet input2.TrustBoundaries id = mapGet input.TrustBoundaries id :=
    fun id => mapGet_perm _ _ id hP.2.2.1 nTB
  have hSR : ∀ id, mapGet input2.SharedRuntimes id = mapGet input.SharedRuntimes id :=
    fun id => mapGet_perm _ _ id hP.2.2.2 nSR
  have hops := classifyOps_perm api input2 input hP hS hTA
  have hbp := classified_perm api ord ord2 hord hord2 input2 input hops b b2 hb hb2
  have hperm : risks2.Perm risks := by
    rw [emit_eq_emitted api ord input b risks he, emit_eq_emitted api ord2 input2 b2 risks2 he2]
    exact emittedRisks_perm api ord ord2 hord hord2 input2 input hP hS hTA hTB hSR b2 b hbp
  exact ⟨b, b2, risks, risks2, hb, hb2, hbp, hr, hr2, hperm,
    sortStrings_eq_of_perm _ _ (hperm.map _)⟩

theorem specRecursivelyInside_sameMaps (m2 m : Model)
    (hTB : mapGet m2.TrustBoundaries = mapGet m.TrustBoundaries) (fuel : Nat)
    (tb : TrustBoundary) : specRecursivelyInside m2 fuel tb = specRecursivelyInside m fuel tb := by
  induction fuel generalizing tb with
  | zero => rfl
  | succ n ih =>
    have hf : specRecursivelyInside m2 n = specRecursivelyInside m n := funext ih
    simp only [specRecursivelyInside]
    rw [hTB, hf]

theorem specAPI_sameAccessors (m2 m : Model)
    (hTA : mapGet m2.TechnicalAssets = mapGet m.TechnicalAssets)
    (hTB : mapGet m2.TrustBoundaries = mapGet m.TrustBoundaries)
    (hlen : m2.TrustBoundaries.length = m.TrustBoundaries.length)
    (hDA : m2.DataAssets = m.DataAssets)
    (hParent : specAPI.FindParentTrustBoundary m2 = specAPI.FindParentTrustBoundary m)
    (hTbId : specAPI.GetTechnicalAssetTrustBoundaryId m2
      = specAPI.GetTechnicalAssetTrustBoundaryId m) :
    specAPI.sameAccessors m2 m := by
  have hRec : ∀ tb, specRecursivelyInside m2 m2.TrustBoundaries.length tb
      = specRecursivelyInside m m.TrustBoundaries.length tb := by
    intro tb
    rw [hlen]
    exact specRecursivelyInside_sameMaps m2 m hTB _ tb
  have hT : technicalAssetsOf m2 = technicalAssetsOf m := by
    funext ids
    unfold technicalAssetsOf
    rw [hTA]
  have hD : dataAssetsOf m2 = dataAssetsOf m := by
    funext ids
    unfold dataAssetsOf
    rw [hDA]
  have hC : specHighestProcessedConfidentiality m2 = specHighestProcessedConfidentiality m := by
    funext what
    unfold specHighestProcessedConfidentiality
    rw [hD]
  have hI : specHighestProcessedIntegrity m2 = specHighestProcessedIntegrity m := by
    funext what
    unfold specHighestProcessedIntegrity
    rw [hD]
  have hA : specHighestProcessedAvailability m2 = specHighestProcessedAvailability m := by
    funext what
    unfold specHighestProcessedAvailability
    rw [hD]
  refine ⟨?_, hParent, hTbId, hC, hI, hA, ?_, ?_, ?_, ?_, ?_, ?_⟩
  · funext tb
    exact hRec tb
  · funext tb
    show (technicalAssetsOf m2 (specRecursivelyInside m2 m2.TrustBoundaries.length tb)).foldl
        (fun h a => maxConfidentiality h (specHighestProcessedConfidentiality m2 a)) .Public = _
    rw [hRec, hT, hC]
    rfl
  · funext tb
    show (technicalAssetsOf m2 (specRecursivelyInside m2 m2.TrustBoundaries.length tb)).foldl
        (fun h a => maxCriticality h (specHighestProcessedIntegrity m2 a)) .Archive = _
    rw [hRec, hT, hI]
    rfl
  · funext tb
    show (technicalAssetsOf m2 (specRecursivelyInside m2 m2.TrustBoundaries.length tb)).foldl
        (fun h a => maxCriticality h (specHighestProcessedAvailability m2 a)) .Archive = _
    rw [hRec, hT, hA]
    rfl
  · funext sr
    show (technicalAssetsOf m2 sr.TechnicalAssetsRunning).foldl
        (fun h a => maxConfidentiality h (specHighestProcessedConfidentiality m2 a)) .Public = _
    rw [hT, hC]
    rfl
  · funext sr
    show (technicalAssetsOf m2 sr.TechnicalAssetsRunning).foldl
        (fun h a => maxCriticality h (specHighestProcessedIntegrity m2 a)) .Archive = _
    rw [hT, hI]
    rfl
  · funext sr
    show (technicalAssetsOf m2 sr.TechnicalAssetsRunning).foldl
        (fun h a => maxCriticality h (specHighestProcessedAvailability m2 a)) .Archive = _
    rw [hT, hA]
    rfl

theorem sameMaps_orderModelSwapped : orderModelSwapped.sameMaps orderModel :=
  ⟨List.reverse_perm _, List.Perm.refl _, List.reverse_perm _, List.reverse_perm _⟩

theorem sameAccessors_orderModelSwapped : specAPI.sameAccessors orderModelSwapped orderModel := by
  have hn : orderModel.keysNodup := by decide
  refine specAPI_sameAccessors orderModelSwapped orderModel
    (funext fun id => mapGet_perm _ _ id (List.reverse_perm _) hn.1)
    (funext fun id => mapGet_perm _ _ id (List.reverse_perm _) hn.2.1)
    (by decide) rfl ?_ ?_
  · funext tb
    simp [specAPI, orderModelSwapped, orderModel, emptyBoundary, contains]
  · funext ta
    simp only [specAPI, orderModelSwapped, orderModel, emptyBoundary, contains, List.map_cons,
      List.map_nil, List.reverse_cons, List.reverse_nil, List.nil_append, List.cons_append,
      List.find?_cons, List.find?_nil, List.any_cons, List.any_nil, Bool.or_false]
    by_cases h1 : ("a1" == ta.Id) = true
    · have h2 : ("a2" == ta.Id) = false := by
        rw [beq_iff_eq] at h1
        rw [← h1]
        decide
      simp only [h1, h2]
    · have h1' : ("a1" == ta.Id) = false := by simpa using h1
      cases h2 : ("a2" == ta.Id) <;> simp only [h1', h2]

theorem cloudWellFormed_orderModel : cloudWellFormed specAPI orderModel := by
  refine ⟨by decide, by decide, by decide, by decide, fun _ => 0, fun _ => Nat.zero_le _, ?_⟩
  intro tb p h
  simp [specAPI, orderModel, emptyBoundary, contains] at h

/-- An instance of C34: `orderModelSwapped` enumerates the maps of `orderModel` in the opposite
order; with the same enumeration of the id sets the two runs return different sequences, which
are equal as multisets. -/
theorem C34_risk_multiset_order_independent_witness :
    cloudWellFormed specAPI orderModel ∧ orderModel.keysNodup ∧
    orderModelSwapped.sameMaps orderModel ∧
    specAPI.sameAccessors orderModelSwapped orderModel ∧
    (MissingCloudHardeningRule.GenerateRisks specAPI id orderModel).map
        (fun res => res.1.map (fun r => r.SyntheticId))
      = some ["missing-cloud-hardening@r2@gcp", "missing-cloud-hardening@r1@gcp",
          "missing-cloud-hardening@b1@aws", "missing-cloud-hardening@b2@azure",
          "missing-cloud-hardening@a1@s3"] ∧
    (MissingCloudHardeningRule.GenerateRisks specAPI id orderModelSwapped).map
        (fun res => res.1.map (fun r => r.SyntheticId))
      = some ["missing-cloud-hardening@r1@gcp", "missing-cloud-hardening@r2@gcp",
          "missing-cloud-hardening@b1@aws", "missing-cloud-hardening@b2@azure",
          "missing-cloud-hardening@a1@s3"] ∧
    ∃ b b2 risks risks2,
      classify specAPI id orderModel = some b ∧ classify specAPI id orderModelSwapped = some b2 ∧
      (∀ i, (b2.get i).Perm (b.get i)) ∧
      MissingCloudHardeningRule.GenerateRisks specAPI id orderModel = some (risks, none) ∧
      MissingCloudHardeningRule.GenerateRisks specAPI id orderModelSwapped
        = some (risks2, none) ∧
      risks2.Perm risks ∧
      sortStrings (risks2.map (fun r => r.SyntheticId))
        = sortStrings (risks.map (fun r => r.SyntheticId)) :=
  ⟨cloudWellFormed_orderModel, by decide, sameMaps_orderModelSwapped,
    sameAccessors_orderModelSwapped, by decide, by decide,
    C34_risk_multiset_order_independent specAPI id id (fun _ => List.Perm.refl _)
      (fun _ => List.Perm.refl _) orderModel orderModelSwapped cloudWellFormed_orderModel
      (by decide) sameMaps_orderModelSwapped sameAccessors_orderModelSwapped⟩

/-! ## Missing cloud hardening rule: the risk of the most sensitive asset is emitted -/

theorem technicalAssetRisk_generic (api : TypesAPI) (input : Model) (a : TechnicalAsset)
    (p : Provider) (details : String) (hId : a.Id ≠ "") :
    isGenericTechnicalAssetRiskFor p (createRiskForTechnicalAsset api input a p.name details)
      = true := by
  have hs : cloudIdSuffix p.name = "@" ++ ToLower p.name := by cases p <;> decide
  unfold isGenericTechnicalAssetRiskFor isGenericRiskFor createRiskForTechnicalAsset HasSuffix
  simp only [Bool.and_eq_true, decide_eq_true_eq]
  refine ⟨hId, ?_⟩
  rw [hs, String.data_append]
  exact List.suffix_append _ _

theorem techAssetIDs_inKeys (input : Model) (b : Buckets) (hk : b.inKeys input) (p : Provider) :
    ∀ x ∈ b.techAssetIDs p, x ∈ mapKeys input.TechnicalAssets := by
  obtain ⟨_, _, _, _, _, h6, _, _, h9, _, _, h12, _, _, h15, _⟩ := hk
  cases p
  · exact h6
  · exact h9
  · exact h12
  · exact h15

theorem mostSensitiveRisk_mem_emitted (api : TypesAPI) (ord : List String → List String)
    (hord : ∀ s, (ord s).Perm s) (input : Model) (b : Buckets) (p : Provider)
    (a : TechnicalAsset) (h1 : b.sharedRuntimeIDs p = []) (h2 : b.trustBoundaryIDs p = [])
    (hf : findMostSensitiveTechnicalAsset api ord input (b.techAssetIDs p) = some (some a)) :
    createRiskForTechnicalAsset api input a p.name p.details ∈ emittedRisks api ord input b := by
  have hn := ord_nil ord hord
  unfold emittedRisks emittedMostSensitiveRisks
  cases p <;>
    simp only [Buckets.sharedRuntimeIDs, Buckets.trustBoundaryIDs, Buckets.techAssetIDs] at h1 h2 hf <;>
    simp [mostSensitiveRisks, h1, h2, hn, hf, Provider.name, Provider.details]

theorem generic_asset_risk_emitted (api : TypesAPI) (ord : List String → List String)
    (hord : ∀ s, (ord s).Perm s) (input : Model) (hW : cloudWellFormed api input)
    (hE : "" ∉ mapKeys input.TechnicalAssets) :
    ∃ b risks, classify api ord input = some b ∧
      MissingCloudHardeningRule.GenerateRisks api ord input = some (risks, none) ∧
      ∀ p : Provider, b.sharedRuntimeIDs p = [] → b.trustBoundaryIDs p = [] →
        b.techAssetIDs p ≠ [] →
        ∃ a, findMostSensitiveTechnicalAsset api ord input (b.techAssetIDs p) = some (some a) ∧
          a.Id ∈ b.techAssetIDs p ∧
          risks.filter (isGenericTechnicalAssetRiskFor p)
            = [createRiskForTechnicalAsset api input a p.name p.details] := by
  obtain ⟨b, hb, hk⟩ := classify_total api ord input hW
  obtain ⟨risks, hr⟩ := emit_total api ord hord input hW b hk
  have hg : MissingCloudHardeningRule.GenerateRisks api ord input = some (risks, none) := by
    unfold MissingCloudHardeningRule.GenerateRisks
    simp only [hb, hr]
  refine ⟨b, risks, hb, hg, ?_⟩
  intro p h1 h2 h3
  have hkeys := techAssetIDs_inKeys input b hk p
  have hL : ∀ id ∈ sortStrings (ord (b.techAssetIDs p)), id ∈ mapKeys input.TechnicalAssets :=
    fun id hid => hkeys id ((hord _).mem_iff.1 ((mem_sortStrings _ _).1 hid))
  have hne : sortStrings (ord (b.techAssetIDs p)) ≠ [] := by
    intro hnil
    apply h3
    have hp : (sortStrings (ord (b.techAssetIDs p))).Perm (b.techAssetIDs p) :=
      (sortStrings_perm _).trans (hord _)
    rw [hnil] at hp
    exact hp.symm.eq_nil
  obtain ⟨k, a, hkL, hka, hfind, _⟩ := findMostSensitiveLoop_sorted api input _ hL hne
    (sortStrings_sorted _)
  have hIdk : a.Id = k := hW.2.1.1 _ (mapGet_mem _ _ _ hka)
  have hkS : k ∈ b.techAssetIDs p := (hord _).mem_iff.1 ((mem_sortStrings _ _).1 hkL)
  have hId : a.Id ≠ "" := by
    intro he
    apply hE
    rw [← he, hIdk]
    exact hkeys k hkS
  refine ⟨a, hfind, hIdk ▸ hkS, ?_⟩
  have hmem : createRiskForTechnicalAsset api input a p.name p.details ∈ risks := by
    rw [emit_eq_emitted api ord input b risks hr]
    exact mostSensitiveRisk_mem_emitted api ord hord input b p a h1 h2 hfind
  have hgen := technicalAssetRisk_generic api input a p p.details hId
  have hin : createRiskForTechnicalAsset api input a p.name p.details
      ∈ risks.filter (isGenericTechnicalAssetRiskFor p) := List.mem_filter.2 ⟨hmem, hgen⟩
  obtain ⟨seg, details, e1, e2⟩ := emit_generic_filter api ord hord input b risks hr p
  have hlen : (risks.filter (isGenericTechnicalAssetRiskFor p)).length ≤ 1 := by
    rw [e1]
    exact le_trans (List.length_filter_le _ _) (mostSensitiveSegment_length _ _ _ _ _ _ _ e2)
  generalize risks.filter (isGenericTechnicalAssetRiskFor p) = F at hin hlen
  match F, hin, hlen with
  | [x], hin, _ => rw [List.mem_singleton.1 hin]
  | _ :: _ :: _, _, hlen => simp at hlen

/-- C7: a generic risk for provider P scoped to a technical asset is emitted only if no shared
runtime and no trust boundary was classified under P, and never more than one; and it is
emitted: on a well formed model without dangling ids and without an empty asset id, for every
provider P under which no shared runtime and no trust boundary but at least one technical asset
was classified, the rule returns exactly one such risk, that of the most sensitive asset of P
(lines 235-241).  Hence every model that consists of one trust boundary tagged `aws` containing
untagged assets (and no shared runtime) yields exactly one risk, the one of the boundary, with
synthetic id "missing-cloud-hardening@" + boundary id + "@aws", and no generic AWS risk scoped
to an asset; scenario E5 is the instance with the boundary "aws-vpc". -/
theorem C7_generic_asset_risk_only_without_scope :
    (∀ (api : TypesAPI) (ord : List String → List String), (∀ s, (ord s).Perm s) →
      ∀ (input : Model) (b : Buckets) (risks : List Risk) (e : Option String),
        classify api ord input = some b →
        MissingCloudHardeningRule.GenerateRisks api ord input = some (risks, e) →
        ∀ p : Provider,
          (risks.filter (isGenericTechnicalAssetRiskFor p) ≠ [] →
            b.sharedRuntimeIDs p = [] ∧ b.trustBoundaryIDs p = [] ∧
            (risks.filter (isGenericTechnicalAssetRiskFor p)).length = 1) ∧
          (risks.filter (isGenericTechnicalAssetRiskFor p)).length ≤ 1) ∧
    (∀ (api : TypesAPI) (ord : List String → List String), (∀ s, (ord s).Perm s) →
      ∀ (input : Model) (k : String) (tb : TrustBoundary),
        input.TrustBoundaries = [(k, tb)] → input.SharedRuntimes = [] →
        tb.Id = k → tb.Tags = ["aws"] →
        (∀ kv ∈ input.TechnicalAssets, kv.2.Tags = []) →
        (∀ id ∈ api.RecursivelyAllTechnicalAssetIDsInside input tb,
          id ∈ mapKeys input.TechnicalAssets) →
        MissingCloudHardeningRule.GenerateRisks api ord input
          = some ([createRiskForTrustBoundary api input tb "AWS" "CIS Benchmark for AWS"], none) ∧
        (createRiskForTrustBoundary api input tb "AWS" "CIS Benchmark for AWS").SyntheticId
          = "missing-cloud-hardening@" ++ k ++ "@aws" ∧
        [createRiskForTrustBoundary api input tb "AWS" "CIS Benchmark for AWS"].filter
          (isGenericTechnicalAssetRiskFor .AWS) = []) ∧
    (MissingCloudHardeningRule.GenerateRisks specAPI id scenarioE5 = some ([riskE5], none) ∧
      riskE5.SyntheticId = "missing-cloud-hardening@aws-vpc@aws" ∧
      riskE5.MostRelevantTrustBoundaryId = "aws-vpc" ∧
      [riskE5].filter (isGenericTechnicalAssetRiskFor .AWS) = []) ∧
    (∀ (api : TypesAPI) (ord : List String → List String), (∀ s, (ord s).Perm s) →
      ∀ (input : Model), cloudWellFormed api input → "" ∉ mapKeys input.TechnicalAssets →
        ∃ b risks, classify api ord input = some b ∧
          MissingCloudHardeningRule.GenerateRisks api ord input = some (risks, none) ∧
          ∀ p : Provider, b.sharedRuntimeIDs p = [] → b.trustBoundaryIDs p = [] →
            b.techAssetIDs p ≠ [] →
            ∃ a, findMostSensitiveTechnicalAsset api ord input (b.techAssetIDs p)
                = some (some a) ∧
              a.Id ∈ b.techAssetIDs p ∧
              risks.filter (isGenericTechnicalAssetRiskFor p)
                = [createRiskForTechnicalAsset api input a p.name p.details]) := by
  refine ⟨?_, ?_, ⟨by decide, by decide, by decide, by decide⟩, generic_asset_risk_emitted⟩
  · intro api ord hord input b risks e hb h p
    obtain ⟨b2, hb2, hr, _⟩ := generateRisks_cloud_inv api ord input risks e h
    rw [hb] at hb2
    simp only [Option.some.injEq] at hb2
    subst hb2
    obtain ⟨seg, details, h1, h2⟩ := emit_generic_filter api ord hord input b risks hr p
    have hlen : (risks.filter (isGenericTechnicalAssetRiskFor p)).length ≤ 1 := by
      rw [h1]
      exact le_trans (List.length_filter_le _ _) (mostSensitiveSegment_length _ _ _ _ _ _ _ h2)
    refine ⟨?_, hlen⟩
    intro hne
    rw [h1] at hne
    rcases h2 with h2 | ⟨hadd, _⟩
    · rw [h2] at hne
      exact absurd rfl hne
    · rw [decide_eq_false_iff_not, not_or, not_not, not_not] at hadd
      have e1 : b.sharedRuntimeIDs p = [] := by
        have := (hord (b.sharedRuntimeIDs p)).length_eq
        rw [hadd.1] at this
        exact List.length_eq_zero.1 this.symm
      have e2 : b.trustBoundaryIDs p = [] := by
        have := (hord (b.trustBoundaryIDs p)).length_eq
        rw [hadd.2] at this
        exact List.length_eq_zero.1 this.symm
      refine ⟨e1, e2, ?_⟩
      rw [← h1] at hne
      have := List.length_pos.2 hne
      omega
  · intro api ord hord input k tb hTB hSR hId hTags hU hids
    obtain ⟨X, hX⟩ := classify_single_aws_boundary api ord input k tb hTB hSR hId hTags hU hids
    refine ⟨?_, ?_, ?_⟩
    · unfold MissingCloudHardeningRule.GenerateRisks
      rw [hX]
      simp only [emit_single_aws_boundary api ord hord input k tb hTB X]
    · have c1 : cloudIdSuffix "AWS" = "@aws" := by decide
      have c2 : "missing-cloud-hardening" ++ "@" = "missing-cloud-hardening@" := by decide
      simp only [createRiskForTrustBoundary, hId, c1, c2]
    · simp [isGenericTechnicalAssetRiskFor, createRiskForTrustBoundary]

theorem cloudWellFormed_taggedPairModel : cloudWellFormed specAPI taggedPairModel := by
  refine ⟨by decide, by decide, by decide, by decide, fun _ => 0, fun _ => Nat.zero_le _, ?_⟩
  intro tb p h
  simp [specAPI, taggedPairModel, contains] at h

/-- Instances of C7.  Scenario E5: the sets after classification and the single risk, that of
the boundary.  The model `taggedPairModel`: no shared runtime and no trust boundary is
classified under AWS or Azure, the assets "low" and "high" are classified under AWS and "az"
under Azure, and the rule returns two risks, the generic AWS risk of "high", the most sensitive
of the two AWS assets, and the generic Azure risk of "az". -/
theorem C7_generic_asset_risk_only_without_scope_witness :
    classify specAPI id scenarioE5 = some bucketsE5 ∧
    MissingCloudHardeningRule.GenerateRisks specAPI id scenarioE5 = some ([riskE5], none) ∧
    (([riskE5].filter (isGenericTechnicalAssetRiskFor .AWS) ≠ [] →
        bucketsE5.sharedRuntimeIDs .AWS = [] ∧ bucketsE5.trustBoundaryIDs .AWS = [] ∧
        ([riskE5].filter (isGenericTechnicalAssetRiskFor .AWS)).length = 1) ∧
      ([riskE5].filter (isGenericTechnicalAssetRiskFor .AWS)).length ≤ 1) ∧
    MissingCloudHardeningRule.GenerateRisks specAPI id scenarioE5
      = some ([createRiskForTrustBoundary specAPI scenarioE5
          { emptyBoundary "aws-vpc" .NetworkCloudProvider ["aws"] with
            TechnicalAssetsInside := ["a1", "a2"] } "AWS" "CIS Benchmark for AWS"], none) ∧
    cloudWellFormed specAPI taggedPairModel ∧
    "" ∉ mapKeys taggedPairModel.TechnicalAssets ∧
    (classify specAPI id taggedPairModel).map
        (fun b => (b.sharedRuntimeIDs .AWS, b.trustBoundaryIDs .AWS, b.techAssetIDs .AWS))
      = some ([], [], ["low", "high"]) ∧
    (classify specAPI id taggedPairModel).map
        (fun b => (b.sharedRuntimeIDs .Azure, b.trustBoundaryIDs .Azure, b.techAssetIDs .Azure))
      = some ([], [], ["az"]) ∧
    (findMostSensitiveTechnicalAsset specAPI id taggedPairModel ["low", "high"]).map
        (fun o => o.map (fun a => a.Id)) = some (some "high") ∧
    (MissingCloudHardeningRule.GenerateRisks specAPI id taggedPairModel).map
        (fun res => res.1.map (fun r => (r.SyntheticId, r.MostRelevantTechnicalAssetId)))
      = some [("missing-cloud-hardening@high@aws", "high"),
              ("missing-cloud-hardening@az@azure", "az")] ∧
    (MissingCloudHardeningRule.GenerateRisks specAPI id taggedPairModel).map
        (fun res => (res.1.filter (isGenericTechnicalAssetRiskFor .AWS)).map
          (fun r => r.SyntheticId))
      = some ["missing-cloud-hardening@high@aws"] ∧
    (∃ b risks, classify specAPI id taggedPairModel = some b ∧
      MissingCloudHardeningRule.GenerateRisks specAPI id taggedPairModel = some (risks, none) ∧
      ∀ p : Provider, b.sharedRuntimeIDs p = [] → b.trustBoundaryIDs p = [] →
        b.techAssetIDs p ≠ [] →
        ∃ a, findMostSensitiveTechnicalAsset specAPI id taggedPairModel (b.techAssetIDs p)
            = some (some a) ∧
          a.Id ∈ b.techAssetIDs p ∧
          risks.filter (isGenericTechnicalAssetRiskFor p)
            = [createRiskForTechnicalAsset specAPI taggedPairModel a p.name p.details]) :=
  ⟨by decide, by decide,
    C7_generic_asset_risk_only_without_scope.1 specAPI id (fun _ => List.Perm.refl _) scenarioE5
      bucketsE5 [riskE5] none (by decide) (by decide) .AWS,
    (C7_generic_asset_risk_only_without_scope.2.1 specAPI id (fun _ => List.Perm.refl _)
      scenarioE5 "aws-vpc"
      { emptyBoundary "aws-vpc" .NetworkCloudProvider ["aws"] with
        TechnicalAssetsInside := ["a1", "a2"] } rfl rfl rfl rfl (by decide) (by decide)).1,
    cloudWellFormed_taggedPairModel, by decide, by decide, by decide, by decide, by decide,
    by decide,
    C7_generic_asset_risk_only_without_scope.2.2.2 specAPI id (fun _ => List.Perm.refl _)
      taggedPairModel cloudWellFormed_taggedPairModel (by decide)⟩

/-! ## Missing cloud hardening rule: the scope and the name in a synthetic id -/

theorem subtagSegment_mem_named (api : TypesAPI) (input : Model) (ids : List String)
    (seg : List Risk) (h : SubtagSegment api input ids seg) (r : Risk) (hr : r ∈ seg) :
    ∃ id ta pfx details, mapGet input.TechnicalAssets id = some ta ∧ pfx ∈ ["EC2", "S3"] ∧
      r = createRiskForTechnicalAsset api input ta pfx details := by
  obtain ⟨parts, hseg, hparts⟩ := h
  rw [hseg, List.mem_flatten] at hr
  obtain ⟨rs, hrs, hmem⟩ := hr
  obtain ⟨id, hid, tA, ec2, s3, hg, hrsEq⟩ := forall2_mem_right _ _ _ hparts rs hrs
  rw [hrsEq, List.mem_append] at hmem
  rcases hmem with hm | hm
  · cases ec2 with
    | false => simp at hm
    | true =>
      simp only [if_true, List.mem_singleton] at hm
      exact ⟨id, tA, "EC2", _, hg, by simp, hm⟩
  · cases s3 with
    | false => simp at hm
    | true =>
      simp only [if_true, List.mem_singleton] at hm
      exact ⟨id, tA, "S3", _, hg, by simp, hm⟩

theorem cloud_risk_named (api : TypesAPI) (ord : List String → List String)
    (hord : ∀ s, (ord s).Perm s) (input : Model) (risks : List Risk) (e : Option String)
    (h : MissingCloudHardeningRule.GenerateRisks api ord input = some (risks, e))
    (r : Risk) (hr : r ∈ risks) :
    (∃ id sr pfx details, mapGet input.SharedRuntimes id = some sr ∧
      (pfx = "" ∨ pfx ∈ cloudNames) ∧
      r = createRiskForSharedRuntime api input sr pfx details) ∨
    (∃ id tb pfx details, mapGet input.TrustBoundaries id = some tb ∧
      (pfx = "" ∨ pfx ∈ cloudNames) ∧
      r = createRiskForTrustBoundary api input tb pfx details) ∨
    (∃ id ta pfx details, mapGet input.TechnicalAssets id = some ta ∧
      (pfx = "" ∨ pfx ∈ cloudNames) ∧
      r = createRiskForTechnicalAsset api input ta pfx details) := by
  obtain ⟨b, _, hemit, _⟩ := generateRisks_cloud_inv api ord input risks e h
  obtain ⟨s1, s2, s3, s4, s5, t1, t2, t3, t4, t5, a1, a2, a3, a4, sub, hrisks, p1, p2, p3, p4,
    p5, p6, p7, p8, p9, p10, p11, p12, p13, p14, p15⟩ := emit_spec api ord hord input b risks hemit
  rw [hrisks] at hr
  simp only [List.mem_append] at hr
  have hS : ∀ pfx details ids seg, (pfx = "" ∨ pfx ∈ cloudNames) →
      SharedRuntimeSegment api input pfx details ids seg →
      r ∈ seg → ∃ id sr pfx details, mapGet input.SharedRuntimes id = some sr ∧
        (pfx = "" ∨ pfx ∈ cloudNames) ∧
        r = createRiskForSharedRuntime api input sr pfx details := by
    intro pfx details ids seg hp hs hm
    obtain ⟨id, sr, _, h1, h2⟩ := sharedRuntimeSegment_mem api input pfx details ids seg hs r hm
    exact ⟨id, sr, pfx, details, h1, hp, h2⟩
  have hT : ∀ pfx details ids seg, (pfx = "" ∨ pfx ∈ cloudNames) →
      TrustBoundarySegment api input pfx details ids seg →
      r ∈ seg → ∃ id tb pfx details, mapGet input.TrustBoundaries id = some tb ∧
        (pfx = "" ∨ pfx ∈ cloudNames) ∧
        r = createRiskForTrustBoundary api input tb pfx details := by
    intro pfx details ids seg hp hs hm
    obtain ⟨id, tb, _, h1, h2⟩ := trustBoundarySegment_mem api input pfx details ids seg hs r hm
    exact ⟨id, tb, pfx, details, h1, hp, h2⟩
  have hA : ∀ added ids pfx details seg, (pfx = "" ∨ pfx ∈ cloudNames) →
      MostSensitiveSegment api input added ids pfx details seg →
      r ∈ seg → ∃ id ta pfx details, mapGet input.TechnicalAssets id = some ta ∧
        (pfx = "" ∨ pfx ∈ cloudNames) ∧
        r = createRiskForTechnicalAsset api input ta pfx details := by
    intro added ids pfx details seg hp hs hm
    obtain ⟨id, ta, _, h1, h2⟩ :=
      mostSensitiveSegment_mem api input added ids pfx details seg hs r hm
    exact ⟨id, ta, pfx, details, h1, hp, h2⟩
  rcases hr with ((((((((((((((hm | hm) | hm) | hm) | hm) | hm) | hm) | hm) | hm) | hm) | hm)
    | hm) | hm) | hm) | hm)
  · exact Or.inl (hS _ _ _ _ (by decide) p1 hm)
  · exact Or.inl (hS _ _ _ _ (by decide) p2 hm)
  · exact Or.inl (hS _ _ _ _ (by decide) p3 hm)
  · exact Or.inl (hS _ _ _ _ (by decide) p4 hm)
  · exact Or.inl (hS _ _ _ _ (by decide) p5 hm)
  · exact Or.inr (Or.inl (hT _ _ _ _ (by decide) p6 hm))
  · exact Or.inr (Or.inl (hT _ _ _ _ (by decide) p7 hm))
  · exact Or.inr (Or.inl (hT _ _ _ _ (by decide) p8 hm))
  · exact Or.inr (Or.inl (hT _ _ _ _ (by decide) p9 hm))
  · exact Or.inr (Or.inl (hT _ _ _ _ (by decide) p10 hm))
  · exact Or.inr (Or.inr (hA _ _ _ _ _ (by decide) p11 hm))
  · exact Or.inr (Or.inr (hA _ _ _ _ _ (by decide) p12 hm))
  · exact Or.inr (Or.inr (hA _ _ _ _ _ (by decide) p13 hm))
  · exact Or.inr (Or.inr (hA _ _ _ _ _ (by decide) p14 hm))
  · obtain ⟨id, ta, pfx, details, h1, hp, h2⟩ :=
      subtagSegment_mem_named api input _ sub p15 r hm
    refine Or.inr (Or.inr ⟨id, ta, pfx, details, h1, Or.inr ?_, h2⟩)
    simp only [List.mem_cons, List.mem_singleton, List.not_mem_nil, or_false] at hp
    rcases hp with hp | hp <;> rw [hp] <;> decide

theorem syntheticId_named (scopeId pfx : String) (hp : pfx = "" ∨ pfx ∈ cloudNames) :
    "missing-cloud-hardening" ++ "@" ++ scopeId ++ cloudIdSuffix pfx
        = "missing-cloud-hardening@" ++ scopeId ∨
      ∃ name ∈ cloudNames, "missing-cloud-hardening" ++ "@" ++ scopeId ++ cloudIdSuffix pfx
        = "missing-cloud-hardening@" ++ scopeId ++ "@" ++ ToLower name := by
  rcases hp with hp | hp
  · left
    rw [hp, syntheticId_suffix, show cloudIdSuffix "" = "" from by decide, String.append_empty]
  · right
    refine ⟨pfx, hp, ?_⟩
    have hne : pfx ≠ "" := by
      intro he
      rw [he] at hp
      exact absurd hp (by decide)
    unfold cloudIdSuffix
    rw [if_pos hne]
    apply String.ext
    simp only [String.data_append, List.append_assoc]
    rfl

theorem syntheticId_optional (scopeId pfx : String) :
    "missing-cloud-hardening" ++ "@" ++ scopeId ++ cloudIdSuffix pfx
      = "missing-cloud-hardening@" ++ scopeId
          ++ (if pfx = "" then "" else "@" ++ ToLower pfx) := by
  rw [syntheticId_suffix]
  unfold cloudIdSuffix
  by_cases h : pfx = ""
  · simp [h]
  · simp [h]

/-- C10, amended: for every model in which each entity's Id equals its map key, no id is shared
between shared runtimes, trust boundaries and technical assets, and no id contains the
character "@", the synthetic ids of the risks returned by
`MissingCloudHardeningRule.GenerateRisks` are pairwise distinct, and every returned risk has a
scope, a shared runtime, a trust boundary or a technical asset of the model whose id is the
"most relevant" id of that kind of the risk, such that the synthetic id is
"missing-cloud-hardening@" + scope id, either alone or followed by "@" and the lower-cased name
of a provider or sub-tag (AWS, Azure, GCP, OCP, EC2, S3); the risk is the one that the
`createRiskFor...` method of its kind builds for that scope and that name, so the name in the
synthetic id is the name in the title of the risk. -/
theorem C10_synthetic_ids_distinct (api : TypesAPI) (ord : List String → List String)
    (hord : ∀ s, (ord s).Perm s) (input : Model) (risks : List Risk) (e : Option String)
    (hid : idsAreKeys input) (hkeys : (scopeIds input).Nodup)
    (hAt : ∀ k ∈ scopeIds input, '@' ∉ k.data)
    (h : MissingCloudHardeningRule.GenerateRisks api ord input = some (risks, e)) :
    (risks.map (fun r => r.SyntheticId)).Nodup ∧
    (∀ r ∈ risks, ∃ scopeId suffix, suffix ∈ cloudSuffixes ∧
      r.SyntheticId = "missing-cloud-hardening@" ++ scopeId ++ suffix) ∧
    (∀ r ∈ risks, ∃ scopeId,
      ((scopeId ∈ mapKeys input.SharedRuntimes ∧ r.MostRelevantSharedRuntimeId = scopeId) ∨
        (scopeId ∈ mapKeys input.TrustBoundaries ∧ r.MostRelevantTrustBoundaryId = scopeId) ∨
        (scopeId ∈ mapKeys input.TechnicalAssets ∧ r.MostRelevantTechnicalAssetId = scopeId)) ∧
      (r.SyntheticId = "missing-cloud-hardening@" ++ scopeId ∨
        ∃ name ∈ cloudNames,
          r.SyntheticId = "missing-cloud-hardening@" ++ scopeId ++ "@" ++ ToLower name)) ∧
    (∀ r ∈ risks, ∃ scopeId pfx details, (pfx = "" ∨ pfx ∈ cloudNames) ∧
      ((∃ sr, mapGet input.SharedRuntimes scopeId = some sr ∧
          r = createRiskForSharedRuntime api input sr pfx details) ∨
        (∃ tb, mapGet input.TrustBoundaries scopeId = some tb ∧
          r = createRiskForTrustBoundary api input tb pfx details) ∨
        (∃ ta, mapGet input.TechnicalAssets scopeId = some ta ∧
          r = createRiskForTechnicalAsset api input ta pfx details)) ∧
      r.SyntheticId = "missing-cloud-hardening@" ++ scopeId
        ++ (if pfx = "" then "" else "@" ++ ToLower pfx)) := by
  obtain ⟨L, hL, nL, oL⟩ := cloud_labels api ord hord input risks e hid.1 hid.2.1 hid.2.2 h
  unfold scopeIds at hkeys hAt
  rw [List.nodup_append, List.nodup_append] at hkeys
  obtain ⟨⟨_, _, k1⟩, _, k2⟩ := hkeys
  refine ⟨?_, ?_, ?_, ?_⟩
  · rw [hL]
    refine List.Nodup.map_on ?_ nL
    intro x hx y hy hxy
    refine cloudSyntheticId_inj input ?_ ?_ ?_ ?_ x y (oL x hx) (oL y hy) hxy
    · intro k hk
      apply hAt
      simp only [List.mem_append]
      tauto
    · intro k hk hk2
      exact k1 hk hk2
    · intro k hk hk2
      exact k2 (List.mem_append_left _ hk) hk2
    · intro k hk hk2
      exact k2 (List.mem_append_right _ hk) hk2
  · intro r hr
    have : r.SyntheticId ∈ risks.map (fun r => r.SyntheticId) := List.mem_map.2 ⟨r, hr, rfl⟩
    rw [hL] at this
    obtain ⟨x, hx, hxr⟩ := List.mem_map.1 this
    refine ⟨x.2.1, x.2.2, (oL x hx).1, ?_⟩
    rw [← hxr]
    rfl
  · intro r hr
    rcases cloud_risk_named api ord hord input risks e h r hr with
      ⟨id, sr, pfx, details, hg, hp, hrEq⟩ | ⟨id, tb, pfx, details, hg, hp, hrEq⟩
        | ⟨id, ta, pfx, details, hg, hp, hrEq⟩
    · have hI : sr.Id = id := hid.2.2 _ (mapGet_mem _ _ _ hg)
      refine ⟨sr.Id, Or.inl ⟨hI ▸ mapGet_mem_keys _ _ _ hg, by rw [hrEq]; rfl⟩, ?_⟩
      rw [hrEq]
      exact syntheticId_named sr.Id pfx hp
    · have hI : tb.Id = id := hid.2.1 _ (mapGet_mem _ _ _ hg)
      refine ⟨tb.Id, Or.inr (Or.inl ⟨hI ▸ mapGet_mem_keys _ _ _ hg, by rw [hrEq]; rfl⟩), ?_⟩
      rw [hrEq]
      exact syntheticId_named tb.Id pfx hp
    · have hI : ta.Id = id := hid.1 _ (mapGet_mem _ _ _ hg)
      refine ⟨ta.Id, Or.inr (Or.inr ⟨hI ▸ mapGet_mem_keys _ _ _ hg, by rw [hrEq]; rfl⟩), ?_⟩
      rw [hrEq]
      exact syntheticId_named ta.Id pfx hp
  · intro r hr
    rcases cloud_risk_named api ord hord input risks e h r hr with
      ⟨id, sr, pfx, details, hg, hp, hrEq⟩ | ⟨id, tb, pfx, details, hg, hp, hrEq⟩
        | ⟨id, ta, pfx, details, hg, hp, hrEq⟩
    · have hI : sr.Id = id := hid.2.2 _ (mapGet_mem _ _ _ hg)
      refine ⟨id, pfx, details, hp, Or.inl ⟨sr, hg, hrEq⟩, ?_⟩
      rw [hrEq, ← hI]
      exact syntheticId_optional sr.Id pfx
    · have hI : tb.Id = id := hid.2.1 _ (mapGet_mem _ _ _ hg)
      refine ⟨id, pfx, details, hp, Or.inr (Or.inl ⟨tb, hg, hrEq⟩), ?_⟩
      rw [hrEq, ← hI]
      exact syntheticId_optional tb.Id pfx
    · have hI : ta.Id = id := hid.1 _ (mapGet_mem _ _ _ hg)
      refine ⟨id, pfx, details, hp, Or.inr (Or.inr ⟨ta, hg, hrEq⟩), ?_⟩
      rw [hrEq, ← hI]
      exact syntheticId_optional ta.Id pfx

/-- An instance of C10 as amended: on `orderModel` the rule returns five risks, two of shared
runtimes, two of trust boundaries and one of a technical asset, with five distinct synthetic
ids. -/
theorem C10_synthetic_ids_distinct_witness :
    idsAreKeys orderModel ∧ (scopeIds orderModel).Nodup ∧
    (∀ k ∈ scopeIds orderModel, '@' ∉ k.data) ∧
    MissingCloudHardeningRule.GenerateRisks specAPI id orderModel
      = some (orderModelRisks, none) ∧
    orderModelRisks.map (fun r => r.SyntheticId)
      = ["missing-cloud-hardening@r2@gcp", "missing-cloud-hardening@r1@gcp",
         "missing-cloud-hardening@b1@aws", "missing-cloud-hardening@b2@azure",
         "missing-cloud-hardening@a1@s3"] ∧
    orderModelRisks.map (fun r => (r.MostRelevantSharedRuntimeId,
        r.MostRelevantTrustBoundaryId, r.MostRelevantTechnicalAssetId))
      = [("r2", "", ""), ("r1", "", ""), ("", "b1", ""), ("", "b2", ""), ("", "", "a1")] ∧
    ((orderModelRisks.map (fun r => r.SyntheticId)).Nodup ∧
      (∀ r ∈ orderModelRisks, ∃ scopeId suffix, suffix ∈ cloudSuffixes ∧
        r.SyntheticId = "missing-cloud-hardening@" ++ scopeId ++ suffix) ∧
      (∀ r ∈ orderModelRisks, ∃ scopeId,
        ((scopeId ∈ mapKeys orderModel.SharedRuntimes ∧ r.MostRelevantSharedRuntimeId = scopeId) ∨
          (scopeId ∈ mapKeys orderModel.TrustBoundaries
            ∧ r.MostRelevantTrustBoundaryId = scopeId) ∨
          (scopeId ∈ mapKeys orderModel.TechnicalAssets
            ∧ r.MostRelevantTechnicalAssetId = scopeId)) ∧
        (r.SyntheticId = "missing-cloud-hardening@" ++ scopeId ∨
          ∃ name ∈ cloudNames,
            r.SyntheticId = "missing-cloud-hardening@" ++ scopeId ++ "@" ++ ToLower name)) ∧
      (∀ r ∈ orderModelRisks, ∃ scopeId pfx details, (pfx = "" ∨ pfx ∈ cloudNames) ∧
        ((∃ sr, mapGet orderModel.SharedRuntimes scopeId = some sr ∧
            r = createRiskForSharedRuntime specAPI orderModel sr pfx details) ∨
          (∃ tb, mapGet orderModel.TrustBoundaries scopeId = some tb ∧
            r = createRiskForTrustBoundary specAPI orderModel tb pfx details) ∨
          (∃ ta, mapGet orderModel.TechnicalAssets scopeId = some ta ∧
            r = createRiskForTechnicalAsset specAPI orderModel ta pfx details)) ∧
        r.SyntheticId = "missing-cloud-hardening@" ++ scopeId
          ++ (if pfx = "" then "" else "@" ++ ToLower pfx))) :=
  ⟨by decide, by decide, by decide, by decide, by decide, by decide,
    C10_synthetic_ids_distinct specAPI id (fun _ => List.Perm.refl _) orderModel orderModelRisks
      none (by decide) (by decide) (by decide) (by decide)⟩

end Threagile
